import Mathlib

/-!
# gfp_gaussian_process: likelihood of a cell genealogy

A shallow embedding of `src/likelihood.h`, `src/moma_input.h`,
`src/mean_cov_model.h`, `src/Parameters.h` and `src/main.cpp`, and theorems about
it.

Conventions of the embedding.

* `double` is an arbitrary field `K`; theorems that need an order or the real
  logarithm take `K = ℝ`.  The functions of `<cmath>` and `Faddeeva.hh` are
  passed in as a record `MathFns K`, so every definition below is computable.
  In a field `x / 0 = 0`; theorems about quotients assume the divisor is not
  zero, and where the program does divide by zero the function is read over
  `Checked K`, numbers with NaN.  The functions of `likelihood.h` are written
  for any numbers with the operations they use, so that one definition is read
  over a field and over `Checked K`.
* Where the rounding of `double` decides the sign of a result, the function is
  read over `Binary64`, the numbers with a significand of 53 bits, each
  operation rounded to the nearest.
* An Eigen vector is a one-column matrix, as in Eigen itself.
* A `MOMAdata *` is an `Option Nat`: `none` is `nullptr` and `some i` is the
  address of element `i` of the `std::vector<MOMAdata>` holding all cells.
* A function that mutates cells takes the vector of cells and returns the new
  one.  An access outside a container (undefined behaviour in C++) makes the
  result `none`.
* Recursion over the daughter pointers takes a fuel argument; running out of
  fuel also gives `none`.
* In `Parameters.h` a `std::string` is the list of its characters; the command
  line and the keys of `main.cpp` are strings.  `std::stod`, `std::stoi` and
  `std::filesystem::exists` are passed in as functions, and a thrown exception
  makes the result `none`.  What the program prints is not modelled.
-/

namespace GfpGaussian

/-! ## The data model -/

/-- The library functions the program calls: `exp`, `log`, `sqrt`, `pow` (used
by the embedding only for non-integer exponents), `Faddeeva::erfi` and the
constant `M_PI`. -/
structure MathFns (K : Type) where
  exp : K → K
  log : K → K
  sqrt : K → K
  pow : K → K → K
  erfi : K → K
  pi : K

/-- Class `MOMAdata` of `moma_input.h`.

Modelled from the spec: the fields `mean` and `cov`, which `likelihood.h` and
`mean_cov_model.h` read and write but the class declaration under `src/` does
not list; the spec's cell carries a forward state (μ, Σ), a 4-vector and a
4×4 matrix. -/
structure MOMAdata (K : Type) where
  cell_id : String
  parent_id : String
  parent : Option Nat
  daughter1 : Option Nat
  daughter2 : Option Nat
  time : List K
  length : List K
  fp : List K
  generation : Int
  mean : Matrix (Fin 4) (Fin 1) K
  cov : Matrix (Fin 4) (Fin 4) K

/-- Member function `MOMAdata::is_leaf`. -/
def MOMAdata.is_leaf {K : Type} (cell : MOMAdata K) : Bool :=
  cell.daughter1.isNone && cell.daughter2.isNone

/-- Member function `MOMAdata::is_root`. -/
def MOMAdata.is_root {K : Type} (cell : MOMAdata K) : Bool :=
  cell.parent.isNone

/-! ## Small Eigen helpers

The numbers `K` of this section and of the next carry the operations the code
uses and nothing else: sums (for the products of matrices), differences,
products, quotients, negation, 1 and the integer literals. -/

section Eigen

variable {K : Type} [AddCommMonoid K] [Sub K] [Mul K] [Div K] [Neg K] [One K] [NatCast K]

/-- Block `m.block(0,0,2,2)` of a 4×4 matrix. -/
def block22 (m : Matrix (Fin 4) (Fin 4) K) : Matrix (Fin 2) (Fin 2) K :=
  !![m 0 0, m 0 1; m 1 0, m 1 1]

/-- Block `m.block(0,0,2,4)` of a 4×4 matrix. -/
def block24 (m : Matrix (Fin 4) (Fin 4) K) : Matrix (Fin 2) (Fin 4) K :=
  !![m 0 0, m 0 1, m 0 2, m 0 3; m 1 0, m 1 1, m 1 2, m 1 3]

/-- Eigen's `S.determinant()` for a 2×2 matrix. -/
def determinant (S : Matrix (Fin 2) (Fin 2) K) : K :=
  S 0 0 * S 1 1 - S 0 1 * S 1 0

/-- Eigen's `S.inverse()` for a 2×2 matrix: the adjugate divided by the
determinant.  It is the inverse of `S` whenever `det S ≠ 0`.  For a singular `S`
Eigen returns numbers that are not finite; over numbers with NaN (`Checked`) the
four coefficients are NaN, and over a field the value is the field's `x / 0 = 0`
and carries no meaning. -/
def inverse (S : Matrix (Fin 2) (Fin 2) K) : Matrix (Fin 2) (Fin 2) K :=
  !![S 1 1 / determinant S, -S 0 1 / determinant S;
     -S 1 0 / determinant S, S 0 0 / determinant S]

/-- The assignment `m(i,j) = v` to one coefficient. -/
def setCoeff {m n : Nat} (A : Matrix (Fin m) (Fin n) K) (i : Fin m) (j : Fin n) (v : K) :
    Matrix (Fin m) (Fin n) K :=
  Matrix.of fun a b => if a = i ∧ b = j then v else A a b

end Eigen

/-! ## likelihood.h -/

section Likelihood

variable {K : Type} [AddCommMonoid K] [Sub K] [Mul K] [Div K] [Neg K] [One K] [NatCast K]

/-- Function `mean_cov_after_division` (likelihood.h 8-22).  `i` is the address
of `cell`; the parent is reached through `cell.parent`. -/
def mean_cov_after_division (M : MathFns K) (cells : List (MOMAdata K)) (i : Nat)
    (var_dx var_dg : K) : Option (List (MOMAdata K)) := do
  let cell ← cells[i]?
  let p ← cell.parent
  let parent ← cells[p]?
  let F : Matrix (Fin 4) (Fin 4) K := setCoeff 1 1 1 (1 / 2)
  let f : Matrix (Fin 4) (Fin 1) K := !![-(M.log 2); 0; 0; 0]
  let D : Matrix (Fin 4) (Fin 4) K := setCoeff (setCoeff 0 0 0 var_dx) 1 1 var_dg
  pure (cells.set i { cell with
    mean := F * parent.mean + f
    cov := D + F * parent.cov * F.transpose })

/-- Function `rowwise_add` (likelihood.h 26-37): row `i` of `m` gets
`ones * v(i)` added, `ones` being a row of 1s.  A matrix with a run-time number of columns is given
by its rows. -/
def rowwise_add {r : Nat} (m : Fin r → List K) (v : Fin r → K) : Fin r → List K :=
  fun i => (m i).map fun e => e + 1 * v i

/-- Function `log_likelihood` (likelihood.h 39-52). -/
def log_likelihood (M : MathFns K) (xgt : Matrix (Fin 2) (Fin 1) K) (cell : MOMAdata K)
    (var_x var_g : K) : K :=
  let D : Matrix (Fin 2) (Fin 2) K := !![var_x, 0; 0, var_g]
  let S := block22 cell.cov + D
  let Si := inverse S
  let a := (-(1 / 2 : K)) • xgt.transpose * Si * xgt
  a 0 0 - (1 / 2) * M.log (determinant S) - 2 * M.log (2 * M.pi)

/-- Function `posterior` (likelihood.h 54-66). -/
def posterior (xgt : Matrix (Fin 2) (Fin 1) K) (cell : MOMAdata K) (var_x var_g : K) :
    MOMAdata K :=
  let D : Matrix (Fin 2) (Fin 2) K := !![var_x, 0; 0, var_g]
  let S := block22 cell.cov + D
  let Si := inverse S
  let G := block24 cell.cov
  { cell with
    mean := cell.mean + G.transpose * Si * xgt
    cov := cell.cov - G.transpose * Si * G }

/-- Lines 76-92 of `sc_likelihood`: the prior of the cell.  A root gets its four
mean coefficients and the four diagonal coefficients of its covariance assigned
from `params_vec`; any other cell gets `mean_cov_after_division`. -/
def sc_likelihood_prior (M : MathFns K) (params_vec : List K) (cells : List (MOMAdata K))
    (i : Nat) : Option (List (MOMAdata K)) := do
  let cell ← cells[i]?
  if cell.is_root then
    let p11 ← params_vec[11]?
    let p12 ← params_vec[12]?
    let p0 ← params_vec[0]?
    let p3 ← params_vec[3]?
    let p7 ← params_vec[7]?
    let p8 ← params_vec[8]?
    let p2 ← params_vec[2]?
    let p5 ← params_vec[5]?
    pure (cells.set i { cell with
      mean := setCoeff (setCoeff (setCoeff (setCoeff cell.mean 0 0 p11) 1 0 p12) 2 0 p0) 3 0 p3
      cov := setCoeff (setCoeff (setCoeff (setCoeff cell.cov 0 0 p7) 1 1 p8) 2 2 p2) 3 3 p5 })
  else
    let p9 ← params_vec[9]?
    let p10 ← params_vec[10]?
    mean_cov_after_division M cells i p9 p10

/-- Lines 94-98 of `sc_likelihood`: the matrix `xg` with rows `length` and `fp`
(the comma initialiser needs both to have `fp.size()` entries), from which the
first two coefficients of the cell's mean are subtracted row by row. -/
def sc_likelihood_xg (cell : MOMAdata K) : Option (Fin 2 → List K) :=
  if cell.length.length = cell.fp.length then
    some (rowwise_add ![cell.length, cell.fp] ![-(cell.mean 0 0), -(cell.mean 1 0)])
  else none

/-- The column `xg.col(t)`. -/
def col (xg : Fin 2 → List K) (t : Nat) : Option (Matrix (Fin 2) (Fin 1) K) := do
  let a ← (xg 0)[t]?
  let b ← (xg 1)[t]?
  pure !![a; b]

/-- The body of the loop of `sc_likelihood` (lines 101-102) at index `t`, on the
pair (cell, total_likelihood): `log_likelihood` and then `posterior`, both on
`xg.col(t)`, `params_vec[7]` and `params_vec[8]`. -/
def sc_likelihood_step (M : MathFns K) (params_vec : List K) (xg : Fin 2 → List K)
    (s : MOMAdata K × K) (t : Nat) : Option (MOMAdata K × K) := do
  let y ← col xg t
  let p7 ← params_vec[7]?
  let p8 ← params_vec[8]?
  let tl := s.2 + log_likelihood M y s.1 p7 p8
  pure (posterior y s.1 p7 p8, tl)

/-- The loop of `sc_likelihood` (lines 100-103) run for `t = 0, …, n-1`. -/
def sc_likelihood_loop (M : MathFns K) (params_vec : List K) (xg : Fin 2 → List K)
    (n : Nat) (s : MOMAdata K × K) : Option (MOMAdata K × K) :=
  (List.range n).foldlM (sc_likelihood_step M params_vec xg) s

/-- Function `sc_likelihood` (likelihood.h 69-104) on the cell at address `i`; returns the
cells and the running total. -/
def sc_likelihood (M : MathFns K) (params_vec : List K) (cells : List (MOMAdata K))
    (i : Nat) (total_likelihood : K) : Option (List (MOMAdata K) × K) := do
  let cells1 ← sc_likelihood_prior M params_vec cells i
  let cell ← cells1[i]?
  let xg ← sc_likelihood_xg cell
  let s ← sc_likelihood_loop M params_vec xg cell.time.length (cell, total_likelihood)
  pure (cells1.set i s.1, s.2)

/-- Function `likelihood_recr` (likelihood.h 111-124). -/
def likelihood_recr (M : MathFns K) (params_vec : List K) :
    Nat → Option Nat → List (MOMAdata K) → K → Option (List (MOMAdata K) × K)
  | _, none, cells, total_likelihood => some (cells, total_likelihood)
  | 0, some _, _, _ => none
  | fuel + 1, some i, cells, total_likelihood => do
    let r1 ← sc_likelihood M params_vec cells i total_likelihood
    let c1 ← r1.1[i]?
    let r2 ← likelihood_recr M params_vec fuel c1.daughter1 r1.1 r1.2
    let c2 ← r2.1[i]?
    likelihood_recr M params_vec fuel c2.daughter2 r2.1 r2.2

/-- Function `total_likelihood` (likelihood.h 127-137); `grad` is not used. -/
def total_likelihood (M : MathFns K) (fuel : Nat) (params_vec : List K) (_grad : List K)
    (cells : List (MOMAdata K)) (c : Option Nat) : Option (List (MOMAdata K) × K) :=
  likelihood_recr M params_vec fuel c cells 0

end Likelihood

/-! ## mean_cov_model.h -/

section MeanCovModel

set_option linter.unusedVariables false

variable {K : Type} [Field K]

/-- Function `zerotauint` of mean_cov_model.h. -/
def zerotauint (M : MathFns K) (a b c t1 t0 : K) : K :=
  (M.exp (-(b ^ 2) / (4 * a) + c) * M.sqrt M.pi * (-M.erfi ((b + 2 * a * t0) / (2 * M.sqrt a))
    + M.erfi ((b + 2 * a * t1) / (2 * M.sqrt a)))) / (2 * M.sqrt a)

/-- Function `onetauint` of mean_cov_model.h. -/
def onetauint (M : MathFns K) (a b c t1 t0 : K) : K :=
  (M.exp (-(b ^ 2) / (4 * a) + c) * (-2 * M.sqrt a * M.exp ((b ^ 2) / (4 * a)) * (M.exp (t0 *
    (b + a * t0)) - M.exp (t1 * (b + a * t1))) + b * M.sqrt M.pi * M.erfi ((b + 2 * a * t0) /
    (2 * M.sqrt a)) - b * M.sqrt M.pi * M.erfi ((b + 2 * a * t1) / (2 * M.sqrt a)))) / (4 *
    M.pow a (3 / 2))

/-- Function `twotauint` of mean_cov_model.h. -/
def twotauint (M : MathFns K) (a b c t1 t0 : K) : K :=
  (M.exp (-(b ^ 2) / (4 * a) + c) * (-2 * M.sqrt a * M.exp ((b ^ 2) / (4 * a)) * (-(b * M.exp
    (t0 * (b + a * t0))) + b * M.exp (t1 * (b + a * t1)) + 2 * a * M.exp (t0 * (b + a * t0)) *
    t0 - 2 * a * M.exp (t1 * (b + a * t1)) * t1) + (2 * a - (b ^ 2)) * M.sqrt M.pi * M.erfi ((b
    + 2 * a * t0) / (2 * M.sqrt a)) + (-2 * a + (b ^ 2)) * M.sqrt M.pi * M.erfi ((b + 2 * a *
    t1) / (2 * M.sqrt a)))) / (8 * M.pow a (5 / 2))

/-- Function `treetauint` of mean_cov_model.h. -/
def treetauint (M : MathFns K) (a b c t1 t0 : K) : K :=
  (M.exp (-(b ^ 2) / (4 * a) + c) * (-2 * M.sqrt a * M.exp ((b ^ 2) / (4 * a)) * ((b ^ 2) *
    (M.exp (t0 * (b + a * t0)) - M.exp (t1 * (b + a * t1))) - 2 * a * M.exp (t0 * (b + a * t0))
    * (2 + b * t0) + 2 * a * M.exp (t1 * (b + a * t1)) * (2 + b * t1) + 4 * (a ^ 2) * (M.exp
    (t0 * (b + a * t0)) * (t0 ^ 2) - M.exp (t1 * (b + a * t1)) * (t1 ^ 2))) + b * (-6 * a + (b
    ^ 2)) * M.sqrt M.pi * M.erfi ((b + 2 * a * t0) / (2 * M.sqrt a)) - b * (-6 * a + (b ^ 2)) *
    M.sqrt M.pi * M.erfi ((b + 2 * a * t1) / (2 * M.sqrt a)))) / (16 * M.pow a (7 / 2))

/-- Function `mean_x` of mean_cov_model.h.  It is written for any type of numbers
`F` with the operations the body uses, so that it can be read over a field and
over numbers with NaN (`Checked`). -/
def mean_x {F : Type} [Add F] [Sub F] [Mul F] [Div F] [Neg F] [One F] (M : MathFns F)
    (t bx bg bl bq Cxx Cxg Cxl Cxq Cgg Cgl Cgq Cll Clq Cqq ml gl sl2 mq gq sq2 b : F) : F :=
  bx + ml * t + (bl - ml) * (1 - M.exp (-gl * t)) / gl

/-- Function `mean_g` of mean_cov_model.h. -/
def mean_g (M : MathFns K) (t bx bg bl bq Cxx Cxg Cxl Cxq Cgg Cgl Cgq Cll Clq Cqq ml gl sl2 mq
    gq sq2 b : K) : K :=
  bg / M.exp (b * t) + Clq * onetauint M (Cll / 2) (b + bl + Cxl - gq) (bx + Cxx / 2 - b * t) t
    0 + mq * zerotauint M (Cll / 2) (b + bl + Cxl) (bx + Cxx / 2 - b * t) t 0 + (bq + Cxq - mq)
    * zerotauint M (Cll / 2) (b + bl + Cxl - gq) (bx + Cxx / 2 - b * t) t 0

/-- Function `mean_l` of mean_cov_model.h. -/
def mean_l (M : MathFns K) (t bx bg bl bq Cxx Cxg Cxl Cxq Cgg Cgl Cgq Cll Clq Cqq ml gl sl2 mq
    gq sq2 b : K) : K :=
  ml + (bl - ml) * M.exp (-gl * t)

/-- Function `mean_q` of mean_cov_model.h. -/
def mean_q (M : MathFns K) (t bx bg bl bq Cxx Cxg Cxl Cxq Cgg Cgl Cgq Cll Clq Cqq ml gl sl2 mq
    gq sq2 b : K) : K :=
  mq + (bq - mq) * M.exp (-gq * t)

/-- Function `cov_xx` of mean_cov_model.h.  It is written for any type of numbers
`F` with the operations the body uses (the integer literals 2, 3 and 4 and the
integer powers among them), so that it can be read over a field and over the
rounded numbers `Binary64`. -/
def cov_xx {F : Type} [Add F] [Sub F] [Mul F] [Div F] [Neg F] [One F] [NatCast F] [Pow F ℕ]
    (M : MathFns F) (t bx bg bl bq Cxx Cxg Cxl Cxq Cgg Cgl Cgq Cll Clq Cqq ml gl sl2 mq gq
    sq2 b : F) : F :=
  Cll * ((1 - M.exp (-gl * t)) ^ 2) / (gl ^ 2) + 2 * Cxl * (1 - M.exp (-gl * t)) / gl + Cxx +
    sl2 / (2 * (gl ^ 3)) * (2 * gl * t - 3 + 4 * M.exp (-gl * t) - ((M.exp (-gl * t)) ^ 2))

/-- Function `cov_xg` of mean_cov_model.h. -/
def cov_xg (M : MathFns K) (t bx bg bl bq Cxx Cxg Cxl Cxq Cgg Cgl Cgq Cll Clq Cqq ml gl sl2 mq
    gq sq2 b : K) (nm : Matrix (Fin 4) (Fin 1) K) : K :=
  (bg * bx) / M.exp (b * t) + Cxg / M.exp (b * t) + (bg * bl) / (M.exp (b * t) * gl) + Cgl /
    (M.exp (b * t) * gl) - (bg * bl) / (M.exp ((b + gl) * t) * gl) - Cgl / (M.exp ((b + gl) *
    t) * gl) - (bg * ml) / (M.exp (b * t) * gl) + (bg * ml) / (M.exp ((b + gl) * t) * gl) + (bg
    * ml * t) / M.exp (b * t) + (Cxl * mq + (Cll * mq) / gl) * onetauint M (Cll / 2) (b + bl +
    Cxl) (bx + Cxx / 2 - b * t) t 0 - (Cll * mq * onetauint M (Cll / 2) (b + bl + Cxl) (bx +
    Cxx / 2 - b * t - gl * t) t 0) / gl + (bx * Clq + bq * Cxl + Cxl * Cxq + Clq * Cxx + (bq *
    Cll) / gl + (bl * Clq) / gl + (Clq * Cxl) / gl + (Cll * Cxq) / gl - (Clq * ml) / gl - Cxl *
    mq - (Cll * mq) / gl + Clq * ml * t) * onetauint M (Cll / 2) (b + bl + Cxl - gq) (bx + Cxx
    / 2 - b * t) t 0 + (-((bq * Cll) / gl) - (bl * Clq) / gl - (Clq * Cxl) / gl - (Cll * Cxq) /
    gl + (Clq * ml) / gl + (Cll * mq) / gl) * onetauint M (Cll / 2) (b + bl + Cxl - gq) (bx +
    Cxx / 2 - b * t - gl * t) t 0 + (Clq * Cxl + (Cll * Clq) / gl) * twotauint M (Cll / 2) (b +
    bl + Cxl - gq) (bx + Cxx / 2 - b * t) t 0 - (Cll * Clq * twotauint M (Cll / 2) (b + bl +
    Cxl - gq) (bx + Cxx / 2 - b * t - gl * t) t 0) / gl + (bx * mq + Cxx * mq + (bl * mq) / gl
    + (Cxl * mq) / gl - (ml * mq) / gl + ml * mq * t) * zerotauint M (Cll / 2) (b + bl + Cxl)
    (bx + Cxx / 2 - b * t) t 0 + (-((bl * mq) / gl) - (Cxl * mq) / gl + (ml * mq) / gl) *
    zerotauint M (Cll / 2) (b + bl + Cxl) (bx + Cxx / 2 - b * t - gl * t) t 0 + (bq * bx + Cxq
    + bx * Cxq + bq * Cxx + Cxq * Cxx + (bl * bq) / gl + Clq / gl + (bq * Cxl) / gl + (bl *
    Cxq) / gl + (Cxl * Cxq) / gl - (bq * ml) / gl - (Cxq * ml) / gl - bx * mq - Cxx * mq - (bl
    * mq) / gl - (Cxl * mq) / gl + (ml * mq) / gl + bq * ml * t + Cxq * ml * t - ml * mq * t) *
    zerotauint M (Cll / 2) (b + bl + Cxl - gq) (bx + Cxx / 2 - b * t) t 0 + (-((bl * bq) / gl)
    - Clq / gl - (bq * Cxl) / gl - (bl * Cxq) / gl - (Cxl * Cxq) / gl + (bq * ml) / gl + (Cxq *
    ml) / gl + (bl * mq) / gl + (Cxl * mq) / gl - (ml * mq) / gl) * zerotauint M (Cll / 2) (b +
    bl + Cxl - gq) (bx + Cxx / 2 - b * t - gl * t) t 0 - nm 1 0 * nm 0 0

/-- Function `cov_xl` of mean_cov_model.h. -/
def cov_xl (M : MathFns K) (t bx bg bl bq Cxx Cxg Cxl Cxq Cgg Cgl Cgq Cll Clq Cqq ml gl sl2 mq
    gq sq2 b : K) : K :=
  sl2 / (2 * (gl ^ 2)) * ((1 - M.exp (-gl * t)) ^ 2) + Cll * M.exp (-gl * t) * (1 - M.exp (-gl
    * t)) / gl + Cxl * M.exp (-gl * t)

/-- Function `cov_xq` of mean_cov_model.h. -/
def cov_xq (M : MathFns K) (t bx bg bl bq Cxx Cxg Cxl Cxq Cgg Cgl Cgq Cll Clq Cqq ml gl sl2 mq
    gq sq2 b : K) : K :=
  Clq * (1 - M.exp (-gl * t)) * M.exp (-gq * t) / gl + Cxq * M.exp (-gq * t)

/-- Function `cov_gg` of mean_cov_model.h. -/
def cov_gg (M : MathFns K) (t bx bg bl bq Cxx Cxg Cxl Cxq Cgg Cgl Cgq Cll Clq Cqq ml gl sl2 mq
    gq sq2 b : K) (nm : Matrix (Fin 4) (Fin 1) K) : K :=
  ((bg ^ 2) + Cgg) / M.exp (2 * b * t) + 2 * Cgl * mq * onetauint M (Cll / 2) (b + bl + Cxl)
    (bx + Cxx / 2 - 2 * b * t) t 0 + (mq * (2 * Clq + gq * mq) * onetauint M (Cll / 2) (b + bl
    + 2 * Cxl) (2 * (bx + Cxx - b * t)) t 0) / gq + 2 * (bq * Cgl + bg * Clq + Clq * Cxg + Cgl
    * Cxq - Cgl * mq) * onetauint M (Cll / 2) (b + bl + Cxl - gq) (bx + Cxx / 2 - 2 * b * t) t
    0 + (((bq ^ 2) * gq + Cqq * gq + 4 * bq * Cxq * gq + 4 * (Cxq ^ 2) * gq - 2 * Clq * mq - 2
    * bq * gq * mq - 4 * Cxq * gq * mq + gq * (mq ^ 2)) * onetauint M (Cll / 2) (b + bl + 2 *
    Cxl - gq) (2 * (bx + Cxx - b * t)) t 0) / gq - (mq ^ 2) * onetauint M (Cll / 2) (b + bl + 2
    * Cxl) (2 * (bx + Cxx - b * t)) (2 * t) t - (2 * Clq * mq * onetauint M (Cll / 2) (b + bl +
    2 * Cxl) (2 * bx + 2 * Cxx - (2 * b + gq) * t) (2 * t) t) / gq - (sq2 * onetauint M (Cll /
    2) (b + bl + 2 * Cxl - gq) (2 * bx + 2 * Cxx - 2 * b * t) t 0) / (2 * gq) + (sq2 *
    onetauint M (Cll / 2) (b + bl + 2 * Cxl - gq) (2 * bx + 2 * Cxx - 2 * b * t) (2 * t) t) /
    (2 * gq) + (-(bq ^ 2) - Cqq - 4 * bq * Cxq - 4 * (Cxq ^ 2) + 2 * bq * mq + 4 * Cxq * mq -
    (mq ^ 2) + 4 * bq * Clq * t + 8 * Clq * Cxq * t - 4 * Clq * mq * t) * onetauint M (Cll / 2)
    (b + bl + 2 * Cxl - gq) (2 * (bx + Cxx - b * t)) (2 * t) t + (2 * Clq * mq * onetauint M
    (Cll / 2) (b + bl + 2 * Cxl - gq) (2 * bx + 2 * Cxx - 2 * b * t + gq * t) (2 * t) t) / gq +
    (Clq ^ 2) * treetauint M (Cll / 2) (b + bl + 2 * Cxl - gq) (2 * (bx + Cxx - b * t)) t 0 -
    (Clq ^ 2) * treetauint M (Cll / 2) (b + bl + 2 * Cxl - gq) (2 * (bx + Cxx - b * t)) (2 * t)
    t + 2 * Cgl * Clq * twotauint M (Cll / 2) (b + bl + Cxl - gq) (bx + Cxx / 2 - 2 * b * t) t
    0 + (2 * bq * Clq + 4 * Clq * Cxq - 2 * Clq * mq) * twotauint M (Cll / 2) (b + bl + 2 * Cxl
    - gq) (2 * (bx + Cxx - b * t)) t 0 + (-2 * bq * Clq - 4 * Clq * Cxq + 2 * Clq * mq + 2 *
    (Clq ^ 2) * t) * twotauint M (Cll / 2) (b + bl + 2 * Cxl - gq) (2 * (bx + Cxx - b * t)) (2
    * t) t + (2 * bg * mq + 2 * Cxg * mq) * zerotauint M (Cll / 2) (b + bl + Cxl) (bx + Cxx / 2
    - 2 * b * t) t 0 + ((2 * bq * mq) / gq + (4 * Cxq * mq) / gq - (2 * (mq ^ 2)) / gq) *
    zerotauint M (Cll / 2) (b + bl + 2 * Cxl) (2 * (bx + Cxx - b * t)) t 0 + (2 * bg * bq + 2 *
    Cgq + 2 * bq * Cxg + 2 * bg * Cxq + 2 * Cxg * Cxq - 2 * bg * mq - 2 * Cxg * mq) *
    zerotauint M (Cll / 2) (b + bl + Cxl - gq) (bx + Cxx / 2 - 2 * b * t) t 0 + ((-2 * bq * mq)
    / gq - (4 * Cxq * mq) / gq + (2 * (mq ^ 2)) / gq) * zerotauint M (Cll / 2) (b + bl + 2 *
    Cxl - gq) (2 * (bx + Cxx - b * t)) t 0 + (sq2 * zerotauint M (Cll / 2) (b + bl + 2 * Cxl)
    (2 * bx + 2 * Cxx - 2 * b * t) t 0) / (2 * (gq ^ 2)) + (sq2 * zerotauint M (Cll / 2) (b +
    bl + 2 * Cxl) (2 * bx + 2 * Cxx - 2 * b * t) (2 * t) t) / (2 * (gq ^ 2)) + 2 * (mq ^ 2) * t
    * zerotauint M (Cll / 2) (b + bl + 2 * Cxl) (2 * (bx + Cxx - b * t)) (2 * t) t + ((-2 * bq
    * mq) / gq - (4 * Cxq * mq) / gq + (2 * (mq ^ 2)) / gq) * zerotauint M (Cll / 2) (b + bl +
    2 * Cxl) (2 * bx + 2 * Cxx - (2 * b + gq) * t) (2 * t) t - (sq2 * zerotauint M (Cll / 2) (b
    + bl + 2 * Cxl - gq) (2 * bx + 2 * Cxx - 2 * b * t) t 0) / (2 * (gq ^ 2)) - (sq2 * t *
    zerotauint M (Cll / 2) (b + bl + 2 * Cxl - gq) (2 * bx + 2 * Cxx - 2 * b * t) (2 * t) t) /
    gq + (2 * (bq ^ 2) * t + 2 * Cqq * t + 8 * bq * Cxq * t + 8 * (Cxq ^ 2) * t - 4 * bq * mq *
    t - 8 * Cxq * mq * t + 2 * (mq ^ 2) * t) * zerotauint M (Cll / 2) (b + bl + 2 * Cxl - gq)
    (2 * (bx + Cxx - b * t)) (2 * t) t + ((2 * bq * mq) / gq + (4 * Cxq * mq) / gq - (2 * (mq ^
    2)) / gq) * zerotauint M (Cll / 2) (b + bl + 2 * Cxl - gq) (2 * bx + 2 * Cxx - 2 * b * t +
    gq * t) (2 * t) t - (sq2 * zerotauint M (Cll / 2) (b + bl + 2 * Cxl + gq) (2 * bx + 2 * Cxx
    - 2 * b * t - 2 * gq * t) (2 * t) t) / (2 * (gq ^ 2)) - ((nm 1 0) ^ 2)

/-- Function `cov_gl` of mean_cov_model.h. -/
def cov_gl (M : MathFns K) (t bx bg bl bq Cxx Cxg Cxl Cxq Cgg Cgl Cgq Cll Clq Cqq ml gl sl2 mq
    gq sq2 b : K) (nm : Matrix (Fin 4) (Fin 1) K) : K :=
  (bg * bl) / M.exp ((b + gl) * t) + Cgl / M.exp ((b + gl) * t) + (bg * ml) / M.exp (b * t) -
    (bg * ml) / M.exp ((b + gl) * t) + Cll * mq * onetauint M (Cll / 2) (b + bl + Cxl) (bx +
    Cxx / 2 - b * t - gl * t) t 0 + Clq * ml * onetauint M (Cll / 2) (b + bl + Cxl - gq) (bx +
    Cxx / 2 - b * t) t 0 + (bq * Cll + bl * Clq + Clq * Cxl + Cll * Cxq - Clq * ml - Cll * mq)
    * onetauint M (Cll / 2) (b + bl + Cxl - gq) (bx + Cxx / 2 - b * t - gl * t) t 0 + Cll * Clq
    * twotauint M (Cll / 2) (b + bl + Cxl - gq) (bx + Cxx / 2 - b * t - gl * t) t 0 + ml * mq *
    zerotauint M (Cll / 2) (b + bl + Cxl) (bx + Cxx / 2 - b * t) t 0 + (bl * mq + Cxl * mq - ml
    * mq) * zerotauint M (Cll / 2) (b + bl + Cxl) (bx + Cxx / 2 - b * t - gl * t) t 0 + (bq *
    ml + Cxq * ml - ml * mq) * zerotauint M (Cll / 2) (b + bl + Cxl - gq) (bx + Cxx / 2 - b *
    t) t 0 + (bl * bq + Clq + bq * Cxl + bl * Cxq + Cxl * Cxq - bq * ml - Cxq * ml - bl * mq -
    Cxl * mq + ml * mq) * zerotauint M (Cll / 2) (b + bl + Cxl - gq) (bx + Cxx / 2 - b * t - gl
    * t) t 0 - nm 1 0 * nm 2 0

/-- Function `cov_gq` of mean_cov_model.h. -/
def cov_gq (M : MathFns K) (t bx bg bl bq Cxx Cxg Cxl Cxq Cgg Cgl Cgq Cll Clq Cqq ml gl sl2 mq
    gq sq2 b : K) (nm : Matrix (Fin 4) (Fin 1) K) : K :=
  (bg * bq) / M.exp ((b + gq) * t) + Cgq / M.exp ((b + gq) * t) + (bg * mq) / M.exp (b * t) -
    (bg * mq) / M.exp ((b + gq) * t) + Clq * mq * onetauint M (Cll / 2) (b + bl + Cxl) (bx +
    Cxx / 2 - b * t - gq * t) t 0 + Clq * mq * onetauint M (Cll / 2) (b + bl + Cxl - gq) (bx +
    Cxx / 2 - b * t) t 0 + (2 * bq * Clq + 2 * Clq * Cxq - 2 * Clq * mq) * onetauint M (Cll /
    2) (b + bl + Cxl - gq) (bx + Cxx / 2 - b * t - gq * t) t 0 + (Clq ^ 2) * twotauint M (Cll /
    2) (b + bl + Cxl - gq) (bx + Cxx / 2 - b * t - gq * t) t 0 + (mq ^ 2) * zerotauint M (Cll /
    2) (b + bl + Cxl) (bx + Cxx / 2 - b * t) t 0 + (bq * mq + Cxq * mq - (mq ^ 2)) * zerotauint
    M (Cll / 2) (b + bl + Cxl) (bx + Cxx / 2 - b * t - gq * t) t 0 + (bq * mq + Cxq * mq - (mq
    ^ 2)) * zerotauint M (Cll / 2) (b + bl + Cxl - gq) (bx + Cxx / 2 - b * t) t 0 - (sq2 *
    zerotauint M (Cll / 2) (b + bl + Cxl - gq) (-b * t + bx + Cxx / 2 - gq * t) t 0) / (2 * gq)
    + ((bq ^ 2) + Cqq + 2 * bq * Cxq + (Cxq ^ 2) - 2 * bq * mq - 2 * Cxq * mq + (mq ^ 2)) *
    zerotauint M (Cll / 2) (b + bl + Cxl - gq) (bx + Cxx / 2 - b * t - gq * t) t 0 + (sq2 *
    zerotauint M (Cll / 2) (b + bl + Cxl + gq) (-b * t + bx + Cxx / 2 - gq * t) t 0) / (2 * gq)
    - nm 1 0 * nm 3 0

/-- Function `cov_ll` of mean_cov_model.h. -/
def cov_ll (M : MathFns K) (t bx bg bl bq Cxx Cxg Cxl Cxq Cgg Cgl Cgq Cll Clq Cqq ml gl sl2 mq
    gq sq2 b : K) : K :=
  Cll * ((M.exp (-gl * t)) ^ 2) + sl2 / (2 * gl) * (1 - ((M.exp (-gl * t)) ^ 2))

/-- Function `cov_lq` of mean_cov_model.h. -/
def cov_lq (M : MathFns K) (t bx bg bl bq Cxx Cxg Cxl Cxq Cgg Cgl Cgq Cll Clq Cqq ml gl sl2 mq
    gq sq2 b : K) : K :=
  Clq * M.exp (-gl * t) * M.exp (-gq * t)

/-- Function `cov_qq` of mean_cov_model.h. -/
def cov_qq (M : MathFns K) (t bx bg bl bq Cxx Cxg Cxl Cxq Cgg Cgl Cgq Cll Clq Cqq ml gl sl2 mq
    gq sq2 b : K) : K :=
  sq2 / (2 * gq) * (1 - ((M.exp (-gq * t)) ^ 2)) + Cqq * ((M.exp (-gq * t)) ^ 2)

/-- Function `mean_cov_model` of mean_cov_model.h (195-244): the mean and
covariance of the cell after a time `t` without division.  The ten covariance
functions are each evaluated once and written to the two mirrored
coefficients. -/
def mean_cov_model (M : MathFns K) (cell : MOMAdata K) (t ml gl sl2 mq gq sq2 b : K) :
    MOMAdata K :=
  let bx := cell.mean 0 0
  let bg := cell.mean 1 0
  let bl := cell.mean 2 0
  let bq := cell.mean 3 0
  let Cxx := cell.cov 0 0
  let Cxg := cell.cov 0 1
  let Cxl := cell.cov 0 2
  let Cxq := cell.cov 0 3
  let Cgg := cell.cov 1 1
  let Cgl := cell.cov 1 2
  let Cgq := cell.cov 1 3
  let Cll := cell.cov 2 2
  let Clq := cell.cov 2 3
  let Cqq := cell.cov 3 3
  let nm : Matrix (Fin 4) (Fin 1) K :=
    !![mean_x M t bx bg bl bq Cxx Cxg Cxl Cxq Cgg Cgl Cgq Cll Clq Cqq ml gl sl2 mq gq
      sq2 b;
       mean_g M t bx bg bl bq Cxx Cxg Cxl Cxq Cgg Cgl Cgq Cll Clq Cqq ml gl sl2 mq gq
      sq2 b;
       mean_l M t bx bg bl bq Cxx Cxg Cxl Cxq Cgg Cgl Cgq Cll Clq Cqq ml gl sl2 mq gq
      sq2 b;
       mean_q M t bx bg bl bq Cxx Cxg Cxl Cxq Cgg Cgl Cgq Cll Clq Cqq ml gl sl2 mq gq
      sq2 b]
  let nxg := cov_xg M t bx bg bl bq Cxx Cxg Cxl Cxq Cgg Cgl Cgq Cll Clq Cqq ml gl sl2 mq gq
      sq2 b nm
  let nxl := cov_xl M t bx bg bl bq Cxx Cxg Cxl Cxq Cgg Cgl Cgq Cll Clq Cqq ml gl sl2 mq gq
      sq2 b
  let nxq := cov_xq M t bx bg bl bq Cxx Cxg Cxl Cxq Cgg Cgl Cgq Cll Clq Cqq ml gl sl2 mq gq
      sq2 b
  let ngl := cov_gl M t bx bg bl bq Cxx Cxg Cxl Cxq Cgg Cgl Cgq Cll Clq Cqq ml gl sl2 mq gq
      sq2 b nm
  let ngq := cov_gq M t bx bg bl bq Cxx Cxg Cxl Cxq Cgg Cgl Cgq Cll Clq Cqq ml gl sl2 mq gq
      sq2 b nm
  let nlq := cov_lq M t bx bg bl bq Cxx Cxg Cxl Cxq Cgg Cgl Cgq Cll Clq Cqq ml gl sl2 mq gq
      sq2 b
  let nxx := cov_xx M t bx bg bl bq Cxx Cxg Cxl Cxq Cgg Cgl Cgq Cll Clq Cqq ml gl sl2 mq gq
      sq2 b
  let ngg := cov_gg M t bx bg bl bq Cxx Cxg Cxl Cxq Cgg Cgl Cgq Cll Clq Cqq ml gl sl2 mq gq
      sq2 b nm
  let nll := cov_ll M t bx bg bl bq Cxx Cxg Cxl Cxq Cgg Cgl Cgq Cll Clq Cqq ml gl sl2 mq gq
      sq2 b
  let nqq := cov_qq M t bx bg bl bq Cxx Cxg Cxl Cxq Cgg Cgl Cgq Cll Clq Cqq ml gl sl2 mq gq
      sq2 b
  let nC : Matrix (Fin 4) (Fin 4) K :=
    !![nxx, nxg, nxl, nxq;
       nxg, ngg, ngl, ngq;
       nxl, ngl, nll, nlq;
       nxq, ngq, nlq, nqq]
  { cell with mean := nm, cov := nC }

end MeanCovModel

/-! ## Numbers with NaN -/

section CheckedNumbers

variable {K : Type}

/-- A `double` when a division by zero is given no value: `fin x` is the number
`x` and `nan` is NaN.  NaN propagates through every operation, as in IEEE
arithmetic, and `x / 0` is `nan` for every `x`: IEEE arithmetic gives NaN for
0/0, and for the other `x` an infinity, which is not told apart from NaN here.
Rounding is not modelled. -/
inductive Checked (K : Type) where
  | nan : Checked K
  | fin (x : K) : Checked K

/-- A function of one number, on numbers with NaN. -/
def Checked.lift (f : K → K) : Checked K → Checked K
  | .nan => .nan
  | .fin x => .fin (f x)

/-- A function of two numbers, on numbers with NaN. -/
def Checked.lift2 (f : K → K → K) : Checked K → Checked K → Checked K
  | .fin x, .fin y => .fin (f x y)
  | _, _ => .nan

/-- Division on numbers with NaN: a division by zero gives NaN. -/
def Checked.div [Div K] [Zero K] [DecidableEq K] : Checked K → Checked K → Checked K
  | .fin x, .fin y => if y = 0 then .nan else .fin (x / y)
  | _, _ => .nan

instance [Add K] : Add (Checked K) := ⟨Checked.lift2 (· + ·)⟩

instance [Sub K] : Sub (Checked K) := ⟨Checked.lift2 (· - ·)⟩

instance [Mul K] : Mul (Checked K) := ⟨Checked.lift2 (· * ·)⟩

instance [Neg K] : Neg (Checked K) := ⟨Checked.lift (- ·)⟩

instance [One K] : One (Checked K) := ⟨.fin 1⟩

instance [Div K] [Zero K] [DecidableEq K] : Div (Checked K) := ⟨Checked.div⟩

/-- The library functions on numbers with NaN: each gives NaN at NaN. -/
def nanFns (M : MathFns K) : MathFns (Checked K) where
  exp := Checked.lift M.exp
  log := Checked.lift M.log
  sqrt := Checked.lift M.sqrt
  pow := Checked.lift2 M.pow
  erfi := Checked.lift M.erfi
  pi := .fin M.pi

instance [Zero K] : Zero (Checked K) := ⟨.fin 0⟩

/-- An integer literal of the source, converted to `double`. -/
instance [NatCast K] : NatCast (Checked K) := ⟨fun n => .fin n⟩

/-- The sums of numbers with NaN that the products of Eigen matrices form. -/
instance [AddCommMonoid K] : AddCommMonoid (Checked K) where
  add := (· + ·)
  zero := 0
  add_assoc := fun a b c => by
    cases a <;> cases b <;> cases c <;> simp [HAdd.hAdd, Add.add, Checked.lift2]
    exact add_assoc _ _ _
  zero_add := fun a => by
    cases a
    · rfl
    · exact congrArg Checked.fin (zero_add _)
  add_zero := fun a => by
    cases a
    · rfl
    · exact congrArg Checked.fin (add_zero _)
  add_comm := fun a b => by
    cases a <;> cases b <;> simp [HAdd.hAdd, Add.add, Checked.lift2]
    exact add_comm _ _
  nsmul := nsmulRec
  nsmul_zero := fun _ => rfl
  nsmul_succ := fun _ _ => rfl

end CheckedNumbers

/-! ## moma_input.h: the genealogy -/

section MomaInput

variable {K : Type}

/-- Lines 94-104 of `build_cell_genealogy`: the body of the inner loop at the
indices `k` and `j`.  The cell at `j` is read again after the parent pointer of
the cell at `k` is written, as `j` may be `k`. -/
def build_cell_genealogy_step (k : Nat) (cells : List (MOMAdata K)) (j : Nat) :
    Option (List (MOMAdata K)) := do
  let cj ← cells[j]?
  let ck ← cells[k]?
  if cj.cell_id = ck.parent_id then
    let cells1 := cells.set k { ck with parent := some j }
    let cj1 ← cells1[j]?
    if cj1.daughter1 = none then
      pure (cells1.set j { cj1 with daughter1 := some k })
    else if cj1.daughter2 = none then
      pure (cells1.set j { cj1 with daughter2 := some k })
    else
      pure cells1
  else
    pure cells

/-- Function `build_cell_genealogy` (moma_input.h 87-107): the two nested loops
over the indices of the vector.  The warning it prints is not modelled. -/
def build_cell_genealogy (cells : List (MOMAdata K)) : Option (List (MOMAdata K)) :=
  (List.range cells.length).foldlM
    (fun cs k => (List.range cells.length).foldlM (build_cell_genealogy_step k) cs) cells

/-- Function `get_leafs` (moma_input.h 118-130): the addresses of the leaves. -/
def get_leafs (cells : List (MOMAdata K)) : List Nat :=
  (List.range cells.length).foldl
    (fun leafs i =>
      match cells[i]? with
      | some c => if c.is_leaf then leafs ++ [i] else leafs
      | none => leafs) []

/-- Function `get_roots` (moma_input.h 132-145): the addresses of the roots. -/
def get_roots (cells : List (MOMAdata K)) : List Nat :=
  (List.range cells.length).foldl
    (fun roots i =>
      match cells[i]? with
      | some c => if c.is_root then roots ++ [i] else roots
      | none => roots) []

/-- Function `get_genealogy_paths_recr` (moma_input.h 153-173), on the pair
(current_path, paths); a path is the list of the addresses of its cells. -/
def get_genealogy_paths_recr (cells : List (MOMAdata K)) :
    Nat → Option Nat → List Nat × List (List Nat) → Option (List Nat × List (List Nat))
  | _, none, s => some s
  | 0, some _, _ => none
  | fuel + 1, some i, s => do
    let cell ← cells[i]?
    let current_path := s.1 ++ [i]
    let r ←
      if cell.is_leaf then
        pure (current_path, s.2 ++ [current_path])
      else do
        let r1 ← get_genealogy_paths_recr cells fuel cell.daughter1 (current_path, s.2)
        get_genealogy_paths_recr cells fuel cell.daughter2 r1
    pure (r.1.dropLast, r.2)

/-- Function `get_genealogy_paths` (moma_input.h 175-185) from the cell at
address `i`. -/
def get_genealogy_paths (cells : List (MOMAdata K)) (fuel : Nat) (i : Nat) :
    Option (List (List Nat)) :=
  (get_genealogy_paths_recr cells fuel (some i) ([], [])).map Prod.snd

/-- Function `apply_down_tree_recr` (moma_input.h 191-204).  The function `func`
gets the address of the cell and acts on the cells and on `params`, of any type
`P`; the daughter pointers are read after it has returned. -/
def apply_down_tree_recr {P : Type}
    (func : Nat → List (MOMAdata K) × P → List (MOMAdata K) × P) :
    Nat → Option Nat → List (MOMAdata K) × P → Option (List (MOMAdata K) × P)
  | _, none, s => some s
  | 0, some _, _ => none
  | fuel + 1, some i, s => do
    let _ ← s.1[i]?
    let s1 := func i s
    let c1 ← s1.1[i]?
    let s2 ← apply_down_tree_recr func fuel c1.daughter1 s1
    let c2 ← s2.1[i]?
    apply_down_tree_recr func fuel c2.daughter2 s2

/-- Function `apply_down_tree` (moma_input.h 206-225) from the cell at address
`i`. -/
def apply_down_tree {P : Type} (func : Nat → List (MOMAdata K) × P → List (MOMAdata K) × P)
    (fuel : Nat) (i : Nat) (s : List (MOMAdata K) × P) : Option (List (MOMAdata K) × P) :=
  apply_down_tree_recr func fuel (some i) s

end MomaInput

/-! ## Parameters.h

A `std::string` is the list of its characters. -/

section Parameters

variable {K : Type}

/-- The test `std::isspace` in the classic locale, by which
`boost::algorithm::trim` trims: the space (32) and the characters `\t`, `\n`,
`\v`, `\f`, `\r` (9 to 13). -/
def isspace (ch : Char) : Bool :=
  ch.toNat == 32 || (9 ≤ ch.toNat && ch.toNat ≤ 13)

/-- Function `boost::algorithm::trim`: the string without the whitespace at its
two ends. -/
def trim (s : List Char) : List Char :=
  ((s.dropWhile isspace).reverse.dropWhile isspace).reverse

/-- Function `boost::algorithm::split` with `boost::is_any_of(delims)`: the
tokens between the delimiters, empty tokens included; a string without a
delimiter is one token. -/
def split (delims : List Char) : List Char → List (List Char)
  | [] => [[]]
  | ch :: rest =>
    if delims.contains ch then [] :: split delims rest
    else
      match split delims rest with
      | [] => [[ch]]
      | token :: tokens => (ch :: token) :: tokens

/-- Class `Parameter` (Parameters.h 7-46). -/
structure Parameter (K : Type) where
  set : Bool
  fixed : Bool
  value : K
  step : K
  lower : K
  upper : K
  name : List Char

/-- Member function `Parameter::set_paramter` (Parameters.h 22-45).  `stod` is
`std::stod`, with `none` where it throws; the result is `none` also where
`parts` or `val_split` is read past its end. -/
def Parameter.set_paramter (stod : List Char → Option K) (p : Parameter K)
    (parts : List (List Char)) : Option (Parameter K) := do
  let name ← parts[0]?
  let p1 := { p with name := name, set := true }
  let val ← parts[1]?
  let val_split := (split [','] val).map trim
  if val_split.length > 1 then
    let value ← (val_split[0]?).bind stod
    let step ← (val_split[1]?).bind stod
    let lower ← (val_split[2]?).bind stod
    let upper ← (val_split[3]?).bind stod
    pure { p1 with value := value, step := step, lower := lower, upper := upper, fixed := false }
  else
    let value ← (val_split[0]?).bind stod
    pure { p1 with value := value, fixed := true }

/-- Class `Parameter_set` (Parameters.h 49-132). -/
structure Parameter_set (K : Type) where
  mean_lambda : Parameter K
  gamma_lambda : Parameter K
  var_lambda : Parameter K
  mean_q : Parameter K
  gamma_q : Parameter K
  var_q : Parameter K
  beta : Parameter K
  var_x : Parameter K
  var_g : Parameter K
  var_dx : Parameter K
  var_dg : Parameter K
  all : List (Parameter K)

/-- The body of the loop of the constructor of `Parameter_set` (lines 95-124) on
one line of the file. -/
def Parameter_set.read_line (stod : List Char → Option K) (ps : Parameter_set K)
    (line : List Char) : Option (Parameter_set K) :=
  if line.head? ≠ some '#' ∧ line.length ≠ 0 then do
    let parts := split ['='] line
    let key ← parts[0]?
    let parts := parts.set 0 (trim key)
    if trim key = "mean_lambda".toList then do
      let p ← ps.mean_lambda.set_paramter stod parts
      pure { ps with mean_lambda := p }
    else if trim key = "gamma_lambda".toList then do
      let p ← ps.gamma_lambda.set_paramter stod parts
      pure { ps with gamma_lambda := p }
    else if trim key = "var_lambda".toList then do
      let p ← ps.var_lambda.set_paramter stod parts
      pure { ps with var_lambda := p }
    else if trim key = "mean_q".toList then do
      let p ← ps.mean_q.set_paramter stod parts
      pure { ps with mean_q := p }
    else if trim key = "gamma_q".toList then do
      let p ← ps.gamma_q.set_paramter stod parts
      pure { ps with gamma_q := p }
    else if trim key = "var_q".toList then do
      let p ← ps.var_q.set_paramter stod parts
      pure { ps with var_q := p }
    else if trim key = "beta".toList then do
      let p ← ps.beta.set_paramter stod parts
      pure { ps with beta := p }
    else if trim key = "var_x".toList then do
      let p ← ps.var_x.set_paramter stod parts
      pure { ps with var_x := p }
    else if trim key = "var_g".toList then do
      let p ← ps.var_g.set_paramter stod parts
      pure { ps with var_g := p }
    else if trim key = "var_dx".toList then do
      let p ← ps.var_dx.set_paramter stod parts
      pure { ps with var_dx := p }
    else if trim key = "var_dg".toList then do
      let p ← ps.var_dg.set_paramter stod parts
      pure { ps with var_dg := p }
    else
      pure ps
  else
    pure ps

/-- The constructor `Parameter_set::Parameter_set` (Parameters.h 87-129).  The
file is the list of its lines, `none` when it cannot be opened; `ps` holds the
11 parameters as they are before the file is read (`set` false, the other
members not initialised). -/
def Parameter_set.read (stod : List Char → Option K) (ps : Parameter_set K)
    (file : Option (List (List Char))) : Option (Parameter_set K) := do
  let ps1 ←
    match file with
    | some lines => lines.foldlM (Parameter_set.read_line stod) ps
    | none => pure ps
  pure { ps1 with
    all := [ps1.mean_lambda, ps1.gamma_lambda, ps1.var_lambda, ps1.mean_q, ps1.gamma_q,
      ps1.var_q, ps1.beta, ps1.var_x, ps1.var_g, ps1.var_dx, ps1.var_dg] }

end Parameters

/-! ## main.cpp

The command line and the file names are strings; what the program prints is not
modelled. -/

section Main

/-- A `std::map<std::string, std::string>`: the value stored under each key, if
any. -/
abbrev Arguments : Type := String → Option String

/-- The assignment `arguments[key] = value`. -/
def Arguments.insert (arguments : Arguments) (key value : String) : Arguments :=
  fun name => if name = key then some value else arguments name

/-- Member function `count` of the map. -/
def Arguments.count (arguments : Arguments) (key : String) : Bool :=
  (arguments key).isSome

/-- The table `keys` of `arg_parser` (main.cpp 98-109): the short and the long
form of each flag; the help texts are left out. -/
def keys : List (String × String) :=
  [("-h", "--help"), ("-i", "--infile"), ("-b", "--parameter_bounds"), ("-c", "--csv_config"),
   ("-l", "--print_level"), ("-o", "--outdir"), ("-r", "--rel_tol"), ("-m", "--maximize"),
   ("-s", "--scan"), ("-p", "--predict")]

/-- The map `key_indices` of `arg_parser` (main.cpp 111-114): the position in
`keys` of a short form. -/
def key_indices (flag : String) : Nat :=
  keys.findIdx fun key => key.1 == flag

/-- The body of the two loops of `arg_parser` (main.cpp 123-148) at the key `k`
and the argument `i`.  The result is `none` where `argv[i+1]` is read past the
last argument. -/
def parse_args_step (argv : List String) (k : Nat) (arguments : Arguments) (i : Nat) :
    Option Arguments := do
  let arg ← argv[i]?
  let key ← keys[k]?
  if arg = key.1 ∨ arg = key.2 then
    if k = key_indices "-i" then do
      let value ← argv[i + 1]?
      pure (arguments.insert "infile" value)
    else if k = key_indices "-b" then do
      let value ← argv[i + 1]?
      pure (arguments.insert "parameter_bounds" value)
    else if k = key_indices "-c" then do
      let value ← argv[i + 1]?
      pure (arguments.insert "csv_config" value)
    else if k = key_indices "-l" then do
      let value ← argv[i + 1]?
      pure (arguments.insert "print_level" value)
    else if k = key_indices "-o" then do
      let value ← argv[i + 1]?
      pure (arguments.insert "outdir" value)
    else if k = key_indices "-r" then do
      let value ← argv[i + 1]?
      pure (arguments.insert "rel_tol" value)
    else if k = key_indices "-m" then
      pure (arguments.insert "minimize" "1")
    else if k = key_indices "-s" then
      pure (arguments.insert "scan" "1")
    else if k = key_indices "-p" then
      pure (arguments.insert "predict" "1")
    else if k = key_indices "-h" then
      pure (arguments.insert "quit" "1")
    else
      pure arguments
  else
    pure arguments

/-- The two loops of `arg_parser` (main.cpp 116-150) on the command line `argv`,
after the two defaults are set. -/
def parse_args_loop (argv : List String) : Option Arguments :=
  (List.range keys.length).foldlM
    (fun arguments k =>
      (List.range' 1 (argv.length - 1)).foldlM (parse_args_step argv k) arguments)
    ((Arguments.insert (fun _ => none) "print_level" "0").insert "rel_tol" "1e-2")

/-- The checks of `arg_parser` on the file names (main.cpp 151-174);
`file_exists` is `std::filesystem::exists`. -/
def parse_args_checks (file_exists : String → Bool) (arguments : Arguments) : Arguments :=
  let arguments1 :=
    if !arguments.count "infile" then arguments.insert "quit" "1"
    else if !file_exists ((arguments "infile").getD "") then arguments.insert "quit" "1"
    else arguments
  let arguments2 :=
    if !arguments1.count "parameter_bounds" then arguments1.insert "quit" "1"
    else if !file_exists ((arguments1 "parameter_bounds").getD "") then
      arguments1.insert "quit" "1"
    else arguments1
  if arguments2.count "csv_config" && !file_exists ((arguments2 "csv_config").getD "") then
    arguments2.insert "quit" "1"
  else arguments2

/-- Function `arg_parser` (main.cpp 97-176). -/
def parse_args (file_exists : String → Bool) (argv : List String) : Option Arguments := do
  let arguments ← parse_args_loop argv
  pure (parse_args_checks file_exists arguments)

/-- Function `main` (main.cpp 179-230).  `stoi` is `std::stoi`, with `none` where
it throws; `rest` stands for the lines 191-229, which read the parameter file,
the configuration and the data and run the minimisation, the scan and the
prediction, and returns the exit status if it returns at all. -/
def main (file_exists : String → Bool) (stoi : String → Option Int)
    (rest : Arguments → Option Int) (argv : List String) : Option Int := do
  let arguments ← parse_args file_exists argv
  let _print_level ← stoi ((arguments "print_level").getD "")
  if arguments.count "quit" then
    pure 0
  else
    rest arguments

end Main

/-! ## The real-number reading of the library functions -/

/-- The imaginary error function, erfi(z) = (2/√π)·∫_0^z exp(u²) du. -/
noncomputable def erfi (z : ℝ) : ℝ :=
  2 / Real.sqrt Real.pi * ∫ u in (0 : ℝ)..z, Real.exp (u ^ 2)

/-- The library functions over the reals. -/
noncomputable def realFns : MathFns ℝ where
  exp := Real.exp
  log := Real.log
  sqrt := Real.sqrt
  pow := fun x y => x ^ y
  erfi := erfi
  pi := Real.pi

/-! ## Rounded arithmetic: binary64 -/

/-- Rounding to the nearest number with a significand of 53 bits, a tie to the
even significand: the rounding of IEEE 754 binary64 arithmetic in its normal
range.  With `e` the exponent of `y`, 2^e ≤ |y| < 2^(e+1), the numbers with 53
bits around `y` are the multiples of 2^(e−52), and `y` goes to the nearest one.
The range of the exponent is not bounded here. -/
def round53 {R : Type} [LinearOrderedField R] [FloorRing R] (y : R) : ℚ :=
  let e : ℤ := Int.log 2 |y|
  let m : R := |y| / 2 ^ (e - 52)
  let f : ℤ := ⌊m⌋
  let n : ℤ := if m - f < 1 / 2 then f else if 1 / 2 < m - f then f + 1
    else if f % 2 = 0 then f else f + 1
  (if 0 ≤ y then 1 else -1) * n * 2 ^ (e - 52)

/-- A `double` with its rounding: a finite binary64 number, given by its value.
Every arithmetic operation returns the exact result rounded by `round53`, as
IEEE 754 arithmetic does in the normal range; the negation is exact.  Not
modelled are the bounds of the exponent (overflow to an infinity, subnormal
numbers), NaN, and the division by zero, which is given the value 0 here. -/
structure Binary64 where
  val : ℚ

/-- The `double` a decimal literal of the source stands for: the nearest one. -/
def Binary64.ofRat (q : ℚ) : Binary64 := ⟨round53 q⟩

instance : Add Binary64 := ⟨fun a b => ⟨round53 (a.val + b.val)⟩⟩

instance : Sub Binary64 := ⟨fun a b => ⟨round53 (a.val - b.val)⟩⟩

instance : Mul Binary64 := ⟨fun a b => ⟨round53 (a.val * b.val)⟩⟩

instance : Div Binary64 := ⟨fun a b => ⟨round53 (a.val / b.val)⟩⟩

instance : Neg Binary64 := ⟨fun a => ⟨-a.val⟩⟩

instance : Zero Binary64 := ⟨⟨0⟩⟩

instance : One Binary64 := ⟨⟨1⟩⟩

/-- An integer literal of the source, converted to `double`. -/
instance : NatCast Binary64 := ⟨fun n => ⟨round53 (n : ℚ)⟩⟩

/-- The call `pow(a, n)` with an integer `n`: the power, rounded once. -/
instance : Pow Binary64 ℕ := ⟨fun a n => ⟨round53 (a.val ^ n)⟩⟩

/-- The library functions on `Binary64`: each returns the `double` nearest to
the value of the real function. -/
noncomputable def binary64Fns : MathFns Binary64 where
  exp := fun x => ⟨round53 (Real.exp x.val)⟩
  log := fun x => ⟨round53 (Real.log x.val)⟩
  sqrt := fun x => ⟨round53 (Real.sqrt x.val)⟩
  pow := fun x y => ⟨round53 ((x.val : ℝ) ^ (y.val : ℝ))⟩
  erfi := fun x => ⟨round53 (erfi x.val)⟩
  pi := ⟨round53 Real.pi⟩

/-! ## Notions used to state the properties -/

section Notions

variable {K : Type} [Field K]

/-- The matrix S = Σ[0:2,0:2] + diag(σ²_x, σ²_g) of a Kalman update. -/
def obs_cov (cov : Matrix (Fin 4) (Fin 4) K) (var_x var_g : K) : Matrix (Fin 2) (Fin 2) K :=
  block22 cov + !![var_x, 0; 0, var_g]

/-- A cell without relatives or observations, with the given mean and covariance. -/
def bare_cell (mean : Matrix (Fin 4) (Fin 1) K) (cov : Matrix (Fin 4) (Fin 4) K) :
    MOMAdata K where
  cell_id := "a"
  parent_id := ""
  parent := none
  daughter1 := none
  daughter2 := none
  time := []
  length := []
  fp := []
  generation := 0
  mean := mean
  cov := cov

/-- The entry `params_vec[k]` as a value (0 when the vector is too short). -/
def param (params_vec : List K) (k : Nat) : K := params_vec.getD k 0

/-- The three observation sequences of a cell have one length. -/
def obs_ok (cell : MOMAdata K) : Prop :=
  cell.length.length = cell.fp.length ∧ cell.time.length = cell.fp.length

/-- The state a root cell gets at lines 79-87 of `sc_likelihood`. -/
def prior_root (params_vec : List K) (cell : MOMAdata K) : MOMAdata K :=
  { cell with
    mean := setCoeff (setCoeff (setCoeff (setCoeff cell.mean 0 0 (param params_vec 11)) 1 0
      (param params_vec 12)) 2 0 (param params_vec 0)) 3 0 (param params_vec 3)
    cov := setCoeff (setCoeff (setCoeff (setCoeff cell.cov 0 0 (param params_vec 7)) 1 1
      (param params_vec 8)) 2 2 (param params_vec 2)) 3 3 (param params_vec 5) }

/-- The state `mean_cov_after_division` gives a cell whose parent is `parent`. -/
def prior_daughter (M : MathFns K) (var_dx var_dg : K) (parent cell : MOMAdata K) :
    MOMAdata K :=
  { cell with
    mean := (setCoeff 1 1 1 (1 / 2) : Matrix (Fin 4) (Fin 4) K) * parent.mean
      + !![-(M.log 2); 0; 0; 0]
    cov := setCoeff (setCoeff 0 0 0 var_dx) 1 1 var_dg
      + (setCoeff 1 1 1 (1 / 2) : Matrix (Fin 4) (Fin 4) K) * parent.cov
        * (setCoeff 1 1 1 (1 / 2) : Matrix (Fin 4) (Fin 4) K).transpose }

/-- The state of a cell before its first observation: `par` is the parent as it
is at that moment, `none` for a root. -/
def cell_prior (M : MathFns K) (params_vec : List K) (par : Option (MOMAdata K))
    (cell : MOMAdata K) : MOMAdata K :=
  match par with
  | none => prior_root params_vec cell
  | some parent => prior_daughter M (param params_vec 9) (param params_vec 10) parent cell

/-- Column `t` of the matrix `xg` that `sc_likelihood` builds for a cell whose
state before the first observation is `cell0`. -/
def innovation (cell0 : MOMAdata K) (t : Nat) : Matrix (Fin 2) (Fin 1) K :=
  !![cell0.length.getD t 0 - cell0.mean 0 0; cell0.fp.getD t 0 - cell0.mean 1 0]

/-- The cell after the first `n` passes of the loop of `sc_likelihood`, started
from `cell0`. -/
def state_at (params_vec : List K) (cell0 : MOMAdata K) : Nat → MOMAdata K
  | 0 => cell0
  | n + 1 => posterior (innovation cell0 n) (state_at params_vec cell0 n)
      (param params_vec 7) (param params_vec 8)

/-- The cell after all its observations. -/
def final_state (params_vec : List K) (cell0 : MOMAdata K) : MOMAdata K :=
  state_at params_vec cell0 cell0.time.length

/-- The sum of `log_likelihood` over the first `n` observations of a cell. -/
def partial_contribution (M : MathFns K) (params_vec : List K) (cell0 : MOMAdata K)
    (n : Nat) : K :=
  ∑ t in Finset.range n, log_likelihood M (innovation cell0 t) (state_at params_vec cell0 t)
    (param params_vec 7) (param params_vec 8)

/-- The sum of `log_likelihood` over all observations of a cell. -/
def contribution (M : MathFns K) (params_vec : List K) (cell0 : MOMAdata K) : K :=
  partial_contribution M params_vec cell0 cell0.time.length

/-- A root cell at address 0 without daughters, with the given observations,
zero mean and the given covariance. -/
def lone_root (time length fp : List K) (cov : Matrix (Fin 4) (Fin 4) K) : MOMAdata K where
  cell_id := "0"
  parent_id := ""
  parent := none
  daughter1 := none
  daughter2 := none
  time := time
  length := length
  fp := fp
  generation := 0
  mean := 0
  cov := cov

/-- A parameter vector with mean_lambda = 1, gamma_lambda = 1, gamma_q = 1,
var_x = var_g = 1 and every other entry 0. -/
def unit_params : List K := [1, 1, 0, 0, 1, 0, 0, 1, 1, 0, 0, 0, 0]

/-- A root observed twice, at times 0 and 1, with length 2 and fp 0 both times,
in the state lines 79-87 of `sc_likelihood` give it under `unit_params`: mean
(0, 0, 1, 0) and covariance diag(1, 1, 0, 0). -/
def root_seen_twice : MOMAdata K :=
  prior_root unit_params (lone_root [0, 1] [2, 2] [0, 0] 0)

/-- A root observed twice, at times 0 and 1, with length 0 and fp 0 both times
(its prior mean of x and g), in the state lines 79-87 of `sc_likelihood` give it
under `unit_params`. -/
def root_at_rest : MOMAdata K :=
  prior_root unit_params (lone_root [0, 1] [0, 0] [0, 0] 0)

/-- A cell at address 0 whose parent pointer is its own address, as
`build_cell_genealogy` leaves a cell whose `parent_id` is its own `cell_id`;
its mean is (0, 2, 0, 0). -/
def own_parent : MOMAdata K where
  cell_id := "0"
  parent_id := "0"
  parent := some 0
  daughter1 := some 0
  daughter2 := none
  time := []
  length := []
  fp := []
  generation := 0
  mean := !![0; 2; 0; 0]
  cov := 0

/-- Two cells: a mother at address 0 with mean (1, 2, 3, 4) and identity
covariance, and her daughter at address 1. -/
def mother_and_daughter : List (MOMAdata K) :=
  [{ cell_id := "0", parent_id := "", parent := none, daughter1 := some 1, daughter2 := none,
     time := [], length := [], fp := [], generation := 0, mean := !![1; 2; 3; 4], cov := 1 },
   { cell_id := "1", parent_id := "0", parent := some 0, daughter1 := none, daughter2 := none,
     time := [], length := [], fp := [], generation := 0, mean := 0, cov := 0 }]

/-! ### Genealogies -/

/-- A finite genealogy tree: `null` for a null pointer, and otherwise a cell, given
by its address `i` and its record, with the genealogies of its two daughters. -/
inductive Genealogy (K : Type) where
  | null : Genealogy K
  | node (i : Nat) (cell : MOMAdata K) (d1 d2 : Genealogy K) : Genealogy K

/-- The pointer to the first cell of a genealogy. -/
def Genealogy.ptr : Genealogy K → Option Nat
  | .null => none
  | .node i _ _ _ => some i

/-- The addresses of the cells of a genealogy: a cell, then the cells under its
daughter1, then those under its daughter2. -/
def Genealogy.addrs : Genealogy K → List Nat
  | .null => []
  | .node i _ d1 d2 => i :: (d1.addrs ++ d2.addrs)

/-- The number of cells on the longest line of descent. -/
def Genealogy.depth : Genealogy K → Nat
  | .null => 0
  | .node _ _ d1 d2 => max d1.depth d2.depth + 1

/-- The cells `cells` hold the genealogy `g` under a cell at `pp` (`none` when `g`
starts at a root): every cell of `g` is stored at its address, its parent
pointer is the cell above it, its daughter pointers are the two genealogies
below it, and its three observation sequences have one length. -/
def Genealogy.Linked (cells : List (MOMAdata K)) : Option Nat → Genealogy K → Prop
  | _, .null => True
  | pp, .node i c d1 d2 =>
    cells[i]? = some c ∧ c.parent = pp ∧ c.daughter1 = d1.ptr ∧ c.daughter2 = d2.ptr ∧
      obs_ok c ∧ Genealogy.Linked cells (some i) d1 ∧ Genealogy.Linked cells (some i) d2

/-- The cells hold `g` as a tree that starts at the root `c`: no cell occurs
twice. -/
def Genealogy.RootedAt (cells : List (MOMAdata K)) (c : Option Nat) (g : Genealogy K) : Prop :=
  g.ptr = c ∧ g.Linked cells none ∧ g.addrs.Nodup

/-- The sum over the cells of a genealogy of the cell's own contribution, each
cell starting from the final state of the cell above it (`par`, `none` above a
root). -/
def genealogy_sum (M : MathFns K) (params_vec : List K) :
    Option (MOMAdata K) → Genealogy K → K
  | _, .null => 0
  | par, .node _ c d1 d2 =>
    contribution M params_vec (cell_prior M params_vec par c)
      + genealogy_sum M params_vec
          (some (final_state params_vec (cell_prior M params_vec par c))) d1
      + genealogy_sum M params_vec
          (some (final_state params_vec (cell_prior M params_vec par c))) d2

/-- The cells after a pass over the genealogy: every cell of `g` holds its final
state. -/
def Genealogy.filtered (M : MathFns K) (params_vec : List K) :
    Option (MOMAdata K) → Genealogy K → List (MOMAdata K) → List (MOMAdata K)
  | _, .null, cells => cells
  | par, .node i c d1 d2, cells =>
    Genealogy.filtered M params_vec
      (some (final_state params_vec (cell_prior M params_vec par c))) d2
      (Genealogy.filtered M params_vec
        (some (final_state params_vec (cell_prior M params_vec par c))) d1
        (cells.set i (final_state params_vec (cell_prior M params_vec par c))))

/-- The genealogy after a pass over it: every cell holds its final state. -/
def Genealogy.after (M : MathFns K) (params_vec : List K) :
    Option (MOMAdata K) → Genealogy K → Genealogy K
  | _, .null => .null
  | par, .node i c d1 d2 =>
    .node i (final_state params_vec (cell_prior M params_vec par c))
      (Genealogy.after M params_vec
        (some (final_state params_vec (cell_prior M params_vec par c))) d1)
      (Genealogy.after M params_vec
        (some (final_state params_vec (cell_prior M params_vec par c))) d2)

/-- The record of a cell with its two daughter pointers exchanged. -/
def MOMAdata.exchanged (c : MOMAdata K) : MOMAdata K :=
  { c with daughter1 := c.daughter2, daughter2 := c.daughter1 }

/-- The cells with `daughter1` and `daughter2` of the cell at `p` exchanged. -/
def exchange_daughters (cells : List (MOMAdata K)) (p : Nat) : List (MOMAdata K) :=
  match cells[p]? with
  | none => cells
  | some c => cells.set p c.exchanged

/-- The genealogy with the two daughters of the cell at `p` exchanged. -/
def Genealogy.exchange (p : Nat) : Genealogy K → Genealogy K
  | .null => .null
  | .node i c d1 d2 =>
    if i = p then .node i c.exchanged d2 d1
    else .node i c (Genealogy.exchange p d1) (Genealogy.exchange p d2)

/-- Every cell of the genealogy has the zero covariance. -/
def Genealogy.ZeroCov : Genealogy K → Prop
  | .null => True
  | .node _ c d1 d2 => c.cov = 0 ∧ Genealogy.ZeroCov d1 ∧ Genealogy.ZeroCov d2

/-- What a pass needs to know about the cell above the genealogy: `par` is its
record in `cells`, and it is not a cell of the genealogy. -/
def Genealogy.Above (cells : List (MOMAdata K)) (pp : Option Nat) (par : Option (MOMAdata K))
    (g : Genealogy K) : Prop :=
  pp.bind (fun p => cells[p]?) = par ∧ pp.isSome = par.isSome ∧ ∀ p, pp = some p → p ∉ g.addrs

/-- Two cells have the same observations. -/
def SameObs (c c1 : MOMAdata K) : Prop :=
  c.time.length = c1.time.length ∧ c.length = c1.length ∧ c.fp = c1.fp

/-- Two cells have the same observations, mean and covariance. -/
def SameData (c c1 : MOMAdata K) : Prop :=
  SameObs c c1 ∧ c.mean = c1.mean ∧ c.cov = c1.cov

/-- Two genealogies have the same shape and, cell by cell, the same observations. -/
def Genealogy.SameObs : Genealogy K → Genealogy K → Prop
  | .null, .null => True
  | .node _ c d1 d2, .node _ c1 e1 e2 =>
    GfpGaussian.SameObs c c1 ∧ Genealogy.SameObs d1 e1 ∧ Genealogy.SameObs d2 e2
  | _, _ => False

/-- The covariance of the first cell of a genealogy is zero off the diagonal. -/
def Genealogy.TopDiagonal : Genealogy K → Prop
  | .null => True
  | .node _ c _ _ => ∀ a b : Fin 4, a ≠ b → c.cov a b = 0

/-- A family of three cells with zero mean and covariance: a root at address 0,
observed at (1, 1) and then (2, 1), and its daughters at addresses 1 and 2,
observed once at (0, 1) and at (1, 0). -/
def family : List (MOMAdata K) :=
  [{ cell_id := "0", parent_id := "", parent := none, daughter1 := some 1, daughter2 := some 2,
     time := [0, 1], length := [1, 2], fp := [1, 1], generation := 0, mean := 0, cov := 0 },
   { cell_id := "1", parent_id := "0", parent := some 0, daughter1 := none, daughter2 := none,
     time := [2], length := [0], fp := [1], generation := 0, mean := 0, cov := 0 },
   { cell_id := "2", parent_id := "0", parent := some 0, daughter1 := none, daughter2 := none,
     time := [2], length := [1], fp := [0], generation := 0, mean := 0, cov := 0 }]

/-- The genealogy of `family`. -/
def family_tree : Genealogy K :=
  .node 0
    { cell_id := "0", parent_id := "", parent := none, daughter1 := some 1, daughter2 := some 2,
      time := [0, 1], length := [1, 2], fp := [1, 1], generation := 0, mean := 0, cov := 0 }
    (.node 1
      { cell_id := "1", parent_id := "0", parent := some 0, daughter1 := none,
        daughter2 := none, time := [2], length := [0], fp := [1], generation := 0, mean := 0,
        cov := 0 } .null .null)
    (.node 2
      { cell_id := "2", parent_id := "0", parent := some 0, daughter1 := none,
        daughter2 := none, time := [2], length := [1], fp := [0], generation := 0, mean := 0,
        cov := 0 } .null .null)

/-- A cell without relatives or observations, with mean (0, 0, 0, 1) and identity
covariance. -/
def q_one_cell : MOMAdata K := bare_cell !![0; 0; 0; 1] 1

/-- The property `P` holds of every state on which a pass of the loop of
`sc_likelihood` runs (a Kalman update), for every cell of the genealogy: the
first cell starts from its prior under `par`, its daughters from theirs under
its final state. -/
def Genealogy.EveryUpdate (M : MathFns K) (params_vec : List K) (P : MOMAdata K → Prop) :
    Option (MOMAdata K) → Genealogy K → Prop
  | _, .null => True
  | par, .node _ c d1 d2 =>
    (∀ t, t < c.time.length → P (state_at params_vec (cell_prior M params_vec par c) t)) ∧
      Genealogy.EveryUpdate M params_vec P
        (some (final_state params_vec (cell_prior M params_vec par c))) d1 ∧
      Genealogy.EveryUpdate M params_vec P
        (some (final_state params_vec (cell_prior M params_vec par c))) d2

/-- The observation matrix H = [I₂ 0] of the Kalman update: it reads x and g
off the state (x, g, λ, q). -/
def obs_matrix (K : Type) [Field K] : Matrix (Fin 2) (Fin 4) K :=
  !![1, 0, 0, 0; 0, 1, 0, 0]

/-- The Kalman update in Joseph form, as the specification words it: with
R = diag(σ²_x, σ²_g), S = H·Σ·Hᵀ + R and the gain G = Σ·Hᵀ·S⁻¹, the new mean is
μ + G·y and the new covariance is (I − G·H)·Σ·(I − G·H)ᵀ + G·R·Gᵀ.  The inverse is
`inverse`, the adjugate divided by the determinant. -/
def joseph_update (y : Matrix (Fin 2) (Fin 1) K) (cell : MOMAdata K) (var_x var_g : K) :
    MOMAdata K :=
  let H : Matrix (Fin 2) (Fin 4) K := obs_matrix K
  let R : Matrix (Fin 2) (Fin 2) K := !![var_x, 0; 0, var_g]
  let S := H * cell.cov * H.transpose + R
  let G := cell.cov * H.transpose * inverse S
  { cell with
    mean := cell.mean + G * y
    cov := (1 - G * H) * cell.cov * (1 - G * H).transpose + G * R * G.transpose }

/-- Two states agree on what an update reads when the covariance is zero off
the diagonal: the x and g entries of the mean and of the diagonal of the
covariance are the same, and both covariances are zero off the diagonal. -/
def SameXG (c c1 : MOMAdata K) : Prop :=
  c.mean 0 0 = c1.mean 0 0 ∧ c.mean 1 0 = c1.mean 1 0 ∧
    c.cov 0 0 = c1.cov 0 0 ∧ c.cov 1 1 = c1.cov 1 1 ∧
    (∀ a b : Fin 4, a ≠ b → c.cov a b = 0) ∧ (∀ a b : Fin 4, a ≠ b → c1.cov a b = 0)

/-! ### The genealogy that `build_cell_genealogy` builds -/

/-- Cell `k` names cell `j` as its parent: the test
`cell_vector[j].cell_id == cell_vector[k].parent_id`. -/
def names_parent (cells : List (MOMAdata K)) (k j : Nat) : Bool :=
  match cells[j]?, cells[k]? with
  | some cj, some ck => decide (cj.cell_id = ck.parent_id)
  | _, _ => false

/-- The cells among the first `n` that name `j` as their parent, in vector
order. -/
def children_upto (cells : List (MOMAdata K)) (n j : Nat) : List Nat :=
  (List.range n).filter fun k => names_parent cells k j

/-- The cells that name `j` as their parent, in vector order. -/
def children (cells : List (MOMAdata K)) (j : Nat) : List Nat :=
  children_upto cells cells.length j

/-- The cells among the first `m` that `k` names as its parent, in vector
order. -/
def parents_upto (cells : List (MOMAdata K)) (m k : Nat) : List Nat :=
  (List.range m).filter fun j => names_parent cells k j

/-- All three pointers of every cell are null. -/
def unlinked (cells : List (MOMAdata K)) : Prop :=
  ∀ c ∈ cells, c.parent = none ∧ c.daughter1 = none ∧ c.daughter2 = none

/-- The record of cell `i` when `build_cell_genealogy` has run its outer loop
for the indices below `k` and its inner loop at `k` for the indices below `m`:
`c0` is the record before the call. -/
def linked_cell (cells0 : List (MOMAdata K)) (k m i : Nat) (c0 : MOMAdata K) : MOMAdata K :=
  { c0 with
    parent :=
      if i < k then (parents_upto cells0 cells0.length i).getLast?
      else if i = k then (parents_upto cells0 m i).getLast?
      else none
    daughter1 := (children_upto cells0 (if i < m then k + 1 else k) i)[0]?
    daughter2 := (children_upto cells0 (if i < m then k + 1 else k) i)[1]? }

/-- The cells when `build_cell_genealogy` has run its outer loop for the indices
below `k` and its inner loop at `k` for the indices below `m`. -/
def linked_cells (cells0 : List (MOMAdata K)) (k m : Nat) : List (MOMAdata K) :=
  cells0.mapIdx fun i c0 => linked_cell cells0 k m i c0

/-- Lines 98-103 of `build_cell_genealogy` on the record of the parent: `k`
becomes its daughter1, or else its daughter2, or else is dropped. -/
def add_daughter (k : Nat) (c : MOMAdata K) : MOMAdata K :=
  if c.daughter1 = none then { c with daughter1 := some k }
  else if c.daughter2 = none then { c with daughter2 := some k }
  else c

/-- The cell at `j` is reached from the cell at `r` by daughter links. -/
inductive Reachable (cells : List (MOMAdata K)) (r : Nat) : Nat → Prop where
  | root : Reachable cells r r
  | daughter1 {i j : Nat} {c : MOMAdata K} : Reachable cells r i → cells[i]? = some c →
      c.daughter1 = some j → Reachable cells r j
  | daughter2 {i j : Nat} {c : MOMAdata K} : Reachable cells r i → cells[i]? = some c →
      c.daughter2 = some j → Reachable cells r j

/-! ### Example cells before linking -/

/-- A cell before `build_cell_genealogy`: its two ids and its observations, null
pointers, zero mean and covariance. -/
def read_cell (cell_id parent_id : String) (time length fp : List K) : MOMAdata K where
  cell_id := cell_id
  parent_id := parent_id
  parent := none
  daughter1 := none
  daughter2 := none
  time := time
  length := length
  fp := fp
  generation := 0
  mean := 0
  cov := 0

/-- Four cells before linking: a cell "m" without a parent in the vector and
three cells "a", "b" and "c" that all name "m" as their parent. -/
def litter : List (MOMAdata K) :=
  [read_cell "m" "" [0] [1] [1], read_cell "a" "m" [1] [1] [0], read_cell "b" "m" [1] [0] [1],
   read_cell "c" "m" [1] [2] [2]]

/-- The six cells of the example in the comment of `apply_down_tree`, before
linking: the cell "1" has the daughters "2" and "5", the cell "2" has the
daughters "3" and "4", the cell "5" has the daughter "6". -/
def six_cells : List (MOMAdata K) :=
  [read_cell "1" "" [0] [1] [1], read_cell "2" "1" [1] [1] [0], read_cell "3" "2" [2] [0] [1],
   read_cell "4" "2" [2] [1] [1], read_cell "5" "1" [1] [0] [0], read_cell "6" "5" [2] [1] [0]]

/-- The cells of `litter` after linking: "a" and "b" are the daughters of "m", and
"c" has its parent pointer only. -/
def litter_linked : List (MOMAdata K) :=
  [{ read_cell "m" "" [0] [1] [1] with daughter1 := some 1, daughter2 := some 2 },
   { read_cell "a" "m" [1] [1] [0] with parent := some 0 },
   { read_cell "b" "m" [1] [0] [1] with parent := some 0 },
   { read_cell "c" "m" [1] [2] [2] with parent := some 0 }]

/-- The genealogy that `litter_linked` holds under its root. -/
def litter_tree : Genealogy K :=
  .node 0 { read_cell "m" "" [0] [1] [1] with daughter1 := some 1, daughter2 := some 2 }
    (.node 1 { read_cell "a" "m" [1] [1] [0] with parent := some 0 } .null .null)
    (.node 2 { read_cell "b" "m" [1] [0] [1] with parent := some 0 } .null .null)

/-- The cells of `six_cells` after linking. -/
def six_linked : List (MOMAdata K) :=
  [{ read_cell "1" "" [0] [1] [1] with daughter1 := some 1, daughter2 := some 4 },
   { read_cell "2" "1" [1] [1] [0] with
       parent := some 0, daughter1 := some 2, daughter2 := some 3 },
   { read_cell "3" "2" [2] [0] [1] with parent := some 1 },
   { read_cell "4" "2" [2] [1] [1] with parent := some 1 },
   { read_cell "5" "1" [1] [0] [0] with parent := some 0, daughter1 := some 5 },
   { read_cell "6" "5" [2] [1] [0] with parent := some 4 }]

/-! ### The shape of a genealogy -/

/-- The two daughter pointers of every cell. -/
def links (cells : List (MOMAdata K)) : List (Option Nat × Option Nat) :=
  cells.map fun c => (c.daughter1, c.daughter2)

/-- The daughter pointers of the cells follow the genealogy `g`: every cell of `g`
is stored at its address and its daughter pointers are the two genealogies below
it.  The records of `g` are not looked at. -/
def Genealogy.Shaped (cells : List (MOMAdata K)) : Genealogy K → Prop
  | .null => True
  | .node i _ d1 d2 =>
    (links cells)[i]? = some (d1.ptr, d2.ptr) ∧ Genealogy.Shaped cells d1 ∧
      Genealogy.Shaped cells d2

/-- The leaves of a genealogy: the cells without daughters, those under
daughter1 before those under daughter2. -/
def Genealogy.leaves : Genealogy K → List Nat
  | .null => []
  | .node i _ .null .null => [i]
  | .node _ _ d1 d2 => d1.leaves ++ d2.leaves

/-- The lines of descent of a genealogy, from its first cell to each leaf: those
through daughter1 before those through daughter2. -/
def Genealogy.paths : Genealogy K → List (List Nat)
  | .null => []
  | .node i _ .null .null => [[i]]
  | .node i _ d1 d2 => (d1.paths ++ d2.paths).map fun path => i :: path

/-- A function for `apply_down_tree` whose `params` is a list of ids: it appends
the id of the cell it is called on. -/
def visit_log (i : Nat) (s : List (MOMAdata K) × List String) :
    List (MOMAdata K) × List String :=
  match s.1[i]? with
  | some c => (s.1, s.2 ++ [c.cell_id])
  | none => s

/-- The genealogy that `six_linked` holds under its root. -/
def six_tree : Genealogy K :=
  .node 0 { read_cell "1" "" [0] [1] [1] with daughter1 := some 1, daughter2 := some 4 }
    (.node 1
      { read_cell "2" "1" [1] [1] [0] with
          parent := some 0, daughter1 := some 2, daughter2 := some 3 }
      (.node 2 { read_cell "3" "2" [2] [0] [1] with parent := some 1 } .null .null)
      (.node 3 { read_cell "4" "2" [2] [1] [1] with parent := some 1 } .null .null))
    (.node 4 { read_cell "5" "1" [1] [0] [0] with parent := some 0, daughter1 := some 5 }
      (.node 5 { read_cell "6" "5" [2] [1] [0] with parent := some 4 } .null .null)
      .null)

/-- The cell at address `i` is a leaf: `is_leaf()` of the cell stored there. -/
def is_leaf_at (cells : List (MOMAdata K)) (i : Nat) : Bool :=
  match cells[i]? with
  | some c => c.is_leaf
  | none => false

/-- The cell at `b` is daughter1 or daughter2 of the cell at `a`. -/
def daughter_link (cells : List (MOMAdata K)) (a b : Nat) : Prop :=
  ∃ ca, cells[a]? = some ca ∧ (ca.daughter1 = some b ∨ ca.daughter2 = some b)

/-! ### The parameters by their position in `all` -/

/-- The 11 keys of the parameter file, in the order of `all`. -/
def parameter_keys : List (List Char) :=
  ["mean_lambda".toList, "gamma_lambda".toList, "var_lambda".toList, "mean_q".toList,
   "gamma_q".toList, "var_q".toList, "beta".toList, "var_x".toList, "var_g".toList,
   "var_dx".toList, "var_dg".toList]

/-- The parameter at position `k` of the 11 members of a `Parameter_set`. -/
def Parameter_set.get (ps : Parameter_set K) : Nat → Parameter K
  | 0 => ps.mean_lambda
  | 1 => ps.gamma_lambda
  | 2 => ps.var_lambda
  | 3 => ps.mean_q
  | 4 => ps.gamma_q
  | 5 => ps.var_q
  | 6 => ps.beta
  | 7 => ps.var_x
  | 8 => ps.var_g
  | 9 => ps.var_dx
  | _ => ps.var_dg

/-- The `Parameter_set` with the member at position `k` replaced by `p`. -/
def Parameter_set.put (ps : Parameter_set K) (k : Nat) (p : Parameter K) : Parameter_set K :=
  match k with
  | 0 => { ps with mean_lambda := p }
  | 1 => { ps with gamma_lambda := p }
  | 2 => { ps with var_lambda := p }
  | 3 => { ps with mean_q := p }
  | 4 => { ps with gamma_q := p }
  | 5 => { ps with var_q := p }
  | 6 => { ps with beta := p }
  | 7 => { ps with var_x := p }
  | 8 => { ps with var_g := p }
  | 9 => { ps with var_dx := p }
  | 10 => { ps with var_dg := p }
  | _ => ps

/-- A stand-in for `std::stod` in the examples: the value of a string of decimal
digits, and `none` for every other string. -/
def stod_digits (s : List Char) : Option K :=
  if s ≠ [] ∧ s.all Char.isDigit then
    some ((s.foldl (fun n ch => 10 * n + (ch.toNat - 48)) 0 : Nat) : K)
  else none

/-- A parameter that is not set, all its numbers 0 and its name empty. -/
def unset_parameter : Parameter K :=
  { set := false, fixed := false, value := 0, step := 0, lower := 0, upper := 0, name := [] }

/-- A `Parameter_set` before a file is read: no parameter is set. -/
def unset_parameters : Parameter_set K :=
  { mean_lambda := unset_parameter, gamma_lambda := unset_parameter,
    var_lambda := unset_parameter, mean_q := unset_parameter, gamma_q := unset_parameter,
    var_q := unset_parameter, beta := unset_parameter, var_x := unset_parameter,
    var_g := unset_parameter, var_dx := unset_parameter, var_dg := unset_parameter, all := [] }

/-! ### The command line -/

/-- The key of the map `arguments` that the flag at position `k` of `keys` writes. -/
def argument_names : List String :=
  ["quit", "infile", "parameter_bounds", "csv_config", "print_level", "outdir", "rel_tol",
   "minimize", "scan", "predict"]

/-- The argument at position `i` is the flag at position `k` of `keys`, in its
short or in its long form. -/
def is_flag (argv : List String) (k i : Nat) : Bool :=
  match argv[i]?, keys[k]? with
  | some arg, some key => arg == key.1 || arg == key.2
  | _, _ => false

/-- What the command line gives for the flag at position `k` of `keys`: the
argument after the last occurrence of the flag among the arguments from position
1 on, or `default` when the flag does not occur. -/
def flag_value (argv : List String) (k : Nat) (default : Option String) : Option String :=
  (List.range' 1 (argv.length - 1)).foldl
    (fun value i => if is_flag argv k i then argv[i + 1]? else value) default

/-- The function `std::stoi` of the standard library (base 10), for the examples:
whitespace at the start is skipped, one sign `+` or `-` may follow, then the
decimal digits are read up to the first character that is not a digit.  The
result is `none` where `std::stoi` throws: without any digit
(`std::invalid_argument`), and for a value outside the range of `int`, from
−2147483648 to 2147483647 (`std::out_of_range`). -/
def stoi_digits (s : String) : Option Int :=
  let unsigned : List Char := match s.data.dropWhile isspace with
    | '-' :: r => r
    | '+' :: r => r
    | r => r
  let negative : Bool := match s.data.dropWhile isspace with
    | '-' :: _ => true
    | _ => false
  let digits : List Char := unsigned.takeWhile Char.isDigit
  let n : Nat := digits.foldl (fun n ch => 10 * n + (ch.toNat - 48)) 0
  let v : Int := if negative then -(n : Int) else (n : Int)
  if digits ≠ [] ∧ (-2147483648 : Int) ≤ v ∧ v ≤ (2147483647 : Int) then some v else none

/-- The map `arguments` after the argument at position `i` is looked at for the
flag at position `k` of `keys`: when it is that flag, the value under the name
of the flag becomes the next argument for the flags that take a value (positions
1 to 6), and "1" for the others. -/
def step_effect (argv : List String) (k i : Nat) (arguments : Arguments) : Arguments :=
  fun name =>
    if is_flag argv k i = true ∧ argument_names[k]? = some name then
      (if 1 ≤ k ∧ k ≤ 6 then argv[i + 1]? else some "1")
    else arguments name

/-- A stand-in for `std::stod` that reads every string: the value of a string of
decimal digits, and 0 for every other string. -/
def stod_lenient (s : List Char) : Option K :=
  some ((stod_digits s).getD 0)

/-! ### Cells that `sc_likelihood` can read -/

/-- Every cell of the vector can be read by `sc_likelihood`: its three
observation sequences have one length and its parent pointer is null or the
address of a cell. -/
def Readable (cells : List (MOMAdata K)) : Prop :=
  ∀ (i : Nat) (c : MOMAdata K), cells[i]? = some c →
    obs_ok c ∧ ∀ p, c.parent = some p → p < cells.length

/-- Two cells before linking: the cell "a" names "b" as its parent, and the cell
"b" after it names itself. -/
def late_own_parent : List (MOMAdata K) :=
  [read_cell "a" "b" [0] [1] [1], read_cell "b" "b" [0] [1] [1]]

/-- The cell at `a` names the cell at `b` as its parent; a cell is its own
ancestor when the transitive closure of this relation relates it to itself. -/
def NamesParent (cells : List (MOMAdata K)) (a b : Nat) : Prop :=
  names_parent cells a b = true

/-- A root cell without daughters, with one observation (time 0, length 1 and
fp 1), initialised with zero mean and zero covariance, over numbers with NaN. -/
def checked_root : MOMAdata (Checked K) where
  cell_id := "0"
  parent_id := ""
  parent := none
  daughter1 := none
  daughter2 := none
  time := [.fin 0]
  length := [.fin 1]
  fp := [.fin 1]
  generation := 0
  mean := 0
  cov := 0

/-- The parameter vector with σ²_x = `var_x` and every other entry 1, over
numbers with NaN. -/
def checked_params (var_x : K) : List (Checked K) :=
  [.fin 1, .fin 1, .fin 1, .fin 1, .fin 1, .fin 1, .fin 1, .fin var_x, .fin 1, .fin 1, .fin 1,
    .fin 1, .fin 1]

end Notions

/-! ## Properties of likelihood.h -/

section LikelihoodProps

variable {K : Type} [Field K]

/-- Over a field, `determinant` is the determinant. -/
theorem determinant_eq_det (S : Matrix (Fin 2) (Fin 2) K) : determinant S = S.det := by
  rw [Matrix.det_fin_two]
  rfl

/-- Over a field, `inverse` is the adjugate divided by the determinant. -/
theorem inverse_eq_adjugate (S : Matrix (Fin 2) (Fin 2) K) :
    inverse S = (S.det)⁻¹ • S.adjugate := by
  rw [inverse, determinant_eq_det, Matrix.adjugate_fin_two]
  ext i j
  fin_cases i <;> fin_cases j <;> simp [div_eq_inv_mul]

omit [Field K] in
theorem block24_zero (m : Matrix (Fin 4) (Fin 4) K) (a : Fin 4) : block24 m 0 a = m 0 a := by
  fin_cases a <;> rfl

omit [Field K] in
theorem block24_one (m : Matrix (Fin 4) (Fin 4) K) (a : Fin 4) : block24 m 1 a = m 1 a := by
  fin_cases a <;> rfl

omit [Field K] in
theorem block22_apply (m : Matrix (Fin 4) (Fin 4) K) :
    block22 m 0 0 = m 0 0 ∧ block22 m 0 1 = m 0 1 ∧ block22 m 1 0 = m 1 0 ∧
      block22 m 1 1 = m 1 1 := ⟨rfl, rfl, rfl, rfl⟩

theorem inverse_eq_inv (S : Matrix (Fin 2) (Fin 2) K) : inverse S = S⁻¹ := by
  rw [inverse_eq_adjugate, Matrix.inv_def, Ring.inverse_eq_inv']

/-- The value of `log_likelihood`, for any field and any `log`. -/
theorem log_likelihood_eq (M : MathFns K) (y : Matrix (Fin 2) (Fin 1) K) (cell : MOMAdata K)
    (var_x var_g : K) :
    log_likelihood M y cell var_x var_g
      = -(1 / 2) * (y.transpose * (obs_cov cell.cov var_x var_g)⁻¹ * y) 0 0
        - (1 / 2) * M.log (obs_cov cell.cov var_x var_g).det - 2 * M.log (2 * M.pi) := by
  simp only [log_likelihood, obs_cov, inverse_eq_inv, determinant_eq_det, Matrix.smul_mul, Matrix.smul_apply,
    smul_eq_mul]

theorem param_getElem? (params_vec : List K) (k : Nat) (h : k < params_vec.length) :
    params_vec[k]? = some (param params_vec k) := by
  simp [param, List.getD_eq_getElem?_getD, h]

@[simp] theorem state_at_time (params_vec : List K) (cell0 : MOMAdata K) (n : Nat) :
    (state_at params_vec cell0 n).time = cell0.time := by
  induction n with
  | zero => rfl
  | succ n ih => simpa [state_at, posterior] using ih

@[simp] theorem state_at_length (params_vec : List K) (cell0 : MOMAdata K) (n : Nat) :
    (state_at params_vec cell0 n).length = cell0.length := by
  induction n with
  | zero => rfl
  | succ n ih => simpa [state_at, posterior] using ih

@[simp] theorem state_at_fp (params_vec : List K) (cell0 : MOMAdata K) (n : Nat) :
    (state_at params_vec cell0 n).fp = cell0.fp := by
  induction n with
  | zero => rfl
  | succ n ih => simpa [state_at, posterior] using ih

@[simp] theorem state_at_parent (params_vec : List K) (cell0 : MOMAdata K) (n : Nat) :
    (state_at params_vec cell0 n).parent = cell0.parent := by
  induction n with
  | zero => rfl
  | succ n ih => simpa [state_at, posterior] using ih

@[simp] theorem state_at_daughter1 (params_vec : List K) (cell0 : MOMAdata K) (n : Nat) :
    (state_at params_vec cell0 n).daughter1 = cell0.daughter1 := by
  induction n with
  | zero => rfl
  | succ n ih => simpa [state_at, posterior] using ih

@[simp] theorem state_at_daughter2 (params_vec : List K) (cell0 : MOMAdata K) (n : Nat) :
    (state_at params_vec cell0 n).daughter2 = cell0.daughter2 := by
  induction n with
  | zero => rfl
  | succ n ih => simpa [state_at, posterior] using ih

/-- The column of `xg` at an index below the number of observations. -/
theorem col_xg (cell0 : MOMAdata K) (h : cell0.length.length = cell0.fp.length) (t : Nat)
    (ht : t < cell0.fp.length) :
    ∃ xg, sc_likelihood_xg cell0 = some xg ∧ col xg t = some (innovation cell0 t) := by
  refine ⟨_, if_pos h, ?_⟩
  have ht' : t < cell0.length.length := h ▸ ht
  simp [col, rowwise_add, innovation, List.getD_eq_getElem?_getD, ht, ht', sub_eq_add_neg]

/-- One pass of the loop, in range. -/
theorem sc_likelihood_step_eq (M : MathFns K) (params_vec : List K) (cell0 : MOMAdata K)
    (h : cell0.length.length = cell0.fp.length) (hp : 13 ≤ params_vec.length)
    (xg : Fin 2 → List K) (hxg : sc_likelihood_xg cell0 = some xg)
    (t : Nat) (ht : t < cell0.fp.length) (s : MOMAdata K × K) :
    sc_likelihood_step M params_vec xg s t
      = some (posterior (innovation cell0 t) s.1 (param params_vec 7) (param params_vec 8),
          s.2 + log_likelihood M (innovation cell0 t) s.1 (param params_vec 7)
            (param params_vec 8)) := by
  obtain ⟨xg', h1, h2⟩ := col_xg cell0 h t ht
  rw [hxg] at h1
  cases h1
  simp [sc_likelihood_step, h2, param_getElem? params_vec 7 (by omega),
    param_getElem? params_vec 8 (by omega)]

theorem sc_likelihood_loop_succ (M : MathFns K) (params_vec : List K) (xg : Fin 2 → List K)
    (n : Nat) (s : MOMAdata K × K) :
    sc_likelihood_loop M params_vec xg (n + 1) s
      = (sc_likelihood_loop M params_vec xg n s).bind
          fun s1 => sc_likelihood_step M params_vec xg s1 n := by
  unfold sc_likelihood_loop
  rw [List.range_succ, List.foldlM_append]
  simp

/-- The loop of `sc_likelihood` run for `n` passes. -/
theorem sc_likelihood_loop_eq (M : MathFns K) (params_vec : List K) (cell0 : MOMAdata K)
    (h : cell0.length.length = cell0.fp.length) (hp : 13 ≤ params_vec.length)
    (xg : Fin 2 → List K) (hxg : sc_likelihood_xg cell0 = some xg) (tl : K)
    (n : Nat) (hn : n ≤ cell0.fp.length) :
    sc_likelihood_loop M params_vec xg n (cell0, tl)
      = some (state_at params_vec cell0 n, tl + partial_contribution M params_vec cell0 n) := by
  induction n with
  | zero => simp [sc_likelihood_loop, state_at, partial_contribution]
  | succ n ih =>
    have ih' := ih (by omega)
    unfold sc_likelihood_loop at ih' ⊢
    rw [List.range_succ, List.foldlM_append, ih']
    simp [sc_likelihood_step_eq M params_vec cell0 h hp xg hxg n (by omega), state_at,
      partial_contribution, Finset.sum_range_succ, add_assoc]

theorem mean_cov_after_division_eq (M : MathFns K) (cells : List (MOMAdata K)) (i p : Nat)
    (c q : MOMAdata K) (var_dx var_dg : K) (hc : cells[i]? = some c)
    (hpar : c.parent = some p) (hq : cells[p]? = some q) :
    mean_cov_after_division M cells i var_dx var_dg
      = some (cells.set i (prior_daughter M var_dx var_dg q c)) := by
  simp [mean_cov_after_division, hc, hpar, hq, prior_daughter]

theorem sc_likelihood_prior_root (M : MathFns K) (params_vec : List K)
    (cells : List (MOMAdata K)) (i : Nat) (c : MOMAdata K) (hc : cells[i]? = some c)
    (hroot : c.parent = none) (hp : 13 ≤ params_vec.length) :
    sc_likelihood_prior M params_vec cells i = some (cells.set i (prior_root params_vec c)) := by
  simp [sc_likelihood_prior, hc, MOMAdata.is_root, hroot, prior_root,
    param_getElem? params_vec 11 (by omega), param_getElem? params_vec 12 (by omega),
    param_getElem? params_vec 0 (by omega), param_getElem? params_vec 3 (by omega),
    param_getElem? params_vec 7 (by omega), param_getElem? params_vec 8 (by omega),
    param_getElem? params_vec 2 (by omega), param_getElem? params_vec 5 (by omega)]

theorem sc_likelihood_prior_daughter (M : MathFns K) (params_vec : List K)
    (cells : List (MOMAdata K)) (i p : Nat) (c q : MOMAdata K) (hc : cells[i]? = some c)
    (hpar : c.parent = some p) (hq : cells[p]? = some q) (hp : 13 ≤ params_vec.length) :
    sc_likelihood_prior M params_vec cells i
      = some (cells.set i
          (prior_daughter M (param params_vec 9) (param params_vec 10) q c)) := by
  simp [sc_likelihood_prior, hc, MOMAdata.is_root, hpar,
    param_getElem? params_vec 9 (by omega), param_getElem? params_vec 10 (by omega),
    mean_cov_after_division_eq M cells i p c q _ _ hc hpar hq]

/-- The whole of `sc_likelihood`, once the prior is known. -/
theorem sc_likelihood_of_prior (M : MathFns K) (params_vec : List K)
    (cells cells1 : List (MOMAdata K)) (i : Nat) (c0 : MOMAdata K)
    (h1 : sc_likelihood_prior M params_vec cells i = some cells1)
    (h2 : cells1[i]? = some c0) (hobs : obs_ok c0) (hp : 13 ≤ params_vec.length) (tl : K) :
    sc_likelihood M params_vec cells i tl
      = some (cells1.set i (final_state params_vec c0),
          tl + contribution M params_vec c0) := by
  have hxg : sc_likelihood_xg c0 = some _ := if_pos hobs.1
  simp [sc_likelihood, h1, h2, hxg,
    sc_likelihood_loop_eq M params_vec c0 hobs.1 hp _ hxg tl c0.time.length (le_of_eq hobs.2),
    final_state, contribution]

/-- Function `sc_likelihood` on a cell whose parent, if any, is in the state `par`. -/
theorem sc_likelihood_eq (M : MathFns K) (params_vec : List K) (cells : List (MOMAdata K))
    (i : Nat) (c : MOMAdata K) (par : Option (MOMAdata K)) (hc : cells[i]? = some c)
    (hobs : obs_ok c) (hp : 13 ≤ params_vec.length)
    (hpar : c.parent.bind (fun p => cells[p]?) = par) (hsome : c.parent.isSome = par.isSome)
    (tl : K) :
    sc_likelihood M params_vec cells i tl
      = some (cells.set i (final_state params_vec (cell_prior M params_vec par c)),
          tl + contribution M params_vec (cell_prior M params_vec par c)) := by
  have hi : i < cells.length := by
    by_contra hlt
    rw [List.getElem?_eq_none (by omega)] at hc
    cases hc
  cases hcp : c.parent with
  | none =>
    rw [hcp] at hpar hsome
    cases par with
    | some q => simp at hsome
    | none =>
      have h1 := sc_likelihood_prior_root M params_vec cells i c hc hcp hp
      have h2 : (cells.set i (prior_root params_vec c))[i]? = some (prior_root params_vec c) := by
        simp [hi]
      rw [sc_likelihood_of_prior M params_vec cells _ i _ h1 h2 hobs hp tl, List.set_set]
      rfl
  | some p =>
    rw [hcp] at hpar hsome
    cases par with
    | none => simp at hsome
    | some q =>
      have hq : cells[p]? = some q := by simpa using hpar
      have h1 := sc_likelihood_prior_daughter M params_vec cells i p c q hc hcp hq hp
      have h2 : (cells.set i (prior_daughter M (param params_vec 9) (param params_vec 10) q c))[i]?
          = some (prior_daughter M (param params_vec 9) (param params_vec 10) q c) := by
        simp [hi]
      rw [sc_likelihood_of_prior M params_vec cells _ i _ h1 h2 hobs hp tl, List.set_set]
      rfl

omit [Field K] in
@[simp] theorem setCoeff_apply {m n : Nat} (A : Matrix (Fin m) (Fin n) K) (i : Fin m)
    (j : Fin n) (v : K) (a : Fin m) (b : Fin n) :
    setCoeff A i j v a b = if a = i ∧ b = j then v else A a b := rfl

@[simp] theorem posterior_parent (y : Matrix (Fin 2) (Fin 1) K) (c : MOMAdata K) (vx vg : K) :
    (posterior y c vx vg).parent = c.parent := rfl

@[simp] theorem posterior_daughter1 (y : Matrix (Fin 2) (Fin 1) K) (c : MOMAdata K)
    (vx vg : K) : (posterior y c vx vg).daughter1 = c.daughter1 := rfl

@[simp] theorem posterior_daughter2 (y : Matrix (Fin 2) (Fin 1) K) (c : MOMAdata K)
    (vx vg : K) : (posterior y c vx vg).daughter2 = c.daughter2 := rfl

theorem prior_root_mean (params_vec : List K) (cell : MOMAdata K) :
    (prior_root params_vec cell).mean
      = !![param params_vec 11; param params_vec 12; param params_vec 0; param params_vec 3] := by
  ext a b
  fin_cases a <;> fin_cases b <;> simp [prior_root]

/-- With fuel, `likelihood_recr` on a cell runs `sc_likelihood` and then the two
daughters. -/
theorem likelihood_recr_succ (M : MathFns K) (params_vec : List K) (fuel i : Nat)
    (cells : List (MOMAdata K)) (tl : K) :
    likelihood_recr M params_vec (fuel + 1) (some i) cells tl
      = (sc_likelihood M params_vec cells i tl).bind fun r1 =>
          (r1.1[i]?).bind fun c1 =>
            (likelihood_recr M params_vec fuel c1.daughter1 r1.1 r1.2).bind fun r2 =>
              (r2.1[i]?).bind fun c2 =>
                likelihood_recr M params_vec fuel c2.daughter2 r2.1 r2.2 := rfl

@[simp] theorem likelihood_recr_null (M : MathFns K) (params_vec : List K) (fuel : Nat)
    (cells : List (MOMAdata K)) (tl : K) :
    likelihood_recr M params_vec fuel none cells tl = some (cells, tl) := by
  cases fuel <;> rfl

/-- A root without daughters and with one observation equal to its prior mean. -/
theorem total_likelihood_single (M : MathFns K) (params_vec grad : List K)
    (cells : List (MOMAdata K)) (c : Nat) (cell : MOMAdata K) (fuel : Nat) (t0 : K)
    (hp : 13 ≤ params_vec.length) (hc : cells[c]? = some cell) (hroot : cell.parent = none)
    (hd1 : cell.daughter1 = none) (hd2 : cell.daughter2 = none) (htime : cell.time = [t0])
    (hlen : cell.length = [param params_vec 11]) (hfp : cell.fp = [param params_vec 12])
    (hfuel : 1 ≤ fuel) :
    (total_likelihood M fuel params_vec grad cells (some c)).map Prod.snd
      = some (-(1 / 2) * M.log (obs_cov (prior_root params_vec cell).cov (param params_vec 7)
          (param params_vec 8)).det - 2 * M.log (2 * M.pi)) := by
  obtain ⟨k, rfl⟩ : ∃ k, fuel = k + 1 := ⟨fuel - 1, by omega⟩
  have hobs : obs_ok cell := by simp [obs_ok, htime, hlen, hfp]
  have hi : c < cells.length := by
    by_contra hlt
    rw [List.getElem?_eq_none (by omega)] at hc
    cases hc
  have hy : innovation (prior_root params_vec cell) 0 = 0 := by
    ext a b
    fin_cases a <;> fin_cases b <;>
      simp [innovation, prior_root_mean, show (prior_root params_vec cell).length = cell.length
        from rfl, show (prior_root params_vec cell).fp = cell.fp from rfl, hlen, hfp]
  have hT : (prior_root params_vec cell).time.length = 1 := by
    simp [show (prior_root params_vec cell).time = cell.time from rfl, htime]
  rw [total_likelihood, likelihood_recr_succ,
    sc_likelihood_eq M params_vec cells c cell none hc hobs hp (by simp [hroot])
      (by simp [hroot]) 0]
  simp [hi, final_state, cell_prior, show (prior_root params_vec cell).daughter1 = none from hd1,
    show (prior_root params_vec cell).daughter2 = none from hd2, contribution,
    partial_contribution, hT, Finset.sum_range_one, state_at, hy, log_likelihood_eq]

end LikelihoodProps

/-! ## Properties of mean_cov_model.h -/

section MeanCovModelProps

variable {K : Type} [Field K]

/-- The first coefficient of the mean written by `mean_cov_model` is `mean_x`. -/
theorem mean_cov_model_mean_x (M : MathFns K) (cell : MOMAdata K)
    (t ml gl sl2 mq gq sq2 b : K) :
    (mean_cov_model M cell t ml gl sl2 mq gq sq2 b).mean 0 0
      = mean_x M t (cell.mean 0 0) (cell.mean 1 0) (cell.mean 2 0) (cell.mean 3 0)
          (cell.cov 0 0) (cell.cov 0 1) (cell.cov 0 2) (cell.cov 0 3) (cell.cov 1 1)
          (cell.cov 1 2) (cell.cov 1 3) (cell.cov 2 2) (cell.cov 2 3) (cell.cov 3 3)
          ml gl sl2 mq gq sq2 b := rfl

end MeanCovModelProps

/-! ## The constant of `log_likelihood` (C1, C2) -/

section Constant

theorem log_two_pi_pos : 0 < Real.log (2 * Real.pi) :=
  Real.log_pos (by linarith [Real.pi_gt_three])

theorem obs_cov_mul_inv (cov : Matrix (Fin 4) (Fin 4) ℝ) (var_x var_g : ℝ)
    (hS : 0 < (obs_cov cov var_x var_g).det) :
    obs_cov cov var_x var_g * (obs_cov cov var_x var_g)⁻¹ = 1 :=
  Matrix.mul_nonsing_inv _ (isUnit_iff_ne_zero.mpr hS.ne')

/-- C2: for every cell covariance Σ, innovation y and observation variances with
det S > 0, where S = Σ[0:2,0:2] + diag(σ²_x, σ²_g), the matrix S has the inverse
S⁻¹ and `log_likelihood` returns −½·yᵀS⁻¹y − ½·log det S − 2·log(2π). -/
theorem log_likelihood_subtracts_twice_log_two_pi (cell : MOMAdata ℝ)
    (y : Matrix (Fin 2) (Fin 1) ℝ) (var_x var_g : ℝ)
    (hS : 0 < (obs_cov cell.cov var_x var_g).det) :
    obs_cov cell.cov var_x var_g * (obs_cov cell.cov var_x var_g)⁻¹ = 1 ∧
    log_likelihood realFns y cell var_x var_g
      = -(1 / 2) * (y.transpose * (obs_cov cell.cov var_x var_g)⁻¹ * y) 0 0
        - (1 / 2) * Real.log (obs_cov cell.cov var_x var_g).det
        - 2 * Real.log (2 * Real.pi) :=
  ⟨obs_cov_mul_inv cell.cov var_x var_g hS, log_likelihood_eq realFns y cell var_x var_g⟩

theorem obs_cov_one_det : (obs_cov (bare_cell 0 1 : MOMAdata ℝ).cov 1 1).det = 4 := by
  simp [obs_cov, block22, bare_cell, Matrix.det_fin_two]
  norm_num

/-- C2 at the cell with identity covariance, y = (1, 2) and σ²_x = σ²_g = 1. -/
theorem log_likelihood_subtracts_twice_log_two_pi_witness :
    obs_cov (bare_cell 0 1 : MOMAdata ℝ).cov 1 1
        * (obs_cov (bare_cell 0 1 : MOMAdata ℝ).cov 1 1)⁻¹ = 1 ∧
    log_likelihood realFns !![1; 2] (bare_cell 0 1) 1 1
      = -(1 / 2) * ((!![1; 2] : Matrix (Fin 2) (Fin 1) ℝ).transpose
          * (obs_cov (bare_cell 0 1 : MOMAdata ℝ).cov 1 1)⁻¹
            * (!![1; 2] : Matrix (Fin 2) (Fin 1) ℝ)) 0 0
        - (1 / 2) * Real.log (obs_cov (bare_cell 0 1 : MOMAdata ℝ).cov 1 1).det
        - 2 * Real.log (2 * Real.pi) :=
  log_likelihood_subtracts_twice_log_two_pi (bare_cell 0 1) !![1; 2] 1 1
    (by rw [obs_cov_one_det]; norm_num)

theorem obs_cov_zero_det : (obs_cov (bare_cell 0 0 : MOMAdata ℝ).cov 1 1).det = 1 := by
  simp [obs_cov, block22, bare_cell, Matrix.det_fin_two]

/-- C1 fails as stated: for the zero covariance, y = 0 and σ²_x = σ²_g = 1 the
matrix S is the identity, det S = 1 > 0, and `log_likelihood` returns
−2·log(2π), which is not −½·yᵀS⁻¹y − ½·log det S − log(2π) = −log(2π). -/
theorem log_likelihood_not_once_log_two_pi :
    0 < (obs_cov (bare_cell 0 0 : MOMAdata ℝ).cov 1 1).det ∧
    log_likelihood realFns 0 (bare_cell 0 0) 1 1 = -2 * Real.log (2 * Real.pi) ∧
    log_likelihood realFns 0 (bare_cell 0 0) 1 1
      ≠ -(1 / 2) * ((0 : Matrix (Fin 2) (Fin 1) ℝ).transpose
          * (obs_cov (bare_cell 0 0 : MOMAdata ℝ).cov 1 1)⁻¹
            * (0 : Matrix (Fin 2) (Fin 1) ℝ)) 0 0
        - (1 / 2) * Real.log (obs_cov (bare_cell 0 0 : MOMAdata ℝ).cov 1 1).det
        - Real.log (2 * Real.pi) := by
  have h := log_two_pi_pos
  have hv : log_likelihood realFns 0 (bare_cell 0 0) 1 1 = -2 * Real.log (2 * Real.pi) := by
    rw [log_likelihood_eq, obs_cov_zero_det]
    simp [realFns]
  refine ⟨by rw [obs_cov_zero_det]; norm_num, hv, ?_⟩
  rw [hv, obs_cov_zero_det]
  simp only [Matrix.mul_zero, Matrix.zero_apply, Real.log_one, mul_zero, sub_zero, zero_sub]
  intro h2
  linarith

/-- C1 as amended: the constant is 2·log(2π).  For every Σ, y, σ²_x, σ²_g with
det S > 0, `log_likelihood` returns −½·yᵀS⁻¹y − ½·log det S − 2·log(2π); and for
a root cell without daughters that has one observation, equal to its prior mean
(params_vec[11], params_vec[12]), `total_likelihood` returns
−½·log det S − 2·log(2π), S being taken at the root's prior covariance. -/
theorem log_likelihood_and_single_root :
    (∀ (cell : MOMAdata ℝ) (y : Matrix (Fin 2) (Fin 1) ℝ) (var_x var_g : ℝ),
      0 < (obs_cov cell.cov var_x var_g).det →
      obs_cov cell.cov var_x var_g * (obs_cov cell.cov var_x var_g)⁻¹ = 1 ∧
      log_likelihood realFns y cell var_x var_g
        = -(1 / 2) * (y.transpose * (obs_cov cell.cov var_x var_g)⁻¹ * y) 0 0
          - (1 / 2) * Real.log (obs_cov cell.cov var_x var_g).det
          - 2 * Real.log (2 * Real.pi)) ∧
    (∀ (params_vec grad : List ℝ) (cells : List (MOMAdata ℝ)) (c : Nat) (cell : MOMAdata ℝ)
        (fuel : Nat) (t0 : ℝ),
      13 ≤ params_vec.length → cells[c]? = some cell → cell.parent = none →
      cell.daughter1 = none → cell.daughter2 = none → cell.time = [t0] →
      cell.length = [param params_vec 11] → cell.fp = [param params_vec 12] → 1 ≤ fuel →
      (total_likelihood realFns fuel params_vec grad cells (some c)).map Prod.snd
        = some (-(1 / 2) * Real.log (obs_cov (prior_root params_vec cell).cov
            (param params_vec 7) (param params_vec 8)).det - 2 * Real.log (2 * Real.pi))) :=
  ⟨fun cell y var_x var_g hS =>
      ⟨obs_cov_mul_inv cell.cov var_x var_g hS, log_likelihood_eq realFns y cell var_x var_g⟩,
    fun params_vec grad cells c cell fuel t0 hp hc hroot hd1 hd2 htime hlen hfp hfuel =>
      total_likelihood_single realFns params_vec grad cells c cell fuel t0 hp hc hroot hd1 hd2
        htime hlen hfp hfuel⟩

/-- C1 as amended, at the identity covariance with y = (1, 2), and at the root
`lone_root [0] [0] [0] 0` under `unit_params`. -/
theorem log_likelihood_and_single_root_witness :
    (obs_cov (bare_cell 0 1 : MOMAdata ℝ).cov 1 1
        * (obs_cov (bare_cell 0 1 : MOMAdata ℝ).cov 1 1)⁻¹ = 1 ∧
      log_likelihood realFns !![1; 2] (bare_cell 0 1) 1 1
        = -(1 / 2) * ((!![1; 2] : Matrix (Fin 2) (Fin 1) ℝ).transpose
            * (obs_cov (bare_cell 0 1 : MOMAdata ℝ).cov 1 1)⁻¹
            * (!![1; 2] : Matrix (Fin 2) (Fin 1) ℝ)) 0 0
          - (1 / 2) * Real.log (obs_cov (bare_cell 0 1 : MOMAdata ℝ).cov 1 1).det
          - 2 * Real.log (2 * Real.pi)) ∧
    (total_likelihood realFns 1 unit_params [] [lone_root [0] [0] [0] 0] (some 0)).map Prod.snd
      = some (-(1 / 2) * Real.log (obs_cov (prior_root unit_params
            (lone_root [0] [0] [0] (0 : Matrix (Fin 4) (Fin 4) ℝ))).cov
          (param unit_params 7) (param unit_params 8)).det - 2 * Real.log (2 * Real.pi)) :=
  ⟨log_likelihood_and_single_root.1 (bare_cell 0 1) !![1; 2] 1 1
      (by rw [obs_cov_one_det]; norm_num),
    log_likelihood_and_single_root.2 unit_params [] [lone_root [0] [0] [0] 0] 0
      (lone_root [0] [0] [0] 0) 1 0 (by simp [unit_params]) rfl rfl rfl rfl rfl
      (by simp [lone_root, param, unit_params]) (by simp [lone_root, param, unit_params])
      le_rfl⟩

end Constant

/-! ## The loop of `sc_likelihood` (C3, C4) -/

section Loop

variable {K : Type} [Field K]

/-- What pass `t` of the loop hands to `log_likelihood` and `posterior`: the
observation minus the mean the cell had before the loop, whatever the running
state `s` is. -/
theorem sc_likelihood_innovation (M : MathFns K) (params_vec : List K)
    (cell0 : MOMAdata K) (hobs : obs_ok cell0) (hp : 13 ≤ params_vec.length) (t : Nat)
    (ht : t < cell0.time.length) :
    ∃ xg, sc_likelihood_xg cell0 = some xg ∧
      col xg t = some !![cell0.length.getD t 0 - cell0.mean 0 0;
                         cell0.fp.getD t 0 - cell0.mean 1 0] ∧
      ∀ s : MOMAdata K × K, sc_likelihood_step M params_vec xg s t
        = some (posterior !![cell0.length.getD t 0 - cell0.mean 0 0;
                             cell0.fp.getD t 0 - cell0.mean 1 0] s.1
                  (param params_vec 7) (param params_vec 8),
                s.2 + log_likelihood M !![cell0.length.getD t 0 - cell0.mean 0 0;
                                         cell0.fp.getD t 0 - cell0.mean 1 0] s.1
                  (param params_vec 7) (param params_vec 8)) := by
  have ht' : t < cell0.fp.length := hobs.2 ▸ ht
  obtain ⟨xg, h1, h2⟩ := col_xg cell0 hobs.1 t ht'
  exact ⟨xg, h1, h2, fun s => sc_likelihood_step_eq M params_vec cell0 hobs.1 hp xg h1 t ht' s⟩


/-- C3 as amended: in `sc_likelihood`, for every cell with T ≥ 1 observations
and every index t < T, the innovation handed to `log_likelihood` and `posterior`
at step t is (length[t] − μ_x, fp[t] − μ_g) where μ is the mean the cell has
before its first observation (the post-division or root prior `cell0.mean`),
for t = 0 and for t ≥ 1 alike, whatever the running state `s` of the loop is;
at t = 0 the running state is `cell0` itself. -/
theorem sc_likelihood_innovation_against_prior_mean (M : MathFns K) (params_vec : List K)
    (cell0 : MOMAdata K) (hobs : obs_ok cell0) (hp : 13 ≤ params_vec.length) (t : Nat)
    (ht : t < cell0.time.length) :
    ∃ xg, sc_likelihood_xg cell0 = some xg ∧
      (∀ tl : K, sc_likelihood_loop M params_vec xg 0 (cell0, tl) = some (cell0, tl)) ∧
      col xg t = some !![cell0.length.getD t 0 - cell0.mean 0 0;
                         cell0.fp.getD t 0 - cell0.mean 1 0] ∧
      ∀ s : MOMAdata K × K, sc_likelihood_step M params_vec xg s t
        = some (posterior !![cell0.length.getD t 0 - cell0.mean 0 0;
                             cell0.fp.getD t 0 - cell0.mean 1 0] s.1
                  (param params_vec 7) (param params_vec 8),
                s.2 + log_likelihood M !![cell0.length.getD t 0 - cell0.mean 0 0;
                                         cell0.fp.getD t 0 - cell0.mean 1 0] s.1
                  (param params_vec 7) (param params_vec 8)) := by
  obtain ⟨xg, h1, h2, h3⟩ := sc_likelihood_innovation M params_vec cell0 hobs hp t ht
  exact ⟨xg, h1, fun tl => rfl, h2, h3⟩

/-- C4 as amended: in `sc_likelihood`, for every cell with T ≥ 2 observations and
every t < T−1, the (mean, cov) on which the update at index t+1 is applied is the
one `posterior` wrote at index t, unchanged: `mean_cov_model` is not applied
between two observations (`s` is the state before index t, and pass t+1 of the
loop runs on `posterior y s.1 …`); and no propagation follows the last
observation: the cell `sc_likelihood` leaves is the one `posterior` wrote at
index T−1. -/
theorem sc_likelihood_no_propagation (M : MathFns K) (params_vec : List K)
    (cell0 : MOMAdata K) (hobs : obs_ok cell0) (hp : 13 ≤ params_vec.length) (tl : K)
    (t : Nat) (ht : t + 1 < cell0.time.length) :
    ∃ xg, sc_likelihood_xg cell0 = some xg ∧
      (∃ s y, sc_likelihood_loop M params_vec xg t (cell0, tl) = some s ∧
        col xg t = some y ∧
        sc_likelihood_loop M params_vec xg (t + 1) (cell0, tl)
          = some (posterior y s.1 (param params_vec 7) (param params_vec 8),
                  s.2 + log_likelihood M y s.1 (param params_vec 7) (param params_vec 8)) ∧
        sc_likelihood_loop M params_vec xg (t + 2) (cell0, tl)
          = sc_likelihood_step M params_vec xg
              (posterior y s.1 (param params_vec 7) (param params_vec 8),
               s.2 + log_likelihood M y s.1 (param params_vec 7) (param params_vec 8))
              (t + 1)) ∧
      ∃ s y, sc_likelihood_loop M params_vec xg (cell0.time.length - 1) (cell0, tl) = some s ∧
        col xg (cell0.time.length - 1) = some y ∧
        ∀ (cells cells1 : List (MOMAdata K)) (i : Nat),
          sc_likelihood_prior M params_vec cells i = some cells1 → cells1[i]? = some cell0 →
          sc_likelihood M params_vec cells i tl
            = some (cells1.set i (posterior y s.1 (param params_vec 7) (param params_vec 8)),
                s.2 + log_likelihood M y s.1 (param params_vec 7) (param params_vec 8)) := by
  have hT : cell0.time.length = cell0.fp.length := hobs.2
  obtain ⟨xg, h1, h2⟩ := col_xg cell0 hobs.1 t (by omega)
  have e1 := sc_likelihood_loop_eq M params_vec cell0 hobs.1 hp xg h1 tl t (by omega)
  have e2 := sc_likelihood_loop_eq M params_vec cell0 hobs.1 hp xg h1 tl (t + 1) (by omega)
  refine ⟨xg, h1, ⟨_, _, e1, h2, ?_, ?_⟩, ?_⟩
  · rw [e2]
    simp [state_at, partial_contribution, Finset.sum_range_succ, add_assoc]
  · rw [show t + 2 = (t + 1) + 1 from rfl, sc_likelihood_loop_succ, e2]
    simp [state_at, partial_contribution, Finset.sum_range_succ, add_assoc]
  · obtain ⟨n, hn⟩ : ∃ n, cell0.time.length = n + 1 := ⟨cell0.time.length - 1, by omega⟩
    obtain ⟨xg1, k1, k2⟩ := col_xg cell0 hobs.1 n (by omega)
    rw [h1] at k1
    cases k1
    have e3 := sc_likelihood_loop_eq M params_vec cell0 hobs.1 hp xg h1 tl n (by omega)
    rw [hn, Nat.add_sub_cancel]
    refine ⟨_, _, e3, k2, fun cells cells1 i hpr hc => ?_⟩
    rw [sc_likelihood_of_prior M params_vec cells cells1 i cell0 hpr hc hobs hp tl,
      final_state, contribution, hn]
    simp [state_at, partial_contribution, Finset.sum_range_succ, add_assoc]

end Loop


/-! ### Concrete runs of the loop -/

section LoopRuns

theorem root_seen_twice_obs : obs_ok (root_seen_twice : MOMAdata ℝ) := by
  simp [obs_ok, root_seen_twice, prior_root, lone_root]

theorem root_at_rest_obs : obs_ok (root_at_rest : MOMAdata ℝ) := by
  simp [obs_ok, root_at_rest, prior_root, lone_root]

theorem unit_params_length : 13 ≤ (unit_params : List ℝ).length := by
  simp [unit_params]

/-- The mean of `root_seen_twice` after its first observation. -/
theorem root_seen_twice_mean_one :
    (state_at unit_params (root_seen_twice : MOMAdata ℝ) 1).mean = !![1; 0; 1; 0] := by
  ext a b
  fin_cases a <;> fin_cases b <;>
    simp [state_at, posterior, innovation, inverse_eq_adjugate, block22, block24, prior_root, param,
      unit_params, lone_root, root_seen_twice, Matrix.mul_apply, Fin.sum_univ_two,
      Matrix.det_fin_two, Matrix.adjugate_fin_two]
  norm_num

/-- The mean of `root_at_rest` after its first observation. -/
theorem root_at_rest_mean_one :
    (state_at unit_params (root_at_rest : MOMAdata ℝ) 1).mean = !![0; 0; 1; 0] := by
  ext a b
  fin_cases a <;> fin_cases b <;>
    simp [state_at, posterior, innovation, inverse_eq_adjugate, block22, block24, prior_root, param,
      unit_params, lone_root, root_at_rest, Matrix.mul_apply, Fin.sum_univ_two,
      Matrix.det_fin_two, Matrix.adjugate_fin_two]

/-- C3 fails as stated: for the root `root_seen_twice` (prior mean of x and g
0, both observations (2, 0), var_x = var_g = 1) the first update moves the mean
of x to 1, so at step 1 the current mean is (1, 0) and observation minus current
mean is (1, 0); the column handed to `log_likelihood` and `posterior` at step 1
is (2, 0), the observation minus the prior mean. -/
theorem sc_likelihood_innovation_not_current_mean :
    sc_likelihood_prior realFns unit_params [lone_root [0, 1] [2, 2] [0, 0] 0] 0
      = some [root_seen_twice] ∧
    ∃ xg s, sc_likelihood_xg (root_seen_twice : MOMAdata ℝ) = some xg ∧
      sc_likelihood_loop realFns unit_params xg 1 (root_seen_twice, 0) = some s ∧
      s.1.mean 0 0 = 1 ∧ s.1.mean 1 0 = 0 ∧
      col xg 1 = some !![2; 0] ∧
      col xg 1 ≠ some !![root_seen_twice.length.getD 1 0 - s.1.mean 0 0;
                          root_seen_twice.fp.getD 1 0 - s.1.mean 1 0] := by
  obtain ⟨xg, h1, h2⟩ := col_xg root_seen_twice root_seen_twice_obs.1 1
    (by simp [root_seen_twice, prior_root, lone_root])
  have e1 := sc_likelihood_loop_eq realFns unit_params root_seen_twice root_seen_twice_obs.1
    unit_params_length xg h1 0 1 (by simp [root_seen_twice, prior_root, lone_root])
  have hy : innovation (root_seen_twice : MOMAdata ℝ) 1 = !![2; 0] := by
    ext a b
    fin_cases a <;> fin_cases b <;>
      simp [innovation, root_seen_twice, prior_root, lone_root, param, unit_params]
  refine ⟨sc_likelihood_prior_root realFns unit_params _ 0 _ rfl rfl unit_params_length,
    xg, _, h1, e1, ?_, ?_, ?_, ?_⟩
  · simp [root_seen_twice_mean_one]
  · simp [root_seen_twice_mean_one]
  · rw [h2, hy]
  · rw [h2, hy]
    simp only [root_seen_twice_mean_one]
    intro h
    have h00 := congrFun (congrFun (Option.some.inj h) 0) 0
    simp [root_seen_twice, prior_root, lone_root] at h00
    norm_num at h00

/-- C3 as amended, at `root_seen_twice` and t = 1. -/
theorem sc_likelihood_innovation_against_prior_mean_witness :
    ∃ xg, sc_likelihood_xg (root_seen_twice : MOMAdata ℝ) = some xg ∧
      (∀ tl : ℝ, sc_likelihood_loop realFns unit_params xg 0 (root_seen_twice, tl)
        = some (root_seen_twice, tl)) ∧
      col xg 1 = some !![(root_seen_twice : MOMAdata ℝ).length.getD 1 0
                            - (root_seen_twice : MOMAdata ℝ).mean 0 0;
                         (root_seen_twice : MOMAdata ℝ).fp.getD 1 0
                            - (root_seen_twice : MOMAdata ℝ).mean 1 0] ∧
      ∀ s : MOMAdata ℝ × ℝ, sc_likelihood_step realFns unit_params xg s 1
        = some (posterior !![(root_seen_twice : MOMAdata ℝ).length.getD 1 0
                                - (root_seen_twice : MOMAdata ℝ).mean 0 0;
                             (root_seen_twice : MOMAdata ℝ).fp.getD 1 0
                                - (root_seen_twice : MOMAdata ℝ).mean 1 0] s.1
                  (param unit_params 7) (param unit_params 8),
                s.2 + log_likelihood realFns
                  !![(root_seen_twice : MOMAdata ℝ).length.getD 1 0
                        - (root_seen_twice : MOMAdata ℝ).mean 0 0;
                     (root_seen_twice : MOMAdata ℝ).fp.getD 1 0
                        - (root_seen_twice : MOMAdata ℝ).mean 1 0] s.1
                  (param unit_params 7) (param unit_params 8)) :=
  sc_likelihood_innovation_against_prior_mean realFns unit_params root_seen_twice
    root_seen_twice_obs unit_params_length 1 (by simp [root_seen_twice, prior_root, lone_root])

/-- C4 fails as stated: for the root `root_at_rest` (observed at times 0 and 1,
mean_lambda = 1) the state `s` written by `posterior` at index 0 has mean of x
equal to 0, `mean_cov_model` with Δt = time[1] − time[0] would move it to 1, and
the update at index 1 is applied to `s` itself. -/
theorem sc_likelihood_skips_mean_cov_model :
    sc_likelihood_prior realFns unit_params [lone_root [0, 1] [0, 0] [0, 0] 0] 0
      = some [root_at_rest] ∧
    ∃ xg s, sc_likelihood_xg (root_at_rest : MOMAdata ℝ) = some xg ∧
      sc_likelihood_loop realFns unit_params xg 1 (root_at_rest, 0) = some s ∧
      sc_likelihood_loop realFns unit_params xg 2 (root_at_rest, 0)
        = sc_likelihood_step realFns unit_params xg s 1 ∧
      s.1.mean 0 0 = 0 ∧
      (mean_cov_model realFns s.1
        ((root_at_rest : MOMAdata ℝ).time.getD 1 0 - (root_at_rest : MOMAdata ℝ).time.getD 0 0)
        (param unit_params 0) (param unit_params 1) (param unit_params 2)
        (param unit_params 3) (param unit_params 4) (param unit_params 5)
        (param unit_params 6)).mean 0 0 = 1 := by
  obtain ⟨xg, h1, -⟩ := col_xg (root_at_rest : MOMAdata ℝ) root_at_rest_obs.1 0
    (by simp [root_at_rest, prior_root, lone_root])
  have e1 := sc_likelihood_loop_eq realFns unit_params root_at_rest root_at_rest_obs.1
    unit_params_length xg h1 0 1 (by simp [root_at_rest, prior_root, lone_root])
  refine ⟨sc_likelihood_prior_root realFns unit_params _ 0 _ rfl rfl unit_params_length,
    xg, _, h1, e1, ?_, ?_, ?_⟩
  · rw [sc_likelihood_loop_succ, e1]
    rfl
  · simp [root_at_rest_mean_one]
  · have ht : (root_at_rest : MOMAdata ℝ).time = [0, 1] := rfl
    rw [mean_cov_model_mean_x]
    simp only [root_at_rest_mean_one, ht]
    simp [mean_x, param, unit_params]

/-- C4 as amended, at `root_at_rest` and t = 0. -/
theorem sc_likelihood_no_propagation_witness :
    ∃ xg, sc_likelihood_xg (root_at_rest : MOMAdata ℝ) = some xg ∧
      (∃ s y, sc_likelihood_loop realFns unit_params xg 0 (root_at_rest, 0) = some s ∧
        col xg 0 = some y ∧
        sc_likelihood_loop realFns unit_params xg (0 + 1) (root_at_rest, 0)
          = some (posterior y s.1 (param unit_params 7) (param unit_params 8),
                  s.2 + log_likelihood realFns y s.1 (param unit_params 7)
                    (param unit_params 8)) ∧
        sc_likelihood_loop realFns unit_params xg (0 + 2) (root_at_rest, 0)
          = sc_likelihood_step realFns unit_params xg
              (posterior y s.1 (param unit_params 7) (param unit_params 8),
               s.2 + log_likelihood realFns y s.1 (param unit_params 7)
                 (param unit_params 8))
              (0 + 1)) ∧
      ∃ s y, sc_likelihood_loop realFns unit_params xg
          ((root_at_rest : MOMAdata ℝ).time.length - 1) (root_at_rest, 0) = some s ∧
        col xg ((root_at_rest : MOMAdata ℝ).time.length - 1) = some y ∧
        ∀ (cells cells1 : List (MOMAdata ℝ)) (i : Nat),
          sc_likelihood_prior realFns unit_params cells i = some cells1 →
          cells1[i]? = some root_at_rest →
          sc_likelihood realFns unit_params cells i 0
            = some (cells1.set i (posterior y s.1 (param unit_params 7) (param unit_params 8)),
                s.2 + log_likelihood realFns y s.1 (param unit_params 7)
                  (param unit_params 8)) :=
  sc_likelihood_no_propagation realFns unit_params root_at_rest root_at_rest_obs
    unit_params_length 0 0 (by simp [root_at_rest, prior_root, lone_root])

end LoopRuns

/-! ## The prior of a cell (C5, C6) -/

section Prior

variable {K : Type} [Field K]

theorem prior_daughter_mean (M : MathFns K) (var_dx var_dg : K) (q c : MOMAdata K) :
    (prior_daughter M var_dx var_dg q c).mean
      = !![q.mean 0 0 - M.log 2; q.mean 1 0 / 2; q.mean 2 0; q.mean 3 0] := by
  ext a b
  fin_cases a <;> fin_cases b <;>
    simp [prior_daughter, Matrix.mul_apply, Fin.sum_univ_four, Matrix.one_apply,
      sub_eq_add_neg, Matrix.vecHead, Matrix.vecTail]
  ring

theorem prior_daughter_cov (M : MathFns K) (var_dx var_dg : K) (q c : MOMAdata K)
    (a b : Fin 4) :
    (prior_daughter M var_dx var_dg q c).cov a b
      = ![1, 1 / 2, 1, 1] a * ![1, 1 / 2, 1, 1] b * q.cov a b
        + Matrix.diagonal ![var_dx, var_dg, 0, 0] a b := by
  fin_cases a <;> fin_cases b <;>
    simp [prior_daughter, Matrix.mul_apply, Fin.sum_univ_four, Matrix.one_apply] <;> ring

/-- C5 as amended: for every non-root cell (address i) whose parent (address p)
holds (μp, Σp) = (q.mean, q.cov) before the call, and all var_dx, var_dg,
`mean_cov_after_division` sets cell.mean = (μp_x − log 2, μp_g/2, μp_λ, μp_q) and
cell.cov[a][b] = F_a·F_b·Σp[a][b] + D[a][b] with F = (1, ½, 1, 1) and
D = diag(var_dx, var_dg, 0, 0); it changes no other cell, so it leaves the
parent's mean and covariance unchanged when the parent is another cell
(p ≠ i). -/
theorem mean_cov_after_division_spec (M : MathFns K) (cells : List (MOMAdata K)) (i p : Nat)
    (c q : MOMAdata K) (var_dx var_dg : K) (hc : cells[i]? = some c)
    (hpar : c.parent = some p) (hq : cells[p]? = some q) :
    ∃ c1, mean_cov_after_division M cells i var_dx var_dg = some (cells.set i c1) ∧
      (cells.set i c1)[i]? = some c1 ∧
      c1.mean = !![q.mean 0 0 - M.log 2; q.mean 1 0 / 2; q.mean 2 0; q.mean 3 0] ∧
      (∀ a b : Fin 4, c1.cov a b
        = ![1, 1 / 2, 1, 1] a * ![1, 1 / 2, 1, 1] b * q.cov a b
          + Matrix.diagonal ![var_dx, var_dg, 0, 0] a b) ∧
      (∀ j, j ≠ i → (cells.set i c1)[j]? = cells[j]?) ∧
      (p ≠ i → (cells.set i c1)[p]? = some q) := by
  have hi : i < cells.length := by
    by_contra hlt
    rw [List.getElem?_eq_none (by omega)] at hc
    cases hc
  refine ⟨prior_daughter M var_dx var_dg q c,
    mean_cov_after_division_eq M cells i p c q var_dx var_dg hc hpar hq, by simp [hi],
    prior_daughter_mean M var_dx var_dg q c, prior_daughter_cov M var_dx var_dg q c, ?_, ?_⟩
  · intro j hj
    rw [List.getElem?_set_ne (Ne.symm hj)]
  · intro hne
    rw [List.getElem?_set_ne (Ne.symm hne), hq]

theorem prior_root_cov_off_diag (params_vec : List K) (c : MOMAdata K) (a b : Fin 4)
    (hab : a ≠ b) : (prior_root params_vec c).cov a b = c.cov a b := by
  fin_cases a <;> fin_cases b <;> simp [prior_root] at hab ⊢

theorem prior_root_cov_diag (params_vec : List K) (c : MOMAdata K) :
    (prior_root params_vec c).cov 0 0 = param params_vec 7 ∧
    (prior_root params_vec c).cov 1 1 = param params_vec 8 ∧
    (prior_root params_vec c).cov 2 2 = param params_vec 2 ∧
    (prior_root params_vec c).cov 3 3 = param params_vec 5 := by
  simp [prior_root]

theorem prior_root_cov_diagonal (params_vec : List K) (c : MOMAdata K)
    (h0 : ∀ a b : Fin 4, a ≠ b → c.cov a b = 0) :
    (prior_root params_vec c).cov
      = Matrix.diagonal ![param params_vec 7, param params_vec 8, param params_vec 2,
          param params_vec 5] := by
  ext a b
  by_cases hab : a = b
  · subst hab
    fin_cases a <;> simp [prior_root]
  · rw [prior_root_cov_off_diag params_vec c a b hab, h0 a b hab, Matrix.diagonal_apply_ne _ hab]

/-- C6 as amended: for every root cell (address i), every θ and every mean and
covariance the cell held before the call, the state against which
`sc_likelihood` evaluates the first observation has mean
(θ[11], θ[12], θ[0], θ[3]) and a covariance whose diagonal is
(θ[7], θ[8], θ[2], θ[5]) and whose twelve off-diagonal entries are the ones the
cell held before the call; it is diag(θ[7], θ[8], θ[2], θ[5]) when those were 0. -/
theorem sc_likelihood_prior_root_spec (M : MathFns K) (params_vec : List K)
    (cells : List (MOMAdata K)) (i : Nat) (c : MOMAdata K) (hc : cells[i]? = some c)
    (hroot : c.is_root = true) (hp : 13 ≤ params_vec.length) :
    ∃ c0, sc_likelihood_prior M params_vec cells i = some (cells.set i c0) ∧
      (cells.set i c0)[i]? = some c0 ∧
      c0.mean = !![param params_vec 11; param params_vec 12; param params_vec 0;
                   param params_vec 3] ∧
      c0.cov 0 0 = param params_vec 7 ∧ c0.cov 1 1 = param params_vec 8 ∧
      c0.cov 2 2 = param params_vec 2 ∧ c0.cov 3 3 = param params_vec 5 ∧
      (∀ a b : Fin 4, a ≠ b → c0.cov a b = c.cov a b) ∧
      ((∀ a b : Fin 4, a ≠ b → c.cov a b = 0) →
        c0.cov = Matrix.diagonal ![param params_vec 7, param params_vec 8,
          param params_vec 2, param params_vec 5]) := by
  have hi : i < cells.length := by
    by_contra hlt
    rw [List.getElem?_eq_none (by omega)] at hc
    cases hc
  have hr : c.parent = none := by simpa [MOMAdata.is_root] using hroot
  obtain ⟨h0, h1, h2, h3⟩ := prior_root_cov_diag params_vec c
  exact ⟨prior_root params_vec c, sc_likelihood_prior_root M params_vec cells i c hc hr hp,
    by simp [hi], prior_root_mean params_vec c, h0, h1, h2, h3,
    prior_root_cov_off_diag params_vec c, prior_root_cov_diagonal params_vec c⟩

/-- C5 fails as stated: the cell `own_parent` is not a root, its parent is the
cell itself, and `mean_cov_after_division` changes that parent's mean of g from
2 to 1. -/
theorem mean_cov_after_division_overwrites_own_parent :
    (own_parent : MOMAdata ℝ).is_root = false ∧
    (own_parent : MOMAdata ℝ).parent = some 0 ∧
    ([(own_parent : MOMAdata ℝ)][0]?).map (fun c => c.mean 1 0) = some 2 ∧
    ∃ cells1, mean_cov_after_division realFns [(own_parent : MOMAdata ℝ)] 0 0 0 = some cells1 ∧
      (cells1[0]?).map (fun c => c.mean 1 0) = some 1 := by
  refine ⟨rfl, rfl, by simp [own_parent], _,
    mean_cov_after_division_eq realFns [own_parent] 0 0 own_parent own_parent 0 0 rfl rfl rfl,
    ?_⟩
  simp [prior_daughter_mean, own_parent]

/-- C5 as amended, at the daughter of `mother_and_daughter` with
var_dx = var_dg = 0. -/
theorem mean_cov_after_division_spec_witness :
    ∃ c1 : MOMAdata ℝ,
      mean_cov_after_division realFns mother_and_daughter 1 0 0
        = some (mother_and_daughter.set 1 c1) ∧
      ((mother_and_daughter : List (MOMAdata ℝ)).set 1 c1)[1]? = some c1 ∧
      c1.mean = !![(1 : ℝ) - Real.log 2; 2 / 2; 3; 4] ∧
      (∀ a b : Fin 4, c1.cov a b
        = ![1, 1 / 2, 1, 1] a * ![1, 1 / 2, 1, 1] b * (1 : Matrix (Fin 4) (Fin 4) ℝ) a b
          + Matrix.diagonal ![(0 : ℝ), 0, 0, 0] a b) ∧
      (∀ j, j ≠ 1 → ((mother_and_daughter : List (MOMAdata ℝ)).set 1 c1)[j]?
        = (mother_and_daughter : List (MOMAdata ℝ))[j]?) ∧
      (0 ≠ 1 → ((mother_and_daughter : List (MOMAdata ℝ)).set 1 c1)[0]?
        = (mother_and_daughter : List (MOMAdata ℝ))[0]?) :=
  mean_cov_after_division_spec realFns mother_and_daughter 1 0 _ _ 0 0 rfl rfl rfl

/-- C6 fails as stated: a root that held the covariance with every entry 1
before the call is evaluated against a covariance whose entry (0, 1) is 1. -/
theorem sc_likelihood_prior_keeps_off_diagonal :
    (lone_root [0] [0] [0] (Matrix.of fun _ _ => 1) : MOMAdata ℝ).is_root = true ∧
    ∃ cells1, sc_likelihood_prior realFns unit_params
        [lone_root [0] [0] [0] (Matrix.of fun _ _ => 1)] 0 = some cells1 ∧
      (cells1[0]?).map (fun c => c.cov 0 1) = some 1 ∧
      (cells1[0]?).map (fun c => c.cov)
        ≠ some (Matrix.diagonal ![param unit_params 7, param unit_params 8,
            param unit_params 2, param unit_params 5]) := by
  refine ⟨rfl, _, sc_likelihood_prior_root realFns unit_params _ 0 _ rfl rfl
    unit_params_length, ?_, ?_⟩
  · simp [prior_root, lone_root]
  · intro h
    have h01 := congrFun (congrFun (Option.some.inj h) 0) 1
    simp [prior_root, lone_root] at h01

/-- C6 as amended, at the root `lone_root [0] [0] [0] 0` under `unit_params`. -/
theorem sc_likelihood_prior_root_spec_witness :
    ∃ c0 : MOMAdata ℝ,
      sc_likelihood_prior realFns unit_params [lone_root [0] [0] [0] 0] 0
        = some ([lone_root [0] [0] [0] 0].set 0 c0) ∧
      ([(lone_root [0] [0] [0] 0 : MOMAdata ℝ)].set 0 c0)[0]? = some c0 ∧
      c0.mean = !![param unit_params 11; param unit_params 12; param unit_params 0;
                   param unit_params 3] ∧
      c0.cov 0 0 = param unit_params 7 ∧ c0.cov 1 1 = param unit_params 8 ∧
      c0.cov 2 2 = param unit_params 2 ∧ c0.cov 3 3 = param unit_params 5 ∧
      (∀ a b : Fin 4, a ≠ b → c0.cov a b = (lone_root [0] [0] [0] 0 : MOMAdata ℝ).cov a b) ∧
      ((∀ a b : Fin 4, a ≠ b → (lone_root [0] [0] [0] 0 : MOMAdata ℝ).cov a b = 0) →
        c0.cov = Matrix.diagonal ![param unit_params 7, param unit_params 8,
          param unit_params 2, param unit_params 5]) :=
  sc_likelihood_prior_root_spec realFns unit_params [lone_root [0] [0] [0] 0] 0 _ rfl rfl
    unit_params_length

end Prior

/-! ## The pass over a genealogy (C7) -/

section GenealogyProps

variable {K : Type} [Field K]

theorem cell_prior_fields (M : MathFns K) (params_vec : List K) (par : Option (MOMAdata K))
    (c : MOMAdata K) :
    (cell_prior M params_vec par c).time = c.time ∧
    (cell_prior M params_vec par c).length = c.length ∧
    (cell_prior M params_vec par c).fp = c.fp ∧
    (cell_prior M params_vec par c).parent = c.parent ∧
    (cell_prior M params_vec par c).daughter1 = c.daughter1 ∧
    (cell_prior M params_vec par c).daughter2 = c.daughter2 := by
  cases par <;> exact ⟨rfl, rfl, rfl, rfl, rfl, rfl⟩

theorem final_state_fields (M : MathFns K) (params_vec : List K) (par : Option (MOMAdata K))
    (c : MOMAdata K) :
    (final_state params_vec (cell_prior M params_vec par c)).time = c.time ∧
    (final_state params_vec (cell_prior M params_vec par c)).length = c.length ∧
    (final_state params_vec (cell_prior M params_vec par c)).fp = c.fp ∧
    (final_state params_vec (cell_prior M params_vec par c)).parent = c.parent ∧
    (final_state params_vec (cell_prior M params_vec par c)).daughter1 = c.daughter1 ∧
    (final_state params_vec (cell_prior M params_vec par c)).daughter2 = c.daughter2 := by
  obtain ⟨h1, h2, h3, h4, h5, h6⟩ := cell_prior_fields M params_vec par c
  simp [final_state, h1, h2, h3, h4, h5, h6]

theorem obs_ok_final_state (M : MathFns K) (params_vec : List K) (par : Option (MOMAdata K))
    (c : MOMAdata K) (h : obs_ok c) :
    obs_ok (final_state params_vec (cell_prior M params_vec par c)) := by
  obtain ⟨h1, h2, h3, -⟩ := final_state_fields M params_vec par c
  simpa [obs_ok, h1, h2, h3] using h

theorem obs_ok_cell_prior (M : MathFns K) (params_vec : List K) (par : Option (MOMAdata K))
    (c : MOMAdata K) (h : obs_ok c) : obs_ok (cell_prior M params_vec par c) := by
  obtain ⟨h1, h2, h3, -⟩ := cell_prior_fields M params_vec par c
  simpa [obs_ok, h1, h2, h3] using h

omit [Field K] in
/-- Whether the cells hold a genealogy depends on the cells of the genealogy only. -/
theorem Genealogy.linked_congr {cells cells1 : List (MOMAdata K)} :
    ∀ (g : Genealogy K) (pp : Option Nat), (∀ j ∈ g.addrs, cells1[j]? = cells[j]?) →
      g.Linked cells pp → g.Linked cells1 pp
  | .null, _, _, _ => trivial
  | .node i c d1 d2, pp, h, hL => by
    obtain ⟨h1, h2, h3, h4, h5, h6, h7⟩ := hL
    refine ⟨?_, h2, h3, h4, h5, ?_, ?_⟩
    · rw [h i (by simp [Genealogy.addrs]), h1]
    · exact Genealogy.linked_congr d1 (some i)
        (fun j hj => h j (by simp [Genealogy.addrs, hj])) h6
    · exact Genealogy.linked_congr d2 (some i)
        (fun j hj => h j (by simp [Genealogy.addrs, hj])) h7

/-- A pass changes no cell outside the genealogy. -/
theorem Genealogy.filtered_getElem?_of_not_mem (M : MathFns K) (params_vec : List K) (j : Nat) :
    ∀ (g : Genealogy K) (par : Option (MOMAdata K)) (cells : List (MOMAdata K)),
      j ∉ g.addrs → (g.filtered M params_vec par cells)[j]? = cells[j]?
  | .null, _, _, _ => rfl
  | .node i c d1 d2, par, cells, hj => by
    simp only [Genealogy.addrs, List.mem_cons, List.mem_append, not_or] at hj
    rw [Genealogy.filtered, Genealogy.filtered_getElem?_of_not_mem M params_vec j d2 _ _ hj.2.2,
      Genealogy.filtered_getElem?_of_not_mem M params_vec j d1 _ _ hj.2.1,
      List.getElem?_set_ne (Ne.symm hj.1)]


omit [Field K] in
theorem Genealogy.nodup_node {i : Nat} {c : MOMAdata K} {d1 d2 : Genealogy K}
    (h : (Genealogy.node i c d1 d2).addrs.Nodup) :
    i ∉ d1.addrs ∧ i ∉ d2.addrs ∧ d1.addrs.Nodup ∧ d2.addrs.Nodup ∧
      ∀ j, j ∈ d1.addrs → j ∉ d2.addrs := by
  simp only [Genealogy.addrs, List.nodup_cons, List.mem_append, not_or,
    List.nodup_append] at h
  exact ⟨h.1.1, h.1.2, h.2.1, h.2.2.1, fun j h1 h2 => h.2.2.2 h1 h2⟩

omit [Field K] in
theorem getElem?_lt_length {cells : List (MOMAdata K)} {i : Nat} {c : MOMAdata K}
    (hc : cells[i]? = some c) : i < cells.length := by
  by_contra hlt
  rw [List.getElem?_eq_none (by omega)] at hc
  cases hc

/-- Function `likelihood_recr` on cells that hold a genealogy as a tree: with
fuel for the depth of the tree it returns the cells after the pass and adds the
sum of the contributions to the running total. -/
theorem likelihood_recr_genealogy (M : MathFns K) (params_vec : List K)
    (hp : 13 ≤ params_vec.length) :
    ∀ (g : Genealogy K) (cells : List (MOMAdata K)) (pp : Option Nat)
      (par : Option (MOMAdata K)) (tl : K) (fuel : Nat),
      g.Linked cells pp → g.addrs.Nodup → g.Above cells pp par → g.depth ≤ fuel →
      likelihood_recr M params_vec fuel g.ptr cells tl
        = some (g.filtered M params_vec par cells, tl + genealogy_sum M params_vec par g)
  | .null, cells, pp, par, tl, fuel, _, _, _, _ => by
    simp [Genealogy.ptr, Genealogy.filtered, genealogy_sum]
  | .node i c d1 d2, cells, pp, par, tl, fuel, hL, hnd, hA, hf => by
    obtain ⟨k, rfl⟩ : ∃ k, fuel = k + 1 :=
      ⟨fuel - 1, by simp only [Genealogy.depth] at hf; omega⟩
    simp only [Genealogy.depth] at hf
    obtain ⟨h1, h2, h3, h4, h5, h6, h7⟩ := hL
    obtain ⟨a1, a2, -⟩ := hA
    obtain ⟨n1, n2, n3, n4, n5⟩ := Genealogy.nodup_node hnd
    have hi : i < cells.length := getElem?_lt_length h1
    obtain ⟨-, -, -, -, hd1, hd2⟩ := final_state_fields M params_vec par c
    have hsc := sc_likelihood_eq M params_vec cells i c par h1 h5 hp (by rw [h2]; exact a1)
      (by rw [h2]; exact a2) tl
    have hc1 : (cells.set i (final_state params_vec (cell_prior M params_vec par c)))[i]?
        = some (final_state params_vec (cell_prior M params_vec par c)) := by simp [hi]
    have L1 : d1.Linked (cells.set i (final_state params_vec (cell_prior M params_vec par c)))
        (some i) :=
      Genealogy.linked_congr d1 _
        (fun j hj => List.getElem?_set_ne (by rintro rfl; exact n1 hj)) h6
    have A1 : d1.Above (cells.set i (final_state params_vec (cell_prior M params_vec par c)))
        (some i) (some (final_state params_vec (cell_prior M params_vec par c))) :=
      ⟨by simpa using hc1, rfl, fun p hp => by cases hp; exact n1⟩
    have IH1 := likelihood_recr_genealogy M params_vec hp d1 _ (some i) _
      (tl + contribution M params_vec (cell_prior M params_vec par c)) k L1 n3 A1 (by omega)
    have hc2 : (d1.filtered M params_vec
          (some (final_state params_vec (cell_prior M params_vec par c)))
          (cells.set i (final_state params_vec (cell_prior M params_vec par c))))[i]?
        = some (final_state params_vec (cell_prior M params_vec par c)) := by
      rw [Genealogy.filtered_getElem?_of_not_mem M params_vec i d1 _ _ n1, hc1]
    have L2 : d2.Linked (d1.filtered M params_vec
          (some (final_state params_vec (cell_prior M params_vec par c)))
          (cells.set i (final_state params_vec (cell_prior M params_vec par c)))) (some i) :=
      Genealogy.linked_congr d2 _
        (fun j hj => by
          rw [Genealogy.filtered_getElem?_of_not_mem M params_vec j d1 _ _
            (fun hj1 => n5 j hj1 hj)]
          exact List.getElem?_set_ne (by rintro rfl; exact n2 hj)) h7
    have A2 : d2.Above (d1.filtered M params_vec
          (some (final_state params_vec (cell_prior M params_vec par c)))
          (cells.set i (final_state params_vec (cell_prior M params_vec par c)))) (some i)
        (some (final_state params_vec (cell_prior M params_vec par c))) :=
      ⟨by simpa using hc2, rfl, fun p hp => by cases hp; exact n2⟩
    have IH2 := likelihood_recr_genealogy M params_vec hp d2 _ (some i) _
      (tl + contribution M params_vec (cell_prior M params_vec par c)
        + genealogy_sum M params_vec
            (some (final_state params_vec (cell_prior M params_vec par c))) d1)
      k L2 n4 A2 (by omega)
    rw [Genealogy.ptr, likelihood_recr_succ, hsc]
    simp only [Option.some_bind, hc1, hd1, h3, IH1, hc2, hd2, h4, IH2, Genealogy.filtered,
      genealogy_sum]
    simp only [add_assoc]

/-- C7: for every finite genealogy tree `g` rooted at a cell `c` and every θ (of
at least 13 entries), `total_likelihood(θ, grad, c)` returns, with fuel for the
depth of the tree, the sum over all cells reachable from `c` by daughter1 and
daughter2 links of the cell's own contribution (the sum over its observations of
`log_likelihood`), where each non-root cell's contribution is computed from the
final (mean, cov) its parent holds after the parent's own observations; for a
null cell the result is 0. -/
theorem total_likelihood_is_genealogy_sum (M : MathFns K) (params_vec grad : List K)
    (cells : List (MOMAdata K)) (c : Option Nat) (g : Genealogy K) (fuel : Nat)
    (hp : 13 ≤ params_vec.length) (hg : g.RootedAt cells c) (hfuel : g.depth ≤ fuel) :
    (total_likelihood M fuel params_vec grad cells c).map Prod.snd
        = some (genealogy_sum M params_vec none g) ∧
    ∀ n, total_likelihood M n params_vec grad cells none = some (cells, 0) := by
  obtain ⟨h1, h2, h3⟩ := hg
  refine ⟨?_, fun n => likelihood_recr_null M params_vec n cells 0⟩
  rw [total_likelihood, ← h1,
    likelihood_recr_genealogy M params_vec hp g cells none none 0 fuel h2 h3
      ⟨rfl, rfl, fun p hp => by cases hp⟩ hfuel]
  simp

theorem family_rooted : (family_tree : Genealogy K).RootedAt family (some 0) := by
  refine ⟨rfl, ?_, by simp [family_tree, Genealogy.addrs]⟩
  simp [family_tree, family, Genealogy.Linked, Genealogy.ptr, obs_ok]

end GenealogyProps

/-! ## What the pass depends on (C8, C9) -/

section Congruence

variable {K : Type} [Field K]

omit [Field K] in
theorem sameObs_refl (c : MOMAdata K) : SameObs c c := ⟨rfl, rfl, rfl⟩

omit [Field K] in
theorem Genealogy.sameObs_self : ∀ g : Genealogy K, g.SameObs g
  | .null => trivial
  | .node _ c d1 d2 =>
    ⟨sameObs_refl c, Genealogy.sameObs_self d1, Genealogy.sameObs_self d2⟩

theorem innovation_congr {c c1 : MOMAdata K} (h : SameData c c1) (t : Nat) :
    innovation c t = innovation c1 t := by
  obtain ⟨⟨-, h2, h3⟩, h4, -⟩ := h
  simp [innovation, h2, h3, h4]

theorem posterior_congr (y : Matrix (Fin 2) (Fin 1) K) {c c1 : MOMAdata K} (vx vg : K)
    (hm : c.mean = c1.mean) (hc : c.cov = c1.cov) :
    (posterior y c vx vg).mean = (posterior y c1 vx vg).mean ∧
    (posterior y c vx vg).cov = (posterior y c1 vx vg).cov := by
  simp [posterior, hm, hc]

theorem log_likelihood_congr (M : MathFns K) (y : Matrix (Fin 2) (Fin 1) K)
    {c c1 : MOMAdata K} (vx vg : K) (hc : c.cov = c1.cov) :
    log_likelihood M y c vx vg = log_likelihood M y c1 vx vg := by
  simp [log_likelihood, hc]

theorem state_at_congr (params_vec : List K) {c c1 : MOMAdata K} (h : SameData c c1) :
    ∀ n, (state_at params_vec c n).mean = (state_at params_vec c1 n).mean ∧
      (state_at params_vec c n).cov = (state_at params_vec c1 n).cov
  | 0 => ⟨h.2.1, h.2.2⟩
  | n + 1 => by
    obtain ⟨h1, h2⟩ := state_at_congr params_vec h n
    simp only [state_at, innovation_congr h n]
    exact posterior_congr _ _ _ h1 h2

theorem final_state_congr (params_vec : List K) {c c1 : MOMAdata K} (h : SameData c c1) :
    (final_state params_vec c).mean = (final_state params_vec c1).mean ∧
    (final_state params_vec c).cov = (final_state params_vec c1).cov := by
  rw [final_state, final_state, h.1.1]
  exact state_at_congr params_vec h _

theorem contribution_congr (M : MathFns K) (params_vec : List K) {c c1 : MOMAdata K}
    (h : SameData c c1) : contribution M params_vec c = contribution M params_vec c1 := by
  rw [contribution, contribution, h.1.1, partial_contribution, partial_contribution]
  refine Finset.sum_congr rfl fun t _ => ?_
  rw [innovation_congr h t]
  exact log_likelihood_congr M _ _ _ (state_at_congr params_vec h t).2

theorem prior_daughter_congr (M : MathFns K) (var_dx var_dg : K) {q q1 c c1 : MOMAdata K}
    (h : SameObs c c1) (hm : q.mean = q1.mean) (hc : q.cov = q1.cov) :
    SameData (prior_daughter M var_dx var_dg q c) (prior_daughter M var_dx var_dg q1 c1) := by
  refine ⟨h, ?_, ?_⟩ <;> simp [prior_daughter, hm, hc]

theorem prior_root_congr (params_vec : List K) {c c1 : MOMAdata K} (h : SameObs c c1)
    (hc : ∀ a b : Fin 4, a ≠ b → c.cov a b = c1.cov a b) :
    SameData (prior_root params_vec c) (prior_root params_vec c1) := by
  refine ⟨h, ?_, ?_⟩
  · rw [prior_root_mean, prior_root_mean]
  · ext a b
    by_cases hab : a = b
    · subst hab
      fin_cases a <;> simp [prior_root]
    · rw [prior_root_cov_off_diag _ _ a b hab, prior_root_cov_off_diag _ _ a b hab, hc a b hab]

/-- Below a cell, the sum depends on the state of that cell and on the
observations in the genealogy only. -/
theorem genealogy_sum_congr_some (M : MathFns K) (params_vec : List K) :
    ∀ (g g1 : Genealogy K) (q q1 : MOMAdata K), g.SameObs g1 → q.mean = q1.mean →
      q.cov = q1.cov →
      genealogy_sum M params_vec (some q) g = genealogy_sum M params_vec (some q1) g1
  | .null, .null, _, _, _, _, _ => rfl
  | .null, .node _ _ _ _, _, _, h, _, _ => h.elim
  | .node _ _ _ _, .null, _, _, h, _, _ => h.elim
  | .node _ c d1 d2, .node _ c1 e1 e2, q, q1, h, hm, hc => by
    obtain ⟨h1, h2, h3⟩ := h
    have hd : SameData (cell_prior M params_vec (some q) c)
        (cell_prior M params_vec (some q1) c1) := prior_daughter_congr M _ _ h1 hm hc
    obtain ⟨f1, f2⟩ := final_state_congr params_vec hd
    simp only [genealogy_sum]
    rw [contribution_congr M params_vec hd,
      genealogy_sum_congr_some M params_vec d1 e1 _ _ h2 f1 f2,
      genealogy_sum_congr_some M params_vec d2 e2 _ _ h3 f1 f2]

/-- From a root, the sum depends on the observations in the genealogy and on the
off-diagonal covariance the root holds beforehand. -/
theorem genealogy_sum_congr_root (M : MathFns K) (params_vec : List K) (i i1 : Nat)
    (c c1 : MOMAdata K) (d1 d2 e1 e2 : Genealogy K)
    (h : (Genealogy.node i c d1 d2).SameObs (.node i1 c1 e1 e2))
    (hc : ∀ a b : Fin 4, a ≠ b → c.cov a b = c1.cov a b) :
    genealogy_sum M params_vec none (.node i c d1 d2)
      = genealogy_sum M params_vec none (.node i1 c1 e1 e2) := by
  obtain ⟨h1, h2, h3⟩ := h
  have hd : SameData (cell_prior M params_vec none c) (cell_prior M params_vec none c1) :=
    prior_root_congr params_vec h1 hc
  obtain ⟨f1, f2⟩ := final_state_congr params_vec hd
  simp only [genealogy_sum]
  rw [contribution_congr M params_vec hd,
    genealogy_sum_congr_some M params_vec d1 e1 _ _ h2 f1 f2,
    genealogy_sum_congr_some M params_vec d2 e2 _ _ h3 f1 f2]

/-! ### Exchanging the daughters of a cell -/

omit [Field K] in
theorem Genealogy.exchange_ptr (p : Nat) : ∀ g : Genealogy K, (g.exchange p).ptr = g.ptr
  | .null => rfl
  | .node i c d1 d2 => by
    by_cases h : i = p <;> simp [Genealogy.exchange, h, Genealogy.ptr]

omit [Field K] in
theorem Genealogy.exchange_depth (p : Nat) : ∀ g : Genealogy K, (g.exchange p).depth = g.depth
  | .null => rfl
  | .node i c d1 d2 => by
    by_cases h : i = p
    · simp [Genealogy.exchange, h, Genealogy.depth, max_comm]
    · simp [Genealogy.exchange, h, Genealogy.depth, Genealogy.exchange_depth p d1,
        Genealogy.exchange_depth p d2]

omit [Field K] in
theorem Genealogy.exchange_addrs (p : Nat) :
    ∀ g : Genealogy K, (g.exchange p).addrs.Perm g.addrs
  | .null => List.Perm.refl _
  | .node i c d1 d2 => by
    by_cases h : i = p
    · simp only [Genealogy.exchange, h, if_true, Genealogy.addrs]
      exact List.Perm.cons _ List.perm_append_comm
    · simp only [Genealogy.exchange, h, if_false, Genealogy.addrs]
      exact List.Perm.cons _
        (List.Perm.append (Genealogy.exchange_addrs p d1) (Genealogy.exchange_addrs p d2))

omit [Field K] in
theorem exchange_daughters_getElem?_ne (cells : List (MOMAdata K)) (p j : Nat) (h : j ≠ p) :
    (exchange_daughters cells p)[j]? = cells[j]? := by
  unfold exchange_daughters
  cases hc : cells[p]? with
  | none => rfl
  | some c => exact List.getElem?_set_ne (Ne.symm h)

omit [Field K] in
theorem exchange_daughters_getElem?_self (cells : List (MOMAdata K)) (p : Nat) (c : MOMAdata K)
    (hc : cells[p]? = some c) : (exchange_daughters cells p)[p]? = some c.exchanged := by
  have hp := getElem?_lt_length hc
  simp [exchange_daughters, hc, hp]

omit [Field K] in
/-- The cells with the daughters of `p` exchanged hold the exchanged genealogy. -/
theorem Genealogy.linked_exchange (cells : List (MOMAdata K)) (p : Nat) :
    ∀ (g : Genealogy K) (pp : Option Nat), g.Linked cells pp → g.addrs.Nodup →
      (g.exchange p).Linked (exchange_daughters cells p) pp
  | .null, _, _, _ => trivial
  | .node i c d1 d2, pp, hL, hnd => by
    obtain ⟨h1, h2, h3, h4, h5, h6, h7⟩ := hL
    obtain ⟨n1, n2, n3, n4, -⟩ := Genealogy.nodup_node hnd
    by_cases h : i = p
    · subst h
      simp only [Genealogy.exchange, if_true]
      refine ⟨exchange_daughters_getElem?_self cells i c h1, h2, h4, h3, h5, ?_, ?_⟩
      · exact Genealogy.linked_congr d2 _ (fun j hj =>
          exchange_daughters_getElem?_ne cells i j (by rintro rfl; exact n2 hj)) h7
      · exact Genealogy.linked_congr d1 _ (fun j hj =>
          exchange_daughters_getElem?_ne cells i j (by rintro rfl; exact n1 hj)) h6
    · simp only [Genealogy.exchange, h, if_false]
      refine ⟨by rw [exchange_daughters_getElem?_ne cells p i h, h1], h2,
        by rw [Genealogy.exchange_ptr, h3], by rw [Genealogy.exchange_ptr, h4], h5,
        Genealogy.linked_exchange cells p d1 _ h6 n3, Genealogy.linked_exchange cells p d2 _ h7 n4⟩

theorem cell_prior_exchanged (M : MathFns K) (params_vec : List K) (par : Option (MOMAdata K))
    (c : MOMAdata K) :
    SameData (cell_prior M params_vec par c.exchanged) (cell_prior M params_vec par c) := by
  cases par <;> exact ⟨⟨rfl, rfl, rfl⟩, rfl, rfl⟩

/-- The sum over a genealogy does not change when the daughters of a cell are
exchanged. -/
theorem genealogy_sum_exchange (M : MathFns K) (params_vec : List K) (p : Nat) :
    ∀ (g : Genealogy K) (par : Option (MOMAdata K)),
      genealogy_sum M params_vec par (g.exchange p) = genealogy_sum M params_vec par g
  | .null, _ => rfl
  | .node i c d1 d2, par => by
    by_cases h : i = p
    · have hd := cell_prior_exchanged M params_vec par c
      obtain ⟨f1, f2⟩ := final_state_congr params_vec hd
      simp only [Genealogy.exchange, h, if_true, genealogy_sum]
      rw [contribution_congr M params_vec hd,
        genealogy_sum_congr_some M params_vec d1 d1 _ _ (Genealogy.sameObs_self d1) f1 f2,
        genealogy_sum_congr_some M params_vec d2 d2 _ _ (Genealogy.sameObs_self d2) f1 f2]
      ring
    · simp only [Genealogy.exchange, h, if_false, genealogy_sum]
      rw [genealogy_sum_exchange M params_vec p d1, genealogy_sum_exchange M params_vec p d2]

/-- C8: for every finite genealogy tree `g` rooted at `c`, every θ (of at least 13
entries) and every cell address `p`, exchanging `p.daughter1` and `p.daughter2`
leaves the value of `total_likelihood` unchanged: with fuel for the depth of the
tree both runs return the same number `v`.  And `likelihood_recr` over a
daughter's subtree `d` modifies no cell `j` outside `d`, so not the parent state
read by the other daughter. -/
theorem total_likelihood_exchange_daughters (M : MathFns K) (params_vec grad : List K)
    (cells : List (MOMAdata K)) (c : Option Nat) (g : Genealogy K) (p fuel : Nat)
    (hp : 13 ≤ params_vec.length) (hg : g.RootedAt cells c) (hfuel : g.depth ≤ fuel) :
    (∃ v, (total_likelihood M fuel params_vec grad cells c).map Prod.snd = some v ∧
      (total_likelihood M fuel params_vec grad (exchange_daughters cells p) c).map Prod.snd
        = some v) ∧
    ∀ (d : Genealogy K) (cells0 : List (MOMAdata K)) (pp : Option Nat)
      (par : Option (MOMAdata K)) (tl : K) (n j : Nat),
      d.Linked cells0 pp → d.addrs.Nodup → d.Above cells0 pp par → d.depth ≤ n →
      j ∉ d.addrs →
      ∃ r, likelihood_recr M params_vec n d.ptr cells0 tl = some r ∧ r.1[j]? = cells0[j]? := by
  obtain ⟨h1, h2, h3⟩ := hg
  refine ⟨⟨genealogy_sum M params_vec none g, ?_, ?_⟩, ?_⟩
  · rw [total_likelihood, ← h1,
      likelihood_recr_genealogy M params_vec hp g cells none none 0 fuel h2 h3
        ⟨rfl, rfl, fun p hp => by cases hp⟩ hfuel]
    simp
  · rw [total_likelihood, ← h1, ← Genealogy.exchange_ptr p g,
      likelihood_recr_genealogy M params_vec hp (g.exchange p) _ none none 0 fuel
        (Genealogy.linked_exchange cells p g none h2 h3)
        ((Genealogy.exchange_addrs p g).nodup_iff.mpr h3)
        ⟨rfl, rfl, fun p hp => by cases hp⟩ (by rw [Genealogy.exchange_depth]; exact hfuel)]
    simp [genealogy_sum_exchange]
  · intro d cells0 pp par tl n j hL hnd hA hn hj
    exact ⟨_, likelihood_recr_genealogy M params_vec hp d cells0 pp par tl n hL hnd hA hn,
      Genealogy.filtered_getElem?_of_not_mem M params_vec j d par cells0 hj⟩

/-! ### A second pass over the same cells -/

theorem Genealogy.after_ptr (M : MathFns K) (params_vec : List K) :
    ∀ (g : Genealogy K) (par : Option (MOMAdata K)), (g.after M params_vec par).ptr = g.ptr
  | .null, _ => rfl
  | .node _ _ _ _, _ => rfl

theorem Genealogy.after_addrs (M : MathFns K) (params_vec : List K) :
    ∀ (g : Genealogy K) (par : Option (MOMAdata K)), (g.after M params_vec par).addrs = g.addrs
  | .null, _ => rfl
  | .node i c d1 d2, par => by
    simp only [Genealogy.after, Genealogy.addrs, Genealogy.after_addrs M params_vec d1,
      Genealogy.after_addrs M params_vec d2]

theorem Genealogy.after_depth (M : MathFns K) (params_vec : List K) :
    ∀ (g : Genealogy K) (par : Option (MOMAdata K)), (g.after M params_vec par).depth = g.depth
  | .null, _ => rfl
  | .node i c d1 d2, par => by
    simp only [Genealogy.after, Genealogy.depth, Genealogy.after_depth M params_vec d1,
      Genealogy.after_depth M params_vec d2]

theorem Genealogy.after_sameObs (M : MathFns K) (params_vec : List K) :
    ∀ (g : Genealogy K) (par : Option (MOMAdata K)), (g.after M params_vec par).SameObs g
  | .null, _ => trivial
  | .node i c d1 d2, par => by
    obtain ⟨h1, h2, h3, -⟩ := final_state_fields M params_vec par c
    exact ⟨⟨by rw [h1], h2, h3⟩, Genealogy.after_sameObs M params_vec d1 _,
      Genealogy.after_sameObs M params_vec d2 _⟩

/-- After a pass the cells hold the genealogy of the final states. -/
theorem Genealogy.linked_after (M : MathFns K) (params_vec : List K) :
    ∀ (g : Genealogy K) (cells : List (MOMAdata K)) (pp : Option Nat)
      (par : Option (MOMAdata K)), g.Linked cells pp → g.addrs.Nodup →
      (g.after M params_vec par).Linked (g.filtered M params_vec par cells) pp
  | .null, _, _, _, _, _ => trivial
  | .node i c d1 d2, cells, pp, par, hL, hnd => by
    obtain ⟨h1, h2, h3, h4, h5, h6, h7⟩ := hL
    obtain ⟨n1, n2, n3, n4, n5⟩ := Genealogy.nodup_node hnd
    have hi : i < cells.length := getElem?_lt_length h1
    obtain ⟨-, -, -, hpa, hd1, hd2⟩ := final_state_fields M params_vec par c
    have L1 : d1.Linked (cells.set i (final_state params_vec (cell_prior M params_vec par c)))
        (some i) :=
      Genealogy.linked_congr d1 _
        (fun j hj => List.getElem?_set_ne (by rintro rfl; exact n1 hj)) h6
    have L2 : d2.Linked (d1.filtered M params_vec
          (some (final_state params_vec (cell_prior M params_vec par c)))
          (cells.set i (final_state params_vec (cell_prior M params_vec par c)))) (some i) :=
      Genealogy.linked_congr d2 _
        (fun j hj => by
          rw [Genealogy.filtered_getElem?_of_not_mem M params_vec j d1 _ _
            (fun hj1 => n5 j hj1 hj)]
          exact List.getElem?_set_ne (by rintro rfl; exact n2 hj)) h7
    refine ⟨?_, by rw [hpa, h2], by rw [hd1, h3, Genealogy.after_ptr],
      by rw [hd2, h4, Genealogy.after_ptr], obs_ok_final_state M params_vec par c h5, ?_, ?_⟩
    · rw [Genealogy.filtered, Genealogy.filtered_getElem?_of_not_mem M params_vec i d2 _ _ n2,
        Genealogy.filtered_getElem?_of_not_mem M params_vec i d1 _ _ n1]
      simp [hi]
    · refine Genealogy.linked_congr _ _ (fun j hj => ?_)
        (Genealogy.linked_after M params_vec d1 _ (some i) _ L1 n3)
      rw [Genealogy.after_addrs] at hj
      exact Genealogy.filtered_getElem?_of_not_mem M params_vec j d2 _ _ (n5 j hj)
    · exact Genealogy.linked_after M params_vec d2 _ (some i) _ L2 n4

/-- An update keeps a covariance that is zero off the diagonal zero off the
diagonal. -/
theorem posterior_off_diag (y : Matrix (Fin 2) (Fin 1) K) (c : MOMAdata K) (vx vg : K)
    (h : ∀ a b : Fin 4, a ≠ b → c.cov a b = 0) (a b : Fin 4) (hab : a ≠ b) :
    (posterior y c vx vg).cov a b = 0 := by
  have h01 := h 0 1 (by decide)
  have h02 := h 0 2 (by decide)
  have h03 := h 0 3 (by decide)
  have h10 := h 1 0 (by decide)
  have h12 := h 1 2 (by decide)
  have h13 := h 1 3 (by decide)
  have h20 := h 2 0 (by decide)
  have h21 := h 2 1 (by decide)
  have h23 := h 2 3 (by decide)
  have h30 := h 3 0 (by decide)
  have h31 := h 3 1 (by decide)
  have h32 := h 3 2 (by decide)
  fin_cases a <;> fin_cases b <;>
    simp [posterior, inverse_eq_adjugate, Matrix.mul_apply, Fin.sum_univ_two, Matrix.adjugate_fin_two,
      block24_zero, block24_one, block22_apply, h01, h02, h03, h10, h12, h13, h20, h21, h23,
      h30, h31, h32] at hab ⊢

theorem state_at_off_diag (params_vec : List K) (c : MOMAdata K)
    (h : ∀ a b : Fin 4, a ≠ b → c.cov a b = 0) :
    ∀ (n : Nat) (a b : Fin 4), a ≠ b → (state_at params_vec c n).cov a b = 0
  | 0 => h
  | n + 1 => posterior_off_diag _ _ _ _ (state_at_off_diag params_vec c h n)

/-- After a pass from a root whose covariance was zero off the diagonal, the
root's covariance is zero off the diagonal. -/
theorem Genealogy.after_topDiagonal (M : MathFns K) (params_vec : List K) :
    ∀ g : Genealogy K, g.TopDiagonal → (g.after M params_vec none).TopDiagonal
  | .null, _ => trivial
  | .node i c d1 d2, h => by
    intro a b hab
    exact state_at_off_diag params_vec _
      (fun a b hab => by
        rw [show cell_prior M params_vec none c = prior_root params_vec c from rfl,
          prior_root_cov_off_diag params_vec c a b hab]
        exact h a b hab) _ a b hab

theorem Genealogy.zeroCov_topDiagonal : ∀ g : Genealogy K, g.ZeroCov → g.TopDiagonal
  | .null, _ => trivial
  | .node i c d1 d2, h => by
    intro a b _
    rw [h.1]
    rfl

/-- From a root, two genealogies with the same observations, both zero off the
diagonal at the root, have the same sum. -/
theorem genealogy_sum_congr_topDiagonal (M : MathFns K) (params_vec : List K) :
    ∀ g g1 : Genealogy K, g.SameObs g1 → g.TopDiagonal → g1.TopDiagonal →
      genealogy_sum M params_vec none g = genealogy_sum M params_vec none g1
  | .null, .null, _, _, _ => rfl
  | .null, .node _ _ _ _, h, _, _ => h.elim
  | .node _ _ _ _, .null, h, _, _ => h.elim
  | .node i c d1 d2, .node i1 c1 e1 e2, h, ht, ht1 =>
    genealogy_sum_congr_root M params_vec i i1 c c1 d1 d2 e1 e2 h
      (fun a b hab => by rw [ht a b hab, ht1 a b hab])

end Congruence

/-! ## An observation equal to the current mean (C10) -/

section ZeroInnovation

theorem posDef_two (P : Matrix (Fin 2) (Fin 2) ℝ) (h : P.PosDef) :
    0 < P 0 0 ∧ 0 < P 1 1 ∧ 0 < P.det := by
  refine ⟨?_, ?_, h.det_pos⟩
  · have := h.2 (Pi.single 0 1) (fun h0 => by simpa using congrFun h0 0)
    simpa [Matrix.mulVec, Matrix.dotProduct, Fin.sum_univ_two, Pi.single_apply] using this
  · have := h.2 (Pi.single 1 1) (fun h0 => by simpa using congrFun h0 1)
    simpa [Matrix.mulVec, Matrix.dotProduct, Fin.sum_univ_two, Pi.single_apply] using this

theorem posterior_zero_mean (cell : MOMAdata ℝ) (vx vg : ℝ) :
    (posterior 0 cell vx vg).mean = cell.mean := by
  simp [posterior]

/-- The determinant of the new (x,g) block is det P · σ²_x·σ²_g / det S. -/
theorem posterior_block_det (y : Matrix (Fin 2) (Fin 1) ℝ) (cell : MOMAdata ℝ) (vx vg : ℝ)
    (hsym : cell.cov 1 0 = cell.cov 0 1) (hS : (obs_cov cell.cov vx vg).det ≠ 0) :
    (block22 (posterior y cell vx vg).cov).det
      = (block22 cell.cov).det * (vx * vg) / (obs_cov cell.cov vx vg).det := by
  have hS1 : (cell.cov 0 0 + vx) * (cell.cov 1 1 + vg) - cell.cov 0 1 * cell.cov 0 1 ≠ 0 := by
    simpa [obs_cov, Matrix.det_fin_two, block22_apply, hsym] using hS
  simp only [Matrix.det_fin_two, block22_apply, obs_cov]
  simp [posterior, inverse_eq_adjugate, Matrix.mul_apply, Fin.sum_univ_two, Matrix.adjugate_fin_two,
    Matrix.det_fin_two, block24_zero, block24_one, block22_apply, hsym]
  field_simp
  ring

theorem obs_cov_det_expand (cov : Matrix (Fin 4) (Fin 4) ℝ) (vx vg : ℝ) :
    (obs_cov cov vx vg).det
      = (block22 cov).det + cov 0 0 * vg + cov 1 1 * vx + vx * vg := by
  simp [obs_cov, Matrix.det_fin_two, block22_apply]
  ring

/-- C10: for every cell whose covariance Σ is symmetric with positive definite
(x,g) block P = Σ[0:2,0:2]: for all σ²_x, σ²_g > 0, `posterior` with zero
innovation leaves the mean unchanged and gives a covariance whose (x,g) block
has a strictly smaller determinant than P; and as (σ²_x, σ²_g) → (0, 0) through
positive values that determinant tends to 0. -/
theorem posterior_zero_innovation (cell : MOMAdata ℝ) (hsym : cell.cov.IsSymm)
    (hpd : (block22 cell.cov).PosDef) :
    (∀ vx vg : ℝ, 0 < vx → 0 < vg →
      (posterior 0 cell vx vg).mean = cell.mean ∧
      (block22 (posterior 0 cell vx vg).cov).det < (block22 cell.cov).det) ∧
    Filter.Tendsto (fun v : ℝ × ℝ => (block22 (posterior 0 cell v.1 v.2).cov).det)
      (nhdsWithin (0, 0) {v | 0 < v.1 ∧ 0 < v.2}) (nhds 0) := by
  obtain ⟨h00, h11, hdet⟩ := posDef_two _ hpd
  simp only [block22_apply] at h00 h11
  have h10 : cell.cov 1 0 = cell.cov 0 1 := hsym.apply 0 1
  have key : ∀ vx vg : ℝ, 0 < vx → 0 < vg →
      (block22 cell.cov).det < (obs_cov cell.cov vx vg).det ∧
      (block22 (posterior 0 cell vx vg).cov).det
        = (block22 cell.cov).det * (vx * vg) / (obs_cov cell.cov vx vg).det := by
    intro vx vg hx hg
    have hlt : (block22 cell.cov).det < (obs_cov cell.cov vx vg).det := by
      rw [obs_cov_det_expand]
      nlinarith [mul_pos h00 hg, mul_pos h11 hx, mul_pos hx hg]
    have hSpos : 0 < (obs_cov cell.cov vx vg).det := by linarith
    exact ⟨hlt, posterior_block_det 0 cell vx vg h10 hSpos.ne'⟩
  refine ⟨fun vx vg hx hg => ⟨posterior_zero_mean cell vx vg, ?_⟩, ?_⟩
  · obtain ⟨hlt, heq⟩ := key vx vg hx hg
    have hSpos : 0 < (obs_cov cell.cov vx vg).det := by linarith
    rw [heq, div_lt_iff₀ hSpos]
    have : vx * vg < (obs_cov cell.cov vx vg).det := by
      rw [obs_cov_det_expand]
      nlinarith [mul_pos h00 hg, mul_pos h11 hx]
    exact mul_lt_mul_of_pos_left this hdet
  · have hup : Filter.Tendsto (fun v : ℝ × ℝ => v.1 * v.2)
        (nhdsWithin (0, 0) {v | 0 < v.1 ∧ 0 < v.2}) (nhds 0) := by
      have hc : Continuous fun v : ℝ × ℝ => v.1 * v.2 := continuous_fst.mul continuous_snd
      have := hc.tendsto (0, 0)
      simp only [mul_zero] at this
      exact this.mono_left nhdsWithin_le_nhds
    refine tendsto_of_tendsto_of_tendsto_of_le_of_le' tendsto_const_nhds hup ?_ ?_
    · filter_upwards [self_mem_nhdsWithin] with v hv
      obtain ⟨hlt, heq⟩ := key v.1 v.2 hv.1 hv.2
      rw [heq]
      have hSpos : 0 < (obs_cov cell.cov v.1 v.2).det := by linarith
      exact div_nonneg (mul_nonneg hdet.le (mul_pos hv.1 hv.2).le) hSpos.le
    · filter_upwards [self_mem_nhdsWithin] with v hv
      obtain ⟨hlt, heq⟩ := key v.1 v.2 hv.1 hv.2
      rw [heq]
      have hSpos : 0 < (obs_cov cell.cov v.1 v.2).det := by linarith
      rw [div_le_iff₀ hSpos]
      have hv12 : 0 < v.1 * v.2 := mul_pos hv.1 hv.2
      nlinarith

/-- C10 at the cell with identity covariance. -/
theorem posterior_zero_innovation_witness :
    (∀ vx vg : ℝ, 0 < vx → 0 < vg →
      (posterior 0 (bare_cell 0 1 : MOMAdata ℝ) vx vg).mean = (bare_cell 0 1 : MOMAdata ℝ).mean ∧
      (block22 (posterior 0 (bare_cell 0 1 : MOMAdata ℝ) vx vg).cov).det
        < (block22 (bare_cell 0 1 : MOMAdata ℝ).cov).det) ∧
    Filter.Tendsto
      (fun v : ℝ × ℝ => (block22 (posterior 0 (bare_cell 0 1 : MOMAdata ℝ) v.1 v.2).cov).det)
      (nhdsWithin (0, 0) {v | 0 < v.1 ∧ 0 < v.2}) (nhds 0) :=
  posterior_zero_innovation (bare_cell 0 1) (by simp [bare_cell])
    (by
      have h : block22 (bare_cell 0 1 : MOMAdata ℝ).cov = 1 := by
        ext a b
        fin_cases a <;> fin_cases b <;> simp [block22, bare_cell]
      rw [h]
      exact Matrix.PosDef.one)

end ZeroInnovation

/-! ### Concrete genealogies -/

section GenealogyRuns

/-- C7 at the three cells of `family`, under `unit_params`, with fuel 2. -/
theorem total_likelihood_is_genealogy_sum_witness :
    (total_likelihood realFns 2 unit_params [] family (some 0)).map Prod.snd
        = some (genealogy_sum realFns unit_params none family_tree) ∧
    ∀ n, total_likelihood realFns n unit_params [] family none = some (family, 0) :=
  total_likelihood_is_genealogy_sum realFns unit_params [] family (some 0) family_tree 2
    unit_params_length family_rooted (by simp [family_tree, Genealogy.depth])

/-- C8 at the three cells of `family`, exchanging the daughters of the root. -/
theorem total_likelihood_exchange_daughters_witness :
    (∃ v : ℝ, (total_likelihood realFns 2 unit_params [] family (some 0)).map Prod.snd
        = some v ∧
      (total_likelihood realFns 2 unit_params [] (exchange_daughters family 0)
        (some 0)).map Prod.snd = some v) ∧
    ∀ (d : Genealogy ℝ) (cells0 : List (MOMAdata ℝ)) (pp : Option Nat)
      (par : Option (MOMAdata ℝ)) (tl : ℝ) (n j : Nat),
      d.Linked cells0 pp → d.addrs.Nodup → d.Above cells0 pp par → d.depth ≤ n →
      j ∉ d.addrs →
      ∃ r, likelihood_recr realFns unit_params n d.ptr cells0 tl = some r ∧
        r.1[j]? = cells0[j]? :=
  total_likelihood_exchange_daughters realFns unit_params [] family (some 0) family_tree 0 2
    unit_params_length family_rooted (by simp [family_tree, Genealogy.depth])

end GenealogyRuns

/-! ## The moment integrals of mean_cov_model.h -/

section Additivity

variable {K : Type} [Field K]

/-- C16: for each of zerotauint, onetauint, twotauint, treetauint, the value
with bounds (t1 = t, t0 = 0) minus the value with bounds (t1 = s, t0 = 0) is the
value with bounds (t1 = t, t0 = s). The identity is exact over any field, for
any functions exp, sqrt, pow and erfi, and for all a, b, c, s, t (so for a > 0
and 0 < s < t). -/
theorem tauint_additive (M : MathFns K) (a b c s t : K) :
    zerotauint M a b c t 0 - zerotauint M a b c s 0 = zerotauint M a b c t s ∧
    onetauint M a b c t 0 - onetauint M a b c s 0 = onetauint M a b c t s ∧
    twotauint M a b c t 0 - twotauint M a b c s 0 = twotauint M a b c t s ∧
    treetauint M a b c t 0 - treetauint M a b c s 0 = treetauint M a b c t s := by
  refine ⟨?_, ?_, ?_, ?_⟩
  · unfold zerotauint
    ring
  · unfold onetauint
    ring
  · unfold twotauint
    ring
  · unfold treetauint
    ring

end Additivity

/-! ## Symmetry of the covariance -/

section Symmetry

variable {K : Type} [Field K]

theorem inverse_isSymm (S : Matrix (Fin 2) (Fin 2) K) (h : S.IsSymm) : (inverse S).IsSymm := by
  rw [inverse_eq_adjugate]
  rw [Matrix.IsSymm, Matrix.transpose_smul, Matrix.adjugate_transpose, h.eq]

omit [Field K] in
theorem block22_isSymm (cov : Matrix (Fin 4) (Fin 4) K) (h : cov.IsSymm) :
    (block22 cov).IsSymm := by
  apply Matrix.IsSymm.ext
  intro i j
  fin_cases i <;> fin_cases j <;> simp [block22, h.apply]

theorem obs_cov_isSymm (cov : Matrix (Fin 4) (Fin 4) K) (vx vg : K) (h : cov.IsSymm) :
    (obs_cov cov vx vg).IsSymm := by
  unfold obs_cov
  refine Matrix.IsSymm.add (block22_isSymm cov h) ?_
  apply Matrix.IsSymm.ext
  intro i j
  fin_cases i <;> fin_cases j <;> simp

theorem posterior_isSymm (y : Matrix (Fin 2) (Fin 1) K) (cell : MOMAdata K) (vx vg : K)
    (h : cell.cov.IsSymm) : (posterior y cell vx vg).cov.IsSymm := by
  have hS := inverse_isSymm _ (obs_cov_isSymm cell.cov vx vg h)
  unfold obs_cov at hS
  show (cell.cov - (block24 cell.cov).transpose * inverse (block22 cell.cov + !![vx, 0; 0, vg])
    * block24 cell.cov).IsSymm
  refine Matrix.IsSymm.sub h ?_
  rw [Matrix.IsSymm, Matrix.transpose_mul, Matrix.transpose_mul, Matrix.transpose_transpose,
    hS.eq, Matrix.mul_assoc]

theorem mean_cov_model_isSymm (M : MathFns K) (cell : MOMAdata K)
    (t ml gl sl2 mq gq sq2 b : K) :
    (mean_cov_model M cell t ml gl sl2 mq gq sq2 b).cov.IsSymm := by
  apply Matrix.IsSymm.ext
  intro i j
  fin_cases i <;> fin_cases j <;> rfl

theorem prior_daughter_isSymm (M : MathFns K) (var_dx var_dg : K) (q c : MOMAdata K)
    (h : q.cov.IsSymm) : (prior_daughter M var_dx var_dg q c).cov.IsSymm := by
  show (_ + _ * q.cov * _ : Matrix (Fin 4) (Fin 4) K).IsSymm
  refine Matrix.IsSymm.add ?_ ?_
  · apply Matrix.IsSymm.ext
    intro i j
    fin_cases i <;> fin_cases j <;> simp [setCoeff]
  · rw [Matrix.IsSymm, Matrix.transpose_mul, Matrix.transpose_mul, Matrix.transpose_transpose,
      h.eq, Matrix.mul_assoc]

theorem prior_root_isSymm (params_vec : List K) (c : MOMAdata K) (h : c.cov.IsSymm) :
    (prior_root params_vec c).cov.IsSymm := by
  apply Matrix.IsSymm.ext
  intro i j
  fin_cases i <;> fin_cases j <;> simp [prior_root, setCoeff, h.apply]

/-- C11: every operation that writes a cell's covariance keeps it symmetric.
`mean_cov_model` returns a symmetric covariance for every input; `posterior`
returns one when the cell's covariance is symmetric; the root initialisation of
`sc_likelihood` returns one when the root's own covariance is symmetric; and
`mean_cov_after_division` returns one when the parent's covariance is
symmetric. -/
theorem covariance_writes_keep_symmetry (M : MathFns K) (params_vec : List K)
    (cells : List (MOMAdata K)) (i p : Nat) (c q : MOMAdata K) (y : Matrix (Fin 2) (Fin 1) K)
    (var_x var_g var_dx var_dg t ml gl sl2 mq gq sq2 b : K) :
    (mean_cov_model M c t ml gl sl2 mq gq sq2 b).cov.IsSymm ∧
    (c.cov.IsSymm → (posterior y c var_x var_g).cov.IsSymm) ∧
    (cells[i]? = some c → c.parent = none → 13 ≤ params_vec.length → c.cov.IsSymm →
      ∃ c0, sc_likelihood_prior M params_vec cells i = some (cells.set i c0) ∧
        c0.cov.IsSymm) ∧
    (cells[i]? = some c → c.parent = some p → cells[p]? = some q → q.cov.IsSymm →
      ∃ c0, mean_cov_after_division M cells i var_dx var_dg = some (cells.set i c0) ∧
        c0.cov.IsSymm) :=
  ⟨mean_cov_model_isSymm M c t ml gl sl2 mq gq sq2 b,
    posterior_isSymm y c var_x var_g,
    fun hc hroot hp h => ⟨_, sc_likelihood_prior_root M params_vec cells i c hc hroot hp,
      prior_root_isSymm params_vec c h⟩,
    fun hc hpar hq h => ⟨_, mean_cov_after_division_eq M cells i p c q var_dx var_dg hc hpar hq,
      prior_daughter_isSymm M var_dx var_dg q c h⟩⟩

/-- C11 at the root and the daughter of `mother_and_daughter`, whose covariances
are the identity and zero. -/
theorem covariance_writes_keep_symmetry_witness :
    (∀ c ∈ (mother_and_daughter : List (MOMAdata ℝ)),
      (mean_cov_model realFns c 1 1 1 1 1 1 1 1).cov.IsSymm ∧
      (posterior 0 c 1 1).cov.IsSymm) ∧
    (∃ c0, sc_likelihood_prior realFns unit_params mother_and_daughter 0
        = some ((mother_and_daughter : List (MOMAdata ℝ)).set 0 c0) ∧ c0.cov.IsSymm) ∧
    (∃ c0, mean_cov_after_division realFns mother_and_daughter 1 1 1
        = some ((mother_and_daughter : List (MOMAdata ℝ)).set 1 c0) ∧ c0.cov.IsSymm) := by
  have hs : ∀ c ∈ (mother_and_daughter : List (MOMAdata ℝ)), c.cov.IsSymm := by
    intro c hc
    simp only [mother_and_daughter, List.mem_cons, List.mem_singleton, List.not_mem_nil,
      or_false] at hc
    rcases hc with rfl | rfl
    · exact Matrix.isSymm_one
    · exact Matrix.isSymm_zero
  refine ⟨fun c hc => ?_, ?_, ?_⟩
  · have h := covariance_writes_keep_symmetry realFns unit_params mother_and_daughter 0 0 c c 0
      1 1 1 1 1 1 1 1 1 1 1 1
    exact ⟨h.1, h.2.1 (hs c hc)⟩
  · exact (covariance_writes_keep_symmetry realFns unit_params mother_and_daughter 0 0 _
      (bare_cell 0 0) 0 1 1 1 1 1 1 1 1 1 1 1 1).2.2.1 rfl rfl unit_params_length
      (hs _ (by simp [mother_and_daughter]))
  · exact (covariance_writes_keep_symmetry realFns unit_params mother_and_daughter 1 0 _ _ 0
      1 1 1 1 1 1 1 1 1 1 1 1).2.2.2 rfl rfl rfl (hs _ (by simp [mother_and_daughter]))

end Symmetry

/-! ## The moments of λ and q written by mean_cov_model -/

section OrnsteinUhlenbeck

open Filter

variable (bx bg bl bq Cxx Cxg Cxl Cxq Cgg Cgl Cgq Cll Clq Cqq ml gl sl2 mq gq sq2 b : ℝ)

theorem hasDerivAt_exp_neg_mul (g t : ℝ) :
    HasDerivAt (fun s => Real.exp (-g * s)) (-g * Real.exp (-g * t)) t := by
  have h := ((hasDerivAt_id t).const_mul (-g)).exp
  simp only [id_eq, mul_one] at h
  convert h using 1
  ring

theorem tendsto_exp_neg_mul_atTop (g : ℝ) (hg : 0 < g) :
    Tendsto (fun t => Real.exp (-g * t)) atTop (nhds 0) := by
  have h : Tendsto (fun t : ℝ => -g * t) atTop atBot := by
    have h1 : Tendsto (fun t : ℝ => g * t) atTop atTop := tendsto_id.const_mul_atTop hg
    have h2 := tendsto_neg_atTop_atBot.comp h1
    refine h2.congr fun t => ?_
    simp
  exact Real.tendsto_exp_atBot.comp h

theorem mean_l_hasDerivAt (t : ℝ) :
    HasDerivAt (fun s => mean_l realFns s bx bg bl bq Cxx Cxg Cxl Cxq Cgg Cgl Cgq Cll Clq Cqq ml
        gl sl2 mq gq sq2 b)
      (-gl * (mean_l realFns t bx bg bl bq Cxx Cxg Cxl Cxq Cgg Cgl Cgq Cll Clq Cqq ml gl sl2 mq
        gq sq2 b - ml)) t := by
  have h := ((hasDerivAt_exp_neg_mul gl t).const_mul (bl - ml)).const_add ml
  simp only [mean_l, realFns]
  convert h using 1
  ring

theorem mean_q_hasDerivAt (t : ℝ) :
    HasDerivAt (fun s => mean_q realFns s bx bg bl bq Cxx Cxg Cxl Cxq Cgg Cgl Cgq Cll Clq Cqq ml
        gl sl2 mq gq sq2 b)
      (-gq * (mean_q realFns t bx bg bl bq Cxx Cxg Cxl Cxq Cgg Cgl Cgq Cll Clq Cqq ml gl sl2 mq
        gq sq2 b - mq)) t := by
  have h := ((hasDerivAt_exp_neg_mul gq t).const_mul (bq - mq)).const_add mq
  simp only [mean_q, realFns]
  convert h using 1
  ring

theorem cov_ll_hasDerivAt (hgl : gl ≠ 0) (t : ℝ) :
    HasDerivAt (fun s => cov_ll realFns s bx bg bl bq Cxx Cxg Cxl Cxq Cgg Cgl Cgq Cll Clq Cqq ml
        gl sl2 mq gq sq2 b)
      (-2 * gl * cov_ll realFns t bx bg bl bq Cxx Cxg Cxl Cxq Cgg Cgl Cgq Cll Clq Cqq ml gl sl2
        mq gq sq2 b + sl2) t := by
  have he := (hasDerivAt_exp_neg_mul gl t).pow 2
  have h := (he.const_mul Cll).add ((he.const_sub 1).const_mul (sl2 / (2 * gl)))
  simp only [cov_ll, realFns]
  convert h using 1
  field_simp
  ring

theorem cov_qq_hasDerivAt (hgq : gq ≠ 0) (t : ℝ) :
    HasDerivAt (fun s => cov_qq realFns s bx bg bl bq Cxx Cxg Cxl Cxq Cgg Cgl Cgq Cll Clq Cqq ml
        gl sl2 mq gq sq2 b)
      (-2 * gq * cov_qq realFns t bx bg bl bq Cxx Cxg Cxl Cxq Cgg Cgl Cgq Cll Clq Cqq ml gl sl2
        mq gq sq2 b + sq2) t := by
  have he := (hasDerivAt_exp_neg_mul gq t).pow 2
  have h := ((he.const_sub 1).const_mul (sq2 / (2 * gq))).add (he.const_mul Cqq)
  simp only [cov_qq, realFns]
  convert h using 1
  field_simp
  ring

theorem cov_lq_hasDerivAt (t : ℝ) :
    HasDerivAt (fun s => cov_lq realFns s bx bg bl bq Cxx Cxg Cxl Cxq Cgg Cgl Cgq Cll Clq Cqq ml
        gl sl2 mq gq sq2 b)
      (-(gl + gq) * cov_lq realFns t bx bg bl bq Cxx Cxg Cxl Cxq Cgg Cgl Cgq Cll Clq Cqq ml gl
        sl2 mq gq sq2 b) t := by
  have h := ((hasDerivAt_exp_neg_mul gl t).const_mul Clq).mul (hasDerivAt_exp_neg_mul gq t)
  simp only [cov_lq, realFns]
  convert h using 1
  ring

theorem ou_at_zero :
    mean_l realFns 0 bx bg bl bq Cxx Cxg Cxl Cxq Cgg Cgl Cgq Cll Clq Cqq ml gl sl2 mq gq sq2 b
      = bl ∧
    mean_q realFns 0 bx bg bl bq Cxx Cxg Cxl Cxq Cgg Cgl Cgq Cll Clq Cqq ml gl sl2 mq gq sq2 b
      = bq ∧
    cov_ll realFns 0 bx bg bl bq Cxx Cxg Cxl Cxq Cgg Cgl Cgq Cll Clq Cqq ml gl sl2 mq gq sq2 b
      = Cll ∧
    cov_lq realFns 0 bx bg bl bq Cxx Cxg Cxl Cxq Cgg Cgl Cgq Cll Clq Cqq ml gl sl2 mq gq sq2 b
      = Clq ∧
    cov_qq realFns 0 bx bg bl bq Cxx Cxg Cxl Cxq Cgg Cgl Cgq Cll Clq Cqq ml gl sl2 mq gq sq2 b
      = Cqq := by
  simp [mean_l, mean_q, cov_ll, cov_lq, cov_qq, realFns]

theorem ou_limits (hgl : 0 < gl) (hgq : 0 < gq) :
    Tendsto (fun t => mean_l realFns t bx bg bl bq Cxx Cxg Cxl Cxq Cgg Cgl Cgq Cll Clq Cqq ml gl
      sl2 mq gq sq2 b) atTop (nhds ml) ∧
    Tendsto (fun t => mean_q realFns t bx bg bl bq Cxx Cxg Cxl Cxq Cgg Cgl Cgq Cll Clq Cqq ml gl
      sl2 mq gq sq2 b) atTop (nhds mq) ∧
    Tendsto (fun t => cov_ll realFns t bx bg bl bq Cxx Cxg Cxl Cxq Cgg Cgl Cgq Cll Clq Cqq ml gl
      sl2 mq gq sq2 b) atTop (nhds (sl2 / (2 * gl))) ∧
    Tendsto (fun t => cov_qq realFns t bx bg bl bq Cxx Cxg Cxl Cxq Cgg Cgl Cgq Cll Clq Cqq ml gl
      sl2 mq gq sq2 b) atTop (nhds (sq2 / (2 * gq))) := by
  have el := tendsto_exp_neg_mul_atTop gl hgl
  have eq := tendsto_exp_neg_mul_atTop gq hgq
  refine ⟨?_, ?_, ?_, ?_⟩
  · have h := (el.const_mul (bl - ml)).const_add ml
    simpa [mean_l, realFns] using h
  · have h := (eq.const_mul (bq - mq)).const_add mq
    simpa [mean_q, realFns] using h
  · have h := ((el.pow 2).const_mul Cll).add
      (((el.pow 2).const_sub 1).const_mul (sl2 / (2 * gl)))
    simpa [cov_ll, realFns] using h
  · have h := (((eq.pow 2).const_sub 1).const_mul (sq2 / (2 * gq))).add
      ((eq.pow 2).const_mul Cqq)
    simpa [cov_qq, realFns] using h

/-- C19: the (λ, q) outputs of `mean_cov_model` are the transition moments of two
independent Ornstein–Uhlenbeck processes. For all γ_λ, γ_q > 0 the entries
mean_l, mean_q, cov_ll, cov_lq, cov_qq written for Δt = 0 are the prior ones; as
functions of t they satisfy d/dt mean_l = −γ_λ·(mean_l − mean_λ),
d/dt mean_q = −γ_q·(mean_q − mean_q_param), d/dt cov_ll = −2γ_λ·cov_ll + σ²_λ,
d/dt cov_qq = −2γ_q·cov_qq + σ²_q and d/dt cov_lq = −(γ_λ + γ_q)·cov_lq; and as
t → ∞ the means tend to mean_λ, mean_q and the variances to σ²_λ/(2γ_λ),
σ²_q/(2γ_q). -/
theorem mean_cov_model_ornstein_uhlenbeck (cell : MOMAdata ℝ) (ml gl sl2 mq gq sq2 b : ℝ)
    (hgl : 0 < gl) (hgq : 0 < gq) :
    ((mean_cov_model realFns cell 0 ml gl sl2 mq gq sq2 b).mean 2 0 = cell.mean 2 0 ∧
      (mean_cov_model realFns cell 0 ml gl sl2 mq gq sq2 b).mean 3 0 = cell.mean 3 0 ∧
      (mean_cov_model realFns cell 0 ml gl sl2 mq gq sq2 b).cov 2 2 = cell.cov 2 2 ∧
      (mean_cov_model realFns cell 0 ml gl sl2 mq gq sq2 b).cov 2 3 = cell.cov 2 3 ∧
      (mean_cov_model realFns cell 0 ml gl sl2 mq gq sq2 b).cov 3 3 = cell.cov 3 3) ∧
    (∀ t : ℝ,
      HasDerivAt (fun s => (mean_cov_model realFns cell s ml gl sl2 mq gq sq2 b).mean 2 0)
        (-gl * ((mean_cov_model realFns cell t ml gl sl2 mq gq sq2 b).mean 2 0 - ml)) t ∧
      HasDerivAt (fun s => (mean_cov_model realFns cell s ml gl sl2 mq gq sq2 b).mean 3 0)
        (-gq * ((mean_cov_model realFns cell t ml gl sl2 mq gq sq2 b).mean 3 0 - mq)) t ∧
      HasDerivAt (fun s => (mean_cov_model realFns cell s ml gl sl2 mq gq sq2 b).cov 2 2)
        (-2 * gl * (mean_cov_model realFns cell t ml gl sl2 mq gq sq2 b).cov 2 2 + sl2) t ∧
      HasDerivAt (fun s => (mean_cov_model realFns cell s ml gl sl2 mq gq sq2 b).cov 3 3)
        (-2 * gq * (mean_cov_model realFns cell t ml gl sl2 mq gq sq2 b).cov 3 3 + sq2) t ∧
      HasDerivAt (fun s => (mean_cov_model realFns cell s ml gl sl2 mq gq sq2 b).cov 2 3)
        (-(gl + gq) * (mean_cov_model realFns cell t ml gl sl2 mq gq sq2 b).cov 2 3) t) ∧
    (Filter.Tendsto (fun t => (mean_cov_model realFns cell t ml gl sl2 mq gq sq2 b).mean 2 0)
      Filter.atTop (nhds ml) ∧
      Filter.Tendsto (fun t => (mean_cov_model realFns cell t ml gl sl2 mq gq sq2 b).mean 3 0)
        Filter.atTop (nhds mq) ∧
      Filter.Tendsto (fun t => (mean_cov_model realFns cell t ml gl sl2 mq gq sq2 b).cov 2 2)
        Filter.atTop (nhds (sl2 / (2 * gl))) ∧
      Filter.Tendsto (fun t => (mean_cov_model realFns cell t ml gl sl2 mq gq sq2 b).cov 3 3)
        Filter.atTop (nhds (sq2 / (2 * gq)))) :=
  ⟨ou_at_zero (cell.mean 0 0) (cell.mean 1 0) (cell.mean 2 0) (cell.mean 3 0)
      (cell.cov 0 0) (cell.cov 0 1) (cell.cov 0 2) (cell.cov 0 3) (cell.cov 1 1) (cell.cov 1 2)
      (cell.cov 1 3) (cell.cov 2 2) (cell.cov 2 3) (cell.cov 3 3) ml gl sl2 mq gq sq2 b,
    fun t => ⟨mean_l_hasDerivAt (cell.mean 0 0) (cell.mean 1 0) (cell.mean 2 0) (cell.mean 3 0)
      (cell.cov 0 0) (cell.cov 0 1) (cell.cov 0 2) (cell.cov 0 3) (cell.cov 1 1) (cell.cov 1 2)
      (cell.cov 1 3) (cell.cov 2 2) (cell.cov 2 3) (cell.cov 3 3) ml gl sl2 mq gq sq2 b t,
      mean_q_hasDerivAt (cell.mean 0 0) (cell.mean 1 0) (cell.mean 2 0) (cell.mean 3 0)
      (cell.cov 0 0) (cell.cov 0 1) (cell.cov 0 2) (cell.cov 0 3) (cell.cov 1 1) (cell.cov 1 2)
      (cell.cov 1 3) (cell.cov 2 2) (cell.cov 2 3) (cell.cov 3 3) ml gl sl2 mq gq sq2 b t,
      cov_ll_hasDerivAt (cell.mean 0 0) (cell.mean 1 0) (cell.mean 2 0) (cell.mean 3 0)
      (cell.cov 0 0) (cell.cov 0 1) (cell.cov 0 2) (cell.cov 0 3) (cell.cov 1 1) (cell.cov 1 2)
      (cell.cov 1 3) (cell.cov 2 2) (cell.cov 2 3) (cell.cov 3 3) ml gl sl2 mq gq sq2 b hgl.ne.symm t,
      cov_qq_hasDerivAt (cell.mean 0 0) (cell.mean 1 0) (cell.mean 2 0) (cell.mean 3 0)
      (cell.cov 0 0) (cell.cov 0 1) (cell.cov 0 2) (cell.cov 0 3) (cell.cov 1 1) (cell.cov 1 2)
      (cell.cov 1 3) (cell.cov 2 2) (cell.cov 2 3) (cell.cov 3 3) ml gl sl2 mq gq sq2 b hgq.ne.symm t,
      cov_lq_hasDerivAt (cell.mean 0 0) (cell.mean 1 0) (cell.mean 2 0) (cell.mean 3 0)
      (cell.cov 0 0) (cell.cov 0 1) (cell.cov 0 2) (cell.cov 0 3) (cell.cov 1 1) (cell.cov 1 2)
      (cell.cov 1 3) (cell.cov 2 2) (cell.cov 2 3) (cell.cov 3 3) ml gl sl2 mq gq sq2 b t⟩,
    ou_limits (cell.mean 0 0) (cell.mean 1 0) (cell.mean 2 0) (cell.mean 3 0)
      (cell.cov 0 0) (cell.cov 0 1) (cell.cov 0 2) (cell.cov 0 3) (cell.cov 1 1) (cell.cov 1 2)
      (cell.cov 1 3) (cell.cov 2 2) (cell.cov 2 3) (cell.cov 3 3) ml gl sl2 mq gq sq2 b hgl hgq⟩

/-- C19 at a cell with zero mean and identity covariance, for mean_λ = 2,
γ_λ = 1, σ²_λ = 3, mean_q = 5, γ_q = 4, σ²_q = 6, β = 7. -/
theorem mean_cov_model_ornstein_uhlenbeck_witness :
    ((mean_cov_model realFns (bare_cell 0 1) 0 2 1 3 5 4 6 7).mean 2 0 = (bare_cell 0 1).mean 2 0 ∧
      (mean_cov_model realFns (bare_cell 0 1) 0 2 1 3 5 4 6 7).mean 3 0 = (bare_cell 0 1).mean 3 0 ∧
      (mean_cov_model realFns (bare_cell 0 1) 0 2 1 3 5 4 6 7).cov 2 2 = (bare_cell 0 1).cov 2 2 ∧
      (mean_cov_model realFns (bare_cell 0 1) 0 2 1 3 5 4 6 7).cov 2 3 = (bare_cell 0 1).cov 2 3 ∧
      (mean_cov_model realFns (bare_cell 0 1) 0 2 1 3 5 4 6 7).cov 3 3 = (bare_cell 0 1).cov 3 3) ∧
    (∀ t : ℝ,
      HasDerivAt (fun s => (mean_cov_model realFns (bare_cell 0 1) s 2 1 3 5 4 6 7).mean 2 0)
        (-1 * ((mean_cov_model realFns (bare_cell 0 1) t 2 1 3 5 4 6 7).mean 2 0 - 2)) t ∧
      HasDerivAt (fun s => (mean_cov_model realFns (bare_cell 0 1) s 2 1 3 5 4 6 7).mean 3 0)
        (-4 * ((mean_cov_model realFns (bare_cell 0 1) t 2 1 3 5 4 6 7).mean 3 0 - 5)) t ∧
      HasDerivAt (fun s => (mean_cov_model realFns (bare_cell 0 1) s 2 1 3 5 4 6 7).cov 2 2)
        (-2 * 1 * (mean_cov_model realFns (bare_cell 0 1) t 2 1 3 5 4 6 7).cov 2 2 + 3) t ∧
      HasDerivAt (fun s => (mean_cov_model realFns (bare_cell 0 1) s 2 1 3 5 4 6 7).cov 3 3)
        (-2 * 4 * (mean_cov_model realFns (bare_cell 0 1) t 2 1 3 5 4 6 7).cov 3 3 + 6) t ∧
      HasDerivAt (fun s => (mean_cov_model realFns (bare_cell 0 1) s 2 1 3 5 4 6 7).cov 2 3)
        (-(1 + 4) * (mean_cov_model realFns (bare_cell 0 1) t 2 1 3 5 4 6 7).cov 2 3) t) ∧
    (Filter.Tendsto (fun t => (mean_cov_model realFns (bare_cell 0 1) t 2 1 3 5 4 6 7).mean 2 0)
      Filter.atTop (nhds 2) ∧
      Filter.Tendsto (fun t => (mean_cov_model realFns (bare_cell 0 1) t 2 1 3 5 4 6 7).mean 3 0)
        Filter.atTop (nhds 5) ∧
      Filter.Tendsto (fun t => (mean_cov_model realFns (bare_cell 0 1) t 2 1 3 5 4 6 7).cov 2 2)
        Filter.atTop (nhds (3 / (2 * 1))) ∧
      Filter.Tendsto (fun t => (mean_cov_model realFns (bare_cell 0 1) t 2 1 3 5 4 6 7).cov 3 3)
        Filter.atTop (nhds (6 / (2 * 4)))) :=
  mean_cov_model_ornstein_uhlenbeck (bare_cell 0 1) 2 1 3 5 4 6 7 (by norm_num) (by norm_num)

end OrnsteinUhlenbeck

/-! ## The moments of x written by mean_cov_model -/

section Position

variable (bx bg bl bq Cxx Cxg Cxl Cxq Cgg Cgl Cgq Cll Clq Cqq ml gl sl2 mq gq sq2 b : ℝ)

theorem mean_x_hasDerivAt (hgl : gl ≠ 0) (t : ℝ) :
    HasDerivAt (fun s => mean_x realFns s bx bg bl bq Cxx Cxg Cxl Cxq Cgg Cgl Cgq Cll Clq Cqq ml
        gl sl2 mq gq sq2 b)
      (mean_l realFns t bx bg bl bq Cxx Cxg Cxl Cxq Cgg Cgl Cgq Cll Clq Cqq ml gl sl2 mq gq sq2
        b) t := by
  have he := hasDerivAt_exp_neg_mul gl t
  have h := (((hasDerivAt_id t).const_mul ml).const_add bx).add
    (((he.const_sub 1).const_mul (bl - ml)).div_const gl)
  simp only [mean_x, mean_l, realFns]
  convert h using 1
  field_simp
  ring

theorem cov_xx_hasDerivAt (hgl : gl ≠ 0) (t : ℝ) :
    HasDerivAt (fun s => cov_xx realFns s bx bg bl bq Cxx Cxg Cxl Cxq Cgg Cgl Cgq Cll Clq Cqq ml
        gl sl2 mq gq sq2 b)
      (2 * cov_xl realFns t bx bg bl bq Cxx Cxg Cxl Cxq Cgg Cgl Cgq Cll Clq Cqq ml gl sl2 mq gq
        sq2 b) t := by
  have he := hasDerivAt_exp_neg_mul gl t
  have hu := he.const_sub 1
  have h := ((((hu.pow 2).const_mul Cll).div_const (gl ^ 2)).add
      ((hu.const_mul (2 * Cxl)).div_const gl)).add_const Cxx
  have h2 := (((((hasDerivAt_id t).const_mul (2 * gl)).sub_const 3).add
      (he.const_mul 4)).sub (he.pow 2)).const_mul (sl2 / (2 * gl ^ 3))
  have h3 := h.add h2
  simp only [cov_xx, cov_xl, realFns]
  convert h3 using 1
  field_simp
  ring

theorem cov_xl_hasDerivAt (hgl : gl ≠ 0) (t : ℝ) :
    HasDerivAt (fun s => cov_xl realFns s bx bg bl bq Cxx Cxg Cxl Cxq Cgg Cgl Cgq Cll Clq Cqq ml
        gl sl2 mq gq sq2 b)
      (cov_ll realFns t bx bg bl bq Cxx Cxg Cxl Cxq Cgg Cgl Cgq Cll Clq Cqq ml gl sl2 mq gq
          sq2 b
        - gl * cov_xl realFns t bx bg bl bq Cxx Cxg Cxl Cxq Cgg Cgl Cgq Cll Clq Cqq ml gl sl2
          mq gq sq2 b) t := by
  have he := hasDerivAt_exp_neg_mul gl t
  have hu := he.const_sub 1
  have h := (((hu.pow 2).const_mul (sl2 / (2 * gl ^ 2))).add
      (((he.const_mul Cll).mul hu).div_const gl)).add (he.const_mul Cxl)
  simp only [cov_xl, cov_ll, realFns]
  convert h using 1
  field_simp
  ring

theorem cov_xq_hasDerivAt (hgl : gl ≠ 0) (t : ℝ) :
    HasDerivAt (fun s => cov_xq realFns s bx bg bl bq Cxx Cxg Cxl Cxq Cgg Cgl Cgq Cll Clq Cqq ml
        gl sl2 mq gq sq2 b)
      (cov_lq realFns t bx bg bl bq Cxx Cxg Cxl Cxq Cgg Cgl Cgq Cll Clq Cqq ml gl sl2 mq gq
          sq2 b
        - gq * cov_xq realFns t bx bg bl bq Cxx Cxg Cxl Cxq Cgg Cgl Cgq Cll Clq Cqq ml gl sl2
          mq gq sq2 b) t := by
  have hl := hasDerivAt_exp_neg_mul gl t
  have hq := hasDerivAt_exp_neg_mul gq t
  have h := ((((hl.const_sub 1).const_mul Clq).mul hq).div_const gl).add (hq.const_mul Cxq)
  simp only [cov_xq, cov_lq, realFns]
  convert h using 1
  field_simp
  ring

theorem position_at_zero :
    mean_x realFns 0 bx bg bl bq Cxx Cxg Cxl Cxq Cgg Cgl Cgq Cll Clq Cqq ml gl sl2 mq gq sq2 b
      = bx ∧
    cov_xx realFns 0 bx bg bl bq Cxx Cxg Cxl Cxq Cgg Cgl Cgq Cll Clq Cqq ml gl sl2 mq gq sq2 b
      = Cxx ∧
    cov_xl realFns 0 bx bg bl bq Cxx Cxg Cxl Cxq Cgg Cgl Cgq Cll Clq Cqq ml gl sl2 mq gq sq2 b
      = Cxl ∧
    cov_xq realFns 0 bx bg bl bq Cxx Cxg Cxl Cxq Cgg Cgl Cgq Cll Clq Cqq ml gl sl2 mq gq sq2 b
      = Cxq := by
  refine ⟨?_, ?_, ?_, ?_⟩
  · simp [mean_x, realFns]
  · simp [cov_xx, realFns]
    norm_num
  · simp [cov_xl, realFns]
  · simp [cov_xq, realFns]

/-- C18: the x-related outputs of `mean_cov_model` are the moments of
x_t = x_0 + ∫_0^t λ_s ds. For every prior and every γ_λ ≠ 0 (and every γ_q), the
entries mean_x, cov_xx, cov_xl, cov_xq written for Δt = 0 are the prior ones, and
as functions of t they satisfy d/dt mean_x = mean_l, d/dt cov_xx = 2·cov_xl,
d/dt cov_xl = cov_ll − γ_λ·cov_xl and d/dt cov_xq = cov_lq − γ_q·cov_xq. -/
theorem mean_cov_model_position_moments (cell : MOMAdata ℝ) (ml gl sl2 mq gq sq2 b : ℝ)
    (hgl : gl ≠ 0) :
    ((mean_cov_model realFns cell 0 ml gl sl2 mq gq sq2 b).mean 0 0 = cell.mean 0 0 ∧
      (mean_cov_model realFns cell 0 ml gl sl2 mq gq sq2 b).cov 0 0 = cell.cov 0 0 ∧
      (mean_cov_model realFns cell 0 ml gl sl2 mq gq sq2 b).cov 0 2 = cell.cov 0 2 ∧
      (mean_cov_model realFns cell 0 ml gl sl2 mq gq sq2 b).cov 0 3 = cell.cov 0 3) ∧
    ∀ t : ℝ,
      HasDerivAt (fun s => (mean_cov_model realFns cell s ml gl sl2 mq gq sq2 b).mean 0 0)
        ((mean_cov_model realFns cell t ml gl sl2 mq gq sq2 b).mean 2 0) t ∧
      HasDerivAt (fun s => (mean_cov_model realFns cell s ml gl sl2 mq gq sq2 b).cov 0 0)
        (2 * (mean_cov_model realFns cell t ml gl sl2 mq gq sq2 b).cov 0 2) t ∧
      HasDerivAt (fun s => (mean_cov_model realFns cell s ml gl sl2 mq gq sq2 b).cov 0 2)
        ((mean_cov_model realFns cell t ml gl sl2 mq gq sq2 b).cov 2 2
          - gl * (mean_cov_model realFns cell t ml gl sl2 mq gq sq2 b).cov 0 2) t ∧
      HasDerivAt (fun s => (mean_cov_model realFns cell s ml gl sl2 mq gq sq2 b).cov 0 3)
        ((mean_cov_model realFns cell t ml gl sl2 mq gq sq2 b).cov 2 3
          - gq * (mean_cov_model realFns cell t ml gl sl2 mq gq sq2 b).cov 0 3) t :=
  ⟨position_at_zero (cell.mean 0 0) (cell.mean 1 0) (cell.mean 2 0) (cell.mean 3 0)
      (cell.cov 0 0) (cell.cov 0 1) (cell.cov 0 2) (cell.cov 0 3) (cell.cov 1 1) (cell.cov 1 2)
      (cell.cov 1 3) (cell.cov 2 2) (cell.cov 2 3) (cell.cov 3 3) ml gl sl2 mq gq sq2 b,
    fun t => ⟨mean_x_hasDerivAt (cell.mean 0 0) (cell.mean 1 0) (cell.mean 2 0) (cell.mean 3 0)
      (cell.cov 0 0) (cell.cov 0 1) (cell.cov 0 2) (cell.cov 0 3) (cell.cov 1 1) (cell.cov 1 2)
      (cell.cov 1 3) (cell.cov 2 2) (cell.cov 2 3) (cell.cov 3 3) ml gl sl2 mq gq sq2 b hgl t,
      cov_xx_hasDerivAt (cell.mean 0 0) (cell.mean 1 0) (cell.mean 2 0) (cell.mean 3 0)
      (cell.cov 0 0) (cell.cov 0 1) (cell.cov 0 2) (cell.cov 0 3) (cell.cov 1 1) (cell.cov 1 2)
      (cell.cov 1 3) (cell.cov 2 2) (cell.cov 2 3) (cell.cov 3 3) ml gl sl2 mq gq sq2 b hgl t,
      cov_xl_hasDerivAt (cell.mean 0 0) (cell.mean 1 0) (cell.mean 2 0) (cell.mean 3 0)
      (cell.cov 0 0) (cell.cov 0 1) (cell.cov 0 2) (cell.cov 0 3) (cell.cov 1 1) (cell.cov 1 2)
      (cell.cov 1 3) (cell.cov 2 2) (cell.cov 2 3) (cell.cov 3 3) ml gl sl2 mq gq sq2 b hgl t,
      cov_xq_hasDerivAt (cell.mean 0 0) (cell.mean 1 0) (cell.mean 2 0) (cell.mean 3 0)
      (cell.cov 0 0) (cell.cov 0 1) (cell.cov 0 2) (cell.cov 0 3) (cell.cov 1 1) (cell.cov 1 2)
      (cell.cov 1 3) (cell.cov 2 2) (cell.cov 2 3) (cell.cov 3 3) ml gl sl2 mq gq sq2 b hgl t⟩⟩

/-- C18 at a cell with zero mean and identity covariance, for mean_λ = 2,
γ_λ = 1, σ²_λ = 3, mean_q = 5, γ_q = 4, σ²_q = 6, β = 7. -/
theorem mean_cov_model_position_moments_witness :
    ((mean_cov_model realFns (bare_cell 0 1) 0 2 1 3 5 4 6 7).mean 0 0 = (bare_cell 0 1).mean 0 0 ∧
      (mean_cov_model realFns (bare_cell 0 1) 0 2 1 3 5 4 6 7).cov 0 0 = (bare_cell 0 1).cov 0 0 ∧
      (mean_cov_model realFns (bare_cell 0 1) 0 2 1 3 5 4 6 7).cov 0 2 = (bare_cell 0 1).cov 0 2 ∧
      (mean_cov_model realFns (bare_cell 0 1) 0 2 1 3 5 4 6 7).cov 0 3 = (bare_cell 0 1).cov 0 3) ∧
    ∀ t : ℝ,
      HasDerivAt (fun s => (mean_cov_model realFns (bare_cell 0 1) s 2 1 3 5 4 6 7).mean 0 0)
        ((mean_cov_model realFns (bare_cell 0 1) t 2 1 3 5 4 6 7).mean 2 0) t ∧
      HasDerivAt (fun s => (mean_cov_model realFns (bare_cell 0 1) s 2 1 3 5 4 6 7).cov 0 0)
        (2 * (mean_cov_model realFns (bare_cell 0 1) t 2 1 3 5 4 6 7).cov 0 2) t ∧
      HasDerivAt (fun s => (mean_cov_model realFns (bare_cell 0 1) s 2 1 3 5 4 6 7).cov 0 2)
        ((mean_cov_model realFns (bare_cell 0 1) t 2 1 3 5 4 6 7).cov 2 2
          - 1 * (mean_cov_model realFns (bare_cell 0 1) t 2 1 3 5 4 6 7).cov 0 2) t ∧
      HasDerivAt (fun s => (mean_cov_model realFns (bare_cell 0 1) s 2 1 3 5 4 6 7).cov 0 3)
        ((mean_cov_model realFns (bare_cell 0 1) t 2 1 3 5 4 6 7).cov 2 3
          - 4 * (mean_cov_model realFns (bare_cell 0 1) t 2 1 3 5 4 6 7).cov 0 3) t :=
  mean_cov_model_position_moments (bare_cell 0 1) 2 1 3 5 4 6 7 one_ne_zero

end Position

/-! ## The diagonal of the covariance written by mean_cov_model -/

section Diagonal

theorem two_mul_sub_three_nonneg (s : ℝ) (hs : 0 ≤ s) :
    0 ≤ 2 * s - 3 + 4 * Real.exp (-s) - Real.exp (-s) ^ 2 := by
  have hd : ∀ x : ℝ, HasDerivAt (fun s => 2 * s - 3 + 4 * Real.exp (-s) - Real.exp (-s) ^ 2)
      (2 * (1 - Real.exp (-x)) ^ 2) x := by
    intro x
    have he : HasDerivAt (fun s => Real.exp (-s)) (-Real.exp (-x)) x := by
      simpa using hasDerivAt_exp_neg_mul 1 x
    have h := ((((hasDerivAt_id x).const_mul 2).sub_const 3).add (he.const_mul 4)).sub
      (he.pow 2)
    convert h using 1
    ring
  have hmono : Monotone fun s => 2 * s - 3 + 4 * Real.exp (-s) - Real.exp (-s) ^ 2 :=
    monotone_of_deriv_nonneg (fun x => (hd x).differentiableAt)
      (fun x => by rw [(hd x).deriv]; positivity)
  have h0 : (2 * (0 : ℝ) - 3 + 4 * Real.exp (-0) - Real.exp (-0) ^ 2)
      ≤ 2 * s - 3 + 4 * Real.exp (-s) - Real.exp (-s) ^ 2 := hmono hs
  rw [neg_zero, Real.exp_zero] at h0
  linarith

theorem posSemidef_x_l (cov : Matrix (Fin 4) (Fin 4) ℝ) (h : cov.PosSemidef) (u : ℝ) :
    0 ≤ cov 0 0 + 2 * u * cov 0 2 + u ^ 2 * cov 2 2 := by
  have h1 := h.2 ![1, 0, u, 0]
  have hs : cov 2 0 = cov 0 2 := by
    have := congrFun (congrFun h.1 0) 2
    simpa using this
  simp [Matrix.dotProduct, Matrix.mulVec, Fin.sum_univ_four, hs] at h1
  nlinarith [h1]

theorem posSemidef_diag (cov : Matrix (Fin 4) (Fin 4) ℝ) (h : cov.PosSemidef) (i : Fin 4) :
    0 ≤ cov i i := by
  have h1 := h.2 (Pi.single i 1)
  simpa [Matrix.dotProduct, Matrix.mulVec, Pi.single_apply] using h1

theorem cov_model_entries (M : MathFns ℝ) (cell : MOMAdata ℝ) (t ml gl sl2 mq gq sq2 b : ℝ) :
    (mean_cov_model M cell t ml gl sl2 mq gq sq2 b).cov 0 0
      = cov_xx M t (cell.mean 0 0) (cell.mean 1 0) (cell.mean 2 0) (cell.mean 3 0)
          (cell.cov 0 0) (cell.cov 0 1) (cell.cov 0 2) (cell.cov 0 3) (cell.cov 1 1)
          (cell.cov 1 2) (cell.cov 1 3) (cell.cov 2 2) (cell.cov 2 3) (cell.cov 3 3)
          ml gl sl2 mq gq sq2 b ∧
    (mean_cov_model M cell t ml gl sl2 mq gq sq2 b).cov 2 2
      = cov_ll M t (cell.mean 0 0) (cell.mean 1 0) (cell.mean 2 0) (cell.mean 3 0)
          (cell.cov 0 0) (cell.cov 0 1) (cell.cov 0 2) (cell.cov 0 3) (cell.cov 1 1)
          (cell.cov 1 2) (cell.cov 1 3) (cell.cov 2 2) (cell.cov 2 3) (cell.cov 3 3)
          ml gl sl2 mq gq sq2 b ∧
    (mean_cov_model M cell t ml gl sl2 mq gq sq2 b).cov 3 3
      = cov_qq M t (cell.mean 0 0) (cell.mean 1 0) (cell.mean 2 0) (cell.mean 3 0)
          (cell.cov 0 0) (cell.cov 0 1) (cell.cov 0 2) (cell.cov 0 3) (cell.cov 1 1)
          (cell.cov 1 2) (cell.cov 1 3) (cell.cov 2 2) (cell.cov 2 3) (cell.cov 3 3)
          ml gl sl2 mq gq sq2 b := ⟨rfl, rfl, rfl⟩

theorem cov_xx_nonneg (t bx bg bl bq Cxg Cxq Cgg Cgl Cgq Clq ml gl sl2 mq gq sq2 b : ℝ)
    (cov : Matrix (Fin 4) (Fin 4) ℝ) (h : cov.PosSemidef) (ht : 0 ≤ t) (hgl : 0 < gl)
    (hsl : 0 ≤ sl2) :
    0 ≤ cov_xx realFns t bx bg bl bq (cov 0 0) Cxg (cov 0 2) Cxq Cgg Cgl Cgq (cov 2 2) Clq
      (cov 3 3) ml gl sl2 mq gq sq2 b := by
  have h1 := posSemidef_x_l cov h ((1 - Real.exp (-gl * t)) / gl)
  have h2 := two_mul_sub_three_nonneg (gl * t) (mul_nonneg hgl.le ht)
  have h3 : 0 ≤ sl2 / (2 * gl ^ 3) := by positivity
  have h4 := mul_nonneg h3 h2
  simp only [cov_xx, realFns]
  rw [neg_mul]
  rw [neg_mul] at h1
  have e : cov 2 2 * (1 - Real.exp (-(gl * t))) ^ 2 / gl ^ 2
      + 2 * cov 0 2 * (1 - Real.exp (-(gl * t))) / gl + cov 0 0
      = cov 0 0 + 2 * ((1 - Real.exp (-(gl * t))) / gl) * cov 0 2
        + ((1 - Real.exp (-(gl * t))) / gl) ^ 2 * cov 2 2 := by
    field_simp
    ring
  rw [e]
  have e2 : 2 * gl * t = 2 * (gl * t) := by ring
  rw [e2]
  linarith

theorem cov_ll_nonneg (t bx bg bl bq Cxx Cxg Cxl Cxq Cgg Cgl Cgq Cll Clq Cqq ml gl sl2 mq gq
    sq2 b : ℝ) (hC : 0 ≤ Cll) (ht : 0 ≤ t) (hgl : 0 < gl) (hsl : 0 ≤ sl2) :
    0 ≤ cov_ll realFns t bx bg bl bq Cxx Cxg Cxl Cxq Cgg Cgl Cgq Cll Clq Cqq ml gl sl2 mq gq
      sq2 b := by
  have he : Real.exp (-gl * t) ≤ 1 := by
    rw [Real.exp_le_one_iff]
    nlinarith
  have hp := Real.exp_pos (-gl * t)
  have h1 : 0 ≤ 1 - Real.exp (-gl * t) ^ 2 := by nlinarith
  have h3 : 0 ≤ sl2 / (2 * gl) := by positivity
  simp only [cov_ll, realFns]
  have := mul_nonneg h3 h1
  have := mul_nonneg hC (sq_nonneg (Real.exp (-gl * t)))
  linarith

theorem cov_qq_nonneg (t bx bg bl bq Cxx Cxg Cxl Cxq Cgg Cgl Cgq Cll Clq Cqq ml gl sl2 mq gq
    sq2 b : ℝ) (hC : 0 ≤ Cqq) (ht : 0 ≤ t) (hgq : 0 < gq) (hsq : 0 ≤ sq2) :
    0 ≤ cov_qq realFns t bx bg bl bq Cxx Cxg Cxl Cxq Cgg Cgl Cgq Cll Clq Cqq ml gl sl2 mq gq
      sq2 b := by
  have he : Real.exp (-gq * t) ≤ 1 := by
    rw [Real.exp_le_one_iff]
    nlinarith
  have hp := Real.exp_pos (-gq * t)
  have h1 : 0 ≤ 1 - Real.exp (-gq * t) ^ 2 := by nlinarith
  have h3 : 0 ≤ sq2 / (2 * gq) := by positivity
  simp only [cov_qq, realFns]
  have := mul_nonneg h3 h1
  have := mul_nonneg hC (sq_nonneg (Real.exp (-gq * t)))
  linarith

/-- The exponent of a number between 2^e and 2^(e+1) is `e`. -/
theorem int_log_two_eq {R : Type} [LinearOrderedField R] [FloorRing R] (y : R) (e : ℤ)
    (h1 : (2 : R) ^ e ≤ y) (h2 : y < 2 ^ (e + 1)) : Int.log 2 y = e := by
  have hy : 0 < y := lt_of_lt_of_le (by positivity) h1
  have a : e ≤ Int.log 2 y := by
    rw [← Int.zpow_le_iff_le_log (by norm_num) hy]
    exact_mod_cast h1
  have b : Int.log 2 y < e + 1 := by
    rw [← Int.lt_zpow_iff_log_lt (by norm_num) hy]
    exact_mod_cast h2
  omega

/-- Zero is rounded to zero. -/
theorem round53_zero {R : Type} [LinearOrderedField R] [FloorRing R] : round53 (0 : R) = 0 := by
  simp [round53]

/-- Rounding commutes with the negation. -/
theorem round53_neg {R : Type} [LinearOrderedField R] [FloorRing R] (y : R) :
    round53 (-y) = -round53 y := by
  rcases eq_or_ne y 0 with h | h
  · subst h; simp [round53_zero]
  · simp only [round53, abs_neg]
    rcases lt_or_gt_of_ne h with h | h
    · have h1 : ¬ 0 ≤ y := not_le.2 h
      have h2 : 0 ≤ -y := by linarith
      simp only [if_pos h2, if_neg h1]
      ring
    · have h1 : 0 ≤ y := le_of_lt h
      have h2 : ¬ 0 ≤ -y := by simp [h]
      simp only [if_pos h1, if_neg h2]
      ring

/-- A number `y` with the exponent `e` that is nearer than half a unit 2^(e−52) to
the multiple `m`·2^(e−52) is rounded to that multiple. -/
theorem round53_eq {R : Type} [LinearOrderedField R] [FloorRing R] (y : R) (e m : ℤ)
    (h1 : (2 : R) ^ e ≤ y) (h2 : y < 2 ^ (e + 1))
    (hlo : ((m : R) - 1 / 2) * 2 ^ (e - 52) < y) (hhi : y < ((m : R) + 1 / 2) * 2 ^ (e - 52)) :
    round53 y = m * 2 ^ (e - 52) := by
  have hy : 0 < y := lt_of_lt_of_le (by positivity) h1
  have habs : |y| = y := abs_of_pos hy
  have hu : (0 : R) < 2 ^ (e - 52) := by positivity
  have hlog : Int.log 2 y = e := int_log_two_eq y e h1 h2
  have hlo' : (m : R) - 1 / 2 < y / 2 ^ (e - 52) := by rwa [lt_div_iff₀ hu]
  have hhi' : y / 2 ^ (e - 52) < (m : R) + 1 / 2 := by rwa [div_lt_iff₀ hu]
  simp only [round53, habs, hlog, if_pos hy.le, one_mul]
  congr 1
  rcases le_or_lt (m : R) (y / 2 ^ (e - 52)) with hm | hm
  · have hf : ⌊y / 2 ^ (e - 52)⌋ = m := by
      rw [Int.floor_eq_iff]
      constructor
      · exact hm
      · linarith
    rw [hf, if_pos (by linarith)]
  · have hf : ⌊y / 2 ^ (e - 52)⌋ = m - 1 := by
      rw [Int.floor_eq_iff]
      push_cast
      constructor
      · linarith
      · linarith
    rw [hf]
    push_cast
    rw [if_neg (by linarith), if_pos (by linarith)]
    ring

/-- The rounding of a negative number, from the rounding of its negation. -/
theorem round53_eq_neg {R : Type} [LinearOrderedField R] [FloorRing R] (y : R) (e m : ℤ)
    (h1 : (2 : R) ^ e ≤ -y) (h2 : -y < 2 ^ (e + 1))
    (hlo : ((m : R) - 1 / 2) * 2 ^ (e - 52) < -y) (hhi : -y < ((m : R) + 1 / 2) * 2 ^ (e - 52)) :
    round53 y = -(m * 2 ^ (e - 52)) := by
  rw [← round53_eq (-y) e m h1 h2 hlo hhi, round53_neg, neg_neg]

theorem binary64_add_mk (a b : ℚ) : (⟨a⟩ : Binary64) + ⟨b⟩ = ⟨round53 (a + b)⟩ := rfl

theorem binary64_sub_mk (a b : ℚ) : (⟨a⟩ : Binary64) - ⟨b⟩ = ⟨round53 (a - b)⟩ := rfl

theorem binary64_mul_mk (a b : ℚ) : (⟨a⟩ : Binary64) * ⟨b⟩ = ⟨round53 (a * b)⟩ := rfl

theorem binary64_div_mk (a b : ℚ) : (⟨a⟩ : Binary64) / ⟨b⟩ = ⟨round53 (a / b)⟩ := rfl

theorem binary64_pow_mk (a : ℚ) (n : ℕ) : (⟨a⟩ : Binary64) ^ n = ⟨round53 (a ^ n)⟩ := rfl

theorem binary64_neg_mk (a : ℚ) : -(⟨a⟩ : Binary64) = ⟨-a⟩ := rfl

theorem binary64_zero : (0 : Binary64) = ⟨0⟩ := rfl

theorem binary64_one : (1 : Binary64) = ⟨1⟩ := rfl

/-- The literals 2, 3 and 4 are converted without rounding error. -/
theorem binary64_two : (2 : Binary64) = ⟨2⟩ := by
  show Binary64.mk (round53 ((2 : ℕ) : ℚ)) = _
  congr 1
  rw [round53_eq _ 1 4503599627370496] <;> norm_num

theorem binary64_three : (3 : Binary64) = ⟨3⟩ := by
  show Binary64.mk (round53 ((3 : ℕ) : ℚ)) = _
  congr 1
  rw [round53_eq _ 1 6755399441055744] <;> norm_num

theorem binary64_four : (4 : Binary64) = ⟨4⟩ := by
  show Binary64.mk (round53 ((4 : ℕ) : ℚ)) = _
  congr 1
  rw [round53_eq _ 2 4503599627370496] <;> norm_num

theorem binary64Fns_exp (a : ℚ) : binary64Fns.exp ⟨a⟩ = ⟨round53 (Real.exp (a : ℝ))⟩ := rfl

/-- The `double` nearest to exp(−x) for x = 3022314549036573·2^(−78), the product
of the doubles nearest to 10⁻⁶ and 0.01: it is 9007199164669000·2^(−53).  The
exponential lies within |x|³·2/9 of 1 − x + x²/2. -/
theorem binary64_exp_step : binary64Fns.exp ⟨-(3022314549036573 / 302231454903657293676544)⟩
    = ⟨(1125899895583625 / 1125899906842624)⟩ := by
  rw [binary64Fns_exp]
  congr 1
  have hx : |((-(3022314549036573 / 302231454903657293676544) : ℚ) : ℝ)|
      = 3022314549036573 / 302231454903657293676544 := by
    rw [abs_of_neg (by norm_num)]
    norm_num
  have hb := Real.exp_bound (x := ((-(3022314549036573 / 302231454903657293676544) : ℚ) : ℝ))
    (by rw [hx]; norm_num) (n := 3) (by norm_num)
  rw [hx, abs_le] at hb
  simp only [Finset.sum_range_succ, Finset.sum_range_zero, Nat.factorial] at hb
  obtain ⟨hb1, hb2⟩ := hb
  rw [round53_eq _ (-1) 9007199164669000]
  · norm_num
  · norm_num at hb1 ⊢
    linarith
  · norm_num at hb2 ⊢
  · norm_num at hb1 ⊢
    linarith
  · norm_num at hb2 ⊢
    linarith

/-- The function `cov_xx` in binary64 arithmetic at Δt = 0.01, γ_λ = 10⁻⁶,
σ²_λ = 1 and the prior covariance 0, operation by operation. -/
theorem cov_xx_binary64_value :
    cov_xx binary64Fns (.ofRat (1 / 100)) 0 0 0 0 0 0 0 0 0 0 0 0 0 0 0 (.ofRat (1 / 1000000)) 1
      0 1 1 0 = ⟨-(7812500000000001 / 140737488355328)⟩ := by
  have ht : Binary64.ofRat (1 / 100) = ⟨(5764607523034235 / 576460752303423488)⟩ := by
    unfold Binary64.ofRat
    congr 1
    rw [round53_eq _ (-7) 5764607523034235] <;> norm_num
  have hg : Binary64.ofRat (1 / 1000000) = ⟨(4722366482869645 / 4722366482869645213696)⟩ := by
    unfold Binary64.ofRat
    congr 1
    rw [round53_eq _ (-20) 4722366482869645] <;> norm_num
  rw [ht, hg]
  simp only [cov_xx, binary64_two, binary64_three, binary64_four, binary64_one,
    binary64_zero, binary64_neg_mk]
  have s0 : (⟨-(4722366482869645 / 4722366482869645213696)⟩ : Binary64) *
      (⟨(5764607523034235 / 576460752303423488)⟩ : Binary64)
      = (⟨-(3022314549036573 / 302231454903657293676544)⟩ : Binary64) := by
    rw [binary64_mul_mk]
    congr 1
    rw [round53_eq_neg _ (-27) 6044629098073146] <;> norm_num
  have s1 : (⟨1⟩ : Binary64) -
      (⟨(1125899895583625 / 1125899906842624)⟩ : Binary64)
      = (⟨(11258999 / 1125899906842624)⟩ : Binary64) := by
    rw [binary64_sub_mk]
    congr 1
    rw [round53_eq _ (-27) 6044629061337088] <;> norm_num
  have s2 : (⟨(11258999 / 1125899906842624)⟩ : Binary64) ^ 2
      = (⟨(126765058482001 / 1267650600228229401496703205376)⟩ : Binary64) := by
    rw [binary64_pow_mk]
    congr 1
    rw [round53_eq _ (-54) 8112963742848064] <;> norm_num
  have s3 : (⟨0⟩ : Binary64) *
      (⟨(126765058482001 / 1267650600228229401496703205376)⟩ : Binary64)
      = (⟨0⟩ : Binary64) := by
    rw [binary64_mul_mk]
    congr 1
    rw [show (0 * (126765058482001 / 1267650600228229401496703205376) : ℚ)
      = 0 by norm_num, round53_zero]
  have s4 : (⟨(4722366482869645 / 4722366482869645213696)⟩ : Binary64) ^ 2
      = (⟨(4951760157141521 / 4951760157141521099596496896)⟩ : Binary64) := by
    rw [binary64_pow_mk]
    congr 1
    rw [round53_eq _ (-40) 4951760157141521] <;> norm_num
  have s5 : (⟨0⟩ : Binary64) /
      (⟨(4951760157141521 / 4951760157141521099596496896)⟩ : Binary64)
      = (⟨0⟩ : Binary64) := by
    rw [binary64_div_mk]
    congr 1
    rw [show (0 / (4951760157141521 / 4951760157141521099596496896) : ℚ)
      = 0 by norm_num, round53_zero]
  have s6 : (⟨2⟩ : Binary64) *
      (⟨0⟩ : Binary64)
      = (⟨0⟩ : Binary64) := by
    rw [binary64_mul_mk]
    congr 1
    rw [show (2 * 0 : ℚ)
      = 0 by norm_num, round53_zero]
  have s7 : (⟨0⟩ : Binary64) *
      (⟨(11258999 / 1125899906842624)⟩ : Binary64)
      = (⟨0⟩ : Binary64) := by
    rw [binary64_mul_mk]
    congr 1
    rw [show (0 * (11258999 / 1125899906842624) : ℚ)
      = 0 by norm_num, round53_zero]
  have s8 : (⟨0⟩ : Binary64) /
      (⟨(4722366482869645 / 4722366482869645213696)⟩ : Binary64)
      = (⟨0⟩ : Binary64) := by
    rw [binary64_div_mk]
    congr 1
    rw [show (0 / (4722366482869645 / 4722366482869645213696) : ℚ)
      = 0 by norm_num, round53_zero]
  have s9 : (⟨0⟩ : Binary64) +
      (⟨0⟩ : Binary64)
      = (⟨0⟩ : Binary64) := by
    rw [binary64_add_mk]
    congr 1
    rw [show (0 + 0 : ℚ)
      = 0 by norm_num, round53_zero]
  have s10 : (⟨(4722366482869645 / 4722366482869645213696)⟩ : Binary64) ^ 3
      = (⟨(5192296858534827 / 5192296858534827628530496329220096)⟩ : Binary64) := by
    rw [binary64_pow_mk]
    congr 1
    rw [round53_eq _ (-60) 5192296858534827] <;> norm_num
  have s11 : (⟨2⟩ : Binary64) *
      (⟨(5192296858534827 / 5192296858534827628530496329220096)⟩ : Binary64)
      = (⟨(5192296858534827 / 2596148429267413814265248164610048)⟩ : Binary64) := by
    rw [binary64_mul_mk]
    congr 1
    rw [round53_eq _ (-59) 5192296858534827] <;> norm_num
  have s12 : (⟨1⟩ : Binary64) /
      (⟨(5192296858534827 / 2596148429267413814265248164610048)⟩ : Binary64)
      = (⟨500000000000000064⟩ : Binary64) := by
    rw [binary64_div_mk]
    congr 1
    rw [round53_eq _ (58) 7812500000000001] <;> norm_num
  have s13 : (⟨2⟩ : Binary64) *
      (⟨(4722366482869645 / 4722366482869645213696)⟩ : Binary64)
      = (⟨(4722366482869645 / 2361183241434822606848)⟩ : Binary64) := by
    rw [binary64_mul_mk]
    congr 1
    rw [round53_eq _ (-19) 4722366482869645] <;> norm_num
  have s14 : (⟨(4722366482869645 / 2361183241434822606848)⟩ : Binary64) *
      (⟨(5764607523034235 / 576460752303423488)⟩ : Binary64)
      = (⟨(3022314549036573 / 151115727451828646838272)⟩ : Binary64) := by
    rw [binary64_mul_mk]
    congr 1
    rw [round53_eq _ (-26) 6044629098073146] <;> norm_num
  have s15 : (⟨(3022314549036573 / 151115727451828646838272)⟩ : Binary64) -
      (⟨3⟩ : Binary64)
      = (⟨-(1688849849004937 / 562949953421312)⟩ : Binary64) := by
    rw [binary64_sub_mk]
    congr 1
    rw [round53_eq_neg _ (1) 6755399396019748] <;> norm_num
  have s16 : (⟨4⟩ : Binary64) *
      (⟨(1125899895583625 / 1125899906842624)⟩ : Binary64)
      = (⟨(1125899895583625 / 281474976710656)⟩ : Binary64) := by
    rw [binary64_mul_mk]
    congr 1
    rw [round53_eq _ (1) 9007199164669000] <;> norm_num
  have s17 : (⟨-(1688849849004937 / 562949953421312)⟩ : Binary64) +
      (⟨(1125899895583625 / 281474976710656)⟩ : Binary64)
      = (⟨(562949942162313 / 562949953421312)⟩ : Binary64) := by
    rw [binary64_add_mk]
    congr 1
    rw [round53_eq _ (-1) 9007199074597008] <;> norm_num
  have s18 : (⟨(1125899895583625 / 1125899906842624)⟩ : Binary64) ^ 2
      = (⟨(9007199074597009 / 9007199254740992)⟩ : Binary64) := by
    rw [binary64_pow_mk]
    congr 1
    rw [round53_eq _ (-1) 9007199074597009] <;> norm_num
  have s19 : (⟨(562949942162313 / 562949953421312)⟩ : Binary64) -
      (⟨(9007199074597009 / 9007199254740992)⟩ : Binary64)
      = (⟨-(1 / 9007199254740992)⟩ : Binary64) := by
    rw [binary64_sub_mk]
    congr 1
    rw [round53_eq_neg _ (-53) 4503599627370496] <;> norm_num
  have s20 : (⟨500000000000000064⟩ : Binary64) *
      (⟨-(1 / 9007199254740992)⟩ : Binary64)
      = (⟨-(7812500000000001 / 140737488355328)⟩ : Binary64) := by
    rw [binary64_mul_mk]
    congr 1
    rw [round53_eq_neg _ (5) 7812500000000001] <;> norm_num
  have s21 : (⟨0⟩ : Binary64) +
      (⟨-(7812500000000001 / 140737488355328)⟩ : Binary64)
      = (⟨-(7812500000000001 / 140737488355328)⟩ : Binary64) := by
    rw [binary64_add_mk]
    congr 1
    rw [round53_eq_neg _ (5) 7812500000000001] <;> norm_num
  simp only [s0, binary64_exp_step, s1, s2, s3, s4, s5, s6, s7, s8, s9, s10, s11, s12, s13, s14,
    s15, s16, s17, s18, s19, s20, s21]

end Diagonal

/-! ## The closed forms of the moment integrals -/

section Integrals

open MeasureTheory

theorem erfi_hasDerivAt (z : ℝ) :
    HasDerivAt erfi (2 / Real.sqrt Real.pi * Real.exp (z ^ 2)) z := by
  have hc : Continuous fun u : ℝ => Real.exp (u ^ 2) := by fun_prop
  have h := (hc.integral_hasStrictDerivAt 0 z).hasDerivAt
  exact h.const_mul (2 / Real.sqrt Real.pi)

theorem sqrt_pi_pos : 0 < Real.sqrt Real.pi := Real.sqrt_pos.mpr Real.pi_pos

/-- The argument of `erfi` in the closed forms, for a = r². -/
theorem erfi_arg_hasDerivAt (r b s : ℝ) (hr : 0 < r) :
    HasDerivAt (fun s => erfi ((b + 2 * r ^ 2 * s) / (2 * r)))
      (2 / Real.sqrt Real.pi * (Real.exp (b ^ 2 / (4 * r ^ 2)) * Real.exp (s * (b + r ^ 2 * s)))
        * r) s := by
  have hz : HasDerivAt (fun s => (b + 2 * r ^ 2 * s) / (2 * r)) r s := by
    have h := (((hasDerivAt_id s).const_mul (2 * r ^ 2)).const_add b).div_const (2 * r)
    convert h using 1
    field_simp
    ring
  have h := (erfi_hasDerivAt ((b + 2 * r ^ 2 * s) / (2 * r))).comp s hz
  convert h using 1
  rw [← Real.exp_add]
  congr 3
  field_simp
  ring

theorem rpow_three_half (r : ℝ) (hr : 0 < r) : (r ^ 2) ^ ((3 : ℝ) / 2) = r ^ 3 := by
  rw [← Real.rpow_natCast r 2, ← Real.rpow_mul hr.le]
  norm_num
  exact_mod_cast Real.rpow_natCast r 3

theorem rpow_five_half (r : ℝ) (hr : 0 < r) : (r ^ 2) ^ ((5 : ℝ) / 2) = r ^ 5 := by
  rw [← Real.rpow_natCast r 2, ← Real.rpow_mul hr.le]
  norm_num
  exact_mod_cast Real.rpow_natCast r 5

theorem rpow_seven_half (r : ℝ) (hr : 0 < r) : (r ^ 2) ^ ((7 : ℝ) / 2) = r ^ 7 := by
  rw [← Real.rpow_natCast r 2, ← Real.rpow_mul hr.le]
  norm_num
  exact_mod_cast Real.rpow_natCast r 7

theorem exp_prefactor (r b c : ℝ) :
    Real.exp (-(b ^ 2) / (4 * r ^ 2) + c) = Real.exp c / Real.exp (b ^ 2 / (4 * r ^ 2)) := by
  rw [neg_div, neg_add_eq_sub, Real.exp_sub]

theorem exp_quadratic (r b c s : ℝ) :
    Real.exp (r ^ 2 * s ^ 2 + b * s + c) = Real.exp c * Real.exp (s * (b + r ^ 2 * s)) := by
  rw [← Real.exp_add]
  congr 1
  ring

theorem zerotauint_hasDerivAt (r b c t0 s : ℝ) (hr : 0 < r) :
    HasDerivAt (fun s => zerotauint realFns (r ^ 2) b c s t0)
      (Real.exp (r ^ 2 * s ^ 2 + b * s + c)) s := by
  have hs : Real.sqrt (r ^ 2) = r := Real.sqrt_sq hr.le
  have hpi := sqrt_pi_pos
  have hP := Real.exp_pos (b ^ 2 / (4 * r ^ 2))
  have h := ((((erfi_arg_hasDerivAt r b s hr).const_add
    (-erfi ((b + 2 * r ^ 2 * t0) / (2 * r)))).const_mul
    (Real.exp (-(b ^ 2) / (4 * r ^ 2) + c) * Real.sqrt Real.pi)).div_const (2 * r))
  simp only [zerotauint, realFns, hs]
  convert h using 1
  rw [exp_prefactor, exp_quadratic]
  field_simp
  ring

theorem exp_linear_hasDerivAt (r b s : ℝ) :
    HasDerivAt (fun s => Real.exp (s * (b + r ^ 2 * s)))
      (Real.exp (s * (b + r ^ 2 * s)) * (b + 2 * r ^ 2 * s)) s := by
  have h := ((hasDerivAt_id' s).mul (((hasDerivAt_id' s).const_mul (r ^ 2)).const_add b)).exp
  convert h using 1
  ring

theorem onetauint_hasDerivAt (r b c t0 s : ℝ) (hr : 0 < r) :
    HasDerivAt (fun s => onetauint realFns (r ^ 2) b c s t0)
      (s * Real.exp (r ^ 2 * s ^ 2 + b * s + c)) s := by
  have hs : Real.sqrt (r ^ 2) = r := Real.sqrt_sq hr.le
  have hpi := sqrt_pi_pos
  have hP := Real.exp_pos (b ^ 2 / (4 * r ^ 2))
  have hQ := exp_linear_hasDerivAt r b s
  have hE := erfi_arg_hasDerivAt r b s hr
  have h := (((((hQ.const_sub (Real.exp (t0 * (b + r ^ 2 * t0)))).const_mul
      (-2 * r * Real.exp (b ^ 2 / (4 * r ^ 2)))).add_const
      (b * Real.sqrt Real.pi * erfi ((b + 2 * r ^ 2 * t0) / (2 * r)))).sub
      (hE.const_mul (b * Real.sqrt Real.pi))).const_mul
      (Real.exp (-(b ^ 2) / (4 * r ^ 2) + c))).div_const (4 * r ^ 3)
  refine (h.congr_of_eventuallyEq (Filter.Eventually.of_forall fun x => ?_)).congr_deriv ?_
  · simp only [onetauint, realFns, hs, rpow_three_half r hr]
  · rw [exp_prefactor, exp_quadratic]
    field_simp
    ring

theorem twotauint_hasDerivAt (r b c t0 s : ℝ) (hr : 0 < r) :
    HasDerivAt (fun s => twotauint realFns (r ^ 2) b c s t0)
      (s ^ 2 * Real.exp (r ^ 2 * s ^ 2 + b * s + c)) s := by
  have hs : Real.sqrt (r ^ 2) = r := Real.sqrt_sq hr.le
  have hpi := sqrt_pi_pos
  have hP := Real.exp_pos (b ^ 2 / (4 * r ^ 2))
  have hQ := exp_linear_hasDerivAt r b s
  have hE := erfi_arg_hasDerivAt r b s hr
  have hid := hasDerivAt_id' s
  have h := (((((((hQ.const_mul b).const_add
      (-(b * Real.exp (t0 * (b + r ^ 2 * t0))))).add_const
      (2 * r ^ 2 * Real.exp (t0 * (b + r ^ 2 * t0)) * t0)).sub
      ((hQ.const_mul (2 * r ^ 2)).mul hid)).const_mul
      (-2 * r * Real.exp (b ^ 2 / (4 * r ^ 2)))).add_const
      ((2 * r ^ 2 - b ^ 2) * Real.sqrt Real.pi * erfi ((b + 2 * r ^ 2 * t0) / (2 * r)))).add
      (hE.const_mul ((-2 * r ^ 2 + b ^ 2) * Real.sqrt Real.pi))).const_mul
      (Real.exp (-(b ^ 2) / (4 * r ^ 2) + c)) |>.div_const (8 * r ^ 5)
  refine (h.congr_of_eventuallyEq (Filter.Eventually.of_forall fun x => ?_)).congr_deriv ?_
  · simp only [twotauint, realFns, hs, rpow_five_half r hr]
  · rw [exp_prefactor, exp_quadratic]
    field_simp
    ring

theorem treetauint_hasDerivAt (r b c t0 s : ℝ) (hr : 0 < r) :
    HasDerivAt (fun s => treetauint realFns (r ^ 2) b c s t0)
      (s ^ 3 * Real.exp (r ^ 2 * s ^ 2 + b * s + c)) s := by
  have hs : Real.sqrt (r ^ 2) = r := Real.sqrt_sq hr.le
  have hpi := sqrt_pi_pos
  have hP := Real.exp_pos (b ^ 2 / (4 * r ^ 2))
  have hQ := exp_linear_hasDerivAt r b s
  have hE := erfi_arg_hasDerivAt r b s hr
  have hid := hasDerivAt_id' s
  have h := ((((((((hQ.const_sub (Real.exp (t0 * (b + r ^ 2 * t0)))).const_mul (b ^ 2)).sub_const
      (2 * r ^ 2 * Real.exp (t0 * (b + r ^ 2 * t0)) * (2 + b * t0))).add
      ((hQ.const_mul (2 * r ^ 2)).mul ((hid.const_mul b).const_add 2))).add
      (((hQ.mul (hid.pow 2)).const_sub
        (Real.exp (t0 * (b + r ^ 2 * t0)) * t0 ^ 2)).const_mul (4 * (r ^ 2) ^ 2))).const_mul
      (-2 * r * Real.exp (b ^ 2 / (4 * r ^ 2)))).add_const
      (b * (-6 * r ^ 2 + b ^ 2) * Real.sqrt Real.pi
        * erfi ((b + 2 * r ^ 2 * t0) / (2 * r)))).sub
      (hE.const_mul (b * (-6 * r ^ 2 + b ^ 2) * Real.sqrt Real.pi))).const_mul
      (Real.exp (-(b ^ 2) / (4 * r ^ 2) + c)) |>.div_const (16 * r ^ 7)
  refine (h.congr_of_eventuallyEq (Filter.Eventually.of_forall fun x => ?_)).congr_deriv ?_
  · simp only [treetauint, realFns, hs, rpow_seven_half r hr]
  · rw [exp_prefactor, exp_quadratic]
    field_simp
    ring

theorem tauint_self {K : Type} [Field K] (M : MathFns K) (a b c t : K) :
    zerotauint M a b c t t = 0 ∧ onetauint M a b c t t = 0 ∧ twotauint M a b c t t = 0 ∧
      treetauint M a b c t t = 0 := by
  refine ⟨?_, ?_, ?_, ?_⟩
  · unfold zerotauint
    ring
  · unfold onetauint
    ring
  · unfold twotauint
    ring
  · unfold treetauint
    ring

/-- C15: for every a > 0 and all real b, c, t0, t1 (so for t0 <= t1), the closed
forms zerotauint, onetauint, twotauint, treetauint (argument order a, b, c, t1,
t0) are the integrals of s^k·exp(a·s² + b·s + c), k = 0, 1, 2, 3, for s from
t0 to t1, with erfi(z) = (2/√π)·∫_0^z exp(u²) du. -/
theorem tauint_eq_integral (a b c t0 t1 : ℝ) (ha : 0 < a) :
    zerotauint realFns a b c t1 t0 = ∫ s in t0..t1, Real.exp (a * s ^ 2 + b * s + c) ∧
    onetauint realFns a b c t1 t0 = ∫ s in t0..t1, s * Real.exp (a * s ^ 2 + b * s + c) ∧
    twotauint realFns a b c t1 t0
      = ∫ s in t0..t1, s ^ 2 * Real.exp (a * s ^ 2 + b * s + c) ∧
    treetauint realFns a b c t1 t0
      = ∫ s in t0..t1, s ^ 3 * Real.exp (a * s ^ 2 + b * s + c) := by
  obtain ⟨r, hr, rfl⟩ : ∃ r : ℝ, 0 < r ∧ a = r ^ 2 :=
    ⟨Real.sqrt a, Real.sqrt_pos.mpr ha, (Real.sq_sqrt ha.le).symm⟩
  obtain ⟨z0, z1, z2, z3⟩ := tauint_self realFns (r ^ 2) b c t0
  refine ⟨?_, ?_, ?_, ?_⟩
  · rw [intervalIntegral.integral_eq_sub_of_hasDerivAt
      (fun s _ => zerotauint_hasDerivAt r b c t0 s hr)
      (Continuous.intervalIntegrable (by fun_prop) _ _), z0, sub_zero]
  · rw [intervalIntegral.integral_eq_sub_of_hasDerivAt
      (fun s _ => onetauint_hasDerivAt r b c t0 s hr)
      (Continuous.intervalIntegrable (by fun_prop) _ _), z1, sub_zero]
  · rw [intervalIntegral.integral_eq_sub_of_hasDerivAt
      (fun s _ => twotauint_hasDerivAt r b c t0 s hr)
      (Continuous.intervalIntegrable (by fun_prop) _ _), z2, sub_zero]
  · rw [intervalIntegral.integral_eq_sub_of_hasDerivAt
      (fun s _ => treetauint_hasDerivAt r b c t0 s hr)
      (Continuous.intervalIntegrable (by fun_prop) _ _), z3, sub_zero]

/-- C15 for a = 1, b = 2, c = 3 and the bounds t0 = 0, t1 = 1. -/
theorem tauint_eq_integral_witness :
    zerotauint realFns 1 2 3 1 0 = ∫ s in (0 : ℝ)..1, Real.exp (1 * s ^ 2 + 2 * s + 3) ∧
    onetauint realFns 1 2 3 1 0 = ∫ s in (0 : ℝ)..1, s * Real.exp (1 * s ^ 2 + 2 * s + 3) ∧
    twotauint realFns 1 2 3 1 0
      = ∫ s in (0 : ℝ)..1, s ^ 2 * Real.exp (1 * s ^ 2 + 2 * s + 3) ∧
    treetauint realFns 1 2 3 1 0
      = ∫ s in (0 : ℝ)..1, s ^ 3 * Real.exp (1 * s ^ 2 + 2 * s + 3) :=
  tauint_eq_integral 1 2 3 0 1 one_pos

end Integrals

/-! ## The mean of g written by mean_cov_model -/

section MeanG

theorem tauint_factor (a B c t1 t0 : ℝ) :
    zerotauint realFns a B c t1 t0 = Real.exp c * zerotauint realFns a B 0 t1 t0 ∧
    onetauint realFns a B c t1 t0 = Real.exp c * onetauint realFns a B 0 t1 t0 := by
  have e : Real.exp (-(B ^ 2) / (4 * a) + c)
      = Real.exp c * Real.exp (-(B ^ 2) / (4 * a) + 0) := by
    rw [← Real.exp_add]
    congr 1
    ring
  refine ⟨?_, ?_⟩
  · simp only [zerotauint, realFns, e]
    ring
  · simp only [onetauint, realFns, e]
    ring

/-- The derivative in t of I₀(a, B, c0 − β·t, t, 0), for a = r². -/
theorem zerotauint_decay_hasDerivAt (r B c0 b t : ℝ) (hr : 0 < r) :
    HasDerivAt (fun s => zerotauint realFns (r ^ 2) B (c0 - b * s) s 0)
      (-b * zerotauint realFns (r ^ 2) B (c0 - b * t) t 0
        + Real.exp (r ^ 2 * t ^ 2 + B * t + (c0 - b * t))) t := by
  have hc : HasDerivAt (fun s => Real.exp (c0 - b * s)) (Real.exp (c0 - b * t) * (-b)) t := by
    have h := (((hasDerivAt_id' t).const_mul b).const_sub c0).exp
    convert h using 1
    ring
  have h := hc.mul (zerotauint_hasDerivAt r B 0 0 t hr)
  refine (h.congr_of_eventuallyEq (Filter.Eventually.of_forall fun x => ?_)).congr_deriv ?_
  · exact (tauint_factor (r ^ 2) B (c0 - b * x) x 0).1
  · rw [(tauint_factor (r ^ 2) B (c0 - b * t) t 0).1]
    have e : Real.exp (r ^ 2 * t ^ 2 + B * t + (c0 - b * t))
        = Real.exp (c0 - b * t) * Real.exp (r ^ 2 * t ^ 2 + B * t + 0) := by
      rw [← Real.exp_add]
      congr 1
      ring
    rw [e]
    ring

/-- The derivative in t of I₁(a, B, c0 − β·t, t, 0), for a = r². -/
theorem onetauint_decay_hasDerivAt (r B c0 b t : ℝ) (hr : 0 < r) :
    HasDerivAt (fun s => onetauint realFns (r ^ 2) B (c0 - b * s) s 0)
      (-b * onetauint realFns (r ^ 2) B (c0 - b * t) t 0
        + t * Real.exp (r ^ 2 * t ^ 2 + B * t + (c0 - b * t))) t := by
  have hc : HasDerivAt (fun s => Real.exp (c0 - b * s)) (Real.exp (c0 - b * t) * (-b)) t := by
    have h := (((hasDerivAt_id' t).const_mul b).const_sub c0).exp
    convert h using 1
    ring
  have h := hc.mul (onetauint_hasDerivAt r B 0 0 t hr)
  refine (h.congr_of_eventuallyEq (Filter.Eventually.of_forall fun x => ?_)).congr_deriv ?_
  · exact (tauint_factor (r ^ 2) B (c0 - b * x) x 0).2
  · rw [(tauint_factor (r ^ 2) B (c0 - b * t) t 0).2]
    have e : Real.exp (r ^ 2 * t ^ 2 + B * t + (c0 - b * t))
        = Real.exp (c0 - b * t) * Real.exp (r ^ 2 * t ^ 2 + B * t + 0) := by
      rw [← Real.exp_add]
      congr 1
      ring
    rw [e]
    ring

theorem mean_g_hasDerivAt (bx bg bl bq Cxx Cxg Cxl Cxq Cgg Cgl Cgq Cll Clq Cqq ml gl sl2 mq gq
    sq2 b : ℝ) (hCll : 0 < Cll) (t : ℝ) :
    HasDerivAt (fun s => mean_g realFns s bx bg bl bq Cxx Cxg Cxl Cxq Cgg Cgl Cgq Cll Clq Cqq ml
        gl sl2 mq gq sq2 b)
      (-b * mean_g realFns t bx bg bl bq Cxx Cxg Cxl Cxq Cgg Cgl Cgq Cll Clq Cqq ml gl sl2 mq
          gq sq2 b
        + (mean_q realFns t bx bg bl bq Cxx Cxg Cxl Cxq Cgg Cgl Cgq Cll Clq Cqq ml gl sl2 mq gq
            sq2 b + (Cxq + Clq * t) * Real.exp (-gq * t))
          * Real.exp (bx + Cxx / 2 + (bl + Cxl) * t + Cll * t ^ 2 / 2)) t := by
  obtain ⟨r, hr, hr2⟩ : ∃ r : ℝ, 0 < r ∧ Cll / 2 = r ^ 2 :=
    ⟨Real.sqrt (Cll / 2), Real.sqrt_pos.mpr (by positivity),
      (Real.sq_sqrt (by positivity)).symm⟩
  have hb : HasDerivAt (fun s => bg / Real.exp (b * s)) (-b * (bg / Real.exp (b * t))) t := by
    have h := ((((hasDerivAt_id' t).const_mul (-b)).exp).const_mul bg)
    refine (h.congr_of_eventuallyEq (Filter.Eventually.of_forall fun x => ?_)).congr_deriv ?_
    · show bg / Real.exp (b * x) = bg * Real.exp (-b * x)
      rw [neg_mul, Real.exp_neg, div_eq_mul_inv]
    · rw [neg_mul, Real.exp_neg]
      field_simp
      ring
  have h1 := (onetauint_decay_hasDerivAt r (b + bl + Cxl - gq) (bx + Cxx / 2) b t hr).const_mul
    Clq
  have h2 := (zerotauint_decay_hasDerivAt r (b + bl + Cxl) (bx + Cxx / 2) b t hr).const_mul mq
  have h3 := (zerotauint_decay_hasDerivAt r (b + bl + Cxl - gq) (bx + Cxx / 2) b t hr).const_mul
    (bq + Cxq - mq)
  have h := ((hb.add h1).add h2).add h3
  simp only [mean_g, mean_q, hr2]
  refine h.congr_deriv ?_
  have e1 : Real.exp (r ^ 2 * t ^ 2 + (b + bl + Cxl - gq) * t + (bx + Cxx / 2 - b * t))
      = Real.exp (-gq * t) * Real.exp (bx + Cxx / 2 + (bl + Cxl) * t + Cll * t ^ 2 / 2) := by
    rw [← Real.exp_add, ← hr2]
    congr 1
    ring
  have e2 : Real.exp (r ^ 2 * t ^ 2 + (b + bl + Cxl) * t + (bx + Cxx / 2 - b * t))
      = Real.exp (bx + Cxx / 2 + (bl + Cxl) * t + Cll * t ^ 2 / 2) := by
    rw [← hr2]
    congr 1
    ring
  rw [e1, e2]
  simp only [realFns]
  ring

theorem mean_g_zero (bx bg bl bq Cxx Cxg Cxl Cxq Cgg Cgl Cgq Cll Clq Cqq ml gl sl2 mq gq
    sq2 b : ℝ) :
    mean_g realFns 0 bx bg bl bq Cxx Cxg Cxl Cxq Cgg Cgl Cgq Cll Clq Cqq ml gl sl2 mq gq sq2 b
      = bg := by
  have z := fun B c : ℝ => tauint_self realFns (Cll / 2) B c 0
  simp only [mean_g, (z _ _).1, (z _ _).2.1]
  simp [realFns]

/-- C17, as the code has it: for every prior with Σ_λλ > 0 and every θ, the mean
of g written by `mean_cov_model` is μ_g for Δt = 0 and, as a function of t,
satisfies d/dt mean_g(t) = −β·mean_g(t)
+ (mean_q(t) + (Σ_xq + Σ_λq·t)·exp(−γ_q·t))·exp(μ_x + Σ_xx/2 + (μ_λ + Σ_xλ)·t + Σ_λλ·t²/2):
the production term is not mean_q(t) alone, it carries an exponential factor in
the prior moments of x and λ. -/
theorem mean_cov_model_mean_g_ode (cell : MOMAdata ℝ) (ml gl sl2 mq gq sq2 b : ℝ)
    (hCll : 0 < cell.cov 2 2) :
    (mean_cov_model realFns cell 0 ml gl sl2 mq gq sq2 b).mean 1 0 = cell.mean 1 0 ∧
    ∀ t : ℝ,
      HasDerivAt (fun s => (mean_cov_model realFns cell s ml gl sl2 mq gq sq2 b).mean 1 0)
        (-b * (mean_cov_model realFns cell t ml gl sl2 mq gq sq2 b).mean 1 0
          + ((mean_cov_model realFns cell t ml gl sl2 mq gq sq2 b).mean 3 0
              + (cell.cov 0 3 + cell.cov 2 3 * t) * Real.exp (-gq * t))
            * Real.exp (cell.mean 0 0 + cell.cov 0 0 / 2
                + (cell.mean 2 0 + cell.cov 0 2) * t + cell.cov 2 2 * t ^ 2 / 2)) t :=
  ⟨mean_g_zero (cell.mean 0 0) (cell.mean 1 0) (cell.mean 2 0) (cell.mean 3 0)
      (cell.cov 0 0) (cell.cov 0 1) (cell.cov 0 2) (cell.cov 0 3) (cell.cov 1 1) (cell.cov 1 2)
      (cell.cov 1 3) (cell.cov 2 2) (cell.cov 2 3) (cell.cov 3 3) ml gl sl2 mq gq sq2 b,
    fun t => mean_g_hasDerivAt (cell.mean 0 0) (cell.mean 1 0) (cell.mean 2 0) (cell.mean 3 0)
      (cell.cov 0 0) (cell.cov 0 1) (cell.cov 0 2) (cell.cov 0 3) (cell.cov 1 1) (cell.cov 1 2)
      (cell.cov 1 3) (cell.cov 2 2) (cell.cov 2 3) (cell.cov 3 3) ml gl sl2 mq gq sq2 b hCll t⟩

/-- C17 (amended) at a cell with mean (0, 0, 0, 1) and identity covariance, every
parameter being 1. -/
theorem mean_cov_model_mean_g_ode_witness :
    (mean_cov_model realFns q_one_cell 0 1 1 1 1 1 1 1).mean 1 0 = q_one_cell.mean 1 0 ∧
    ∀ t : ℝ,
      HasDerivAt (fun s => (mean_cov_model realFns q_one_cell s 1 1 1 1 1 1 1).mean 1 0)
        (-1 * (mean_cov_model realFns q_one_cell t 1 1 1 1 1 1 1).mean 1 0
          + ((mean_cov_model realFns q_one_cell t 1 1 1 1 1 1 1).mean 3 0
              + (q_one_cell.cov 0 3 + q_one_cell.cov 2 3 * t) * Real.exp (-1 * t))
            * Real.exp (q_one_cell.mean 0 0 + q_one_cell.cov 0 0 / 2
                + (q_one_cell.mean 2 0 + q_one_cell.cov 0 2) * t + q_one_cell.cov 2 2 * t ^ 2 / 2))
                  t :=
  mean_cov_model_mean_g_ode q_one_cell 1 1 1 1 1 1 1
    (by simp [q_one_cell, bare_cell])

/-- C17 as stated fails: for a cell with mean (0, 0, 0, 1) and identity
covariance (so Σ_λλ = 1 > 0) and every parameter 1 (so γ_q = 1 > 0), the
derivative at t = 0 of the mean of g written by `mean_cov_model` is not
mean_q(0) − β·mean_g(0) = 1; it is exp(1/2). -/
theorem mean_g_derivative_is_not_mean_q :
    (0 : ℝ) < (q_one_cell : MOMAdata ℝ).cov 2 2 ∧
    (mean_cov_model realFns q_one_cell 0 1 1 1 1 1 1 1).mean 3 0
      - 1 * (mean_cov_model realFns q_one_cell 0 1 1 1 1 1 1 1).mean 1 0 = 1 ∧
    HasDerivAt (fun s => (mean_cov_model realFns q_one_cell s 1 1 1 1 1 1 1).mean 1 0)
      (Real.exp (1 / 2)) 0 ∧
    ¬ HasDerivAt (fun s => (mean_cov_model realFns q_one_cell s 1 1 1 1 1 1 1).mean 1 0)
      ((mean_cov_model realFns q_one_cell 0 1 1 1 1 1 1 1).mean 3 0
        - 1 * (mean_cov_model realFns q_one_cell 0 1 1 1 1 1 1 1).mean 1 0) 0 := by
  have h0 : (0 : ℝ) < (q_one_cell : MOMAdata ℝ).cov 2 2 := by simp [q_one_cell, bare_cell]
  have hg := mean_g_zero (q_one_cell.mean 0 0) (q_one_cell.mean 1 0) (q_one_cell.mean 2 0)
    (q_one_cell.mean 3 0)
      (q_one_cell.cov 0 0) (q_one_cell.cov 0 1) (q_one_cell.cov 0 2) (q_one_cell.cov 0 3)
        (q_one_cell.cov 1 1) (q_one_cell.cov 1 2)
      (q_one_cell.cov 1 3) (q_one_cell.cov 2 2) (q_one_cell.cov 2 3) (q_one_cell.cov 3 3) 1 1 1 1 1
        1 1
  have hq := (ou_at_zero (q_one_cell.mean 0 0) (q_one_cell.mean 1 0) (q_one_cell.mean 2 0)
    (q_one_cell.mean 3 0)
      (q_one_cell.cov 0 0) (q_one_cell.cov 0 1) (q_one_cell.cov 0 2) (q_one_cell.cov 0 3)
        (q_one_cell.cov 1 1) (q_one_cell.cov 1 2)
      (q_one_cell.cov 1 3) (q_one_cell.cov 2 2) (q_one_cell.cov 2 3) (q_one_cell.cov 3 3) 1 1 1 1 1
        1 1).2.1
  have hd := mean_g_hasDerivAt (q_one_cell.mean 0 0) (q_one_cell.mean 1 0) (q_one_cell.mean 2 0)
    (q_one_cell.mean 3 0)
      (q_one_cell.cov 0 0) (q_one_cell.cov 0 1) (q_one_cell.cov 0 2) (q_one_cell.cov 0 3)
        (q_one_cell.cov 1 1) (q_one_cell.cov 1 2)
      (q_one_cell.cov 1 3) (q_one_cell.cov 2 2) (q_one_cell.cov 2 3) (q_one_cell.cov 3 3) 1 1 1 1 1
        1 1 h0 0
  have e1 : (mean_cov_model realFns q_one_cell 0 1 1 1 1 1 1 1).mean 1 0 = 0 := by
    refine hg.trans ?_
    simp [q_one_cell, bare_cell]
  have e3 : (mean_cov_model realFns q_one_cell 0 1 1 1 1 1 1 1).mean 3 0 = 1 := by
    refine hq.trans ?_
    simp [q_one_cell, bare_cell]
  have hd2 : HasDerivAt (fun s => (mean_cov_model realFns q_one_cell s 1 1 1 1 1 1 1).mean 1 0)
      (Real.exp (1 / 2)) 0 := by
    refine hd.congr_deriv ?_
    rw [hg, hq]
    simp [q_one_cell, bare_cell]
  refine ⟨h0, ?_, hd2, fun h => ?_⟩
  · rw [e1, e3]
    norm_num
  · have h2 := h.unique hd2
    rw [e1, e3] at h2
    have h3 : Real.exp (1 / 2) = 1 := by
      rw [← h2]
      norm_num
    have h4 := (Real.exp_eq_one_iff _).1 h3
    norm_num at h4

end MeanG

/-! ## The mean of x without mean reversion -/

section NoReversion

variable {K : Type} [Field K] [DecidableEq K]

omit [DecidableEq K] in
theorem Checked.fin_add (x y : K) : (Checked.fin x + Checked.fin y : Checked K) = .fin (x + y) :=
  rfl

omit [DecidableEq K] in
theorem Checked.fin_sub (x y : K) : (Checked.fin x - Checked.fin y : Checked K) = .fin (x - y) :=
  rfl

omit [DecidableEq K] in
theorem Checked.fin_mul (x y : K) : (Checked.fin x * Checked.fin y : Checked K) = .fin (x * y) :=
  rfl

omit [DecidableEq K] in
theorem Checked.fin_neg (x : K) : (-Checked.fin x : Checked K) = .fin (-x) := rfl

omit [DecidableEq K] in
theorem Checked.one_eq : (1 : Checked K) = .fin 1 := rfl

omit [DecidableEq K] in
theorem Checked.add_nan (a : Checked K) : a + .nan = .nan := by
  cases a <;> rfl

theorem Checked.fin_div (x y : K) (h : y ≠ 0) :
    (Checked.fin x / Checked.fin y : Checked K) = .fin (x / y) := by
  show Checked.div _ _ = _
  simp [Checked.div, h]

theorem Checked.div_zero (a : Checked K) : a / Checked.fin 0 = .nan := by
  show Checked.div _ _ = _
  cases a <;> simp [Checked.div]

omit [Field K] [DecidableEq K] in
theorem nanFns_exp (M : MathFns K) (x : K) : (nanFns M).exp (.fin x) = .fin (M.exp x) := rfl

/-- C20, as the code has it: with mean_λ = 1, current λ = 1 and Δt = 1, for every
γ_λ other than 0 and every previous mean of x, `mean_x` is the previous mean of
x plus 1, also when a division by zero is given no value; so is the mean of x
that `mean_cov_model` writes. At γ_λ = 0 the function divides by zero. -/
theorem mean_x_of_lambda_at_its_mean (M : MathFns K) (bx gl : K)
    (bg bq Cxx Cxg Cxl Cxq Cgg Cgl Cgq Cll Clq Cqq sl2 mq gq sq2 b : Checked K)
    (cell : MOMAdata K) (sl2r mqr gqr sq2r br : K) (hgl : gl ≠ 0) (hl : cell.mean 2 0 = 1) :
    mean_x (nanFns M) (.fin 1) (.fin bx) bg (.fin 1) bq Cxx Cxg Cxl Cxq Cgg Cgl Cgq Cll Clq Cqq
        (.fin 1) (.fin gl) sl2 mq gq sq2 b = .fin (bx + 1) ∧
    (mean_cov_model M cell 1 1 gl sl2r mqr gqr sq2r br).mean 0 0 = cell.mean 0 0 + 1 := by
  refine ⟨?_, ?_⟩
  · simp only [mean_x, Checked.fin_neg, Checked.fin_mul, nanFns_exp, Checked.one_eq,
      Checked.fin_sub, Checked.fin_div _ _ hgl, Checked.fin_add]
    simp
  · rw [mean_cov_model_mean_x, hl]
    simp [mean_x]

/-- C20 (amended) for γ_λ = 2 and a cell with mean (0, 0, 1, 0). -/
theorem mean_x_of_lambda_at_its_mean_witness :
    mean_x (nanFns realFns) (.fin 1) (.fin 0) (.fin 0) (.fin 1) (.fin 0) (.fin 0) (.fin 0)
        (.fin 0) (.fin 0) (.fin 0) (.fin 0) (.fin 0) (.fin 0) (.fin 0) (.fin 0) (.fin 1)
        (.fin 2) (.fin 0) (.fin 0) (.fin 0) (.fin 0) (.fin 0) = .fin (0 + 1) ∧
    (mean_cov_model realFns (bare_cell !![0; 0; 1; 0] 0) 1 1 2 0 0 0 0 0).mean 0 0
      = (bare_cell !![0; 0; 1; 0] 0 : MOMAdata ℝ).mean 0 0 + 1 :=
  mean_x_of_lambda_at_its_mean realFns 0 2 (.fin 0) (.fin 0) (.fin 0) (.fin 0) (.fin 0) (.fin 0)
    (.fin 0) (.fin 0) (.fin 0) (.fin 0) (.fin 0) (.fin 0) (.fin 0) (.fin 0) (.fin 0) (.fin 0)
    (.fin 0) (bare_cell !![0; 0; 1; 0] 0) 0 0 0 0 0 two_ne_zero (by simp [bare_cell])

/-- C20 as stated fails: with mean_λ = 1, current λ = 1, γ_λ = 0 and Δt = 1,
`mean_x` computes (1 − 1)·(1 − exp(−0·1))/0, a division of zero by zero, and
returns NaN for every previous mean of x, not the previous mean plus 1. -/
theorem mean_x_is_nan_without_reversion :
    ((Checked.fin 1 - Checked.fin 1) * (1 - (nanFns realFns).exp (-Checked.fin 0 * .fin 1))
      = Checked.fin 0) ∧
    ∀ bx : ℝ,
      mean_x (nanFns realFns) (.fin 1) (.fin bx) (.fin 0) (.fin 1) (.fin 0) (.fin 0) (.fin 0)
          (.fin 0) (.fin 0) (.fin 0) (.fin 0) (.fin 0) (.fin 0) (.fin 0) (.fin 0) (.fin 1)
          (.fin 0) (.fin 0) (.fin 0) (.fin 0) (.fin 0) (.fin 0) = .nan ∧
      mean_x (nanFns realFns) (.fin 1) (.fin bx) (.fin 0) (.fin 1) (.fin 0) (.fin 0) (.fin 0)
          (.fin 0) (.fin 0) (.fin 0) (.fin 0) (.fin 0) (.fin 0) (.fin 0) (.fin 0) (.fin 1)
          (.fin 0) (.fin 0) (.fin 0) (.fin 0) (.fin 0) (.fin 0) ≠ .fin (bx + 1) := by
  refine ⟨?_, fun bx => ?_⟩
  · simp [Checked.fin_neg, Checked.fin_mul, nanFns_exp, Checked.one_eq, Checked.fin_sub,
      realFns]
  · have h : mean_x (nanFns realFns) (.fin 1) (.fin bx) (.fin 0) (.fin 1) (.fin 0) (.fin 0)
        (.fin 0) (.fin 0) (.fin 0) (.fin 0) (.fin 0) (.fin 0) (.fin 0) (.fin 0) (.fin 0) (.fin 1)
        (.fin 0) (.fin 0) (.fin 0) (.fin 0) (.fin 0) (.fin 0) = .nan := by
      simp only [mean_x, Checked.div_zero, Checked.add_nan]
    rw [h]
    exact ⟨rfl, fun h2 => Checked.noConfusion h2⟩

end NoReversion

/-! ## The propagator for Δt → 0 -/

section Continuity

variable (bx bg bl bq Cxx Cxg Cxl Cxq Cgg Cgl Cgq Cll Clq Cqq ml gl sl2 mq gq sq2 b : ℝ)

theorem realFns_exp : realFns.exp = Real.exp := rfl

theorem realFns_sqrt : realFns.sqrt = Real.sqrt := rfl

theorem realFns_erfi : realFns.erfi = erfi := rfl

theorem realFns_pi : realFns.pi = Real.pi := rfl

@[fun_prop]
theorem erfi_continuous : Continuous erfi :=
  continuous_iff_continuousAt.2 fun z => (erfi_hasDerivAt z).continuousAt

@[fun_prop]
theorem zerotauint_continuous (a B : ℝ) (f g h : ℝ → ℝ) (hf : Continuous f)
    (hg : Continuous g) (hh : Continuous h) : Continuous (fun t => zerotauint realFns a B (f t) (g
      t) (h t)) := by
  simp only [zerotauint, realFns_exp, realFns_sqrt, realFns_erfi, realFns_pi]
  fun_prop

@[fun_prop]
theorem onetauint_continuous (a B : ℝ) (f g h : ℝ → ℝ) (hf : Continuous f)
    (hg : Continuous g) (hh : Continuous h) : Continuous (fun t => onetauint realFns a B (f t) (g
      t) (h t)) := by
  simp only [onetauint, realFns_exp, realFns_sqrt, realFns_erfi, realFns_pi]
  fun_prop

@[fun_prop]
theorem twotauint_continuous (a B : ℝ) (f g h : ℝ → ℝ) (hf : Continuous f)
    (hg : Continuous g) (hh : Continuous h) : Continuous (fun t => twotauint realFns a B (f t) (g
      t) (h t)) := by
  simp only [twotauint, realFns_exp, realFns_sqrt, realFns_erfi, realFns_pi]
  fun_prop

@[fun_prop]
theorem treetauint_continuous (a B : ℝ) (f g h : ℝ → ℝ) (hf : Continuous f)
    (hg : Continuous g) (hh : Continuous h) : Continuous (fun t => treetauint realFns a B (f t) (g
      t) (h t)) := by
  simp only [treetauint, realFns_exp, realFns_sqrt, realFns_erfi, realFns_pi]
  fun_prop

theorem mean_g_continuous (bx bg bl bq Cxx Cxg Cxl Cxq Cgg Cgl Cgq Cll Clq Cqq ml gl sl2 mq gq
    sq2 b : ℝ) :
    Continuous (fun t => mean_g realFns t bx bg bl bq Cxx Cxg Cxl Cxq Cgg Cgl Cgq Cll Clq Cqq ml
      gl sl2 mq gq sq2 b) := by
  simp only [mean_g, realFns_exp]
  fun_prop (disch := exact fun _ => (Real.exp_pos _).ne.symm)

theorem mean_x_continuous :
    Continuous (fun t => mean_x realFns t bx bg bl bq Cxx Cxg Cxl Cxq Cgg Cgl Cgq Cll Clq Cqq ml gl
      sl2 mq gq sq2 b) := by
  simp only [mean_x, realFns_exp]
  fun_prop

theorem mean_l_continuous :
    Continuous (fun t => mean_l realFns t bx bg bl bq Cxx Cxg Cxl Cxq Cgg Cgl Cgq Cll Clq Cqq ml gl
      sl2 mq gq sq2 b) := by
  simp only [mean_l, realFns_exp]
  fun_prop

theorem mean_q_continuous :
    Continuous (fun t => mean_q realFns t bx bg bl bq Cxx Cxg Cxl Cxq Cgg Cgl Cgq Cll Clq Cqq ml gl
      sl2 mq gq sq2 b) := by
  simp only [mean_q, realFns_exp]
  fun_prop

theorem cov_xx_continuous :
    Continuous (fun t => cov_xx realFns t bx bg bl bq Cxx Cxg Cxl Cxq Cgg Cgl Cgq Cll Clq Cqq ml gl
      sl2 mq gq sq2 b) := by
  simp only [cov_xx, realFns_exp]
  fun_prop

theorem cov_xl_continuous :
    Continuous (fun t => cov_xl realFns t bx bg bl bq Cxx Cxg Cxl Cxq Cgg Cgl Cgq Cll Clq Cqq ml gl
      sl2 mq gq sq2 b) := by
  simp only [cov_xl, realFns_exp]
  fun_prop

theorem cov_xq_continuous :
    Continuous (fun t => cov_xq realFns t bx bg bl bq Cxx Cxg Cxl Cxq Cgg Cgl Cgq Cll Clq Cqq ml gl
      sl2 mq gq sq2 b) := by
  simp only [cov_xq, realFns_exp]
  fun_prop

theorem cov_ll_continuous :
    Continuous (fun t => cov_ll realFns t bx bg bl bq Cxx Cxg Cxl Cxq Cgg Cgl Cgq Cll Clq Cqq ml gl
      sl2 mq gq sq2 b) := by
  simp only [cov_ll, realFns_exp]
  fun_prop

theorem cov_lq_continuous :
    Continuous (fun t => cov_lq realFns t bx bg bl bq Cxx Cxg Cxl Cxq Cgg Cgl Cgq Cll Clq Cqq ml gl
      sl2 mq gq sq2 b) := by
  simp only [cov_lq, realFns_exp]
  fun_prop

theorem cov_qq_continuous :
    Continuous (fun t => cov_qq realFns t bx bg bl bq Cxx Cxg Cxl Cxq Cgg Cgl Cgq Cll Clq Cqq ml gl
      sl2 mq gq sq2 b) := by
  simp only [cov_qq, realFns_exp]
  fun_prop

theorem cov_xg_continuous (hgl : gl ≠ 0) (nm : ℝ → Matrix (Fin 4) (Fin 1) ℝ)
    (hnm : ∀ i, Continuous (fun t => nm t i 0)) :
    Continuous (fun t => cov_xg realFns t bx bg bl bq Cxx Cxg Cxl Cxq Cgg Cgl Cgq Cll Clq Cqq ml gl
      sl2 mq gq sq2 b (nm t)) := by
  have h0 := hnm 0
  have h1 := hnm 1
  have h2 := hnm 2
  have h3 := hnm 3
  simp only [cov_xg, realFns_exp]
  fun_prop (disch := first
    | exact fun _ => Real.exp_ne_zero _
    | exact fun _ => mul_ne_zero (Real.exp_ne_zero _) hgl)

theorem cov_gg_continuous (nm : ℝ → Matrix (Fin 4) (Fin 1) ℝ)
    (hnm : ∀ i, Continuous (fun t => nm t i 0)) :
    Continuous (fun t => cov_gg realFns t bx bg bl bq Cxx Cxg Cxl Cxq Cgg Cgl Cgq Cll Clq Cqq ml gl
      sl2 mq gq sq2 b (nm t)) := by
  have h0 := hnm 0
  have h1 := hnm 1
  have h2 := hnm 2
  have h3 := hnm 3
  simp only [cov_gg, realFns_exp]
  fun_prop (disch := exact fun _ => Real.exp_ne_zero _)

theorem cov_gl_continuous (nm : ℝ → Matrix (Fin 4) (Fin 1) ℝ)
    (hnm : ∀ i, Continuous (fun t => nm t i 0)) :
    Continuous (fun t => cov_gl realFns t bx bg bl bq Cxx Cxg Cxl Cxq Cgg Cgl Cgq Cll Clq Cqq ml gl
      sl2 mq gq sq2 b (nm t)) := by
  have h0 := hnm 0
  have h1 := hnm 1
  have h2 := hnm 2
  have h3 := hnm 3
  simp only [cov_gl, realFns_exp]
  fun_prop (disch := exact fun _ => Real.exp_ne_zero _)

theorem cov_gq_continuous (nm : ℝ → Matrix (Fin 4) (Fin 1) ℝ)
    (hnm : ∀ i, Continuous (fun t => nm t i 0)) :
    Continuous (fun t => cov_gq realFns t bx bg bl bq Cxx Cxg Cxl Cxq Cgg Cgl Cgq Cll Clq Cqq ml gl
      sl2 mq gq sq2 b (nm t)) := by
  have h0 := hnm 0
  have h1 := hnm 1
  have h2 := hnm 2
  have h3 := hnm 3
  simp only [cov_gq, realFns_exp]
  fun_prop (disch := exact fun _ => Real.exp_ne_zero _)

end Continuity
section AtZero

variable (bx bg bl bq Cxx Cxg Cxl Cxq Cgg Cgl Cgq Cll Clq Cqq ml gl sl2 mq gq sq2 b : ℝ)

theorem cov_xg_zero (nm : Matrix (Fin 4) (Fin 1) ℝ) :
    cov_xg realFns 0 bx bg bl bq Cxx Cxg Cxl Cxq Cgg Cgl Cgq Cll Clq Cqq ml gl sl2 mq gq sq2 b nm
      = Cxg + bg * bx - nm 1 0 * nm 0 0 := by
  have z0 := fun a B c : ℝ => (tauint_self realFns a B c 0).1
  have z1 := fun a B c : ℝ => (tauint_self realFns a B c 0).2.1
  have z2 := fun a B c : ℝ => (tauint_self realFns a B c 0).2.2.1
  have z3 := fun a B c : ℝ => (tauint_self realFns a B c 0).2.2.2
  simp [cov_xg, realFns_exp, z0, z1, z2, z3]
  ring

theorem cov_gg_zero (nm : Matrix (Fin 4) (Fin 1) ℝ) :
    cov_gg realFns 0 bx bg bl bq Cxx Cxg Cxl Cxq Cgg Cgl Cgq Cll Clq Cqq ml gl sl2 mq gq sq2 b nm
      = Cgg + bg ^ 2 - nm 1 0 ^ 2 := by
  have z0 := fun a B c : ℝ => (tauint_self realFns a B c 0).1
  have z1 := fun a B c : ℝ => (tauint_self realFns a B c 0).2.1
  have z2 := fun a B c : ℝ => (tauint_self realFns a B c 0).2.2.1
  have z3 := fun a B c : ℝ => (tauint_self realFns a B c 0).2.2.2
  simp [cov_gg, realFns_exp, z0, z1, z2, z3]
  ring

theorem cov_gl_zero (nm : Matrix (Fin 4) (Fin 1) ℝ) :
    cov_gl realFns 0 bx bg bl bq Cxx Cxg Cxl Cxq Cgg Cgl Cgq Cll Clq Cqq ml gl sl2 mq gq sq2 b nm
      = Cgl + bg * bl - nm 1 0 * nm 2 0 := by
  have z0 := fun a B c : ℝ => (tauint_self realFns a B c 0).1
  have z1 := fun a B c : ℝ => (tauint_self realFns a B c 0).2.1
  have z2 := fun a B c : ℝ => (tauint_self realFns a B c 0).2.2.1
  have z3 := fun a B c : ℝ => (tauint_self realFns a B c 0).2.2.2
  simp [cov_gl, realFns_exp, z0, z1, z2, z3]
  ring

theorem cov_gq_zero (nm : Matrix (Fin 4) (Fin 1) ℝ) :
    cov_gq realFns 0 bx bg bl bq Cxx Cxg Cxl Cxq Cgg Cgl Cgq Cll Clq Cqq ml gl sl2 mq gq sq2 b nm
      = Cgq + bg * bq - nm 1 0 * nm 3 0 := by
  have z0 := fun a B c : ℝ => (tauint_self realFns a B c 0).1
  have z1 := fun a B c : ℝ => (tauint_self realFns a B c 0).2.1
  have z2 := fun a B c : ℝ => (tauint_self realFns a B c 0).2.2.1
  have z3 := fun a B c : ℝ => (tauint_self realFns a B c 0).2.2.2
  simp [cov_gq, realFns_exp, z0, z1, z2, z3]
  ring

end AtZero

section TendsToPrior

theorem mean_cov_model_mean_continuous (cell : MOMAdata ℝ) (ml gl sl2 mq gq sq2 b : ℝ) (i : Fin 4) :
    Continuous (fun t => (mean_cov_model realFns cell t ml gl sl2 mq gq sq2 b).mean i 0) := by
  fin_cases i
  · exact mean_x_continuous (cell.mean 0 0) (cell.mean 1 0) (cell.mean 2 0) (cell.mean 3 0)
      (cell.cov 0 0) (cell.cov 0 1) (cell.cov 0 2) (cell.cov 0 3) (cell.cov 1 1) (cell.cov 1 2)
      (cell.cov 1 3) (cell.cov 2 2) (cell.cov 2 3) (cell.cov 3 3) ml gl sl2 mq gq sq2 b
  · exact mean_g_continuous (cell.mean 0 0) (cell.mean 1 0) (cell.mean 2 0) (cell.mean 3 0)
      (cell.cov 0 0) (cell.cov 0 1) (cell.cov 0 2) (cell.cov 0 3) (cell.cov 1 1) (cell.cov 1 2)
      (cell.cov 1 3) (cell.cov 2 2) (cell.cov 2 3) (cell.cov 3 3) ml gl sl2 mq gq sq2 b
  · exact mean_l_continuous (cell.mean 0 0) (cell.mean 1 0) (cell.mean 2 0) (cell.mean 3 0)
      (cell.cov 0 0) (cell.cov 0 1) (cell.cov 0 2) (cell.cov 0 3) (cell.cov 1 1) (cell.cov 1 2)
      (cell.cov 1 3) (cell.cov 2 2) (cell.cov 2 3) (cell.cov 3 3) ml gl sl2 mq gq sq2 b
  · exact mean_q_continuous (cell.mean 0 0) (cell.mean 1 0) (cell.mean 2 0) (cell.mean 3 0)
      (cell.cov 0 0) (cell.cov 0 1) (cell.cov 0 2) (cell.cov 0 3) (cell.cov 1 1) (cell.cov 1 2)
      (cell.cov 1 3) (cell.cov 2 2) (cell.cov 2 3) (cell.cov 3 3) ml gl sl2 mq gq sq2 b

theorem mean_cov_model_cov_continuous (cell : MOMAdata ℝ) (ml gl sl2 mq gq sq2 b : ℝ) (hgl : gl ≠ 0)
    (i j : Fin 4) :
    Continuous (fun t => (mean_cov_model realFns cell t ml gl sl2 mq gq sq2 b).cov i j) := by
  fin_cases i <;> fin_cases j
  · exact cov_xx_continuous (cell.mean 0 0) (cell.mean 1 0) (cell.mean 2 0) (cell.mean 3 0)
      (cell.cov 0 0) (cell.cov 0 1) (cell.cov 0 2) (cell.cov 0 3) (cell.cov 1 1) (cell.cov 1 2)
      (cell.cov 1 3) (cell.cov 2 2) (cell.cov 2 3) (cell.cov 3 3) ml gl sl2 mq gq sq2 b
  · exact cov_xg_continuous (cell.mean 0 0) (cell.mean 1 0) (cell.mean 2 0) (cell.mean 3 0)
      (cell.cov 0 0) (cell.cov 0 1) (cell.cov 0 2) (cell.cov 0 3) (cell.cov 1 1) (cell.cov 1 2)
      (cell.cov 1 3) (cell.cov 2 2) (cell.cov 2 3) (cell.cov 3 3) ml gl sl2 mq gq sq2 b hgl (fun t
        => (mean_cov_model realFns cell t ml gl sl2 mq gq sq2 b).mean)
      (mean_cov_model_mean_continuous cell ml gl sl2 mq gq sq2 b)
  · exact cov_xl_continuous (cell.mean 0 0) (cell.mean 1 0) (cell.mean 2 0) (cell.mean 3 0)
      (cell.cov 0 0) (cell.cov 0 1) (cell.cov 0 2) (cell.cov 0 3) (cell.cov 1 1) (cell.cov 1 2)
      (cell.cov 1 3) (cell.cov 2 2) (cell.cov 2 3) (cell.cov 3 3) ml gl sl2 mq gq sq2 b
  · exact cov_xq_continuous (cell.mean 0 0) (cell.mean 1 0) (cell.mean 2 0) (cell.mean 3 0)
      (cell.cov 0 0) (cell.cov 0 1) (cell.cov 0 2) (cell.cov 0 3) (cell.cov 1 1) (cell.cov 1 2)
      (cell.cov 1 3) (cell.cov 2 2) (cell.cov 2 3) (cell.cov 3 3) ml gl sl2 mq gq sq2 b
  · exact cov_xg_continuous (cell.mean 0 0) (cell.mean 1 0) (cell.mean 2 0) (cell.mean 3 0)
      (cell.cov 0 0) (cell.cov 0 1) (cell.cov 0 2) (cell.cov 0 3) (cell.cov 1 1) (cell.cov 1 2)
      (cell.cov 1 3) (cell.cov 2 2) (cell.cov 2 3) (cell.cov 3 3) ml gl sl2 mq gq sq2 b hgl (fun t
        => (mean_cov_model realFns cell t ml gl sl2 mq gq sq2 b).mean)
      (mean_cov_model_mean_continuous cell ml gl sl2 mq gq sq2 b)
  · exact cov_gg_continuous (cell.mean 0 0) (cell.mean 1 0) (cell.mean 2 0) (cell.mean 3 0)
      (cell.cov 0 0) (cell.cov 0 1) (cell.cov 0 2) (cell.cov 0 3) (cell.cov 1 1) (cell.cov 1 2)
      (cell.cov 1 3) (cell.cov 2 2) (cell.cov 2 3) (cell.cov 3 3) ml gl sl2 mq gq sq2 b (fun t =>
        (mean_cov_model realFns cell t ml gl sl2 mq gq sq2 b).mean)
      (mean_cov_model_mean_continuous cell ml gl sl2 mq gq sq2 b)
  · exact cov_gl_continuous (cell.mean 0 0) (cell.mean 1 0) (cell.mean 2 0) (cell.mean 3 0)
      (cell.cov 0 0) (cell.cov 0 1) (cell.cov 0 2) (cell.cov 0 3) (cell.cov 1 1) (cell.cov 1 2)
      (cell.cov 1 3) (cell.cov 2 2) (cell.cov 2 3) (cell.cov 3 3) ml gl sl2 mq gq sq2 b (fun t =>
        (mean_cov_model realFns cell t ml gl sl2 mq gq sq2 b).mean)
      (mean_cov_model_mean_continuous cell ml gl sl2 mq gq sq2 b)
  · exact cov_gq_continuous (cell.mean 0 0) (cell.mean 1 0) (cell.mean 2 0) (cell.mean 3 0)
      (cell.cov 0 0) (cell.cov 0 1) (cell.cov 0 2) (cell.cov 0 3) (cell.cov 1 1) (cell.cov 1 2)
      (cell.cov 1 3) (cell.cov 2 2) (cell.cov 2 3) (cell.cov 3 3) ml gl sl2 mq gq sq2 b (fun t =>
        (mean_cov_model realFns cell t ml gl sl2 mq gq sq2 b).mean)
      (mean_cov_model_mean_continuous cell ml gl sl2 mq gq sq2 b)
  · exact cov_xl_continuous (cell.mean 0 0) (cell.mean 1 0) (cell.mean 2 0) (cell.mean 3 0)
      (cell.cov 0 0) (cell.cov 0 1) (cell.cov 0 2) (cell.cov 0 3) (cell.cov 1 1) (cell.cov 1 2)
      (cell.cov 1 3) (cell.cov 2 2) (cell.cov 2 3) (cell.cov 3 3) ml gl sl2 mq gq sq2 b
  · exact cov_gl_continuous (cell.mean 0 0) (cell.mean 1 0) (cell.mean 2 0) (cell.mean 3 0)
      (cell.cov 0 0) (cell.cov 0 1) (cell.cov 0 2) (cell.cov 0 3) (cell.cov 1 1) (cell.cov 1 2)
      (cell.cov 1 3) (cell.cov 2 2) (cell.cov 2 3) (cell.cov 3 3) ml gl sl2 mq gq sq2 b (fun t =>
        (mean_cov_model realFns cell t ml gl sl2 mq gq sq2 b).mean)
      (mean_cov_model_mean_continuous cell ml gl sl2 mq gq sq2 b)
  · exact cov_ll_continuous (cell.mean 0 0) (cell.mean 1 0) (cell.mean 2 0) (cell.mean 3 0)
      (cell.cov 0 0) (cell.cov 0 1) (cell.cov 0 2) (cell.cov 0 3) (cell.cov 1 1) (cell.cov 1 2)
      (cell.cov 1 3) (cell.cov 2 2) (cell.cov 2 3) (cell.cov 3 3) ml gl sl2 mq gq sq2 b
  · exact cov_lq_continuous (cell.mean 0 0) (cell.mean 1 0) (cell.mean 2 0) (cell.mean 3 0)
      (cell.cov 0 0) (cell.cov 0 1) (cell.cov 0 2) (cell.cov 0 3) (cell.cov 1 1) (cell.cov 1 2)
      (cell.cov 1 3) (cell.cov 2 2) (cell.cov 2 3) (cell.cov 3 3) ml gl sl2 mq gq sq2 b
  · exact cov_xq_continuous (cell.mean 0 0) (cell.mean 1 0) (cell.mean 2 0) (cell.mean 3 0)
      (cell.cov 0 0) (cell.cov 0 1) (cell.cov 0 2) (cell.cov 0 3) (cell.cov 1 1) (cell.cov 1 2)
      (cell.cov 1 3) (cell.cov 2 2) (cell.cov 2 3) (cell.cov 3 3) ml gl sl2 mq gq sq2 b
  · exact cov_gq_continuous (cell.mean 0 0) (cell.mean 1 0) (cell.mean 2 0) (cell.mean 3 0)
      (cell.cov 0 0) (cell.cov 0 1) (cell.cov 0 2) (cell.cov 0 3) (cell.cov 1 1) (cell.cov 1 2)
      (cell.cov 1 3) (cell.cov 2 2) (cell.cov 2 3) (cell.cov 3 3) ml gl sl2 mq gq sq2 b (fun t =>
        (mean_cov_model realFns cell t ml gl sl2 mq gq sq2 b).mean)
      (mean_cov_model_mean_continuous cell ml gl sl2 mq gq sq2 b)
  · exact cov_lq_continuous (cell.mean 0 0) (cell.mean 1 0) (cell.mean 2 0) (cell.mean 3 0)
      (cell.cov 0 0) (cell.cov 0 1) (cell.cov 0 2) (cell.cov 0 3) (cell.cov 1 1) (cell.cov 1 2)
      (cell.cov 1 3) (cell.cov 2 2) (cell.cov 2 3) (cell.cov 3 3) ml gl sl2 mq gq sq2 b
  · exact cov_qq_continuous (cell.mean 0 0) (cell.mean 1 0) (cell.mean 2 0) (cell.mean 3 0)
      (cell.cov 0 0) (cell.cov 0 1) (cell.cov 0 2) (cell.cov 0 3) (cell.cov 1 1) (cell.cov 1 2)
      (cell.cov 1 3) (cell.cov 2 2) (cell.cov 2 3) (cell.cov 3 3) ml gl sl2 mq gq sq2 b

theorem mean_cov_model_zero_mean (cell : MOMAdata ℝ) (ml gl sl2 mq gq sq2 b : ℝ) (i : Fin 4) :
    (mean_cov_model realFns cell 0 ml gl sl2 mq gq sq2 b).mean i 0 = cell.mean i 0 := by
  fin_cases i
  · exact (position_at_zero (cell.mean 0 0) (cell.mean 1 0) (cell.mean 2 0) (cell.mean 3 0)
      (cell.cov 0 0) (cell.cov 0 1) (cell.cov 0 2) (cell.cov 0 3) (cell.cov 1 1) (cell.cov 1 2)
      (cell.cov 1 3) (cell.cov 2 2) (cell.cov 2 3) (cell.cov 3 3) ml gl sl2 mq gq sq2 b).1
  · exact mean_g_zero (cell.mean 0 0) (cell.mean 1 0) (cell.mean 2 0) (cell.mean 3 0)
      (cell.cov 0 0) (cell.cov 0 1) (cell.cov 0 2) (cell.cov 0 3) (cell.cov 1 1) (cell.cov 1 2)
      (cell.cov 1 3) (cell.cov 2 2) (cell.cov 2 3) (cell.cov 3 3) ml gl sl2 mq gq sq2 b
  · exact (ou_at_zero (cell.mean 0 0) (cell.mean 1 0) (cell.mean 2 0) (cell.mean 3 0)
      (cell.cov 0 0) (cell.cov 0 1) (cell.cov 0 2) (cell.cov 0 3) (cell.cov 1 1) (cell.cov 1 2)
      (cell.cov 1 3) (cell.cov 2 2) (cell.cov 2 3) (cell.cov 3 3) ml gl sl2 mq gq sq2 b).1
  · exact (ou_at_zero (cell.mean 0 0) (cell.mean 1 0) (cell.mean 2 0) (cell.mean 3 0)
      (cell.cov 0 0) (cell.cov 0 1) (cell.cov 0 2) (cell.cov 0 3) (cell.cov 1 1) (cell.cov 1 2)
      (cell.cov 1 3) (cell.cov 2 2) (cell.cov 2 3) (cell.cov 3 3) ml gl sl2 mq gq sq2 b).2.1

theorem mean_cov_model_zero_cov (cell : MOMAdata ℝ) (ml gl sl2 mq gq sq2 b : ℝ) (i j : Fin 4) (hij
  : i ≤ j) :
    (mean_cov_model realFns cell 0 ml gl sl2 mq gq sq2 b).cov i j = cell.cov i j := by
  have hm := mean_cov_model_zero_mean cell ml gl sl2 mq gq sq2 b
  have h0 := hm 0
  have h1 := hm 1
  have h2 := hm 2
  have h3 := hm 3
  fin_cases i <;> fin_cases j <;> first
    | exact absurd hij (by decide)
    | skip
  · exact (position_at_zero (cell.mean 0 0) (cell.mean 1 0) (cell.mean 2 0) (cell.mean 3 0)
      (cell.cov 0 0) (cell.cov 0 1) (cell.cov 0 2) (cell.cov 0 3) (cell.cov 1 1) (cell.cov 1 2)
      (cell.cov 1 3) (cell.cov 2 2) (cell.cov 2 3) (cell.cov 3 3) ml gl sl2 mq gq sq2 b).2.1
  · refine (cov_xg_zero (cell.mean 0 0) (cell.mean 1 0) (cell.mean 2 0) (cell.mean 3 0)
      (cell.cov 0 0) (cell.cov 0 1) (cell.cov 0 2) (cell.cov 0 3) (cell.cov 1 1) (cell.cov 1 2)
      (cell.cov 1 3) (cell.cov 2 2) (cell.cov 2 3) (cell.cov 3 3) ml gl sl2 mq gq sq2 b
        (mean_cov_model realFns cell 0 ml gl sl2 mq gq sq2 b).mean).trans ?_
    simp only [h0, h1, h2, h3]
    exact add_sub_cancel_right _ _
  · exact (position_at_zero (cell.mean 0 0) (cell.mean 1 0) (cell.mean 2 0) (cell.mean 3 0)
      (cell.cov 0 0) (cell.cov 0 1) (cell.cov 0 2) (cell.cov 0 3) (cell.cov 1 1) (cell.cov 1 2)
      (cell.cov 1 3) (cell.cov 2 2) (cell.cov 2 3) (cell.cov 3 3) ml gl sl2 mq gq sq2 b).2.2.1
  · exact (position_at_zero (cell.mean 0 0) (cell.mean 1 0) (cell.mean 2 0) (cell.mean 3 0)
      (cell.cov 0 0) (cell.cov 0 1) (cell.cov 0 2) (cell.cov 0 3) (cell.cov 1 1) (cell.cov 1 2)
      (cell.cov 1 3) (cell.cov 2 2) (cell.cov 2 3) (cell.cov 3 3) ml gl sl2 mq gq sq2 b).2.2.2
  · refine (cov_gg_zero (cell.mean 0 0) (cell.mean 1 0) (cell.mean 2 0) (cell.mean 3 0)
      (cell.cov 0 0) (cell.cov 0 1) (cell.cov 0 2) (cell.cov 0 3) (cell.cov 1 1) (cell.cov 1 2)
      (cell.cov 1 3) (cell.cov 2 2) (cell.cov 2 3) (cell.cov 3 3) ml gl sl2 mq gq sq2 b
        (mean_cov_model realFns cell 0 ml gl sl2 mq gq sq2 b).mean).trans ?_
    simp only [h0, h1, h2, h3]
    exact add_sub_cancel_right _ _
  · refine (cov_gl_zero (cell.mean 0 0) (cell.mean 1 0) (cell.mean 2 0) (cell.mean 3 0)
      (cell.cov 0 0) (cell.cov 0 1) (cell.cov 0 2) (cell.cov 0 3) (cell.cov 1 1) (cell.cov 1 2)
      (cell.cov 1 3) (cell.cov 2 2) (cell.cov 2 3) (cell.cov 3 3) ml gl sl2 mq gq sq2 b
        (mean_cov_model realFns cell 0 ml gl sl2 mq gq sq2 b).mean).trans ?_
    simp only [h0, h1, h2, h3]
    exact add_sub_cancel_right _ _
  · refine (cov_gq_zero (cell.mean 0 0) (cell.mean 1 0) (cell.mean 2 0) (cell.mean 3 0)
      (cell.cov 0 0) (cell.cov 0 1) (cell.cov 0 2) (cell.cov 0 3) (cell.cov 1 1) (cell.cov 1 2)
      (cell.cov 1 3) (cell.cov 2 2) (cell.cov 2 3) (cell.cov 3 3) ml gl sl2 mq gq sq2 b
        (mean_cov_model realFns cell 0 ml gl sl2 mq gq sq2 b).mean).trans ?_
    simp only [h0, h1, h2, h3]
    exact add_sub_cancel_right _ _
  · exact (ou_at_zero (cell.mean 0 0) (cell.mean 1 0) (cell.mean 2 0) (cell.mean 3 0)
      (cell.cov 0 0) (cell.cov 0 1) (cell.cov 0 2) (cell.cov 0 3) (cell.cov 1 1) (cell.cov 1 2)
      (cell.cov 1 3) (cell.cov 2 2) (cell.cov 2 3) (cell.cov 3 3) ml gl sl2 mq gq sq2 b).2.2.1
  · exact (ou_at_zero (cell.mean 0 0) (cell.mean 1 0) (cell.mean 2 0) (cell.mean 3 0)
      (cell.cov 0 0) (cell.cov 0 1) (cell.cov 0 2) (cell.cov 0 3) (cell.cov 1 1) (cell.cov 1 2)
      (cell.cov 1 3) (cell.cov 2 2) (cell.cov 2 3) (cell.cov 3 3) ml gl sl2 mq gq sq2 b).2.2.2.1
  · exact (ou_at_zero (cell.mean 0 0) (cell.mean 1 0) (cell.mean 2 0) (cell.mean 3 0)
      (cell.cov 0 0) (cell.cov 0 1) (cell.cov 0 2) (cell.cov 0 3) (cell.cov 1 1) (cell.cov 1 2)
      (cell.cov 1 3) (cell.cov 2 2) (cell.cov 2 3) (cell.cov 3 3) ml gl sl2 mq gq sq2 b).2.2.2.2

end TendsToPrior

section PriorLimit

/-- C14: for every prior (μ, Σ) with Σ symmetric and Σ_λλ > 0 and all γ_λ, γ_q
other than 0, the mean and covariance written by `mean_cov_model` for Δt = 0 are
μ and Σ, and each of the 4 mean entries and of the covariance entries (the 10
functions cov_xx .. cov_qq and their mirrored coefficients) tends to the prior
entry as Δt → 0. -/
theorem mean_cov_model_tends_to_prior (cell : MOMAdata ℝ) (ml gl sl2 mq gq sq2 b : ℝ)
    (hsymm : cell.cov.IsSymm) (_hCll : 0 < cell.cov 2 2) (hgl : gl ≠ 0) (_hgq : gq ≠ 0) :
    (mean_cov_model realFns cell 0 ml gl sl2 mq gq sq2 b).mean = cell.mean ∧
    (mean_cov_model realFns cell 0 ml gl sl2 mq gq sq2 b).cov = cell.cov ∧
    (∀ i : Fin 4, Filter.Tendsto (fun t => (mean_cov_model realFns cell t ml gl sl2 mq gq sq2
      b).mean i 0)
      (nhds 0) (nhds (cell.mean i 0))) ∧
    ∀ i j : Fin 4, Filter.Tendsto (fun t => (mean_cov_model realFns cell t ml gl sl2 mq gq sq2
      b).cov i j)
      (nhds 0) (nhds (cell.cov i j)) := by
  have hm := mean_cov_model_zero_mean cell ml gl sl2 mq gq sq2 b
  have hc : ∀ i j : Fin 4, (mean_cov_model realFns cell 0 ml gl sl2 mq gq sq2 b).cov i j = cell.cov
    i j := by
    intro i j
    rcases le_total i j with h | h
    · exact mean_cov_model_zero_cov cell ml gl sl2 mq gq sq2 b i j h
    · rw [(mean_cov_model_isSymm realFns cell 0 ml gl sl2 mq gq sq2 b).apply j i,
        mean_cov_model_zero_cov cell ml gl sl2 mq gq sq2 b j i h, hsymm.apply i j]
  refine ⟨?_, ?_, fun i => ?_, fun i j => ?_⟩
  · ext i j
    rw [Subsingleton.elim j 0]
    exact hm i
  · ext i j
    exact hc i j
  · have h := (mean_cov_model_mean_continuous cell ml gl sl2 mq gq sq2 b i).tendsto 0
    simpa only [hm i] using h
  · have h := (mean_cov_model_cov_continuous cell ml gl sl2 mq gq sq2 b hgl i j).tendsto 0
    simpa only [hc i j] using h

/-- C14 at a cell with mean (0, 0, 0, 1) and identity covariance, for mean_λ = 2,
γ_λ = 1, σ²_λ = 3, mean_q = 5, γ_q = 4, σ²_q = 6, β = 7. -/
theorem mean_cov_model_tends_to_prior_witness :
    (mean_cov_model realFns (q_one_cell : MOMAdata ℝ) 0 2 1 3 5 4 6 7).mean = (q_one_cell :
      MOMAdata ℝ).mean ∧
    (mean_cov_model realFns (q_one_cell : MOMAdata ℝ) 0 2 1 3 5 4 6 7).cov = (q_one_cell : MOMAdata
      ℝ).cov ∧
    (∀ i : Fin 4, Filter.Tendsto (fun t => (mean_cov_model realFns (q_one_cell : MOMAdata ℝ) t 2 1
      3 5 4 6 7).mean i 0)
      (nhds 0) (nhds ((q_one_cell : MOMAdata ℝ).mean i 0))) ∧
    ∀ i j : Fin 4, Filter.Tendsto (fun t => (mean_cov_model realFns (q_one_cell : MOMAdata ℝ) t 2 1
      3 5 4 6 7).cov i j)
      (nhds 0) (nhds ((q_one_cell : MOMAdata ℝ).cov i j)) :=
  mean_cov_model_tends_to_prior q_one_cell 2 1 3 5 4 6 7 Matrix.isSymm_one
    (by simp [q_one_cell, bare_cell]) one_ne_zero (by norm_num)

end PriorLimit

/-! ## Positive semi-definiteness of the covariance -/

section PositiveSemidefinite

theorem block22_eq_submatrix (cov : Matrix (Fin 4) (Fin 4) ℝ) :
    block22 cov = cov.submatrix ![0, 1] ![0, 1] := by
  ext i j
  fin_cases i <;> fin_cases j <;> rfl

theorem obs_noise_posDef (vx vg : ℝ) (hx : 0 < vx) (hg : 0 < vg) :
    (!![vx, 0; 0, vg] : Matrix (Fin 2) (Fin 2) ℝ).PosDef := by
  have h : (!![vx, 0; 0, vg] : Matrix (Fin 2) (Fin 2) ℝ) = Matrix.diagonal ![vx, vg] := by
    ext i j
    fin_cases i <;> fin_cases j <;> simp
  rw [h]
  refine Matrix.PosDef.diagonal fun i => ?_
  fin_cases i
  · exact hx
  · exact hg

theorem obs_cov_posDef (cov : Matrix (Fin 4) (Fin 4) ℝ) (vx vg : ℝ) (h : cov.PosSemidef)
    (hx : 0 < vx) (hg : 0 < vg) : (obs_cov cov vx vg).PosDef := by
  unfold obs_cov
  refine Matrix.PosDef.posSemidef_add ?_ (obs_noise_posDef vx vg hx hg)
  rw [block22_eq_submatrix]
  exact h.submatrix _

/-- The covariance of the observation and the state, as one matrix on 2 + 4
indices: it is positive semi-definite. -/
theorem joint_cov_posSemidef (cov : Matrix (Fin 4) (Fin 4) ℝ) (vx vg : ℝ) (h : cov.PosSemidef)
    (hx : 0 < vx) (hg : 0 < vg) :
    (Matrix.fromBlocks (obs_cov cov vx vg) (block24 cov) (block24 cov).conjTranspose
      cov).PosSemidef := by
  have hs : cov.IsSymm := by
    have := h.1
    rwa [Matrix.IsHermitian, Matrix.conjTranspose_eq_transpose_of_trivial] at this
  have e : Matrix.fromBlocks (obs_cov cov vx vg) (block24 cov) (block24 cov).conjTranspose cov
      = cov.submatrix (Sum.elim ![0, 1] id)
          (Sum.elim ![0, 1] id)
        + Matrix.diagonal (Sum.elim ![vx, vg] 0) := by
    ext i j
    rcases i with i | i <;> rcases j with j | j
    · fin_cases i <;> fin_cases j <;> simp [obs_cov, block22]
    · fin_cases i <;> simp [block24_zero, block24_one]
    · fin_cases j <;> simp [block24_zero, block24_one, hs.apply]
    · simp [Matrix.diagonal_apply]
  rw [e]
  refine (h.submatrix _).add (Matrix.PosSemidef.diagonal fun i => ?_)
  rcases i with i | i
  · fin_cases i
    · exact hx.le
    · exact hg.le
  · exact le_refl _

theorem posterior_posSemidef (y : Matrix (Fin 2) (Fin 1) ℝ) (cell : MOMAdata ℝ) (vx vg : ℝ)
    (h : cell.cov.PosSemidef) (hx : 0 < vx) (hg : 0 < vg) :
    (posterior y cell vx vg).cov.PosSemidef := by
  have hS := obs_cov_posDef cell.cov vx vg h hx hg
  haveI := hS.isUnit.invertible
  have hj := joint_cov_posSemidef cell.cov vx vg h hx hg
  rw [Matrix.PosSemidef.fromBlocks₁₁ _ _ hS] at hj
  have e : (posterior y cell vx vg).cov
      = cell.cov - (block24 cell.cov).conjTranspose * (obs_cov cell.cov vx vg)⁻¹
          * block24 cell.cov := by
    simp only [posterior, inverse_eq_inv, obs_cov,
      Matrix.conjTranspose_eq_transpose_of_trivial]
  rw [e]
  exact hj

theorem prior_daughter_posSemidef (M : MathFns ℝ) (var_dx var_dg : ℝ) (q c : MOMAdata ℝ)
    (h : q.cov.PosSemidef) (hdx : 0 ≤ var_dx) (hdg : 0 ≤ var_dg) :
    (prior_daughter M var_dx var_dg q c).cov.PosSemidef := by
  have e : (prior_daughter M var_dx var_dg q c).cov
      = Matrix.diagonal ![var_dx, var_dg, 0, 0]
        + (setCoeff 1 1 1 (1 / 2) : Matrix (Fin 4) (Fin 4) ℝ) * q.cov
          * (setCoeff 1 1 1 (1 / 2) : Matrix (Fin 4) (Fin 4) ℝ).conjTranspose := by
    rw [Matrix.conjTranspose_eq_transpose_of_trivial]
    show _ + _ = _ + _
    congr 1
    ext i j
    fin_cases i <;> fin_cases j <;> simp [setCoeff]
  rw [e]
  refine (Matrix.PosSemidef.diagonal fun i => ?_).add (h.mul_mul_conjTranspose_same _)
  fin_cases i
  · exact hdx
  · exact hdg
  · exact le_refl _
  · exact le_refl _

end PositiveSemidefinite
section TreeInvariant

theorem posSemidef_isSymm (cov : Matrix (Fin 4) (Fin 4) ℝ) (h : cov.PosSemidef) :
    cov.IsSymm := by
  have h1 := h.1
  rwa [Matrix.IsHermitian, Matrix.conjTranspose_eq_transpose_of_trivial] at h1

theorem state_at_posSemidef (params_vec : List ℝ) (cell0 : MOMAdata ℝ)
    (h : cell0.cov.PosSemidef) (hx : 0 < param params_vec 7) (hg : 0 < param params_vec 8) :
    ∀ n, (state_at params_vec cell0 n).cov.PosSemidef
  | 0 => h
  | n + 1 => posterior_posSemidef _ _ _ _ (state_at_posSemidef params_vec cell0 h hx hg n) hx hg

theorem prior_root_posSemidef (params_vec : List ℝ) (c : MOMAdata ℝ)
    (h0 : ∀ a b : Fin 4, a ≠ b → c.cov a b = 0) (hx : 0 ≤ param params_vec 7)
    (hg : 0 ≤ param params_vec 8) (hl : 0 ≤ param params_vec 2) (hq : 0 ≤ param params_vec 5) :
    (prior_root params_vec c).cov.PosSemidef := by
  rw [prior_root_cov_diagonal params_vec c h0]
  refine Matrix.PosSemidef.diagonal fun i => ?_
  fin_cases i
  · exact hx
  · exact hg
  · exact hl
  · exact hq

/-- The invariant of the pass over a genealogy: started above a root whose
covariance is zero off the diagonal, or under a parent with a positive
semi-definite covariance, every Kalman update finds a positive semi-definite
covariance and a positive definite S. -/
theorem Genealogy.everyUpdate_posSemidef (M : MathFns ℝ) (params_vec : List ℝ)
    (hx : 0 < param params_vec 7) (hg : 0 < param params_vec 8)
    (hl : 0 ≤ param params_vec 2) (hq : 0 ≤ param params_vec 5)
    (hdx : 0 ≤ param params_vec 9) (hdg : 0 ≤ param params_vec 10) :
    ∀ (g : Genealogy ℝ) (par : Option (MOMAdata ℝ)),
      (par = none → g.TopDiagonal) → (∀ q, par = some q → q.cov.PosSemidef) →
      g.EveryUpdate M params_vec
        (fun s => s.cov.IsSymm ∧ s.cov.PosSemidef ∧
          (obs_cov s.cov (param params_vec 7) (param params_vec 8)).PosDef ∧
          0 < (obs_cov s.cov (param params_vec 7) (param params_vec 8)).det) par
  | .null, _, _, _ => trivial
  | .node i c d1 d2, par, hn, hs => by
    have h0 : (cell_prior M params_vec par c).cov.PosSemidef := by
      cases par with
      | none => exact prior_root_posSemidef params_vec c (hn rfl) hx.le hg.le hl hq
      | some q => exact prior_daughter_posSemidef M _ _ q c (hs q rfl) hdx hdg
    have hall := state_at_posSemidef params_vec _ h0 hx hg
    refine ⟨fun t _ => ⟨posSemidef_isSymm _ (hall t), hall t, obs_cov_posDef _ _ _ (hall t) hx hg,
      (obs_cov_posDef _ _ _ (hall t) hx hg).det_pos⟩, ?_, ?_⟩
    · exact Genealogy.everyUpdate_posSemidef M params_vec hx hg hl hq hdx hdg d1 _
        (fun h => by cases h) (fun q hq => by cases hq; exact hall _)
    · exact Genealogy.everyUpdate_posSemidef M params_vec hx hg hl hq hdx hdg d2 _
        (fun h => by cases h) (fun q hq => by cases hq; exact hall _)

/-- C12: for every θ with σ²_x, σ²_g > 0 and σ²_λ, σ²_q, var_dx, var_dg ≥ 0 and
every genealogy tree whose root starts with zero off-diagonal covariance,
`likelihood_recr` runs over the cells of the tree, and at every Kalman update of
every cell the covariance is symmetric positive semi-definite and
S = Σ[0:2,0:2] + diag(σ²_x, σ²_g) is positive definite, with det S > 0;
`posterior` maps a positive semi-definite covariance to a symmetric positive
semi-definite one, and `mean_cov_after_division` maps a positive semi-definite
parent covariance to a positive semi-definite daughter covariance. -/
theorem covariance_stays_positive_semidefinite (M : MathFns ℝ) (params_vec : List ℝ)
    (cells : List (MOMAdata ℝ)) (g : Genealogy ℝ) (fuel : Nat)
    (hp : 13 ≤ params_vec.length) (hlinked : g.Linked cells none) (hnodup : g.addrs.Nodup)
    (hfuel : g.depth ≤ fuel) (hdiag : g.TopDiagonal)
    (hx : 0 < param params_vec 7) (hg : 0 < param params_vec 8)
    (hl : 0 ≤ param params_vec 2) (hq : 0 ≤ param params_vec 5)
    (hdx : 0 ≤ param params_vec 9) (hdg : 0 ≤ param params_vec 10) :
    likelihood_recr M params_vec fuel g.ptr cells 0
        = some (g.filtered M params_vec none cells,
            0 + genealogy_sum M params_vec none g) ∧
    g.EveryUpdate M params_vec
      (fun s => s.cov.IsSymm ∧ s.cov.PosSemidef ∧
        (obs_cov s.cov (param params_vec 7) (param params_vec 8)).PosDef ∧
        0 < (obs_cov s.cov (param params_vec 7) (param params_vec 8)).det) none ∧
    (∀ (y : Matrix (Fin 2) (Fin 1) ℝ) (cell : MOMAdata ℝ), cell.cov.PosSemidef →
      (posterior y cell (param params_vec 7) (param params_vec 8)).cov.IsSymm ∧
      (posterior y cell (param params_vec 7) (param params_vec 8)).cov.PosSemidef) ∧
    ∀ (i p : Nat) (d q : MOMAdata ℝ), cells[i]? = some d → d.parent = some p →
      cells[p]? = some q → q.cov.PosSemidef →
      ∃ d0, mean_cov_after_division M cells i (param params_vec 9) (param params_vec 10)
          = some (cells.set i d0) ∧ d0.cov.PosSemidef :=
  ⟨likelihood_recr_genealogy M params_vec hp g cells none none 0 fuel hlinked hnodup
      ⟨rfl, rfl, fun p hp => by cases hp⟩ hfuel,
    Genealogy.everyUpdate_posSemidef M params_vec hx hg hl hq hdx hdg g none (fun _ => hdiag)
      (fun q hq => by cases hq),
    fun y cell h => ⟨posSemidef_isSymm _ (posterior_posSemidef y cell _ _ h hx hg),
      posterior_posSemidef y cell _ _ h hx hg⟩,
    fun i p d q hd hpar hq h =>
      ⟨_, mean_cov_after_division_eq M cells i p d q _ _ hd hpar hq,
        prior_daughter_posSemidef M _ _ q d h hdx hdg⟩⟩

/-- C12 at the three cells of `family`, under `unit_params`, with fuel 2. -/
theorem covariance_stays_positive_semidefinite_witness :
    likelihood_recr realFns unit_params 2 (family_tree : Genealogy ℝ).ptr family 0
        = some ((family_tree : Genealogy ℝ).filtered realFns unit_params none family,
            0 + genealogy_sum realFns unit_params none (family_tree : Genealogy ℝ)) ∧
    (family_tree : Genealogy ℝ).EveryUpdate realFns unit_params
      (fun s => s.cov.IsSymm ∧ s.cov.PosSemidef ∧
        (obs_cov s.cov (param unit_params 7) (param unit_params 8)).PosDef ∧
        0 < (obs_cov s.cov (param unit_params 7) (param unit_params 8)).det) none ∧
    (∀ (y : Matrix (Fin 2) (Fin 1) ℝ) (cell : MOMAdata ℝ), cell.cov.PosSemidef →
      (posterior y cell (param unit_params 7) (param unit_params 8)).cov.IsSymm ∧
      (posterior y cell (param unit_params 7) (param unit_params 8)).cov.PosSemidef) ∧
    ∀ (i p : Nat) (d q : MOMAdata ℝ), family[i]? = some d → d.parent = some p →
      family[p]? = some q → q.cov.PosSemidef →
      ∃ d0, mean_cov_after_division realFns family i (param unit_params 9) (param unit_params 10)
          = some (family.set i d0) ∧ d0.cov.PosSemidef :=
  covariance_stays_positive_semidefinite realFns unit_params family family_tree 2
    unit_params_length family_rooted.2.1 family_rooted.2.2
    (by simp [family_tree, Genealogy.depth])
    (Genealogy.zeroCov_topDiagonal _ (by simp [family_tree, Genealogy.ZeroCov]))
    (by simp [param, unit_params]) (by simp [param, unit_params])
    (by simp [param, unit_params]) (by simp [param, unit_params])
    (by simp [param, unit_params]) (by simp [param, unit_params])

end TreeInvariant

/-! ## The Joseph form of the Kalman update -/

section JosephForm

variable {K : Type} [Field K]

theorem obs_matrix_mul (cov : Matrix (Fin 4) (Fin 4) K) :
    (obs_matrix K) * cov = block24 cov := by
  ext i j
  fin_cases i <;> simp [obs_matrix, Matrix.mul_apply, Fin.sum_univ_four, block24_zero,
    block24_one]

theorem block24_mul_obs_matrix (cov : Matrix (Fin 4) (Fin 4) K) :
    block24 cov * (obs_matrix K).transpose = block22 cov := by
  ext i j
  simp only [Matrix.mul_apply, Fin.sum_univ_four, Matrix.transpose_apply]
  fin_cases i <;> fin_cases j <;> simp [obs_matrix, block24_zero, block24_one, block22]

theorem mul_obs_matrix_transpose (cov : Matrix (Fin 4) (Fin 4) K) (h : cov.IsSymm) :
    cov * (obs_matrix K).transpose = (block24 cov).transpose := by
  rw [← obs_matrix_mul, Matrix.transpose_mul, h.eq]

/-- The algebra of the Joseph form: for a symmetric Σ, K = H·Σ, a symmetric
two-sided inverse T of S = K·Hᵀ + R. -/
theorem joseph_identity (cov : Matrix (Fin 4) (Fin 4) K) (H G : Matrix (Fin 2) (Fin 4) K)
    (R S T : Matrix (Fin 2) (Fin 2) K) (hG : H * cov = G)
    (hGt : cov * H.transpose = G.transpose) (hS : G * H.transpose + R = S)
    (hT : T.transpose = T) (hST : S * T = 1) :
    (1 - G.transpose * T * H) * cov * (1 - G.transpose * T * H).transpose
        + G.transpose * T * R * (G.transpose * T).transpose
      = cov - G.transpose * T * G := by
  have e1 : (1 - G.transpose * T * H) * cov = cov - G.transpose * T * G := by
    rw [Matrix.sub_mul, Matrix.one_mul, Matrix.mul_assoc _ H cov, hG]
  have e2 : (G.transpose * T).transpose = T * G := by
    rw [Matrix.transpose_mul, Matrix.transpose_transpose, hT]
  have e3 : (1 - G.transpose * T * H).transpose = 1 - H.transpose * (T * G) := by
    rw [Matrix.transpose_sub, Matrix.transpose_one, Matrix.transpose_mul, e2]
  have e4 : G.transpose * T * (G * H.transpose) * (T * G)
      + G.transpose * T * R * (T * G) = G.transpose * T * G := by
    rw [← Matrix.add_mul, ← Matrix.mul_add, hS, Matrix.mul_assoc _ S, ← Matrix.mul_assoc S,
      hST, Matrix.one_mul]
  have e5 : (cov - G.transpose * T * G) * (1 - H.transpose * (T * G))
      = cov - G.transpose * T * G - G.transpose * T * G
        + G.transpose * T * (G * H.transpose) * (T * G) := by
    rw [Matrix.mul_sub, Matrix.mul_one, Matrix.sub_mul, ← Matrix.mul_assoc cov, hGt]
    simp only [Matrix.mul_assoc]
    abel
  rw [e1, e2, e3, e5, add_assoc, e4]
  abel

theorem obs_cov_mul_inverse (cov : Matrix (Fin 4) (Fin 4) K) (var_x var_g : K)
    (hS : (obs_cov cov var_x var_g).det ≠ 0) :
    obs_cov cov var_x var_g * inverse (obs_cov cov var_x var_g) = 1 := by
  rw [inverse_eq_inv]
  exact Matrix.mul_nonsing_inv _ (isUnit_iff_ne_zero.2 hS)

theorem joseph_update_gain (cov : Matrix (Fin 4) (Fin 4) K) (var_x var_g : K)
    (hsymm : cov.IsSymm) :
    cov * (obs_matrix K).transpose
        * inverse (obs_matrix K * cov * (obs_matrix K).transpose + !![var_x, 0; 0, var_g])
      = (block24 cov).transpose * inverse (obs_cov cov var_x var_g) := by
  rw [mul_obs_matrix_transpose cov hsymm, obs_matrix_mul, block24_mul_obs_matrix, obs_cov]

/-- C21: for every symmetric covariance Σ and all σ²_x, σ²_g with
S = Σ[0:2,0:2] + R invertible (R = diag(σ²_x, σ²_g)), the state written by
`posterior` is the Joseph-form Kalman update for the observation matrix
H = [I₂ 0]: with the gain G = Σ·Hᵀ·S⁻¹ the new mean is μ + G·y, and the new
covariance Σ − Σ[0:2,:]ᵀ·S⁻¹·Σ[0:2,:] equals (I − G·H)·Σ·(I − G·H)ᵀ + G·R·Gᵀ. -/
theorem posterior_eq_joseph_update (y : Matrix (Fin 2) (Fin 1) K) (cell : MOMAdata K)
    (var_x var_g : K) (hsymm : cell.cov.IsSymm)
    (hS : (obs_cov cell.cov var_x var_g).det ≠ 0) :
    posterior y cell var_x var_g = joseph_update y cell var_x var_g ∧
    (posterior y cell var_x var_g).mean
      = cell.mean + cell.cov * (obs_matrix K).transpose * (obs_cov cell.cov var_x var_g)⁻¹ * y ∧
    (posterior y cell var_x var_g).cov
      = cell.cov - (block24 cell.cov).transpose * (obs_cov cell.cov var_x var_g)⁻¹
          * block24 cell.cov ∧
    cell.cov - (block24 cell.cov).transpose * (obs_cov cell.cov var_x var_g)⁻¹
          * block24 cell.cov
      = (1 - cell.cov * (obs_matrix K).transpose * (obs_cov cell.cov var_x var_g)⁻¹ * (obs_matrix K))
          * cell.cov
          * (1 - cell.cov * (obs_matrix K).transpose * (obs_cov cell.cov var_x var_g)⁻¹
              * (obs_matrix K)).transpose
        + cell.cov * (obs_matrix K).transpose * (obs_cov cell.cov var_x var_g)⁻¹
          * !![var_x, 0; 0, var_g]
          * (cell.cov * (obs_matrix K).transpose * (obs_cov cell.cov var_x var_g)⁻¹).transpose := by
  have hT := (inverse_isSymm _ (obs_cov_isSymm cell.cov var_x var_g hsymm)).eq
  have hJ := joseph_identity cell.cov (obs_matrix K) (block24 cell.cov) !![var_x, 0; 0, var_g]
    (obs_cov cell.cov var_x var_g) (inverse (obs_cov cell.cov var_x var_g))
    (obs_matrix_mul cell.cov) (mul_obs_matrix_transpose cell.cov hsymm)
    (by rw [block24_mul_obs_matrix, obs_cov]) hT
    (obs_cov_mul_inverse cell.cov var_x var_g hS)
  have hG := joseph_update_gain cell.cov var_x var_g hsymm
  refine ⟨?_, ?_, ?_, ?_⟩
  · simp only [posterior, joseph_update, hG]
    rw [hJ]
    rfl
  · rw [mul_obs_matrix_transpose cell.cov hsymm, ← inverse_eq_inv]
    rfl
  · rw [← inverse_eq_inv]
    rfl
  · rw [mul_obs_matrix_transpose cell.cov hsymm, ← inverse_eq_inv]
    exact hJ.symm

/-- C21 at a cell with the identity covariance, for σ²_x = σ²_g = 1 and the
innovation (2, 0). -/
theorem posterior_eq_joseph_update_witness :
    posterior !![2; 0] (bare_cell 0 1 : MOMAdata ℝ) 1 1
      = joseph_update !![2; 0] (bare_cell 0 1) 1 1 ∧
    (posterior !![2; 0] (bare_cell 0 1 : MOMAdata ℝ) 1 1).mean
      = (bare_cell 0 1 : MOMAdata ℝ).mean + (bare_cell 0 1 : MOMAdata ℝ).cov
          * (obs_matrix ℝ).transpose * (obs_cov (bare_cell 0 1 : MOMAdata ℝ).cov 1 1)⁻¹
          * (!![2; 0] : Matrix (Fin 2) (Fin 1) ℝ) ∧
    (posterior !![2; 0] (bare_cell 0 1 : MOMAdata ℝ) 1 1).cov
      = (bare_cell 0 1 : MOMAdata ℝ).cov - (block24 (bare_cell 0 1 : MOMAdata ℝ).cov).transpose
          * (obs_cov (bare_cell 0 1 : MOMAdata ℝ).cov 1 1)⁻¹
          * block24 (bare_cell 0 1 : MOMAdata ℝ).cov ∧
    (bare_cell 0 1 : MOMAdata ℝ).cov - (block24 (bare_cell 0 1 : MOMAdata ℝ).cov).transpose
          * (obs_cov (bare_cell 0 1 : MOMAdata ℝ).cov 1 1)⁻¹
          * block24 (bare_cell 0 1 : MOMAdata ℝ).cov
      = (1 - (bare_cell 0 1 : MOMAdata ℝ).cov * (obs_matrix ℝ).transpose
            * (obs_cov (bare_cell 0 1 : MOMAdata ℝ).cov 1 1)⁻¹ * (obs_matrix ℝ))
          * (bare_cell 0 1 : MOMAdata ℝ).cov
          * (1 - (bare_cell 0 1 : MOMAdata ℝ).cov * (obs_matrix ℝ).transpose
              * (obs_cov (bare_cell 0 1 : MOMAdata ℝ).cov 1 1)⁻¹ * (obs_matrix ℝ)).transpose
        + (bare_cell 0 1 : MOMAdata ℝ).cov * (obs_matrix ℝ).transpose
          * (obs_cov (bare_cell 0 1 : MOMAdata ℝ).cov 1 1)⁻¹ * (!![1, 0; 0, 1] : Matrix (Fin 2) (Fin 2) ℝ)
          * ((bare_cell 0 1 : MOMAdata ℝ).cov * (obs_matrix ℝ).transpose
              * (obs_cov (bare_cell 0 1 : MOMAdata ℝ).cov 1 1)⁻¹).transpose :=
  posterior_eq_joseph_update !![2; 0] (bare_cell 0 1) 1 1 Matrix.isSymm_one
    (by rw [obs_cov_one_det]; norm_num)

end JosephForm

/-! ## An evaluation after an earlier evaluation (C9) -/

section LoneRoot

variable {F : Type} [AddCommMonoid F] [Sub F] [Mul F] [Div F] [Neg F] [One F] [NatCast F]

/-- The function `total_likelihood` on a single root cell without daughters and
with one observation, for any numbers: the cell gets the prior of lines 79-87 of
`sc_likelihood`, then one `log_likelihood` and one `posterior`. -/
theorem total_likelihood_lone_root (M : MathFns F) (params_vec grad : List F) (cell : MOMAdata F)
    (t x f p0 p2 p3 p5 p7 p8 p11 p12 : F)
    (hpar : cell.parent = none) (hd1 : cell.daughter1 = none) (hd2 : cell.daughter2 = none)
    (ht : cell.time = [t]) (hx : cell.length = [x]) (hf : cell.fp = [f])
    (h0 : params_vec[0]? = some p0) (h2 : params_vec[2]? = some p2)
    (h3 : params_vec[3]? = some p3) (h5 : params_vec[5]? = some p5)
    (h7 : params_vec[7]? = some p7) (h8 : params_vec[8]? = some p8)
    (h11 : params_vec[11]? = some p11) (h12 : params_vec[12]? = some p12) :
    total_likelihood M 1 params_vec grad [cell] (some 0)
      = some ([posterior !![x + 1 * -p11; f + 1 * -p12]
            { cell with
              mean := setCoeff (setCoeff (setCoeff (setCoeff cell.mean 0 0 p11) 1 0 p12) 2 0 p0)
                3 0 p3
              cov := setCoeff (setCoeff (setCoeff (setCoeff cell.cov 0 0 p7) 1 1 p8) 2 2 p2)
                3 3 p5 } p7 p8],
          0 + log_likelihood M !![x + 1 * -p11; f + 1 * -p12]
            { cell with
              mean := setCoeff (setCoeff (setCoeff (setCoeff cell.mean 0 0 p11) 1 0 p12) 2 0 p0)
                3 0 p3
              cov := setCoeff (setCoeff (setCoeff (setCoeff cell.cov 0 0 p7) 1 1 p8) 2 2 p2)
                3 3 p5 } p7 p8) := by
  obtain ⟨cid, pid, par, d1, d2, tm, ln, fp, gen, mean, cov⟩ := cell
  simp only at hpar hd1 hd2 ht hx hf
  subst hpar hd1 hd2 ht hx hf
  simp [total_likelihood, likelihood_recr, sc_likelihood, sc_likelihood_prior, MOMAdata.is_root,
    h0, h2, h3, h5, h7, h8, h11, h12, sc_likelihood_xg, sc_likelihood_loop, sc_likelihood_step,
    col, rowwise_add, List.range_succ, setCoeff]

end LoneRoot

section EarlierEvaluation

variable {K : Type} [Field K]

/-- A property of every update follows from another one that implies it. -/
theorem Genealogy.everyUpdate_imp (M : MathFns K) (params_vec : List K)
    {P Q : MOMAdata K → Prop} (h : ∀ s, P s → Q s) :
    ∀ (g : Genealogy K) (par : Option (MOMAdata K)),
      g.EveryUpdate M params_vec P par → g.EveryUpdate M params_vec Q par
  | .null, _, _ => trivial
  | .node _ _ d1 d2, _, hg =>
    ⟨fun t ht => h _ (hg.1 t ht), Genealogy.everyUpdate_imp M params_vec h d1 _ hg.2.1,
      Genealogy.everyUpdate_imp M params_vec h d2 _ hg.2.2⟩

end EarlierEvaluation

section NanState

variable {K : Type} [Field K] [DecidableEq K]

omit [DecidableEq K] in
theorem Checked.zero_eq : (0 : Checked K) = .fin 0 := rfl

omit [DecidableEq K] in
theorem Checked.ofNat_eq (n : ℕ) [n.AtLeastTwo] :
    (OfNat.ofNat n : Checked K) = .fin (OfNat.ofNat n) := rfl

omit [DecidableEq K] in
theorem Checked.nan_add (a : Checked K) : Checked.nan + a = .nan := by
  cases a <;> rfl

omit [DecidableEq K] in
theorem Checked.nan_sub (a : Checked K) : Checked.nan - a = .nan := by
  cases a <;> rfl

omit [DecidableEq K] in
theorem Checked.sub_nan (a : Checked K) : a - Checked.nan = .nan := by
  cases a <;> rfl

omit [DecidableEq K] in
theorem Checked.nan_mul (a : Checked K) : Checked.nan * a = .nan := by
  cases a <;> rfl

omit [DecidableEq K] in
theorem Checked.mul_nan (a : Checked K) : a * Checked.nan = .nan := by
  cases a <;> rfl

theorem Checked.fin_div_fin (x y : K) :
    (Checked.fin x / Checked.fin y : Checked K) = if y = 0 then .nan else .fin (x / y) := rfl

omit [Field K] [DecidableEq K] in
theorem nanFns_log (M : MathFns K) (x : K) : (nanFns M).log (.fin x) = .fin (M.log x) := rfl

omit [Field K] [DecidableEq K] in
theorem nanFns_log_nan (M : MathFns K) : (nanFns M).log .nan = .nan := rfl

omit [Field K] [DecidableEq K] in
theorem nanFns_pi (M : MathFns K) : (nanFns M).pi = .fin M.pi := rfl

/-- A cell whose covariance is NaN at the entry xg has the log-likelihood NaN:
the determinant of S is NaN. -/
theorem log_likelihood_of_nan (M : MathFns K) (y : Matrix (Fin 2) (Fin 1) (Checked K))
    (cell : MOMAdata (Checked K)) (var_x var_g : Checked K) (h : cell.cov 0 1 = .nan) :
    log_likelihood (nanFns M) y cell var_x var_g = .nan := by
  have hd : determinant (block22 cell.cov + !![var_x, 0; 0, var_g]) = .nan := by
    simp [determinant, block22, h, Checked.nan_mul, Checked.sub_nan]
  simp only [log_likelihood, hd, nanFns_log_nan, Checked.mul_nan, Checked.sub_nan,
    Checked.nan_sub]

/-- With a singular S, whose inverse has no finite coefficient, `posterior` leaves
NaN at every entry of the covariance. -/
theorem posterior_cov_of_singular (y : Matrix (Fin 2) (Fin 1) (Checked K))
    (cell : MOMAdata (Checked K)) (var_x var_g : Checked K)
    (h : determinant (block22 cell.cov + !![var_x, 0; 0, var_g]) = .fin 0) (a b : Fin 4) :
    (posterior y cell var_x var_g).cov a b = .nan := by
  simp [posterior, inverse, h, Checked.div_zero, Matrix.mul_apply, Fin.sum_univ_two,
    Checked.mul_nan, Checked.nan_mul, Checked.nan_add, Checked.sub_nan]

end NanState

/-! ## What the likelihood does not read (C29) -/

section Independence

variable {K : Type} [Field K]

/-- With a covariance that is zero off the diagonal, an update leaves the λ and q
entries of the mean and of the covariance as they are. -/
theorem posterior_keeps_lambda_q (y : Matrix (Fin 2) (Fin 1) K) (c : MOMAdata K) (vx vg : K)
    (h : ∀ a b : Fin 4, a ≠ b → c.cov a b = 0) :
    (posterior y c vx vg).mean 2 0 = c.mean 2 0 ∧ (posterior y c vx vg).mean 3 0 = c.mean 3 0 ∧
    (posterior y c vx vg).cov 2 2 = c.cov 2 2 ∧ (posterior y c vx vg).cov 3 3 = c.cov 3 3 := by
  have h20 := h 2 0 (by decide)
  have h21 := h 2 1 (by decide)
  have h30 := h 3 0 (by decide)
  have h31 := h 3 1 (by decide)
  have h02 := h 0 2 (by decide)
  have h12 := h 1 2 (by decide)
  have h03 := h 0 3 (by decide)
  have h13 := h 1 3 (by decide)
  simp [posterior, Matrix.mul_apply, Fin.sum_univ_two, block24_zero, block24_one, h20, h21,
    h30, h31, h02, h12, h03, h13]

theorem posterior_sameXG (y : Matrix (Fin 2) (Fin 1) K) {c c1 : MOMAdata K} (vx vg : K)
    (h : SameXG c c1) : SameXG (posterior y c vx vg) (posterior y c1 vx vg) := by
  obtain ⟨m0, m1, e0, e1, z, z1⟩ := h
  refine ⟨?_, ?_, ?_, ?_, posterior_off_diag y c vx vg z, posterior_off_diag y c1 vx vg z1⟩ <;>
    simp [posterior, inverse_eq_adjugate, Matrix.mul_apply, Fin.sum_univ_two, Matrix.adjugate_fin_two,
      Matrix.det_fin_two, block24_zero, block24_one, block22_apply, m0, m1, e0, e1,
      z 0 1 (by decide), z 1 0 (by decide), z1 0 1 (by decide), z1 1 0 (by decide)]

theorem log_likelihood_sameXG (M : MathFns K) (y : Matrix (Fin 2) (Fin 1) K)
    {c c1 : MOMAdata K} (vx vg : K) (h : SameXG c c1) :
    log_likelihood M y c vx vg = log_likelihood M y c1 vx vg := by
  obtain ⟨-, -, e0, e1, z, z1⟩ := h
  have hb : block22 c.cov = block22 c1.cov := by
    ext a b
    fin_cases a <;> fin_cases b <;>
      simp [block22, e0, e1, z 0 1 (by decide), z 1 0 (by decide), z1 0 1 (by decide),
        z1 1 0 (by decide)]
  simp [log_likelihood, hb]

theorem innovation_sameXG {c c1 : MOMAdata K} (ho : SameObs c c1) (h : SameXG c c1) (t : Nat) :
    innovation c t = innovation c1 t := by
  obtain ⟨-, h2, h3⟩ := ho
  simp [innovation, h2, h3, h.1, h.2.1]

theorem state_at_sameXG (params params1 : List K) {c c1 : MOMAdata K}
    (h7 : param params 7 = param params1 7) (h8 : param params 8 = param params1 8)
    (ho : SameObs c c1) (h : SameXG c c1) :
    ∀ n, SameXG (state_at params c n) (state_at params1 c1 n)
  | 0 => h
  | n + 1 => by
    simp only [state_at, innovation_sameXG ho h n, h7, h8]
    exact posterior_sameXG _ _ _ (state_at_sameXG params params1 h7 h8 ho h n)

theorem contribution_sameXG (M : MathFns K) (params params1 : List K) {c c1 : MOMAdata K}
    (h7 : param params 7 = param params1 7) (h8 : param params 8 = param params1 8)
    (ho : SameObs c c1) (h : SameXG c c1) :
    contribution M params c = contribution M params1 c1 := by
  rw [contribution, contribution, ho.1, partial_contribution, partial_contribution]
  refine Finset.sum_congr rfl fun t _ => ?_
  rw [innovation_sameXG ho h t, h7, h8]
  exact log_likelihood_sameXG M _ _ _ (state_at_sameXG params params1 h7 h8 ho h t)

theorem prior_daughter_sameXG (M : MathFns K) (var_dx var_dg : K) {q q1 : MOMAdata K}
    (c c1 : MOMAdata K) (h : SameXG q q1) :
    SameXG (prior_daughter M var_dx var_dg q c) (prior_daughter M var_dx var_dg q1 c1) := by
  obtain ⟨m0, m1, e0, e1, z, z1⟩ := h
  refine ⟨?_, ?_, ?_, ?_, fun a b hab => ?_, fun a b hab => ?_⟩
  · simp [prior_daughter_mean, m0]
  · simp [prior_daughter_mean, m1]
  · simp [prior_daughter_cov, e0]
  · simp [prior_daughter_cov, e1]
  · rw [prior_daughter_cov, z a b hab, Matrix.diagonal_apply_ne _ hab]
    simp
  · rw [prior_daughter_cov, z1 a b hab, Matrix.diagonal_apply_ne _ hab]
    simp

theorem prior_root_sameXG (params params1 : List K) (c c1 : MOMAdata K)
    (h7 : param params 7 = param params1 7) (h8 : param params 8 = param params1 8)
    (h11 : param params 11 = param params1 11) (h12 : param params 12 = param params1 12)
    (z : ∀ a b : Fin 4, a ≠ b → c.cov a b = 0) (z1 : ∀ a b : Fin 4, a ≠ b → c1.cov a b = 0) :
    SameXG (prior_root params c) (prior_root params1 c1) := by
  refine ⟨?_, ?_, ?_, ?_, fun a b hab => ?_, fun a b hab => ?_⟩
  · simp [prior_root_mean, h11]
  · simp [prior_root_mean, h12]
  · rw [(prior_root_cov_diag params c).1, (prior_root_cov_diag params1 c1).1, h7]
  · rw [(prior_root_cov_diag params c).2.1, (prior_root_cov_diag params1 c1).2.1, h8]
  · rw [prior_root_cov_off_diag _ _ a b hab, z a b hab]
  · rw [prior_root_cov_off_diag _ _ a b hab, z1 a b hab]

theorem sameObs_cell_prior (M : MathFns K) (params params1 : List K)
    (par par1 : Option (MOMAdata K)) {c c1 : MOMAdata K} (h : SameObs c c1) :
    SameObs (cell_prior M params par c) (cell_prior M params1 par1 c1) := by
  obtain ⟨t, l, f, -⟩ := cell_prior_fields M params par c
  obtain ⟨t1, l1, f1, -⟩ := cell_prior_fields M params1 par1 c1
  exact ⟨by rw [t, t1]; exact h.1, by rw [l, l1]; exact h.2.1, by rw [f, f1]; exact h.2.2⟩

theorem final_state_sameXG (params params1 : List K) {c c1 : MOMAdata K}
    (h7 : param params 7 = param params1 7) (h8 : param params 8 = param params1 8)
    (ho : SameObs c c1) (h : SameXG c c1) :
    SameXG (final_state params c) (final_state params1 c1) := by
  rw [final_state, final_state, ho.1]
  exact state_at_sameXG params params1 h7 h8 ho h _

/-- Below a cell, the sum depends on the x and g entries of the state of that
cell, on the observations in the genealogy and on θ[7..10] only, as long as the
covariance is zero off the diagonal. -/
theorem genealogy_sum_sameXG_some (M : MathFns K) (params params1 : List K)
    (h7 : param params 7 = param params1 7) (h8 : param params 8 = param params1 8)
    (h9 : param params 9 = param params1 9) (h10 : param params 10 = param params1 10) :
    ∀ (g g1 : Genealogy K) (q q1 : MOMAdata K), g.SameObs g1 → SameXG q q1 →
      genealogy_sum M params (some q) g = genealogy_sum M params1 (some q1) g1
  | .null, .null, _, _, _, _ => rfl
  | .null, .node _ _ _ _, _, _, h, _ => h.elim
  | .node _ _ _ _, .null, _, _, h, _ => h.elim
  | .node _ c d1 d2, .node _ c1 e1 e2, q, q1, h, hq => by
    obtain ⟨h1, h2, h3⟩ := h
    have ho := sameObs_cell_prior M params params1 (some q) (some q1) h1
    have hx : SameXG (cell_prior M params (some q) c) (cell_prior M params1 (some q1) c1) := by
      show SameXG (prior_daughter M _ _ q c) (prior_daughter M _ _ q1 c1)
      rw [h9, h10]
      exact prior_daughter_sameXG M _ _ c c1 hq
    have hf := final_state_sameXG params params1 h7 h8 ho hx
    simp only [genealogy_sum]
    rw [contribution_sameXG M params params1 h7 h8 ho hx,
      genealogy_sum_sameXG_some M params params1 h7 h8 h9 h10 d1 e1 _ _ h2 hf,
      genealogy_sum_sameXG_some M params params1 h7 h8 h9 h10 d2 e2 _ _ h3 hf]

/-- From a root whose covariance is zero off the diagonal, the sum depends on
the observations in the genealogy and on θ[7..12] only. -/
theorem genealogy_sum_sameXG_root (M : MathFns K) (params params1 : List K)
    (h : ∀ k, 7 ≤ k → k ≤ 12 → param params k = param params1 k) :
    ∀ g g1 : Genealogy K, g.SameObs g1 → g.TopDiagonal → g1.TopDiagonal →
      genealogy_sum M params none g = genealogy_sum M params1 none g1
  | .null, .null, _, _, _ => rfl
  | .null, .node _ _ _ _, h, _, _ => h.elim
  | .node _ _ _ _, .null, h, _, _ => h.elim
  | .node _ c d1 d2, .node _ c1 e1 e2, hs, ht, ht1 => by
    obtain ⟨h1, h2, h3⟩ := hs
    have h7 := h 7 (by omega) (by omega)
    have h8 := h 8 (by omega) (by omega)
    have h9 := h 9 (by omega) (by omega)
    have h10 := h 10 (by omega) (by omega)
    have ho := sameObs_cell_prior M params params1 none none h1
    have hx : SameXG (cell_prior M params none c) (cell_prior M params1 none c1) :=
      prior_root_sameXG params params1 c c1 h7 h8 (h 11 (by omega) (by omega))
        (h 12 (by omega) (by omega)) ht ht1
    have hf := final_state_sameXG params params1 h7 h8 ho hx
    simp only [genealogy_sum]
    rw [contribution_sameXG M params params1 h7 h8 ho hx,
      genealogy_sum_sameXG_some M params params1 h7 h8 h9 h10 d1 e1 _ _ h2 hf,
      genealogy_sum_sameXG_some M params params1 h7 h8 h9 h10 d2 e2 _ _ h3 hf]

omit [Field K] in
theorem Genealogy.sameObs_depth : ∀ g g1 : Genealogy K, g.SameObs g1 → g.depth = g1.depth
  | .null, .null, _ => rfl
  | .null, .node _ _ _ _, h => h.elim
  | .node _ _ _ _, .null, h => h.elim
  | .node _ _ d1 d2, .node _ _ e1 e2, h => by
    simp only [Genealogy.depth, Genealogy.sameObs_depth d1 e1 h.2.1,
      Genealogy.sameObs_depth d2 e2 h.2.2]

/-- The covariance stays zero off the diagonal at every update of the pass. -/
theorem Genealogy.everyUpdate_off_diag (M : MathFns K) (params : List K) :
    ∀ (g : Genealogy K) (par : Option (MOMAdata K)),
      (par = none → g.TopDiagonal) →
      (∀ q, par = some q → ∀ a b : Fin 4, a ≠ b → q.cov a b = 0) →
      g.EveryUpdate M params (fun s => ∀ a b : Fin 4, a ≠ b → s.cov a b = 0) par
  | .null, _, _, _ => trivial
  | .node i c d1 d2, par, hn, hs => by
    have h0 : ∀ a b : Fin 4, a ≠ b → (cell_prior M params par c).cov a b = 0 := by
      intro a b hab
      cases par with
      | none =>
        show (prior_root params c).cov a b = 0
        rw [prior_root_cov_off_diag _ _ a b hab]
        exact hn rfl a b hab
      | some q =>
        show (prior_daughter M _ _ q c).cov a b = 0
        rw [prior_daughter_cov, hs q rfl a b hab, Matrix.diagonal_apply_ne _ hab]
        simp
    have hall := state_at_off_diag params _ h0
    refine ⟨fun t _ => hall t, ?_, ?_⟩
    · exact Genealogy.everyUpdate_off_diag M params d1 _ (fun h => by cases h)
        (fun q hq => by cases hq; exact hall _)
    · exact Genealogy.everyUpdate_off_diag M params d2 _ (fun h => by cases h)
        (fun q hq => by cases hq; exact hall _)

/-- C29: for every genealogy tree whose root covariance is zero off the diagonal
before the call, `total_likelihood` does not depend on θ[0..6] nor on the
observation times: two parameter vectors that agree on θ[7..12], on two vectors
of cells that hold the same tree with the same length and fp observations and
time vectors of the same lengths, give the same value. At every update the
covariance is zero off the diagonal, and an update on such a covariance leaves
the λ and q entries of the mean and of the covariance unchanged. -/
theorem total_likelihood_ignores_dynamics (M : MathFns K) (params params1 grad grad1 : List K)
    (cells cells1 : List (MOMAdata K)) (c : Option Nat) (g g1 : Genealogy K) (fuel : Nat)
    (hp : 13 ≤ params.length) (hp1 : 13 ≤ params1.length)
    (hagree : ∀ k, 7 ≤ k → k ≤ 12 → param params k = param params1 k)
    (hg : g.RootedAt cells c) (hg1 : g1.RootedAt cells1 c) (hobs : g.SameObs g1)
    (hd : g.TopDiagonal) (hd1 : g1.TopDiagonal) (hfuel : g.depth ≤ fuel) :
    (∃ v, (total_likelihood M fuel params grad cells c).map Prod.snd = some v ∧
      (total_likelihood M fuel params1 grad1 cells1 c).map Prod.snd = some v) ∧
    g.EveryUpdate M params (fun s => ∀ a b : Fin 4, a ≠ b → s.cov a b = 0) none ∧
    ∀ (y : Matrix (Fin 2) (Fin 1) K) (s : MOMAdata K) (vx vg : K),
      (∀ a b : Fin 4, a ≠ b → s.cov a b = 0) →
      (posterior y s vx vg).mean 2 0 = s.mean 2 0 ∧
      (posterior y s vx vg).mean 3 0 = s.mean 3 0 ∧
      (posterior y s vx vg).cov 2 2 = s.cov 2 2 ∧
      (posterior y s vx vg).cov 3 3 = s.cov 3 3 := by
  obtain ⟨a1, a2, a3⟩ := hg
  obtain ⟨b1, b2, b3⟩ := hg1
  have hA : ∀ (t : Genealogy K) (l : List (MOMAdata K)), t.Above l none none :=
    fun t l => ⟨rfl, rfl, fun p hp => by cases hp⟩
  refine ⟨⟨genealogy_sum M params none g, ?_, ?_⟩,
    Genealogy.everyUpdate_off_diag M params g none (fun _ => hd) (fun q hq => by cases hq),
    fun y s vx vg hs => posterior_keeps_lambda_q y s vx vg hs⟩
  · rw [total_likelihood, ← a1,
      likelihood_recr_genealogy M params hp g cells none none 0 fuel a2 a3 (hA _ _) hfuel]
    simp
  · rw [total_likelihood, ← b1,
      likelihood_recr_genealogy M params1 hp1 g1 cells1 none none 0 fuel b2 b3 (hA _ _)
        (by rw [← Genealogy.sameObs_depth g g1 hobs]; exact hfuel)]
    simp [genealogy_sum_sameXG_root M params params1 hagree g g1 hobs hd hd1]

/-- C29 for a root observed twice, under `unit_params` with observation times
0, 1 and under another θ with the same θ[7..12] with observation times 5, 7. -/
theorem total_likelihood_ignores_dynamics_witness :
    (∃ v, (total_likelihood realFns 1 unit_params [] [(lone_root [0, 1] [1, 2] [1, 1] 0 : MOMAdata ℝ)] (some 0)).map Prod.snd = some v ∧
      (total_likelihood realFns 1 [2, 3, 4, 5, 6, 7, 8, 1, 1, 0, 0, 0, 0] []
        [(lone_root [5, 7] [1, 2] [1, 1] 0 : MOMAdata ℝ)] (some 0)).map Prod.snd = some v) ∧
    (Genealogy.node 0 (lone_root [0, 1] [1, 2] [1, 1] 0 : MOMAdata ℝ) .null .null).EveryUpdate realFns unit_params
      (fun s => ∀ a b : Fin 4, a ≠ b → s.cov a b = 0) none ∧
    ∀ (y : Matrix (Fin 2) (Fin 1) ℝ) (s : MOMAdata ℝ) (vx vg : ℝ),
      (∀ a b : Fin 4, a ≠ b → s.cov a b = 0) →
      (posterior y s vx vg).mean 2 0 = s.mean 2 0 ∧
      (posterior y s vx vg).mean 3 0 = s.mean 3 0 ∧
      (posterior y s vx vg).cov 2 2 = s.cov 2 2 ∧
      (posterior y s vx vg).cov 3 3 = s.cov 3 3 :=
  total_likelihood_ignores_dynamics realFns unit_params [2, 3, 4, 5, 6, 7, 8, 1, 1, 0, 0, 0, 0] [] []
    [(lone_root [0, 1] [1, 2] [1, 1] 0 : MOMAdata ℝ)] [(lone_root [5, 7] [1, 2] [1, 1] 0 : MOMAdata ℝ)] (some 0) (.node 0 (lone_root [0, 1] [1, 2] [1, 1] 0 : MOMAdata ℝ) .null .null) (.node 0 (lone_root [5, 7] [1, 2] [1, 1] 0 : MOMAdata ℝ) .null .null) 1
    unit_params_length (by simp)
    (fun k h7 h12 => by
      interval_cases k <;> simp [param, unit_params])
    ⟨rfl, by simp [Genealogy.Linked, Genealogy.ptr, lone_root, obs_ok],
      by simp [Genealogy.addrs]⟩
    ⟨rfl, by simp [Genealogy.Linked, Genealogy.ptr, lone_root, obs_ok],
      by simp [Genealogy.addrs]⟩
    ⟨⟨rfl, rfl, rfl⟩, trivial, trivial⟩
    (fun a b _ => rfl) (fun a b _ => rfl) (by simp [Genealogy.depth])

end Independence

/-! ## The genealogy built from the cell ids (C22, C23, C30) -/

section BuildGenealogy

variable {K : Type}

theorem nat_list_concat_getElem? (l : List Nat) (k : Nat) :
    (l ++ [k])[0]? = (if l[0]? = none then some k else l[0]?) ∧
    (l ++ [k])[1]? = (if l[0]? = none then l[1]? else if l[1]? = none then some k else l[1]?) := by
  rcases l with _ | ⟨a, _ | ⟨b, t⟩⟩ <;> simp

theorem names_parent_lt {cells : List (MOMAdata K)} {k j : Nat}
    (h : names_parent cells k j = true) : k < cells.length ∧ j < cells.length := by
  unfold names_parent at h
  constructor
  · by_contra hk
    have e : cells[k]? = none := List.getElem?_eq_none (by omega)
    rw [e] at h
    cases hj : cells[j]? <;> simp [hj] at h
  · by_contra hj
    have e : cells[j]? = none := List.getElem?_eq_none (by omega)
    rw [e] at h
    simp at h

theorem names_parent_eq {cells : List (MOMAdata K)} {k j : Nat} {cj ck : MOMAdata K}
    (hj : cells[j]? = some cj) (hk : cells[k]? = some ck) :
    names_parent cells k j = decide (cj.cell_id = ck.parent_id) := by
  simp [names_parent, hj, hk]

theorem children_upto_succ (cells : List (MOMAdata K)) (k j : Nat) :
    children_upto cells (k + 1) j
      = children_upto cells k j ++ (if names_parent cells k j then [k] else []) := by
  simp only [children_upto, List.range_succ, List.filter_append, List.filter_cons,
    List.filter_nil]

theorem parents_upto_succ (cells : List (MOMAdata K)) (m k : Nat) :
    parents_upto cells (m + 1) k
      = parents_upto cells m k ++ (if names_parent cells k m then [m] else []) := by
  simp only [parents_upto, List.range_succ, List.filter_append, List.filter_cons,
    List.filter_nil]

theorem linked_cell_no_match (cells0 : List (MOMAdata K)) (k m i : Nat) (c0 : MOMAdata K)
    (h : names_parent cells0 k m = false) :
    linked_cell cells0 k (m + 1) i c0 = linked_cell cells0 k m i c0 := by
  have hc : children_upto cells0 (if i < m + 1 then k + 1 else k) i
      = children_upto cells0 (if i < m then k + 1 else k) i := by
    by_cases him : i = m
    · subst him
      simp [children_upto_succ, h]
    · have : i < m + 1 ↔ i < m := by omega
      simp only [this]
  have hp : (if i = k then (parents_upto cells0 (m + 1) i).getLast? else none)
      = (if i = k then (parents_upto cells0 m i).getLast? else none) := by
    by_cases hik : i = k
    · subst hik
      simp [parents_upto_succ, h]
    · simp [hik]
  simp only [linked_cell, hc, hp]

theorem linked_cell_other (cells0 : List (MOMAdata K)) (k m i : Nat) (c0 : MOMAdata K)
    (hk : i ≠ k) (hm : i ≠ m) :
    linked_cell cells0 k (m + 1) i c0 = linked_cell cells0 k m i c0 := by
  have : i < m + 1 ↔ i < m := by omega
  simp only [linked_cell, this, hk, if_false]

theorem linked_cell_parent (cells0 : List (MOMAdata K)) (k m : Nat) (c0 : MOMAdata K)
    (h : names_parent cells0 k m = true) (hkm : k ≠ m) :
    linked_cell cells0 k (m + 1) k c0
      = { linked_cell cells0 k m k c0 with parent := some m } := by
  have : k < m + 1 ↔ k < m := by omega
  simp [linked_cell, this, parents_upto_succ, h]

theorem linked_cell_daughter (cells0 : List (MOMAdata K)) (k m : Nat) (c0 : MOMAdata K)
    (h : names_parent cells0 k m = true) (hkm : k ≠ m) :
    linked_cell cells0 k (m + 1) m c0 = add_daughter k (linked_cell cells0 k m m c0) := by
  obtain ⟨e0, e1⟩ := nat_list_concat_getElem? (children_upto cells0 k m) k
  have hmk : ¬ m = k := fun e => hkm e.symm
  simp only [linked_cell, add_daughter, Nat.lt_succ_self, lt_irrefl, if_true, if_false,
    children_upto_succ, h, e0, e1, hmk]
  by_cases h0 : (children_upto cells0 k m)[0]? = none
  · simp [h0]
  · by_cases h1 : (children_upto cells0 k m)[1]? = none
    · simp [h0, h1]
    · simp [h0, h1]

theorem linked_cell_self (cells0 : List (MOMAdata K)) (k : Nat) (c0 : MOMAdata K)
    (h : names_parent cells0 k k = true) :
    linked_cell cells0 k (k + 1) k c0
      = add_daughter k { linked_cell cells0 k k k c0 with parent := some k } := by
  obtain ⟨e0, e1⟩ := nat_list_concat_getElem? (children_upto cells0 k k) k
  simp only [linked_cell, add_daughter, Nat.lt_succ_self, lt_irrefl, if_true, if_false,
    children_upto_succ, parents_upto_succ, h, e0, e1, List.getLast?_concat]
  by_cases h0 : (children_upto cells0 k k)[0]? = none
  · simp [h0]
  · by_cases h1 : (children_upto cells0 k k)[1]? = none
    · simp [h0, h1]
    · simp [h0, h1]

theorem linked_cells_getElem? (cells0 : List (MOMAdata K)) (k m i : Nat) :
    (linked_cells cells0 k m)[i]? = (cells0[i]?).map (linked_cell cells0 k m i) := by
  simp [linked_cells]

theorem linked_cells_length (cells0 : List (MOMAdata K)) (k m : Nat) :
    (linked_cells cells0 k m).length = cells0.length := by
  simp [linked_cells]

theorem daughter_write (cells1 : List (MOMAdata K)) (j k : Nat) (c : MOMAdata K)
    (h : cells1[j]? = some c) :
    (if c.daughter1 = none then
        (pure (cells1.set j { c with daughter1 := some k }) : Option (List (MOMAdata K)))
      else if c.daughter2 = none then pure (cells1.set j { c with daughter2 := some k })
      else pure cells1)
      = some (cells1.set j (add_daughter k c)) := by
  unfold add_daughter
  split_ifs
  · rfl
  · rfl
  · congr 1
    apply List.ext_getElem?
    intro i
    by_cases hij : j = i
    · subst hij
      rw [h, List.getElem?_set]
      have hj : j < cells1.length := by
        by_contra hlt
        rw [List.getElem?_eq_none (by omega)] at h
        cases h
      simp [hj]
    · rw [List.getElem?_set_ne hij]

/-- One pass of the inner loop of `build_cell_genealogy`. -/
theorem build_cell_genealogy_step_eq (cells0 : List (MOMAdata K)) (k m : Nat)
    (hk : k < cells0.length) (hm : m < cells0.length) :
    build_cell_genealogy_step k (linked_cells cells0 k m) m
      = some (linked_cells cells0 k (m + 1)) := by
  have hk0 : cells0[k]? = some cells0[k] := List.getElem?_eq_getElem hk
  have hm0 : cells0[m]? = some cells0[m] := List.getElem?_eq_getElem hm
  have hkc : (linked_cells cells0 k m)[k]? = some (linked_cell cells0 k m k cells0[k]) := by
    rw [linked_cells_getElem?, hk0]
    rfl
  have hmc : (linked_cells cells0 k m)[m]? = some (linked_cell cells0 k m m cells0[m]) := by
    rw [linked_cells_getElem?, hm0]
    rfl
  have hn := names_parent_eq hm0 hk0
  by_cases hmatch : cells0[m].cell_id = cells0[k].parent_id
  · have hnp : names_parent cells0 k m = true := by simpa [hmatch] using hn
    have hid : (linked_cell cells0 k m m cells0[m]).cell_id
        = (linked_cell cells0 k m k cells0[k]).parent_id := hmatch
    simp only [build_cell_genealogy_step, hkc, hmc, Option.bind_eq_bind, Option.some_bind,
      hid, if_true]
    have hklen : k < (linked_cells cells0 k m).length := by
      rw [linked_cells_length]
      exact hk
    by_cases hkm : k = m
    · subst hkm
      have h1 : ((linked_cells cells0 k k).set k
          { linked_cell cells0 k k k cells0[k] with parent := some k })[k]?
          = some { linked_cell cells0 k k k cells0[k] with parent := some k } := by
        rw [List.getElem?_set_self hklen]
      rw [h1, Option.some_bind, daughter_write _ k k _ h1]
      congr 1
      apply List.ext_getElem?
      intro i
      rw [linked_cells_getElem?]
      by_cases hik : k = i
      · subst hik
        rw [List.getElem?_set_self (by rw [List.length_set]; exact hklen), hk0]
        exact congrArg some (linked_cell_self cells0 k _ hnp).symm
      · have hik2 : i ≠ k := fun e => hik e.symm
        rw [List.getElem?_set_ne hik, List.getElem?_set_ne hik, linked_cells_getElem?]
        cases cells0[i]? with
        | none => rfl
        | some c0 => simp [linked_cell_other cells0 k k i c0 hik2 hik2]
    · have h1 : ((linked_cells cells0 k m).set k
          { linked_cell cells0 k m k cells0[k] with parent := some m })[m]?
          = some (linked_cell cells0 k m m cells0[m]) := by
        rw [List.getElem?_set_ne hkm, hmc]
      rw [h1, Option.some_bind, daughter_write _ m k _ h1]
      congr 1
      apply List.ext_getElem?
      intro i
      rw [linked_cells_getElem?]
      by_cases him : m = i
      · subst him
        rw [List.getElem?_set_self (by rw [List.length_set, linked_cells_length]; exact hm),
          hm0]
        exact congrArg some (linked_cell_daughter cells0 k m _ hnp hkm).symm
      · have him2 : i ≠ m := fun e => him e.symm
        rw [List.getElem?_set_ne him]
        by_cases hik : k = i
        · subst hik
          rw [List.getElem?_set_self hklen, hk0]
          exact congrArg some (linked_cell_parent cells0 k m _ hnp hkm).symm
        · have hik2 : i ≠ k := fun e => hik e.symm
          rw [List.getElem?_set_ne hik, linked_cells_getElem?]
          cases cells0[i]? with
          | none => rfl
          | some c0 => simp [linked_cell_other cells0 k m i c0 hik2 him2]
  · have hnp : names_parent cells0 k m = false := by simpa [hmatch] using hn
    have hid : ¬ (linked_cell cells0 k m m cells0[m]).cell_id
        = (linked_cell cells0 k m k cells0[k]).parent_id := hmatch
    simp only [build_cell_genealogy_step, hkc, hmc, Option.bind_eq_bind, Option.some_bind,
      hid, if_false]
    congr 1
    apply List.ext_getElem?
    intro i
    rw [linked_cells_getElem?, linked_cells_getElem?]
    cases cells0[i]? with
    | none => rfl
    | some c0 => simp [linked_cell_no_match cells0 k m i c0 hnp]

/-- The inner loop of `build_cell_genealogy` at `k`, run for the indices below
`m`. -/
theorem build_cell_genealogy_inner (cells0 : List (MOMAdata K)) (k : Nat)
    (hk : k < cells0.length) :
    ∀ m, m ≤ cells0.length →
      (List.range m).foldlM (build_cell_genealogy_step k) (linked_cells cells0 k 0)
        = some (linked_cells cells0 k m)
  | 0, _ => rfl
  | m + 1, hm => by
    rw [List.range_succ, List.foldlM_append,
      build_cell_genealogy_inner cells0 k hk m (by omega)]
    simp [build_cell_genealogy_step_eq cells0 k m hk (by omega)]

theorem linked_cells_next (cells0 : List (MOMAdata K)) (k : Nat) :
    linked_cells cells0 k cells0.length = linked_cells cells0 (k + 1) 0 := by
  apply List.ext_getElem?
  intro i
  rw [linked_cells_getElem?, linked_cells_getElem?]
  by_cases hi : i < cells0.length
  · rw [List.getElem?_eq_getElem hi]
    simp only [Option.map_some', Option.some.injEq, linked_cell, hi, if_true, Nat.not_lt_zero,
      if_false]
    have hp : (if i < k then (parents_upto cells0 cells0.length i).getLast?
          else if i = k then (parents_upto cells0 cells0.length i).getLast? else none)
        = (if i < k + 1 then (parents_upto cells0 cells0.length i).getLast?
          else if i = k + 1 then (parents_upto cells0 0 i).getLast? else none) := by
      by_cases h1 : i < k
      · simp [h1, Nat.lt_succ_of_lt h1]
      · by_cases h2 : i = k
        · simp [h2]
        · have h3 : ¬ i < k + 1 := by omega
          simp [h1, h2, h3, parents_upto]
    rw [hp]
  · rw [List.getElem?_eq_none (by omega)]
    rfl

/-- The outer loop of `build_cell_genealogy`, run for the indices below `k`. -/
theorem build_cell_genealogy_outer (cells0 : List (MOMAdata K)) :
    ∀ k, k ≤ cells0.length →
      (List.range k).foldlM
          (fun cs k => (List.range cells0.length).foldlM (build_cell_genealogy_step k) cs)
          (linked_cells cells0 0 0)
        = some (linked_cells cells0 k 0)
  | 0, _ => rfl
  | k + 1, hk => by
    rw [List.range_succ, List.foldlM_append, build_cell_genealogy_outer cells0 k (by omega)]
    simp [build_cell_genealogy_inner cells0 k (by omega) cells0.length (le_refl _),
      linked_cells_next]

theorem linked_cells_zero (cells0 : List (MOMAdata K)) (h : unlinked cells0) :
    linked_cells cells0 0 0 = cells0 := by
  apply List.ext_getElem?
  intro i
  rw [linked_cells_getElem?]
  by_cases hi : i < cells0.length
  · rw [List.getElem?_eq_getElem hi]
    obtain ⟨h1, h2, h3⟩ := h cells0[i] (List.getElem_mem _)
    have e : linked_cell cells0 0 0 i cells0[i] = cells0[i] := by
      cases hc : cells0[i]
      rw [hc] at h1 h2 h3
      simp at h1 h2 h3
      simp [linked_cell, children_upto, parents_upto, h1, h2, h3]
    simp [e]
  · rw [List.getElem?_eq_none (by omega)]
    rfl

/-- What `build_cell_genealogy` returns on cells without links: the parent of a
cell is the last cell it names as its parent, and the daughters of a cell are
the first two cells that name it. -/
theorem build_cell_genealogy_eq (cells0 : List (MOMAdata K)) (h : unlinked cells0) :
    build_cell_genealogy cells0 = some (linked_cells cells0 cells0.length 0) := by
  have ho := build_cell_genealogy_outer cells0 cells0.length (le_refl _)
  rw [linked_cells_zero cells0 h] at ho
  exact ho

theorem linked_cells_final (cells0 : List (MOMAdata K)) (i : Nat) (c0 : MOMAdata K)
    (hi : cells0[i]? = some c0) :
    (linked_cells cells0 cells0.length 0)[i]?
      = some { c0 with
          parent := (parents_upto cells0 cells0.length i).getLast?
          daughter1 := (children cells0 i)[0]?
          daughter2 := (children cells0 i)[1]? } := by
  have hlt : i < cells0.length := by
    by_contra hlt
    rw [List.getElem?_eq_none (by omega)] at hi
    cases hi
  rw [linked_cells_getElem?, hi]
  simp [linked_cell, hlt, children]

theorem get_roots_eq_filter (cells : List (MOMAdata K)) :
    get_roots cells = (List.range cells.length).filter fun i =>
      match cells[i]? with
      | some c => c.is_root
      | none => false := by
  have key : ∀ (l acc : List Nat),
      l.foldl (fun roots i =>
        match cells[i]? with
        | some c => if c.is_root then roots ++ [i] else roots
        | none => roots) acc
      = acc ++ l.filter fun i =>
        match cells[i]? with
        | some c => c.is_root
        | none => false := by
    intro l
    induction l with
    | nil => simp
    | cons a l ih =>
      intro acc
      rw [List.foldl_cons, ih]
      cases hc : cells[a]? with
      | none => simp [List.filter_cons, hc]
      | some c =>
        by_cases hr : c.is_root = true
        · simp [List.filter_cons, hc, hr]
        · simp [List.filter_cons, hc, hr]
  simpa using key (List.range cells.length) []

theorem mem_get_roots (cells : List (MOMAdata K)) (i : Nat) (c : MOMAdata K)
    (hc : cells[i]? = some c) : i ∈ get_roots cells ↔ c.is_root = true := by
  have hlt : i < cells.length := by
    by_contra hlt
    rw [List.getElem?_eq_none (by omega)] at hc
    cases hc
  rw [get_roots_eq_filter]
  simp [List.mem_filter, hlt, hc]

theorem parents_upto_eq_nil (cells0 : List (MOMAdata K)) (i : Nat) (c0 : MOMAdata K)
    (hi : cells0[i]? = some c0) :
    parents_upto cells0 cells0.length i = [] ↔
      ∀ (j : Nat) (cj : MOMAdata K), cells0[j]? = some cj → cj.cell_id ≠ c0.parent_id := by
  rw [parents_upto, List.filter_eq_nil_iff]
  constructor
  · intro h j cj hj
    have hlt : j < cells0.length := by
      by_contra hlt
      rw [List.getElem?_eq_none (by omega)] at hj
      cases hj
    have := h j (List.mem_range.2 hlt)
    rw [names_parent_eq hj hi] at this
    simpa using this
  · intro h j hj
    rw [List.mem_range] at hj
    rw [names_parent_eq (List.getElem?_eq_getElem hj) hi]
    simpa using h j _ (List.getElem?_eq_getElem hj)

/-- C22: after `build_cell_genealogy` on any vector of cells whose parent and
daughter pointers are all null beforehand, a cell is a root (`is_root()` is
true, and it is exactly then listed by `get_roots`) if and only if no cell of the
vector has `cell_id` equal to that cell's `parent_id`. -/
theorem root_iff_parent_id_unmatched (cells0 : List (MOMAdata K)) (h : unlinked cells0) :
    ∃ cells, build_cell_genealogy cells0 = some cells ∧ cells.length = cells0.length ∧
      ∀ (i : Nat) (c : MOMAdata K), cells[i]? = some c →
        (c.is_root = true ↔
          ∀ (j : Nat) (cj : MOMAdata K), cells[j]? = some cj → cj.cell_id ≠ c.parent_id) ∧
        (i ∈ get_roots cells ↔ c.is_root = true) := by
  refine ⟨_, build_cell_genealogy_eq cells0 h, linked_cells_length cells0 _ _,
    fun i c hc => ⟨?_, mem_get_roots _ i c hc⟩⟩
  have hlt : i < cells0.length := by
    by_contra hlt
    rw [List.getElem?_eq_none (by rw [linked_cells_length]; omega)] at hc
    cases hc
  have hi0 := List.getElem?_eq_getElem hlt
  rw [linked_cells_final cells0 i _ hi0] at hc
  cases hc
  simp only [MOMAdata.is_root]
  rw [show (parents_upto cells0 cells0.length i).getLast?.isNone = true
      ↔ parents_upto cells0 cells0.length i = [] by
    cases parents_upto cells0 cells0.length i <;> simp [List.getLast?_cons]]
  rw [parents_upto_eq_nil cells0 i _ hi0]
  constructor
  · intro hn j cj hj
    have hjlt : j < cells0.length := by
      by_contra hlt
      rw [List.getElem?_eq_none (by rw [linked_cells_length]; omega)] at hj
      cases hj
    rw [linked_cells_final cells0 j _ (List.getElem?_eq_getElem hjlt)] at hj
    cases hj
    exact hn j cells0[j] (List.getElem?_eq_getElem hjlt)
  · intro hn j cj hj
    have := hn j _ (linked_cells_final cells0 j cj hj)
    exact this

/-- C22 at the six cells of the example: they are unlinked, and after linking
the roots are as the claim says. -/
theorem root_iff_parent_id_unmatched_witness :
    unlinked (six_cells : List (MOMAdata ℚ)) ∧
    ∃ cells, build_cell_genealogy (six_cells : List (MOMAdata ℚ)) = some cells ∧
      cells.length = (six_cells : List (MOMAdata ℚ)).length ∧
      ∀ (i : Nat) (c : MOMAdata ℚ), cells[i]? = some c →
        (c.is_root = true ↔
          ∀ (j : Nat) (cj : MOMAdata ℚ), cells[j]? = some cj → cj.cell_id ≠ c.parent_id) ∧
        (i ∈ get_roots cells ↔ c.is_root = true) :=
  ⟨by simp [unlinked, six_cells, read_cell],
    root_iff_parent_id_unmatched six_cells (by simp [unlinked, six_cells, read_cell])⟩

theorem cell_id_inj {cells0 : List (MOMAdata K)} (hid : (cells0.map MOMAdata.cell_id).Nodup)
    {j p : Nat} {cj cp : MOMAdata K} (hj : cells0[j]? = some cj) (hp : cells0[p]? = some cp)
    (h : cj.cell_id = cp.cell_id) : j = p := by
  obtain ⟨hjl, ej⟩ := List.getElem?_eq_some.1 hj
  obtain ⟨hpl, ep⟩ := List.getElem?_eq_some.1 hp
  have hjm : j < (cells0.map MOMAdata.cell_id).length := by simpa using hjl
  have hpm : p < (cells0.map MOMAdata.cell_id).length := by simpa using hpl
  have e : (cells0.map MOMAdata.cell_id)[j] = (cells0.map MOMAdata.cell_id)[p] := by
    simp [ej, ep, h]
  exact (List.Nodup.getElem_inj_iff hid).1 e

theorem names_parent_unique {cells0 : List (MOMAdata K)}
    (hid : (cells0.map MOMAdata.cell_id).Nodup) {k j p : Nat}
    (hj : names_parent cells0 k j = true) (hp : names_parent cells0 k p = true) : j = p := by
  have hk := List.getElem?_eq_getElem (names_parent_lt hj).1
  have hj0 := List.getElem?_eq_getElem (names_parent_lt hj).2
  have hp0 := List.getElem?_eq_getElem (names_parent_lt hp).2
  rw [names_parent_eq hj0 hk, decide_eq_true_eq] at hj
  rw [names_parent_eq hp0 hk, decide_eq_true_eq] at hp
  exact cell_id_inj hid hj0 hp0 (hj.trans hp.symm)

theorem children_nodup (cells0 : List (MOMAdata K)) (p : Nat) : (children cells0 p).Nodup :=
  List.Nodup.filter _ (List.nodup_range _)

theorem children_getElem? {cells0 : List (MOMAdata K)} {p n k : Nat}
    (h : (children cells0 p)[n]? = some k) : names_parent cells0 k p = true := by
  have := List.getElem?_mem h
  rw [children, children_upto, List.mem_filter] at this
  exact this.2

theorem children_index {cells0 : List (MOMAdata K)} {p n m k : Nat}
    (hn : (children cells0 p)[n]? = some k) (hm : (children cells0 p)[m]? = some k) : n = m := by
  obtain ⟨hnl, en⟩ := List.getElem?_eq_some.1 hn
  obtain ⟨hml, em⟩ := List.getElem?_eq_some.1 hm
  exact (List.Nodup.getElem_inj_iff (children_nodup cells0 p)).1 (en.trans em.symm)

theorem parents_upto_getLast? {cells0 : List (MOMAdata K)}
    (hid : (cells0.map MOMAdata.cell_id).Nodup) {k j : Nat}
    (h : names_parent cells0 k j = true) :
    (parents_upto cells0 cells0.length k).getLast? = some j := by
  have hmem : j ∈ parents_upto cells0 cells0.length k := by
    rw [parents_upto, List.mem_filter, List.mem_range]
    exact ⟨(names_parent_lt h).2, h⟩
  cases hl : (parents_upto cells0 cells0.length k).getLast? with
  | none =>
    rw [List.getLast?_eq_none_iff] at hl
    rw [hl] at hmem
    cases hmem
  | some a =>
    have ha := List.mem_of_mem_getLast? (Option.mem_def.2 hl)
    rw [parents_upto, List.mem_filter] at ha
    rw [names_parent_unique hid ha.2 h]

theorem dropped_no_daughter {cells0 : List (MOMAdata K)}
    (hid : (cells0.map MOMAdata.cell_id).Nodup) {p n k : Nat}
    (hk : (children cells0 p)[n]? = some k) (hn : 2 ≤ n) (j : Nat) :
    (children cells0 j)[0]? ≠ some k ∧ (children cells0 j)[1]? ≠ some k := by
  constructor
  · intro h0
    have e := names_parent_unique hid (children_getElem? h0) (children_getElem? hk)
    subst e
    have := children_index h0 hk
    omega
  · intro h1
    have e := names_parent_unique hid (children_getElem? h1) (children_getElem? hk)
    subst e
    have := children_index h1 hk
    omega

theorem built_cell {cells0 : List (MOMAdata K)} {i : Nat} {c : MOMAdata K}
    (hc : (linked_cells cells0 cells0.length 0)[i]? = some c) :
    ∃ c0, cells0[i]? = some c0 ∧
      c = { c0 with
            parent := (parents_upto cells0 cells0.length i).getLast?
            daughter1 := (children cells0 i)[0]?
            daughter2 := (children cells0 i)[1]? } := by
  have hlt : i < cells0.length := by
    by_contra hlt
    rw [List.getElem?_eq_none (by rw [linked_cells_length]; omega)] at hc
    cases hc
  refine ⟨cells0[i], List.getElem?_eq_getElem hlt, ?_⟩
  rw [linked_cells_final cells0 i _ (List.getElem?_eq_getElem hlt)] at hc
  exact (Option.some.inj hc).symm

/-- C23: for every vector of cells with unique cell ids and null pointers
beforehand, `build_cell_genealogy` returns, and for every cell `p` of the vector
daughter1 and daughter2 are the first two cells (in vector order) that name `p`
as their parent, which differ when both are set; a third or later cell naming
`p` is no cell's daughter1 or daughter2; and every cell that names a parent has
its parent pointer set to it, whatever was dropped before. -/
theorem first_two_children_become_daughters (cells0 : List (MOMAdata K))
    (h : unlinked cells0) (hid : (cells0.map MOMAdata.cell_id).Nodup) :
    ∃ cells, build_cell_genealogy cells0 = some cells ∧ cells.length = cells0.length ∧
      (∀ (p : Nat) (c : MOMAdata K), cells[p]? = some c →
        c.daughter1 = (children cells0 p)[0]? ∧ c.daughter2 = (children cells0 p)[1]? ∧
        ∀ (a b : Nat), c.daughter1 = some a → c.daughter2 = some b → a ≠ b) ∧
      (∀ (p n k : Nat), (children cells0 p)[n]? = some k → 2 ≤ n →
        ∀ (j : Nat) (cj : MOMAdata K), cells[j]? = some cj →
          cj.daughter1 ≠ some k ∧ cj.daughter2 ≠ some k) ∧
      (∀ (k j : Nat) (ck : MOMAdata K), cells[k]? = some ck →
        names_parent cells0 k j = true → ck.parent = some j) := by
  refine ⟨_, build_cell_genealogy_eq cells0 h, linked_cells_length cells0 _ _, ?_, ?_, ?_⟩
  · intro p c hc
    obtain ⟨c0, -, rfl⟩ := built_cell hc
    refine ⟨rfl, rfl, ?_⟩
    intro a b ha hb hab
    subst hab
    have := children_index (show (children cells0 p)[0]? = some a from ha)
      (show (children cells0 p)[1]? = some a from hb)
    omega
  · intro p n k hk hn j cj hj
    obtain ⟨c0, -, rfl⟩ := built_cell hj
    exact dropped_no_daughter hid hk hn j
  · intro k j ck hck hkj
    obtain ⟨c0, -, rfl⟩ := built_cell hck
    exact parents_upto_getLast? hid hkj

/-- C23 at a cell with three cells naming it as parent: the cells are unlinked
with unique ids, and the third one, at address 3, is the one left out. -/
theorem first_two_children_become_daughters_witness :
    unlinked (litter : List (MOMAdata ℚ)) ∧
    ((litter : List (MOMAdata ℚ)).map MOMAdata.cell_id).Nodup ∧
    children (litter : List (MOMAdata ℚ)) 0 = [1, 2, 3] ∧
    ∃ cells, build_cell_genealogy (litter : List (MOMAdata ℚ)) = some cells ∧
      cells.length = (litter : List (MOMAdata ℚ)).length ∧
      (∀ (p : Nat) (c : MOMAdata ℚ), cells[p]? = some c →
        c.daughter1 = (children (litter : List (MOMAdata ℚ)) p)[0]? ∧
        c.daughter2 = (children (litter : List (MOMAdata ℚ)) p)[1]? ∧
        ∀ (a b : Nat), c.daughter1 = some a → c.daughter2 = some b → a ≠ b) ∧
      (∀ (p n k : Nat), (children (litter : List (MOMAdata ℚ)) p)[n]? = some k → 2 ≤ n →
        ∀ (j : Nat) (cj : MOMAdata ℚ), cells[j]? = some cj →
          cj.daughter1 ≠ some k ∧ cj.daughter2 ≠ some k) ∧
      (∀ (k j : Nat) (ck : MOMAdata ℚ), cells[k]? = some ck →
        names_parent (litter : List (MOMAdata ℚ)) k j = true → ck.parent = some j) :=
  ⟨by simp [unlinked, litter, read_cell], by simp [litter, read_cell],
    by simp [children, children_upto, names_parent, litter, read_cell, List.range_succ, List.filter],
    first_two_children_become_daughters litter (by simp [unlinked, litter, read_cell])
      (by simp [litter, read_cell])⟩

end BuildGenealogy

/-! ## A cell whose daughter link was dropped (C30) -/

section DroppedCell

variable {K : Type} [Field K]

omit [Field K] in
/-- A cell of a genealogy held by the cells is its first cell or a daughter of a
cell. -/
theorem Genealogy.addrs_daughter {cells : List (MOMAdata K)} :
    ∀ (g : Genealogy K) (pp : Option Nat), g.Linked cells pp → ∀ j ∈ g.addrs,
      g.ptr = some j ∨
        ∃ (i : Nat) (c : MOMAdata K), cells[i]? = some c ∧
          (c.daughter1 = some j ∨ c.daughter2 = some j)
  | .null, _, _, j, hj => by simp [Genealogy.addrs] at hj
  | .node i c d1 d2, pp, hL, j, hj => by
    obtain ⟨h1, -, h3, h4, -, h6, h7⟩ := hL
    simp only [Genealogy.addrs, List.mem_cons, List.mem_append] at hj
    rcases hj with rfl | hj | hj
    · exact Or.inl rfl
    · rcases Genealogy.addrs_daughter d1 (some i) h6 j hj with e | e
      · exact Or.inr ⟨i, c, h1, Or.inl (h3.trans e)⟩
      · exact Or.inr e
    · rcases Genealogy.addrs_daughter d2 (some i) h7 j hj with e | e
      · exact Or.inr ⟨i, c, h1, Or.inr (h4.trans e)⟩
      · exact Or.inr e

/-- C30: for every vector of cells with unique ids and null pointers, let `k` be a
third or later cell naming the parent `p`.  After `build_cell_genealogy` the cell
`k` has its parent pointer set to `p`, so it is not a root and `get_roots` does
not list it; it is the daughter1 or daughter2 of no cell; it is reachable from no
root by daughter links and is a cell of no genealogy that starts at a root; and
`total_likelihood` from any root returns the same value whatever the
observations of `k` are. -/
theorem dropped_cell_contributes_nothing (M : MathFns K) (params_vec grad : List K)
    (cells0 : List (MOMAdata K)) (h : unlinked cells0)
    (hid : (cells0.map MOMAdata.cell_id).Nodup) (hp : 13 ≤ params_vec.length)
    (p n k : Nat) (hk : (children cells0 p)[n]? = some k) (hn : 2 ≤ n) :
    ∃ (cells : List (MOMAdata K)) (ck : MOMAdata K),
      build_cell_genealogy cells0 = some cells ∧ cells[k]? = some ck ∧
      ck.parent = some p ∧ ck.is_root = false ∧ k ∉ get_roots cells ∧
      (∀ (j : Nat) (cj : MOMAdata K), cells[j]? = some cj →
        cj.daughter1 ≠ some k ∧ cj.daughter2 ≠ some k) ∧
      (∀ r ∈ get_roots cells, ¬ Reachable cells r k) ∧
      ∀ (r : Nat) (g : Genealogy K) (fuel : Nat) (time length fp : List K),
        r ∈ get_roots cells → g.RootedAt cells (some r) → g.depth ≤ fuel →
        k ∉ g.addrs ∧
        (total_likelihood M fuel params_vec grad cells (some r)).map Prod.snd
          = some (genealogy_sum M params_vec none g) ∧
        (total_likelihood M fuel params_vec grad
            (cells.set k { ck with time := time, length := length, fp := fp }) (some r)).map
            Prod.snd
          = some (genealogy_sum M params_vec none g) := by
  have hkp := children_getElem? hk
  have hk0 := List.getElem?_eq_getElem (names_parent_lt hkp).1
  have hck := linked_cells_final cells0 k _ hk0
  have hpar := parents_upto_getLast? hid hkp
  have hnd : ∀ (j : Nat) (cj : MOMAdata K),
      (linked_cells cells0 cells0.length 0)[j]? = some cj →
        cj.daughter1 ≠ some k ∧ cj.daughter2 ≠ some k := by
    intro j cj hj
    obtain ⟨c0, -, rfl⟩ := built_cell hj
    exact dropped_no_daughter hid hk hn j
  have hroot : k ∉ get_roots (linked_cells cells0 cells0.length 0) := by
    rw [mem_get_roots _ k _ hck]
    simp [MOMAdata.is_root, hpar]
  have haddr : ∀ (r : Nat) (g : Genealogy K),
      r ∈ get_roots (linked_cells cells0 cells0.length 0) →
      g.RootedAt (linked_cells cells0 cells0.length 0) (some r) → k ∉ g.addrs := by
    intro r g hr hg hmem
    rcases Genealogy.addrs_daughter g none hg.2.1 k hmem with e | ⟨i, c, hc, e⟩
    · rw [hg.1] at e
      cases e
      exact hroot hr
    · rcases e with e | e
      · exact (hnd i c hc).1 e
      · exact (hnd i c hc).2 e
  refine ⟨_, _, build_cell_genealogy_eq cells0 h, hck, hpar, by simp [MOMAdata.is_root, hpar],
    hroot, hnd, ?_, ?_⟩
  · intro r hr hreach
    cases hreach with
    | root => exact hroot hr
    | daughter1 _ hc e => exact (hnd _ _ hc).1 e
    | daughter2 _ hc e => exact (hnd _ _ hc).2 e
  · intro r g fuel time length fp hr hg hfuel
    have hmem := haddr r g hr hg
    obtain ⟨h1, h2, h3⟩ := hg
    refine ⟨hmem, ?_, ?_⟩
    · rw [total_likelihood, ← h1,
        likelihood_recr_genealogy M params_vec hp g _ none none 0 fuel h2 h3
          ⟨rfl, rfl, fun p hp => by cases hp⟩ hfuel]
      simp
    · have h2s : ∀ c1 : MOMAdata K,
          g.Linked ((linked_cells cells0 cells0.length 0).set k c1) none := fun c1 =>
        Genealogy.linked_congr g none
          (fun j hj => List.getElem?_set_ne (fun (e : k = j) => hmem (by rw [e]; exact hj))) h2
      rw [total_likelihood, ← h1,
        likelihood_recr_genealogy M params_vec hp g _ none none 0 fuel (h2s _) h3
          ⟨rfl, rfl, fun p hp => by cases hp⟩ hfuel]
      simp

theorem children_litter : children (litter : List (MOMAdata K)) 0 = [1, 2, 3] := by
  simp [children, children_upto, names_parent, litter, read_cell, List.range_succ, List.filter]

theorem litter_built :
    build_cell_genealogy (litter : List (MOMAdata K)) = some litter_linked := rfl

theorem litter_rooted : (litter_tree : Genealogy K).RootedAt litter_linked (some 0) := by
  refine ⟨rfl, ?_, by simp [litter_tree, Genealogy.addrs]⟩
  simp [litter_tree, litter_linked, read_cell, Genealogy.Linked, Genealogy.ptr, obs_ok]

/-- C30 at a cell with three cells naming it as parent: the cell at address 3 is
the one left out; the root at address 0 is listed by `get_roots` and the linked
cells hold a genealogy under it. -/
theorem dropped_cell_contributes_nothing_witness :
    (unlinked (litter : List (MOMAdata ℝ)) ∧
      ((litter : List (MOMAdata ℝ)).map MOMAdata.cell_id).Nodup ∧
      (children (litter : List (MOMAdata ℝ)) 0)[2]? = some 3 ∧
      build_cell_genealogy (litter : List (MOMAdata ℝ)) = some litter_linked ∧
      0 ∈ get_roots (litter_linked : List (MOMAdata ℝ)) ∧
      (litter_tree : Genealogy ℝ).RootedAt litter_linked (some 0)) ∧
    ∃ (cells : List (MOMAdata ℝ)) (ck : MOMAdata ℝ),
      build_cell_genealogy (litter : List (MOMAdata ℝ)) = some cells ∧ cells[3]? = some ck ∧
      ck.parent = some 0 ∧ ck.is_root = false ∧ 3 ∉ get_roots cells ∧
      (∀ (j : Nat) (cj : MOMAdata ℝ), cells[j]? = some cj →
        cj.daughter1 ≠ some 3 ∧ cj.daughter2 ≠ some 3) ∧
      (∀ r ∈ get_roots cells, ¬ Reachable cells r 3) ∧
      ∀ (r : Nat) (g : Genealogy ℝ) (fuel : Nat) (time length fp : List ℝ),
        r ∈ get_roots cells → g.RootedAt cells (some r) → g.depth ≤ fuel →
        3 ∉ g.addrs ∧
        (total_likelihood realFns fuel unit_params [] cells (some r)).map Prod.snd
          = some (genealogy_sum realFns unit_params none g) ∧
        (total_likelihood realFns fuel unit_params []
            (cells.set 3 { ck with time := time, length := length, fp := fp }) (some r)).map
            Prod.snd
          = some (genealogy_sum realFns unit_params none g) :=
  ⟨⟨by simp [unlinked, litter, read_cell], by simp [litter, read_cell],
      by simp [children_litter], litter_built,
      by simp [get_roots, litter_linked, read_cell, MOMAdata.is_root, List.range_succ],
      litter_rooted⟩,
    dropped_cell_contributes_nothing realFns unit_params [] litter
      (by simp [unlinked, litter, read_cell]) (by simp [litter, read_cell])
      unit_params_length 0 2 3 (by simp [children_litter]) (le_refl 2)⟩

end DroppedCell

/-! ## The order of the pass down the tree (C27) -/

section PreOrder

variable {K : Type} [Field K]

omit [Field K] in
theorem links_getElem? (cells : List (MOMAdata K)) (i : Nat) :
    (links cells)[i]? = (cells[i]?).map fun c => (c.daughter1, c.daughter2) := by
  simp [links]

omit [Field K] in
theorem links_eq_some {cells : List (MOMAdata K)} {i : Nat} {a b : Option Nat}
    (h : (links cells)[i]? = some (a, b)) :
    ∃ c, cells[i]? = some c ∧ c.daughter1 = a ∧ c.daughter2 = b := by
  rw [links_getElem?] at h
  cases hc : cells[i]? with
  | none => rw [hc] at h; cases h
  | some c =>
    rw [hc] at h
    simp only [Option.map_some', Option.some.injEq, Prod.mk.injEq] at h
    exact ⟨c, rfl, h.1, h.2⟩

omit [Field K] in
/-- Whether the cells follow a genealogy depends on their daughter pointers only. -/
theorem Genealogy.shaped_congr {cells cells1 : List (MOMAdata K)}
    (h : links cells1 = links cells) :
    ∀ g : Genealogy K, g.Shaped cells → g.Shaped cells1
  | .null, _ => trivial
  | .node _ _ d1 d2, hs =>
    ⟨by rw [h]; exact hs.1, Genealogy.shaped_congr h d1 hs.2.1,
      Genealogy.shaped_congr h d2 hs.2.2⟩

omit [Field K] in
theorem Genealogy.shaped_of_linked {cells : List (MOMAdata K)} :
    ∀ (g : Genealogy K) (pp : Option Nat), g.Linked cells pp → g.Shaped cells
  | .null, _, _ => trivial
  | .node i c d1 d2, _, hL => by
    obtain ⟨h1, -, h3, h4, -, h6, h7⟩ := hL
    exact ⟨by rw [links_getElem?, h1, Option.map_some', h3, h4],
      Genealogy.shaped_of_linked d1 _ h6, Genealogy.shaped_of_linked d2 _ h7⟩

omit [Field K] in
theorem links_foldl {P : Type} (func : Nat → List (MOMAdata K) × P → List (MOMAdata K) × P)
    (hfunc : ∀ i s, links (func i s).1 = links s.1) :
    ∀ (l : List Nat) (s : List (MOMAdata K) × P),
      links (l.foldl (fun s i => func i s) s).1 = links s.1
  | [], _ => rfl
  | i :: l, s => by
    rw [List.foldl_cons, links_foldl func hfunc l, hfunc]

omit [Field K] in
/-- Function `apply_down_tree_recr` on cells that follow a genealogy, with a
function that leaves the daughter pointers as they are: with fuel for the depth
it returns what the calls of the function at the addresses of the genealogy, one
after the other, return. -/
theorem apply_down_tree_recr_eq {P : Type}
    (func : Nat → List (MOMAdata K) × P → List (MOMAdata K) × P)
    (hfunc : ∀ i s, links (func i s).1 = links s.1) :
    ∀ (g : Genealogy K) (s : List (MOMAdata K) × P) (fuel : Nat),
      g.Shaped s.1 → g.depth ≤ fuel →
      apply_down_tree_recr func fuel g.ptr s = some (g.addrs.foldl (fun s i => func i s) s)
  | .null, s, fuel, _, _ => by
    cases fuel <;> simp [Genealogy.ptr, Genealogy.addrs, apply_down_tree_recr]
  | .node i c d1 d2, s, fuel, hs, hf => by
    obtain ⟨k, rfl⟩ : ∃ k, fuel = k + 1 :=
      ⟨fuel - 1, by simp only [Genealogy.depth] at hf; omega⟩
    simp only [Genealogy.depth] at hf
    obtain ⟨h1, h2, h3⟩ := hs
    obtain ⟨c0, e0, -, -⟩ := links_eq_some h1
    have l1 : links (func i s).1 = links s.1 := hfunc i s
    obtain ⟨c1, e1, e1a, -⟩ := links_eq_some (l1 ▸ h1)
    have IH1 := apply_down_tree_recr_eq func hfunc d1 (func i s) k
      (Genealogy.shaped_congr l1 d1 h2) (by omega)
    have l2 : links (d1.addrs.foldl (fun s i => func i s) (func i s)).1 = links s.1 := by
      rw [links_foldl func hfunc, l1]
    obtain ⟨c2, e2, -, e2b⟩ := links_eq_some (l2 ▸ h1)
    have IH2 := apply_down_tree_recr_eq func hfunc d2
      (d1.addrs.foldl (fun s i => func i s) (func i s)) k
      (Genealogy.shaped_congr l2 d2 h3) (by omega)
    show apply_down_tree_recr func (k + 1) (some i) s = _
    rw [apply_down_tree_recr]
    simp only [e0, e1, e1a, IH1, e2, e2b, IH2, Option.bind_eq_bind, Option.some_bind,
      Genealogy.addrs, List.foldl_cons, List.foldl_append]

/-- The calls of `sc_likelihood` at the addresses of a genealogy, one after the
other, on cells that hold the genealogy as a tree: they return the cells after
the pass and add the sum of the contributions to the running total. -/
theorem sc_likelihood_fold_genealogy (M : MathFns K) (params_vec : List K)
    (hp : 13 ≤ params_vec.length) :
    ∀ (g : Genealogy K) (cells : List (MOMAdata K)) (pp : Option Nat)
      (par : Option (MOMAdata K)) (tl : K),
      g.Linked cells pp → g.addrs.Nodup → g.Above cells pp par →
      g.addrs.foldlM (fun s i => sc_likelihood M params_vec s.1 i s.2) (cells, tl)
        = some (g.filtered M params_vec par cells, tl + genealogy_sum M params_vec par g)
  | .null, cells, pp, par, tl, _, _, _ => by
    simp [Genealogy.addrs, Genealogy.filtered, genealogy_sum]
  | .node i c d1 d2, cells, pp, par, tl, hL, hnd, hA => by
    obtain ⟨h1, h2, h3, h4, h5, h6, h7⟩ := hL
    obtain ⟨a1, a2, -⟩ := hA
    obtain ⟨n1, n2, n3, n4, n5⟩ := Genealogy.nodup_node hnd
    have hi : i < cells.length := getElem?_lt_length h1
    have hsc := sc_likelihood_eq M params_vec cells i c par h1 h5 hp (by rw [h2]; exact a1)
      (by rw [h2]; exact a2) tl
    have hc1 : (cells.set i (final_state params_vec (cell_prior M params_vec par c)))[i]?
        = some (final_state params_vec (cell_prior M params_vec par c)) := by simp [hi]
    have L1 : d1.Linked (cells.set i (final_state params_vec (cell_prior M params_vec par c)))
        (some i) :=
      Genealogy.linked_congr d1 _
        (fun j hj => List.getElem?_set_ne (by rintro rfl; exact n1 hj)) h6
    have A1 : d1.Above (cells.set i (final_state params_vec (cell_prior M params_vec par c)))
        (some i) (some (final_state params_vec (cell_prior M params_vec par c))) :=
      ⟨by simpa using hc1, rfl, fun p hp => by cases hp; exact n1⟩
    have IH1 := sc_likelihood_fold_genealogy M params_vec hp d1 _ (some i) _
      (tl + contribution M params_vec (cell_prior M params_vec par c)) L1 n3 A1
    have hc2 : (d1.filtered M params_vec
          (some (final_state params_vec (cell_prior M params_vec par c)))
          (cells.set i (final_state params_vec (cell_prior M params_vec par c))))[i]?
        = some (final_state params_vec (cell_prior M params_vec par c)) := by
      rw [Genealogy.filtered_getElem?_of_not_mem M params_vec i d1 _ _ n1, hc1]
    have L2 : d2.Linked (d1.filtered M params_vec
          (some (final_state params_vec (cell_prior M params_vec par c)))
          (cells.set i (final_state params_vec (cell_prior M params_vec par c)))) (some i) :=
      Genealogy.linked_congr d2 _
        (fun j hj => by
          rw [Genealogy.filtered_getElem?_of_not_mem M params_vec j d1 _ _
            (fun hj1 => n5 j hj1 hj)]
          exact List.getElem?_set_ne (by rintro rfl; exact n2 hj)) h7
    have A2 : d2.Above (d1.filtered M params_vec
          (some (final_state params_vec (cell_prior M params_vec par c)))
          (cells.set i (final_state params_vec (cell_prior M params_vec par c)))) (some i)
        (some (final_state params_vec (cell_prior M params_vec par c))) :=
      ⟨by simpa using hc2, rfl, fun p hp => by cases hp; exact n2⟩
    have IH2 := sc_likelihood_fold_genealogy M params_vec hp d2 _ (some i) _
      (tl + contribution M params_vec (cell_prior M params_vec par c)
        + genealogy_sum M params_vec
            (some (final_state params_vec (cell_prior M params_vec par c))) d1)
      L2 n4 A2
    rw [Genealogy.addrs, List.foldlM_cons, hsc]
    simp only [Option.bind_eq_bind, Option.some_bind, List.foldlM_append, IH1, IH2,
      Genealogy.filtered, genealogy_sum]
    simp only [add_assoc]

omit [Field K] in
theorem Genealogy.ptr_mem_addrs {j : Nat} :
    ∀ g : Genealogy K, g.ptr = some j → j ∈ g.addrs
  | .null, h => by cases h
  | .node i _ _ _, h => by
    cases h
    simp [Genealogy.addrs]

omit [Field K] in
theorem Genealogy.ptr_head_addrs {j : Nat} :
    ∀ g : Genealogy K, g.ptr = some j → ∃ l, g.addrs = j :: l
  | .null, h => by cases h
  | .node i _ d1 d2, h => by
    cases h
    exact ⟨_, rfl⟩

omit [Field K] in
/-- The daughters of a cell of a genealogy are cells of the genealogy, and come
after it. -/
theorem Genealogy.daughter_after {cells : List (MOMAdata K)} {i j : Nat} {ci : MOMAdata K}
    (hci : cells[i]? = some ci) (hd : ci.daughter1 = some j ∨ ci.daughter2 = some j) :
    ∀ g : Genealogy K, g.Shaped cells → i ∈ g.addrs → [i, j].Sublist g.addrs
  | .null, _, hi => by simp [Genealogy.addrs] at hi
  | .node i0 c d1 d2, hs, hi => by
    obtain ⟨h1, h2, h3⟩ := hs
    simp only [Genealogy.addrs, List.mem_cons, List.mem_append] at hi
    rw [Genealogy.addrs]
    rcases hi with rfl | hi | hi
    · obtain ⟨c0, e0, ea, eb⟩ := links_eq_some h1
      rw [hci] at e0
      cases e0
      apply List.Sublist.cons₂
      rw [List.singleton_sublist]
      rcases hd with hd | hd
      · exact List.mem_append_left _ (Genealogy.ptr_mem_addrs d1 (ea.symm.trans hd))
      · exact List.mem_append_right _ (Genealogy.ptr_mem_addrs d2 (eb.symm.trans hd))
    · exact ((Genealogy.daughter_after hci hd d1 h2 hi).trans
        (List.sublist_append_left _ _)).trans (List.sublist_cons_self _ _)
    · exact ((Genealogy.daughter_after hci hd d2 h3 hi).trans
        (List.sublist_append_right _ _)).trans (List.sublist_cons_self _ _)

omit [Field K] in
/-- The cells of a genealogy that the cells follow are the cells reached from its
first cell by daughter links. -/
theorem Genealogy.mem_addrs_iff_reachable {cells : List (MOMAdata K)} :
    ∀ (g : Genealogy K) (r j : Nat), g.Shaped cells → g.ptr = some r →
      (j ∈ g.addrs ↔ Reachable cells r j) := by
  intro g r j hs hr
  constructor
  · have key : ∀ (g : Genealogy K) (r : Nat), g.Shaped cells → g.ptr = some r →
        Reachable cells r r → j ∈ g.addrs → ∀ r0, (∀ x, Reachable cells r x → Reachable cells r0 x) →
          Reachable cells r0 j := by
      intro g
      induction g with
      | null => intro r _ h; cases h
      | node i c d1 d2 ih1 ih2 =>
        intro r hs hr _ hj r0 hr0
        cases hr
        obtain ⟨h1, h2, h3⟩ := hs
        obtain ⟨c0, e0, ea, eb⟩ := links_eq_some h1
        simp only [Genealogy.addrs, List.mem_cons, List.mem_append] at hj
        rcases hj with rfl | hj | hj
        · exact hr0 _ Reachable.root
        · cases hd : d1.ptr with
          | none =>
            cases d1 with
            | null => simp [Genealogy.addrs] at hj
            | node _ _ _ _ => cases hd
          | some a =>
            have ra : Reachable cells r0 a :=
              Reachable.daughter1 (hr0 _ Reachable.root) e0 (ea.trans hd)
            exact ih1 a h2 hd Reachable.root hj r0 (fun x hx => by
              induction hx with
              | root => exact ra
              | daughter1 _ hc e ih => exact Reachable.daughter1 ih hc e
              | daughter2 _ hc e ih => exact Reachable.daughter2 ih hc e)
        · cases hd : d2.ptr with
          | none =>
            cases d2 with
            | null => simp [Genealogy.addrs] at hj
            | node _ _ _ _ => cases hd
          | some a =>
            have ra : Reachable cells r0 a :=
              Reachable.daughter2 (hr0 _ Reachable.root) e0 (eb.trans hd)
            exact ih2 a h3 hd Reachable.root hj r0 (fun x hx => by
              induction hx with
              | root => exact ra
              | daughter1 _ hc e ih => exact Reachable.daughter1 ih hc e
              | daughter2 _ hc e ih => exact Reachable.daughter2 ih hc e)
    exact fun hj => key g r hs hr Reachable.root hj r (fun _ hx => hx)
  · intro hreach
    induction hreach with
    | root => exact Genealogy.ptr_mem_addrs g hr
    | daughter1 _ hc e ih =>
      have := (Genealogy.daughter_after hc (Or.inl e) g hs ih).subset
      exact this (by simp)
    | daughter2 _ hc e ih =>
      have := (Genealogy.daughter_after hc (Or.inr e) g hs ih).subset
      exact this (by simp)

omit [Field K] in
theorem links_visit_log (i : Nat) (s : List (MOMAdata K) × List String) :
    links (visit_log i s).1 = links s.1 := by
  unfold visit_log
  cases s.1[i]? <;> rfl

theorem six_shaped : (six_tree : Genealogy K).Shaped six_linked := by
  simp [six_tree, six_linked, read_cell, Genealogy.Shaped, Genealogy.ptr, links]

theorem six_linked_linked : (six_tree : Genealogy K).Linked six_linked none := by
  simp [six_tree, six_linked, read_cell, Genealogy.Linked, Genealogy.ptr, obs_ok]

/-- C27: let the daughter pointers of the cells follow a finite genealogy tree `g`
that starts at the cell `c`; `g.addrs` lists a cell, then the cells under its
daughter1, then the cells under its daughter2.  For every function `func` that
leaves the daughter pointers as they are, `apply_down_tree(c, func, params)`
returns, with fuel for the depth of the tree, what the calls of `func` at the
cells of `g.addrs`, one after the other in that order, return; `likelihood_recr`
returns what the calls of `sc_likelihood` in that order return, when the cells
hold the genealogy; the cells of `g.addrs` are the cells reachable from `c` by
daughter links, each occurs once, and a cell comes before its daughters.  On the
six cells of the example the ids are visited in the order 1, 2, 3, 4, 5, 6. -/
theorem apply_down_tree_visits_in_preorder {P : Type} (M : MathFns K) (params_vec : List K)
    (func : Nat → List (MOMAdata K) × P → List (MOMAdata K) × P) (cells : List (MOMAdata K))
    (params : P) (c : Nat) (g : Genealogy K) (fuel : Nat) (tl : K)
    (hfunc : ∀ i s, links (func i s).1 = links s.1)
    (hs : g.Shaped cells) (hc : g.ptr = some c) (hnd : g.addrs.Nodup)
    (hfuel : g.depth ≤ fuel) :
    apply_down_tree func fuel c (cells, params)
      = some (g.addrs.foldl (fun s i => func i s) (cells, params)) ∧
    (g.Linked cells none → 13 ≤ params_vec.length →
      ∃ r, likelihood_recr M params_vec fuel (some c) cells tl = some r ∧
        g.addrs.foldlM (fun s i => sc_likelihood M params_vec s.1 i s.2) (cells, tl)
          = some r) ∧
    (∀ j, Reachable cells c j ↔ j ∈ g.addrs) ∧
    (∀ j, Reachable cells c j → g.addrs.count j = 1) ∧
    (∀ (i j : Nat) (ci : MOMAdata K), Reachable cells c i → cells[i]? = some ci →
      (ci.daughter1 = some j ∨ ci.daughter2 = some j) → [i, j].Sublist g.addrs) ∧
    (apply_down_tree visit_log 3 0 ((six_linked : List (MOMAdata K)), [])).map Prod.snd
      = some ["1", "2", "3", "4", "5", "6"] := by
  have hiff := fun j => Genealogy.mem_addrs_iff_reachable g c j hs hc
  refine ⟨?_, ?_, fun j => (hiff j).symm, ?_, ?_, rfl⟩
  · rw [apply_down_tree, ← hc]
    exact apply_down_tree_recr_eq func hfunc g (cells, params) fuel hs hfuel
  · intro hL hp
    refine ⟨_, ?_, sc_likelihood_fold_genealogy M params_vec hp g cells none none tl hL hnd
      ⟨rfl, rfl, fun p hp => by cases hp⟩⟩
    rw [← hc]
    exact likelihood_recr_genealogy M params_vec hp g cells none none tl fuel hL hnd
      ⟨rfl, rfl, fun p hp => by cases hp⟩ hfuel
  · intro j hj
    exact List.count_eq_one_of_mem hnd ((hiff j).2 hj)
  · intro i j ci hi hci hd
    exact Genealogy.daughter_after hci hd g hs ((hiff i).2 hi)

/-- C27 at the six cells of the example with the function that writes down the id
of the cell. -/
theorem apply_down_tree_visits_in_preorder_witness :
    ((∀ (i : Nat) (s : List (MOMAdata ℝ) × List String), links (visit_log i s).1 = links s.1) ∧
      (six_tree : Genealogy ℝ).Shaped six_linked ∧ (six_tree : Genealogy ℝ).ptr = some 0 ∧
      (six_tree : Genealogy ℝ).addrs = [0, 1, 2, 3, 4, 5] ∧
      (six_tree : Genealogy ℝ).depth ≤ 3 ∧
      (six_tree : Genealogy ℝ).Linked six_linked none ∧ 13 ≤ (unit_params : List ℝ).length ∧
      build_cell_genealogy (six_cells : List (MOMAdata ℝ)) = some six_linked) ∧
    (apply_down_tree visit_log 3 0 ((six_linked : List (MOMAdata ℝ)), [])
      = some ((six_tree : Genealogy ℝ).addrs.foldl (fun s i => visit_log i s)
          (six_linked, [])) ∧
    ((six_tree : Genealogy ℝ).Linked six_linked none → 13 ≤ (unit_params : List ℝ).length →
      ∃ r, likelihood_recr realFns unit_params 3 (some 0) six_linked 0 = some r ∧
        (six_tree : Genealogy ℝ).addrs.foldlM
            (fun s i => sc_likelihood realFns unit_params s.1 i s.2) (six_linked, 0)
          = some r) ∧
    (∀ j, Reachable (six_linked : List (MOMAdata ℝ)) 0 j ↔ j ∈ (six_tree : Genealogy ℝ).addrs) ∧
    (∀ j, Reachable (six_linked : List (MOMAdata ℝ)) 0 j →
      (six_tree : Genealogy ℝ).addrs.count j = 1) ∧
    (∀ (i j : Nat) (ci : MOMAdata ℝ), Reachable (six_linked : List (MOMAdata ℝ)) 0 i →
      (six_linked : List (MOMAdata ℝ))[i]? = some ci →
      (ci.daughter1 = some j ∨ ci.daughter2 = some j) →
      [i, j].Sublist (six_tree : Genealogy ℝ).addrs) ∧
    (apply_down_tree visit_log 3 0 ((six_linked : List (MOMAdata ℝ)), [])).map Prod.snd
      = some ["1", "2", "3", "4", "5", "6"]) :=
  ⟨⟨links_visit_log, six_shaped, rfl, rfl, by simp [six_tree, Genealogy.depth],
      six_linked_linked, unit_params_length, rfl⟩,
    apply_down_tree_visits_in_preorder realFns unit_params visit_log six_linked [] 0 six_tree 3 0
      links_visit_log six_shaped rfl (by simp [six_tree, Genealogy.addrs])
      (by simp [six_tree, Genealogy.depth])⟩

end PreOrder

/-! ## The paths from a cell to its leaves (C28) -/

section Paths

variable {K : Type}

theorem Genealogy.paths_node {i : Nat} {c : MOMAdata K} {d1 d2 : Genealogy K}
    (h : ¬ (d1.ptr = none ∧ d2.ptr = none)) :
    (Genealogy.node i c d1 d2).paths = (d1.paths ++ d2.paths).map fun path => i :: path := by
  cases d1 <;> cases d2 <;> simp [Genealogy.ptr] at h <;> rfl

theorem Genealogy.leaves_node {i : Nat} {c : MOMAdata K} {d1 d2 : Genealogy K}
    (h : ¬ (d1.ptr = none ∧ d2.ptr = none)) :
    (Genealogy.node i c d1 d2).leaves = d1.leaves ++ d2.leaves := by
  cases d1 <;> cases d2 <;> simp [Genealogy.ptr] at h <;> rfl

theorem Genealogy.ptr_eq_none {g : Genealogy K} (h : g.ptr = none) : g = .null := by
  cases g with
  | null => rfl
  | node _ _ _ _ => cases h

/-- Function `get_genealogy_paths_recr` on cells that follow a genealogy: with
fuel for the depth it leaves `current_path` as it is and appends to `paths` the
lines of descent of the genealogy, each after `current_path`. -/
theorem get_genealogy_paths_recr_eq (cells : List (MOMAdata K)) :
    ∀ (g : Genealogy K) (fuel : Nat) (cur : List Nat) (acc : List (List Nat)),
      g.Shaped cells → g.depth ≤ fuel →
      get_genealogy_paths_recr cells fuel g.ptr (cur, acc)
        = some (cur, acc ++ g.paths.map fun path => cur ++ path)
  | .null, fuel, cur, acc, _, _ => by
    cases fuel <;> simp [Genealogy.ptr, Genealogy.paths, get_genealogy_paths_recr]
  | .node i c d1 d2, fuel, cur, acc, hs, hf => by
    obtain ⟨k, rfl⟩ : ∃ k, fuel = k + 1 :=
      ⟨fuel - 1, by simp only [Genealogy.depth] at hf; omega⟩
    simp only [Genealogy.depth] at hf
    obtain ⟨h1, h2, h3⟩ := hs
    obtain ⟨c0, e0, ea, eb⟩ := links_eq_some h1
    show get_genealogy_paths_recr cells (k + 1) (some i) (cur, acc) = _
    rw [get_genealogy_paths_recr]
    by_cases hl : d1.ptr = none ∧ d2.ptr = none
    · have hleaf : c0.is_leaf = true := by simp [MOMAdata.is_leaf, ea, eb, hl.1, hl.2]
      rw [Genealogy.ptr_eq_none hl.1, Genealogy.ptr_eq_none hl.2]
      simp [e0, hleaf, Genealogy.paths]
    · have hleaf : c0.is_leaf = false := by
        rw [MOMAdata.is_leaf, ea, eb]
        cases h1 : d1.ptr <;> cases h2 : d2.ptr <;> simp_all
      have IH1 := get_genealogy_paths_recr_eq cells d1 k (cur ++ [i]) acc h2 (by omega)
      have IH2 := get_genealogy_paths_recr_eq cells d2 k (cur ++ [i])
        (acc ++ d1.paths.map fun path => (cur ++ [i]) ++ path) h3 (by omega)
      simp only [List.append_assoc, List.singleton_append] at IH1 IH2
      simp [e0, hleaf, ea, eb, IH1, IH2, Genealogy.paths_node hl, Function.comp_def]

theorem Genealogy.paths_chain {cells : List (MOMAdata K)} :
    ∀ g : Genealogy K, g.Shaped cells → ∀ path ∈ g.paths,
      ∃ (a : Nat) (t : List Nat), g.ptr = some a ∧ path = a :: t ∧
        List.Chain (daughter_link cells) a t
  | .null, _, path, hp => by simp [Genealogy.paths] at hp
  | .node i c d1 d2, hs, path, hp => by
    obtain ⟨h1, h2, h3⟩ := hs
    obtain ⟨c0, e0, ea, eb⟩ := links_eq_some h1
    by_cases hl : d1.ptr = none ∧ d2.ptr = none
    · rw [Genealogy.ptr_eq_none hl.1, Genealogy.ptr_eq_none hl.2] at hp
      simp only [Genealogy.paths, List.mem_singleton] at hp
      exact ⟨i, [], rfl, hp, List.Chain.nil⟩
    · rw [Genealogy.paths_node hl, List.mem_map] at hp
      obtain ⟨q, hq, rfl⟩ := hp
      rw [List.mem_append] at hq
      rcases hq with hq | hq
      · obtain ⟨a, t, pa, rfl, ch⟩ := Genealogy.paths_chain d1 h2 q hq
        exact ⟨i, a :: t, rfl, rfl, List.Chain.cons ⟨c0, e0, Or.inl (ea.trans pa)⟩ ch⟩
      · obtain ⟨a, t, pa, rfl, ch⟩ := Genealogy.paths_chain d2 h3 q hq
        exact ⟨i, a :: t, rfl, rfl, List.Chain.cons ⟨c0, e0, Or.inr (eb.trans pa)⟩ ch⟩

theorem Genealogy.paths_ne_nil :
    ∀ g : Genealogy K, ∀ path ∈ g.paths, path ≠ []
  | .null, path, hp => by simp [Genealogy.paths] at hp
  | .node i c d1 d2, path, hp => by
    by_cases hl : d1.ptr = none ∧ d2.ptr = none
    · rw [Genealogy.ptr_eq_none hl.1, Genealogy.ptr_eq_none hl.2] at hp
      simp only [Genealogy.paths, List.mem_singleton] at hp
      rw [hp]
      exact List.cons_ne_nil _ _
    · rw [Genealogy.paths_node hl, List.mem_map] at hp
      obtain ⟨q, -, rfl⟩ := hp
      exact List.cons_ne_nil _ _

theorem map_getLast?_cons (i : Nat) :
    ∀ l : List (List Nat), (∀ path ∈ l, path ≠ []) →
      (l.map fun path => i :: path).map List.getLast? = l.map List.getLast?
  | [], _ => rfl
  | p :: l, h => by
    have hp := h p (by simp)
    obtain ⟨a, t, rfl⟩ := List.exists_cons_of_ne_nil hp
    simp only [List.map_cons, List.getLast?_cons_cons]
    rw [map_getLast?_cons i l (fun q hq => h q (by simp [hq]))]

/-- Every line of descent ends with a leaf of the genealogy, in the order of the
leaves. -/
theorem Genealogy.paths_getLast? :
    ∀ g : Genealogy K, g.paths.map List.getLast? = g.leaves.map some
  | .null => rfl
  | .node i c d1 d2 => by
    by_cases hl : d1.ptr = none ∧ d2.ptr = none
    · rw [Genealogy.ptr_eq_none hl.1, Genealogy.ptr_eq_none hl.2]
      rfl
    · rw [Genealogy.paths_node hl, Genealogy.leaves_node hl, map_getLast?_cons, List.map_append,
        List.map_append, Genealogy.paths_getLast? d1, Genealogy.paths_getLast? d2]
      intro path hp
      rw [List.mem_append] at hp
      rcases hp with hp | hp
      · exact Genealogy.paths_ne_nil d1 path hp
      · exact Genealogy.paths_ne_nil d2 path hp

/-- The leaves of a genealogy that the cells follow are its cells for which
`is_leaf()` holds, in the order of the genealogy. -/
theorem Genealogy.leaves_eq_filter {cells : List (MOMAdata K)} :
    ∀ g : Genealogy K, g.Shaped cells → g.leaves = g.addrs.filter (is_leaf_at cells)
  | .null, _ => rfl
  | .node i c d1 d2, hs => by
    obtain ⟨h1, h2, h3⟩ := hs
    obtain ⟨c0, e0, ea, eb⟩ := links_eq_some h1
    by_cases hl : d1.ptr = none ∧ d2.ptr = none
    · have hleaf : is_leaf_at cells i = true := by
        simp [is_leaf_at, e0, MOMAdata.is_leaf, ea, eb, hl.1, hl.2]
      rw [Genealogy.ptr_eq_none hl.1, Genealogy.ptr_eq_none hl.2]
      simp [Genealogy.leaves, Genealogy.addrs, hleaf]
    · have hleaf : is_leaf_at cells i = false := by
        rw [is_leaf_at, e0]
        simp only [MOMAdata.is_leaf, ea, eb]
        cases h1 : d1.ptr <;> cases h2 : d2.ptr <;> simp_all
      rw [Genealogy.leaves_node hl, Genealogy.addrs, List.filter_cons, hleaf,
        Genealogy.leaves_eq_filter d1 h2, Genealogy.leaves_eq_filter d2 h3]
      simp

/-- C28: let the daughter pointers of the cells follow a finite genealogy tree `g`
that starts at the cell `c`; `g.addrs` lists a cell, then the cells under its
daughter1, then the cells under its daughter2.  With fuel for the depth of the
tree `get_genealogy_paths(c)` returns paths whose last cells are, path by path
and in that order, the cells of `g.addrs` for which `is_leaf()` holds; those are
the leaves reachable from `c`, each once.  Every path starts with `c`, each of
its other elements is daughter1 or daughter2 of the element before it, and it
ends with a leaf. -/
theorem get_genealogy_paths_one_per_leaf (cells : List (MOMAdata K)) (c : Nat)
    (g : Genealogy K) (fuel : Nat) (hs : g.Shaped cells) (hc : g.ptr = some c)
    (hnd : g.addrs.Nodup) (hfuel : g.depth ≤ fuel) :
    ∃ paths, get_genealogy_paths cells fuel c = some paths ∧
      paths.map List.getLast? = (g.addrs.filter (is_leaf_at cells)).map some ∧
      (g.addrs.filter (is_leaf_at cells)).Nodup ∧
      (∀ j, j ∈ g.addrs.filter (is_leaf_at cells)
        ↔ Reachable cells c j ∧ is_leaf_at cells j = true) ∧
      (∀ path ∈ paths, ∃ t, path = c :: t ∧ List.Chain (daughter_link cells) c t) ∧
      (∀ path ∈ paths, ∃ l, path.getLast? = some l ∧ is_leaf_at cells l = true) := by
  have hlast : g.paths.map List.getLast? = (g.addrs.filter (is_leaf_at cells)).map some := by
    rw [Genealogy.paths_getLast?, Genealogy.leaves_eq_filter g hs]
  refine ⟨g.paths, ?_, hlast, List.Nodup.filter _ hnd, ?_, ?_, ?_⟩
  · have := get_genealogy_paths_recr_eq cells g fuel [] [] hs hfuel
    rw [hc] at this
    simp [get_genealogy_paths, this]
  · intro j
    rw [List.mem_filter, Genealogy.mem_addrs_iff_reachable g c j hs hc]
  · intro path hp
    obtain ⟨a, t, pa, rfl, ch⟩ := Genealogy.paths_chain g hs path hp
    rw [hc] at pa
    cases pa
    exact ⟨t, rfl, ch⟩
  · intro path hp
    have hm : path.getLast? ∈ g.paths.map List.getLast? := List.mem_map_of_mem _ hp
    rw [hlast, List.mem_map] at hm
    obtain ⟨l, hl, e⟩ := hm
    exact ⟨l, e.symm, (List.mem_filter.1 hl).2⟩

/-- C28 at the six cells of the example: the three paths from the cell "1" end
with the cells "3", "4" and "6". -/
theorem get_genealogy_paths_one_per_leaf_witness :
    ((six_tree : Genealogy ℚ).Shaped six_linked ∧ (six_tree : Genealogy ℚ).ptr = some 0 ∧
      (six_tree : Genealogy ℚ).addrs.Nodup ∧ (six_tree : Genealogy ℚ).depth ≤ 3 ∧
      get_genealogy_paths (six_linked : List (MOMAdata ℚ)) 3 0
        = some [[0, 1, 2], [0, 1, 3], [0, 4, 5]]) ∧
    ∃ paths, get_genealogy_paths (six_linked : List (MOMAdata ℚ)) 3 0 = some paths ∧
      paths.map List.getLast?
        = ((six_tree : Genealogy ℚ).addrs.filter (is_leaf_at (six_linked : List (MOMAdata ℚ)))).map some ∧
      ((six_tree : Genealogy ℚ).addrs.filter (is_leaf_at (six_linked : List (MOMAdata ℚ)))).Nodup ∧
      (∀ j, j ∈ (six_tree : Genealogy ℚ).addrs.filter (is_leaf_at (six_linked : List (MOMAdata ℚ)))
        ↔ Reachable (six_linked : List (MOMAdata ℚ)) 0 j ∧
          is_leaf_at (six_linked : List (MOMAdata ℚ)) j = true) ∧
      (∀ path ∈ paths, ∃ t, path = 0 :: t ∧
        List.Chain (daughter_link (six_linked : List (MOMAdata ℚ))) 0 t) ∧
      (∀ path ∈ paths, ∃ l, path.getLast? = some l ∧
        is_leaf_at (six_linked : List (MOMAdata ℚ)) l = true) :=
  ⟨⟨six_shaped, rfl, by simp [six_tree, Genealogy.addrs], by simp [six_tree, Genealogy.depth],
      rfl⟩,
    get_genealogy_paths_one_per_leaf six_linked 0 six_tree 3 six_shaped rfl
      (by simp [six_tree, Genealogy.addrs]) (by simp [six_tree, Genealogy.depth])⟩

end Paths

/-! ## The parameter file (C24, C25) -/

section ParameterFile

variable {K : Type}

theorem split_no_delim (delims : List Char) :
    ∀ s : List Char, (∀ ch ∈ s, ch ∉ delims) → split delims s = [s]
  | [], _ => rfl
  | ch :: s, h => by
    have hch : delims.contains ch = false := by
      simpa using h ch (by simp)
    rw [split, hch, split_no_delim delims s (fun x hx => h x (by simp [hx]))]
    rfl

theorem split_append (delims : List Char) (dl : Char) (hdl : dl ∈ delims) (r : List Char) :
    ∀ a : List Char, (∀ ch ∈ a, ch ∉ delims) →
      split delims (a ++ dl :: r) = a :: split delims r
  | [], _ => by
    have hd : delims.contains dl = true := by simpa using hdl
    rw [List.nil_append, split, hd]
    rfl
  | ch :: a, h => by
    have hch : delims.contains ch = false := by
      simpa using h ch (by simp)
    rw [List.cons_append, split, hch, split_append delims dl hdl r a
      (fun x hx => h x (by simp [hx]))]
    rfl

/-- Member function `set_paramter` on a value part without a comma. -/
theorem set_paramter_fixed (stod : List Char → Option K) (p : Parameter K)
    (key val : List Char) (more : List (List Char)) (v : K) (hval : ',' ∉ val)
    (hv : stod (trim val) = some v) :
    p.set_paramter stod (key :: val :: more)
      = some { p with name := key, set := true, fixed := true, value := v } := by
  have hs : split [','] val = [val] :=
    split_no_delim _ val (fun ch hch h => by
      rw [List.mem_singleton] at h
      exact hval (h ▸ hch))
  simp [Parameter.set_paramter, hs, hv]

/-- Member function `set_paramter` on a value part of four entries. -/
theorem set_paramter_free (stod : List Char → Option K) (p : Parameter K)
    (key a b c d : List Char) (more : List (List Char)) (v s l u : K)
    (ha : ',' ∉ a) (hb : ',' ∉ b) (hc : ',' ∉ c) (hd : ',' ∉ d)
    (hv : stod (trim a) = some v) (hs : stod (trim b) = some s)
    (hl : stod (trim c) = some l) (hu : stod (trim d) = some u) :
    p.set_paramter stod (key :: (a ++ ',' :: (b ++ ',' :: (c ++ ',' :: d))) :: more)
      = some { name := key, set := true, fixed := false, value := v, step := s, lower := l,
               upper := u } := by
  have no : ∀ x : List Char, ',' ∉ x → ∀ ch ∈ x, ch ∉ [','] := fun x hx ch hch h => by
    rw [List.mem_singleton] at h
    exact hx (h ▸ hch)
  have hsp : split [','] (a ++ ',' :: (b ++ ',' :: (c ++ ',' :: d))) = [a, b, c, d] := by
    rw [split_append _ _ (by simp) _ a (no a ha), split_append _ _ (by simp) _ b (no b hb),
      split_append _ _ (by simp) _ c (no c hc), split_no_delim _ d (no d hd)]
  simp [Parameter.set_paramter, hsp, hv, hs, hl, hu]

/-- C24: for a line `key = val` whose value part `val` has no comma,
`Parameter::set_paramter` marks the parameter set and fixed, with the value that
`std::stod` reads from the trimmed `val`, and leaves step, lower and upper as they
are; for a line `key = a, b, c, d` it marks the parameter set and free, with the
initial value, step, lower and upper that `std::stod` reads from the trimmed `a`,
`b`, `c` and `d`.  In both cases the name is the key. -/
theorem set_paramter_fixed_or_free (stod : List Char → Option K) (p : Parameter K)
    (key val a b c d : List Char) (w v s l u : K)
    (hkey : '=' ∉ key) (hval : ',' ∉ val) (hval1 : '=' ∉ val)
    (ha : ',' ∉ a) (hb : ',' ∉ b) (hc : ',' ∉ c) (hd : ',' ∉ d)
    (ha1 : '=' ∉ a) (hb1 : '=' ∉ b) (hc1 : '=' ∉ c) (hd1 : '=' ∉ d)
    (hw : stod (trim val) = some w)
    (hv : stod (trim a) = some v) (hs : stod (trim b) = some s)
    (hl : stod (trim c) = some l) (hu : stod (trim d) = some u) :
    split ['='] (key ++ '=' :: val) = [key, val] ∧
    p.set_paramter stod [key, val]
      = some { p with name := key, set := true, fixed := true, value := w } ∧
    split ['='] (key ++ '=' :: (a ++ ',' :: (b ++ ',' :: (c ++ ',' :: d))))
      = [key, a ++ ',' :: (b ++ ',' :: (c ++ ',' :: d))] ∧
    p.set_paramter stod [key, a ++ ',' :: (b ++ ',' :: (c ++ ',' :: d))]
      = some { name := key, set := true, fixed := false, value := v, step := s, lower := l,
               upper := u } := by
  have no : ∀ x : List Char, '=' ∉ x → ∀ ch ∈ x, ch ∉ ['='] := fun x hx ch hch h => by
    rw [List.mem_singleton] at h
    exact hx (h ▸ hch)
  refine ⟨?_, set_paramter_fixed stod p key val [] w hval hw, ?_,
    set_paramter_free stod p key a b c d [] v s l u ha hb hc hd hv hs hl hu⟩
  · rw [split_append _ _ (by simp) _ key (no key hkey), split_no_delim _ val (no val hval1)]
  · rw [split_append _ _ (by simp) _ key (no key hkey), split_no_delim _ _ (no _ ?_)]
    simp [ha1, hb1, hc1, hd1]

/-- C24 at the lines `beta = 3` and `beta = 3 , 1,0, 9`, with a `std::stod` that
reads strings of digits. -/
theorem set_paramter_fixed_or_free_witness :
    (stod_digits (trim " 3".toList) = some (3 : ℚ) ∧
      stod_digits (trim " 3 ".toList) = some (3 : ℚ) ∧
      stod_digits (trim " 1".toList) = some (1 : ℚ) ∧
      stod_digits (trim "0".toList) = some (0 : ℚ) ∧
      stod_digits (trim " 9".toList) = some (9 : ℚ)) ∧
    split ['='] ("beta".toList ++ '=' :: " 3".toList) = ["beta".toList, " 3".toList] ∧
    (unset_parameter : Parameter ℚ).set_paramter stod_digits ["beta".toList, " 3".toList]
      = some { (unset_parameter : Parameter ℚ) with
          name := "beta".toList, set := true, fixed := true, value := 3 } ∧
    split ['=']
        ("beta".toList ++ '=' :: (" 3 ".toList ++ ',' :: (" 1".toList ++ ',' ::
          ("0".toList ++ ',' :: " 9".toList))))
      = ["beta".toList, " 3 ".toList ++ ',' :: (" 1".toList ++ ',' ::
          ("0".toList ++ ',' :: " 9".toList))] ∧
    (unset_parameter : Parameter ℚ).set_paramter stod_digits
        ["beta".toList, " 3 ".toList ++ ',' :: (" 1".toList ++ ',' ::
          ("0".toList ++ ',' :: " 9".toList))]
      = some { name := "beta".toList, set := true, fixed := false, value := 3, step := 1,
               lower := 0, upper := 9 } :=
  ⟨⟨rfl, rfl, rfl, rfl, rfl⟩,
    set_paramter_fixed_or_free stod_digits unset_parameter "beta".toList " 3".toList
      " 3 ".toList " 1".toList "0".toList " 9".toList 3 3 1 0 9
      (by decide) (by decide) (by decide) (by decide) (by decide) (by decide) (by decide)
      (by decide) (by decide) (by decide) (by decide) rfl rfl rfl rfl rfl⟩

theorem parameter_keys_getElem? (k : Nat) (key : List Char)
    (h : parameter_keys[k]? = some key) : k < 11 := by
  by_contra hk
  rw [List.getElem?_eq_none (by simp [parameter_keys]; omega)] at h
  cases h

/-- The body of the loop on a line with the key at position `k`. -/
theorem read_line_key (stod : List Char → Option K) (ps : Parameter_set K)
    (line : List Char) (k : Nat) (hline : line ≠ []) (hhead : line.head? ≠ some '#')
    (hk : parameter_keys[k]? = some (trim ((split ['='] line).headD []))) :
    ps.read_line stod line
      = (((ps.get k).set_paramter stod
          ((split ['='] line).set 0 (trim ((split ['='] line).headD [])))).map (ps.put k)) := by
  have hlt := parameter_keys_getElem? k _ hk
  have hlen : line.length ≠ 0 := by simpa using hline
  obtain ⟨key, rest, hs⟩ : ∃ key rest, split ['='] line = key :: rest := by
    cases line with
    | nil => exact (hline rfl).elim
    | cons ch l =>
      rw [split]
      split
      · exact ⟨_, _, rfl⟩
      · split <;> exact ⟨_, _, rfl⟩
  rw [hs] at hk ⊢
  simp only [List.headD_cons] at hk ⊢
  rw [Parameter_set.read_line, if_pos ⟨hhead, hlen⟩, hs]
  simp only [List.getElem?_cons_zero, Option.bind_eq_bind, Option.some_bind]
  interval_cases k <;>
    simp only [parameter_keys, List.getElem?_cons_zero, List.getElem?_cons_succ,
      Option.some.injEq] at hk <;>
    rw [← hk] <;>
    simp +decide only [if_true, if_false, Parameter_set.get, Parameter_set.put] <;>
    cases (Parameter.set_paramter stod _ _) <;> rfl

theorem split_cons (delims : List Char) (line : List Char) :
    ∃ key rest, split delims line = key :: rest := by
  cases line with
  | nil => exact ⟨_, _, rfl⟩
  | cons ch l =>
    rw [split]
    split
    · exact ⟨_, _, rfl⟩
    · split <;> exact ⟨_, _, rfl⟩

/-- C25: on a line that is empty or starts with `#`, and on a line whose trimmed
key (the first token of the line split at `=`, which is the text before the first
`=`) is none of the 11 keys, the body of the loop of the constructor of
`Parameter_set` returns the parameters unchanged; on a line whose trimmed key is
the key at position `k` it returns what `set_paramter` returns for the parameter
at position `k`, put back at position `k`, which leaves the other 10 parameters
as they are; and the constructor lists the 11 parameters in `all` in the order
mean_lambda, gamma_lambda, var_lambda, mean_q, gamma_q, var_q, beta, var_x,
var_g, var_dx, var_dg. -/
theorem read_line_changes_named_parameter_only (stod : List Char → Option K)
    (ps : Parameter_set K) (line : List Char) :
    ((line = [] ∨ line.head? = some '#') → ps.read_line stod line = some ps) ∧
    (line ≠ [] → line.head? ≠ some '#' →
      trim ((split ['='] line).headD []) ∉ parameter_keys →
      ps.read_line stod line = some ps) ∧
    (∀ k, line ≠ [] → line.head? ≠ some '#' →
      parameter_keys[k]? = some (trim ((split ['='] line).headD [])) →
      ps.read_line stod line
        = (((ps.get k).set_paramter stod
            ((split ['='] line).set 0 (trim ((split ['='] line).headD [])))).map
            (ps.put k))) ∧
    (∀ (key rest : List Char), '=' ∉ key → line = key ++ '=' :: rest →
      (split ['='] line).headD [] = key) ∧
    (∀ (k : Nat) (p : Parameter K), k < 11 →
      (ps.put k p).get k = p ∧ (ps.put k p).all = ps.all ∧
      ∀ j, j < 11 → j ≠ k → (ps.put k p).get j = ps.get j) ∧
    (∀ (file : Option (List (List Char))) (r : Parameter_set K),
      Parameter_set.read stod ps file = some r →
      r.all = [r.mean_lambda, r.gamma_lambda, r.var_lambda, r.mean_q, r.gamma_q, r.var_q,
        r.beta, r.var_x, r.var_g, r.var_dx, r.var_dg] ∧
      r.all = (List.range 11).map r.get) ∧
    (Parameter_set.read stod ps none).isSome = true := by
  refine ⟨?_, ?_, ?_, ?_, ?_, ?_, rfl⟩
  · intro h
    rw [Parameter_set.read_line, if_neg]
    · rfl
    · rintro ⟨h1, h2⟩
      rcases h with h | h
      · exact h2 (by simp [h])
      · exact h1 h
  · intro hline hhead hkey
    have hlen : line.length ≠ 0 := by simpa using hline
    obtain ⟨key, rest, hs⟩ := split_cons ['='] line
    rw [hs, List.headD_cons] at hkey
    simp only [parameter_keys, List.mem_cons, List.mem_singleton, List.not_mem_nil, or_false,
      not_or] at hkey
    obtain ⟨k0, k1, k2, k3, k4, k5, k6, k7, k8, k9, k10⟩ := hkey
    rw [Parameter_set.read_line, if_pos ⟨hhead, hlen⟩, hs]
    simp only [List.getElem?_cons_zero, Option.bind_eq_bind, Option.some_bind, if_neg k0,
      if_neg k1, if_neg k2, if_neg k3, if_neg k4, if_neg k5, if_neg k6, if_neg k7, if_neg k8,
      if_neg k9, if_neg k10]
    rfl
  · intro k hline hhead hk
    exact read_line_key stod ps line k hline hhead hk
  · intro key rest hkey hl
    rw [hl, split_append _ _ (by simp) _ key (fun ch hch h => by
      rw [List.mem_singleton] at h
      exact hkey (h ▸ hch))]
    rfl
  · intro k p hk
    refine ⟨?_, ?_, ?_⟩
    · interval_cases k <;> rfl
    · interval_cases k <;> rfl
    · intro j hj hjk
      interval_cases k <;> interval_cases j <;> first | rfl | exact (hjk rfl).elim
  · intro file r hr
    have : ∃ ps1 : Parameter_set K, r = { ps1 with
        all := [ps1.mean_lambda, ps1.gamma_lambda, ps1.var_lambda, ps1.mean_q, ps1.gamma_q,
          ps1.var_q, ps1.beta, ps1.var_x, ps1.var_g, ps1.var_dx, ps1.var_dg] } := by
      unfold Parameter_set.read at hr
      cases file with
      | none =>
        simp only [Option.bind_eq_bind, Option.pure_def, Option.some_bind,
          Option.some.injEq] at hr
        exact ⟨ps, hr.symm⟩
      | some lines =>
        simp only [Option.bind_eq_bind, Option.pure_def] at hr
        cases hf : List.foldlM (Parameter_set.read_line stod) ps lines with
        | none => rw [hf] at hr; cases hr
        | some ps1 =>
          rw [hf] at hr
          simp only [Option.some_bind, Option.some.injEq] at hr
          exact ⟨ps1, hr.symm⟩
    obtain ⟨ps1, rfl⟩ := this
    exact ⟨rfl, rfl⟩

/-- C25 at the line `beta = 3` and at a file of four lines, with a `std::stod`
that reads strings of digits. -/
theorem read_line_changes_named_parameter_only_witness :
    ((unset_parameters : Parameter_set ℚ).read_line stod_digits "beta = 3".toList
        = some ((unset_parameters : Parameter_set ℚ).put 6
            { (unset_parameter : Parameter ℚ) with
              name := "beta".toList, set := true, fixed := true, value := 3 }) ∧
      ((Parameter_set.read stod_digits (unset_parameters : Parameter_set ℚ)
          (some ["# parameters".toList, [], "beta = 3".toList, "alpha = 1".toList,
            " var_x = 2, 1, 0, 9".toList])).map fun r => r.all.map fun p => (p.set, p.value))
        = some [(false, 0), (false, 0), (false, 0), (false, 0), (false, 0), (false, 0),
            (true, 3), (true, 2), (false, 0), (false, 0), (false, 0)]) ∧
    ((("beta = 3".toList = [] ∨ "beta = 3".toList.head? = some '#') → (unset_parameters : Parameter_set ℚ).read_line stod_digits "beta = 3".toList = some (unset_parameters : Parameter_set ℚ)) ∧
    ("beta = 3".toList ≠ [] → "beta = 3".toList.head? ≠ some '#' →
      trim ((split ['='] "beta = 3".toList).headD []) ∉ parameter_keys →
      (unset_parameters : Parameter_set ℚ).read_line stod_digits "beta = 3".toList = some (unset_parameters : Parameter_set ℚ)) ∧
    (∀ k, "beta = 3".toList ≠ [] → "beta = 3".toList.head? ≠ some '#' →
      parameter_keys[k]? = some (trim ((split ['='] "beta = 3".toList).headD [])) →
      (unset_parameters : Parameter_set ℚ).read_line stod_digits "beta = 3".toList
        = ((((unset_parameters : Parameter_set ℚ).get k).set_paramter stod_digits
            ((split ['='] "beta = 3".toList).set 0 (trim ((split ['='] "beta = 3".toList).headD [])))).map
            ((unset_parameters : Parameter_set ℚ).put k))) ∧
    (∀ (key rest : List Char), '=' ∉ key → "beta = 3".toList = key ++ '=' :: rest →
      (split ['='] "beta = 3".toList).headD [] = key) ∧
    (∀ (k : Nat) (p : Parameter ℚ), k < 11 →
      ((unset_parameters : Parameter_set ℚ).put k p).get k = p ∧ ((unset_parameters : Parameter_set ℚ).put k p).all = (unset_parameters : Parameter_set ℚ).all ∧
      ∀ j, j < 11 → j ≠ k → ((unset_parameters : Parameter_set ℚ).put k p).get j = (unset_parameters : Parameter_set ℚ).get j) ∧
    (∀ (file : Option (List (List Char))) (r : Parameter_set ℚ),
      Parameter_set.read stod_digits (unset_parameters : Parameter_set ℚ) file = some r →
      r.all = [r.mean_lambda, r.gamma_lambda, r.var_lambda, r.mean_q, r.gamma_q, r.var_q,
        r.beta, r.var_x, r.var_g, r.var_dx, r.var_dg] ∧
      r.all = (List.range 11).map r.get) ∧
    (Parameter_set.read stod_digits (unset_parameters : Parameter_set ℚ) none).isSome = true) :=
  ⟨⟨rfl, rfl⟩,
    read_line_changes_named_parameter_only stod_digits unset_parameters "beta = 3".toList⟩

end ParameterFile

/-! ## The exit status without the required files (C26) -/

section ExitStatus

/-- The body of the loops of `arg_parser` returns when no flag that takes a value
is the last argument. -/
theorem parse_args_step_eq (argv : List String) (k i : Nat) (arguments : Arguments)
    (hk : k < 10) (h1i : 1 ≤ i) (hi : i < argv.length)
    (hlast : ∀ k, 1 ≤ k → k ≤ 6 → 2 ≤ argv.length →
      is_flag argv k (argv.length - 1) = false) :
    parse_args_step argv k arguments i = some (step_effect argv k i arguments) := by
  have ha : argv[i]? = some argv[i] := List.getElem?_eq_getElem hi
  by_cases hf : is_flag argv k i = true
  · have hnext : 1 ≤ k → k ≤ 6 → ∃ value, argv[i + 1]? = some value := by
      intro h1 h6
      have hne : i ≠ argv.length - 1 := by
        intro e
        rw [e, hlast k h1 h6 (by omega)] at hf
        cases hf
      have hlt : i + 1 < argv.length := by omega
      exact ⟨_, List.getElem?_eq_getElem hlt⟩
    have hse : ∀ (name0 : String) (v : Option String),
        argument_names[k]? = some name0 → (if 1 ≤ k ∧ k ≤ 6 then argv[i + 1]? else some "1") = v →
        step_effect argv k i arguments = fun name => if name = name0 then v else arguments name := by
      intro name0 v h1 h2
      funext name
      simp only [step_effect, hf, h1, h2, true_and, Option.some.injEq]
      by_cases e : name = name0
      · simp [e]
      · simp [e, Ne.symm e]
    interval_cases k
    all_goals
      simp only [is_flag, ha, keys, List.getElem?_cons_zero, List.getElem?_cons_succ,
        Bool.or_eq_true, beq_iff_eq] at hf
    · rw [hse "quit" (some "1") rfl rfl]
      simp +decide [parse_args_step, ha, keys, key_indices, hf]
      rfl
    · obtain ⟨value, hn⟩ := hnext (by omega) (by omega)
      rw [hse "infile" (some value) rfl (by simpa using hn)]
      simp +decide [parse_args_step, ha, keys, key_indices, hf, hn]
      rfl
    · obtain ⟨value, hn⟩ := hnext (by omega) (by omega)
      rw [hse "parameter_bounds" (some value) rfl (by simpa using hn)]
      simp +decide [parse_args_step, ha, keys, key_indices, hf, hn]
      rfl
    · obtain ⟨value, hn⟩ := hnext (by omega) (by omega)
      rw [hse "csv_config" (some value) rfl (by simpa using hn)]
      simp +decide [parse_args_step, ha, keys, key_indices, hf, hn]
      rfl
    · obtain ⟨value, hn⟩ := hnext (by omega) (by omega)
      rw [hse "print_level" (some value) rfl (by simpa using hn)]
      simp +decide [parse_args_step, ha, keys, key_indices, hf, hn]
      rfl
    · obtain ⟨value, hn⟩ := hnext (by omega) (by omega)
      rw [hse "outdir" (some value) rfl (by simpa using hn)]
      simp +decide [parse_args_step, ha, keys, key_indices, hf, hn]
      rfl
    · obtain ⟨value, hn⟩ := hnext (by omega) (by omega)
      rw [hse "rel_tol" (some value) rfl (by simpa using hn)]
      simp +decide [parse_args_step, ha, keys, key_indices, hf, hn]
      rfl
    · rw [hse "minimize" (some "1") rfl rfl]
      simp +decide [parse_args_step, ha, keys, key_indices, hf]
      rfl
    · rw [hse "scan" (some "1") rfl rfl]
      simp +decide [parse_args_step, ha, keys, key_indices, hf]
      rfl
    · rw [hse "predict" (some "1") rfl rfl]
      simp +decide [parse_args_step, ha, keys, key_indices, hf]
      rfl
  · have hse : step_effect argv k i arguments = arguments := by
      funext name
      simp [step_effect, hf]
    rw [hse]
    interval_cases k
    all_goals
      simp only [is_flag, ha, keys, List.getElem?_cons_zero, List.getElem?_cons_succ,
        Bool.or_eq_true, beq_iff_eq] at hf
    all_goals simp [parse_args_step, ha, keys, hf]

theorem parse_args_inner_eq (argv : List String) (k : Nat) (hk : k < 10)
    (hlast : ∀ k, 1 ≤ k → k ≤ 6 → 2 ≤ argv.length →
      is_flag argv k (argv.length - 1) = false) :
    ∀ (l : List Nat) (arguments : Arguments), (∀ i ∈ l, 1 ≤ i ∧ i < argv.length) →
      l.foldlM (parse_args_step argv k) arguments
        = some (l.foldl (fun a i => step_effect argv k i a) arguments)
  | [], _, _ => rfl
  | i :: l, arguments, h => by
    rw [List.foldlM_cons, parse_args_step_eq argv k i arguments hk (h i (by simp)).1
      (h i (by simp)).2 hlast]
    exact parse_args_inner_eq argv k hk hlast l _ (fun j hj => h j (by simp [hj]))

theorem parse_args_outer_eq (argv : List String)
    (hlast : ∀ k, 1 ≤ k → k ≤ 6 → 2 ≤ argv.length →
      is_flag argv k (argv.length - 1) = false) :
    ∀ (ks : List Nat) (arguments : Arguments), (∀ k ∈ ks, k < 10) →
      ks.foldlM
          (fun arguments k =>
            (List.range' 1 (argv.length - 1)).foldlM (parse_args_step argv k) arguments)
          arguments
        = some (ks.foldl
            (fun a k =>
              (List.range' 1 (argv.length - 1)).foldl (fun a i => step_effect argv k i a) a)
            arguments)
  | [], _, _ => rfl
  | k :: ks, arguments, h => by
    rw [List.foldlM_cons, parse_args_inner_eq argv k (h k (by simp)) hlast _ arguments
      (fun i hi => by
        rw [List.mem_range'_1] at hi
        omega)]
    exact parse_args_outer_eq argv hlast ks _ (fun j hj => h j (by simp [hj]))

/-- The value under `name` after the inner loop at the key `k`. -/
theorem foldl_step_effect (argv : List String) (k : Nat) (name : String) :
    ∀ (l : List Nat) (arguments : Arguments),
      (l.foldl (fun a i => step_effect argv k i a) arguments) name
        = l.foldl
            (fun value i =>
              if is_flag argv k i = true ∧ argument_names[k]? = some name then
                (if 1 ≤ k ∧ k ≤ 6 then argv[i + 1]? else some "1")
              else value)
            (arguments name)
  | [], _ => rfl
  | i :: l, arguments => by
    rw [List.foldl_cons, foldl_step_effect argv k name l]
    rfl

theorem foldl_keep {α β : Type} (l : List β) (a : α) : l.foldl (fun value _ => value) a = a := by
  induction l with
  | nil => rfl
  | cons _ _ ih => exact ih

/-- The value under the name of a flag that takes a value, after the two loops
of `arg_parser`. -/
theorem parse_args_loop_value (argv : List String)
    (hlast : ∀ k, 1 ≤ k → k ≤ 6 → 2 ≤ argv.length →
      is_flag argv k (argv.length - 1) = false) :
    ∃ arguments, parse_args_loop argv = some arguments ∧
      arguments "infile" = flag_value argv 1 none ∧
      arguments "parameter_bounds" = flag_value argv 2 none ∧
      arguments "print_level" = flag_value argv 4 (some "0") := by
  refine ⟨_, parse_args_outer_eq argv hlast (List.range keys.length) _ (fun k hk => by
    simpa [keys] using hk), ?_, ?_, ?_⟩
  all_goals
    simp +decide only [keys, List.length_cons, List.length_nil, List.range_succ, List.range_zero,
      List.nil_append, List.cons_append, List.foldl_cons, List.foldl_nil, foldl_step_effect,
      argument_names, List.getElem?_cons_zero, List.getElem?_cons_succ, and_false, and_true,
      if_false, if_true, foldl_keep, flag_value, Arguments.insert]

theorem foldl_flag_absent (argv : List String) (k : Nat) :
    ∀ (l : List Nat) (d : Option String), (∀ i ∈ l, is_flag argv k i = false) →
      l.foldl (fun value i => if is_flag argv k i then argv[i + 1]? else value) d = d
  | [], _, _ => rfl
  | i :: l, d, h => by
    rw [List.foldl_cons, h i (by simp)]
    exact foldl_flag_absent argv k l d (fun j hj => h j (by simp [hj]))

/-- Without the flag among the arguments the default stays. -/
theorem flag_value_absent (argv : List String) (k : Nat) (d : Option String)
    (h : ∀ i, 1 ≤ i → i < argv.length → is_flag argv k i = false) :
    flag_value argv k d = d :=
  foldl_flag_absent argv k _ d (fun i hi => by
    rw [List.mem_range'_1] at hi
    exact h i hi.1 (by omega))

/-- The value of a flag is the argument after its last occurrence. -/
theorem flag_value_last (argv : List String) (k : Nat) (d : Option String) (i : Nat)
    (h1 : 1 ≤ i) (hi : i + 1 < argv.length) (hf : is_flag argv k i = true)
    (hlater : ∀ j, i < j → j < argv.length → is_flag argv k j = false) :
    flag_value argv k d = argv[i + 1]? := by
  have hsplit : List.range' 1 (argv.length - 1)
      = List.range' 1 (i - 1) ++ i :: List.range' (i + 1) (argv.length - 1 - i) := by
    have e1 : List.range' 1 (argv.length - 1)
        = List.range' 1 (i - 1) ++ List.range' (1 + (i - 1)) (argv.length - 1 - i + 1) := by
      rw [List.range'_append_1]
      congr 1
      omega
    have e2 : 1 + (i - 1) = i := by omega
    rw [e1, List.range'_succ, e2]
  rw [flag_value, hsplit, List.foldl_append, List.foldl_cons, hf]
  exact foldl_flag_absent argv k _ _ (fun j hj => by
    rw [List.mem_range'_1] at hj
    exact hlater j (by omega) (by omega))

/-- The checks of `arg_parser` store "quit" when a required file is not given or
does not exist, and leave the print level as it is. -/
theorem parse_args_checks_quit (file_exists : String → Bool) (arguments : Arguments)
    (h : (∀ f, arguments "infile" = some f → file_exists f = false) ∨
      (∀ f, arguments "parameter_bounds" = some f → file_exists f = false)) :
    (parse_args_checks file_exists arguments).count "quit" = true ∧
    (parse_args_checks file_exists arguments) "print_level" = arguments "print_level" := by
  have hcases : (arguments "infile" = none ∨
        ∃ f, arguments "infile" = some f ∧ file_exists f = false) ∨
      (arguments "parameter_bounds" = none ∨
        ∃ f, arguments "parameter_bounds" = some f ∧ file_exists f = false) := by
    rcases h with h | h
    · left
      cases hin : arguments "infile" with
      | none => exact Or.inl rfl
      | some f => exact Or.inr ⟨f, rfl, h f hin⟩
    · right
      cases hbn : arguments "parameter_bounds" with
      | none => exact Or.inl rfl
      | some f => exact Or.inr ⟨f, rfl, h f hbn⟩
  unfold parse_args_checks
  rcases hcases with (hin | ⟨f, hin, hf⟩) | (hbn | ⟨f, hbn, hf⟩)
  · simp +decide [Arguments.count, Arguments.insert, hin]
    split_ifs <;> simp +decide [Arguments.insert]
  · simp +decide [Arguments.count, Arguments.insert, hin, hf]
    split_ifs <;> simp +decide [Arguments.insert]
  · simp +decide [Arguments.count, Arguments.insert, hbn]
    split_ifs <;> simp +decide [Arguments.insert, hbn]
  · simp +decide [Arguments.count, Arguments.insert, hbn, hf]
    split_ifs <;> simp_all +decide [Arguments.insert]

/-- Function `main` when the checks of `arg_parser` store "quit": the result is
0 when `std::stoi` returns, and nothing is returned when `std::stoi` throws. -/
theorem main_eq_zero (file_exists : String → Bool) (stoi : String → Option Int)
    (rest : Arguments → Option Int) (argv : List String)
    (hlast : ∀ k, 1 ≤ k → k ≤ 6 → 2 ≤ argv.length →
      is_flag argv k (argv.length - 1) = false)
    (hmiss : (∀ f, flag_value argv 1 none = some f → file_exists f = false) ∨
      (∀ f, flag_value argv 2 none = some f → file_exists f = false)) :
    main file_exists stoi rest argv
      = (stoi ((flag_value argv 4 (some "0")).getD "")).map (fun _ => (0 : Int)) := by
  obtain ⟨arguments, hloop, hin, hbn, hpl⟩ := parse_args_loop_value argv hlast
  obtain ⟨hq, hp⟩ := parse_args_checks_quit file_exists arguments (by rw [hin, hbn]; exact hmiss)
  simp only [main, parse_args, hloop, Option.bind_eq_bind, Option.some_bind, Option.pure_def,
    hp, hpl, hq, if_true]
  cases stoi ((flag_value argv 4 (some "0")).getD "") <;> rfl

end ExitStatus

/-! ## What `set_paramter` reads (C33) -/

section SetParameterRange

variable {K : Type}

/-- The split has two tokens or more exactly when the string has a delimiter. -/
theorem split_length (delims : List Char) :
    ∀ s : List Char, 1 ≤ (split delims s).length ∧
      (2 ≤ (split delims s).length ↔ ∃ ch ∈ s, ch ∈ delims)
  | [] => by simp [split]
  | ch :: rest => by
    obtain ⟨h1, h2⟩ := split_length delims rest
    obtain ⟨token, tokens, hs⟩ := split_cons delims rest
    by_cases hch : ch ∈ delims
    · have hc : delims.contains ch = true := by simpa using hch
      rw [split, hc]
      simp only [if_true, List.length_cons]
      exact ⟨by omega, ⟨fun _ => ⟨ch, by simp, hch⟩, fun _ => by omega⟩⟩
    · have hc : delims.contains ch = false := by simpa using hch
      rw [split, hc, hs]
      rw [hs] at h1 h2
      simp only [Bool.false_eq_true, if_false, List.length_cons] at h1 h2 ⊢
      refine ⟨by omega, h2.trans ⟨?_, ?_⟩⟩
      · rintro ⟨x, hx, hd⟩
        exact ⟨x, by simp [hx], hd⟩
      · rintro ⟨x, hx, hd⟩
        rw [List.mem_cons] at hx
        rcases hx with rfl | hx
        · exact (hch hd).elim
        · exact ⟨x, hx, hd⟩

/-- Member function `set_paramter` by the number of entries of the value part. -/
theorem set_paramter_by_entries (stod : List Char → Option K) (p : Parameter K)
    (key val : List Char) (more : List (List Char)) :
    (∀ a : List Char, split [','] val = [a] →
      p.set_paramter stod (key :: val :: more)
        = (stod (trim a)).map fun v =>
            { p with name := key, set := true, fixed := true, value := v }) ∧
    (∀ a b : List Char, split [','] val = [a, b] →
      p.set_paramter stod (key :: val :: more) = none) ∧
    (∀ a b c : List Char, split [','] val = [a, b, c] →
      p.set_paramter stod (key :: val :: more) = none) ∧
    (∀ (a b c d : List Char) (ignored : List (List Char)),
      split [','] val = a :: b :: c :: d :: ignored →
      p.set_paramter stod (key :: val :: more)
        = (stod (trim a)).bind fun v => (stod (trim b)).bind fun s =>
            (stod (trim c)).bind fun l => (stod (trim d)).map fun u =>
              { name := key, set := true, fixed := false, value := v, step := s, lower := l,
                upper := u }) := by
  refine ⟨?_, ?_, ?_, ?_⟩
  · intro a h
    simp only [Parameter.set_paramter, h, List.getElem?_cons_zero, List.getElem?_cons_succ,
      Option.bind_eq_bind, Option.some_bind, List.map_cons, List.map_nil, List.length_cons,
      List.length_nil]
    cases stod (trim a) <;> rfl
  · intro a b h
    simp only [Parameter.set_paramter, h, List.getElem?_cons_zero, List.getElem?_cons_succ,
      Option.bind_eq_bind, Option.some_bind, List.map_cons, List.map_nil, List.length_cons,
      List.length_nil]
    cases stod (trim a) <;> cases stod (trim b) <;> rfl
  · intro a b c h
    simp only [Parameter.set_paramter, h, List.getElem?_cons_zero, List.getElem?_cons_succ,
      Option.bind_eq_bind, Option.some_bind, List.map_cons, List.map_nil, List.length_cons,
      List.length_nil]
    cases stod (trim a) <;> cases stod (trim b) <;> cases stod (trim c) <;> rfl
  · intro a b c d ignored h
    simp only [Parameter.set_paramter, h, List.getElem?_cons_zero, List.getElem?_cons_succ,
      Option.bind_eq_bind, Option.some_bind, List.map_cons, List.length_cons]
    have : (List.map trim ignored).length + 1 + 1 + 1 + 1 > 1 := by omega
    rw [if_pos this]
    cases stod (trim a) <;> cases stod (trim b) <;> cases stod (trim c) <;>
      cases stod (trim d) <;> rfl

/-- C33: `Parameter::set_paramter` returns `none` when `parts` has fewer than two
elements, which is when the line has no `=`.  With a value part it reads entry 0
only when the split at `,` has one entry; it reads the entries 0 to 3 when the
split has four entries or more, whatever comes after the fourth; and with two or
three entries it reads entry 2 or entry 3 past the end, for every `std::stod`.
So with a `std::stod` that reads every string, `set_paramter` returns exactly
when `parts` has two elements or more and the split has one entry or at least
four. -/
theorem set_paramter_reads_past_the_end (stod : List Char → Option K) (p : Parameter K)
    (parts : List (List Char)) (line : List Char) :
    (parts.length < 2 → p.set_paramter stod parts = none) ∧
    ('=' ∈ line ↔ 2 ≤ (split ['='] line).length) ∧
    (∀ (key val : List Char) (more : List (List Char)), parts = key :: val :: more →
      1 ≤ (split [','] val).length ∧
      ((split [','] val).length = 2 ∨ (split [','] val).length = 3 →
        p.set_paramter stod parts = none) ∧
      (∀ a : List Char, split [','] val = [a] →
        p.set_paramter stod parts
          = (stod (trim a)).map fun v =>
              { p with name := key, set := true, fixed := true, value := v }) ∧
      (∀ (a b c d : List Char) (ignored : List (List Char)),
        split [','] val = a :: b :: c :: d :: ignored →
        p.set_paramter stod parts
          = (stod (trim a)).bind fun v => (stod (trim b)).bind fun s =>
              (stod (trim c)).bind fun l => (stod (trim d)).map fun u =>
                { name := key, set := true, fixed := false, value := v, step := s,
                  lower := l, upper := u })) ∧
    ((∀ s, (stod s).isSome = true) →
      ((p.set_paramter stod parts).isSome = true ↔
        2 ≤ parts.length ∧
        ∃ val, parts[1]? = some val ∧
          ((split [','] val).length = 1 ∨ 4 ≤ (split [','] val).length))) := by
  refine ⟨?_, ?_, ?_, ?_⟩
  · intro h
    rcases parts with _ | ⟨key, _ | ⟨val, more⟩⟩
    · rfl
    · rfl
    · simp at h
      omega
  · rw [(split_length ['='] line).2]
    simp
  · rintro key val more rfl
    obtain ⟨h1, h2, h3, h4⟩ := set_paramter_by_entries stod p key val more
    refine ⟨(split_length [','] val).1, ?_, h1, h4⟩
    intro hn
    rcases hs : split [','] val with _ | ⟨a, _ | ⟨b, _ | ⟨c, _ | ⟨d, ignored⟩⟩⟩⟩
    · rw [hs] at hn
      simp at hn
    · rw [hs] at hn
      simp at hn
    · exact h2 a b hs
    · exact h3 a b c hs
    · rw [hs] at hn
      simp at hn
  · intro hstod
    have hv : ∀ s, ∃ v, stod s = some v := fun s => Option.isSome_iff_exists.1 (hstod s)
    rcases parts with _ | ⟨key, _ | ⟨val, more⟩⟩
    · simp [Parameter.set_paramter]
    · simp [Parameter.set_paramter]
    · obtain ⟨h1, h2, h3, h4⟩ := set_paramter_by_entries stod p key val more
      rcases hs : split [','] val with _ | ⟨a, _ | ⟨b, _ | ⟨c, _ | ⟨d, ignored⟩⟩⟩⟩
      · have := (split_length [','] val).1
        rw [hs] at this
        simp at this
      · obtain ⟨v, hv1⟩ := hv (trim a)
        rw [h1 a hs, hv1]
        simp [hs]
      · rw [h2 a b hs]
        simp [hs]
      · rw [h3 a b c hs]
        simp [hs]
      · obtain ⟨v, hv1⟩ := hv (trim a)
        obtain ⟨s, hv2⟩ := hv (trim b)
        obtain ⟨l, hv3⟩ := hv (trim c)
        obtain ⟨u, hv4⟩ := hv (trim d)
        rw [h4 a b c d ignored hs, hv1, hv2, hv3, hv4]
        simp [hs]

/-- C33 at value parts of two, three and five entries, with a `std::stod` that
reads every string. -/
theorem set_paramter_reads_past_the_end_witness :
    ((unset_parameter : Parameter ℚ).set_paramter stod_lenient
        ["beta".toList, " 1, 2".toList] = none ∧
      (unset_parameter : Parameter ℚ).set_paramter stod_lenient
        ["beta".toList, " 1, 2, 3".toList] = none ∧
      (unset_parameter : Parameter ℚ).set_paramter stod_lenient
        ["beta".toList, " 1, 2, 3, 4, 5".toList]
        = some { name := "beta".toList, set := true, fixed := false, value := 1, step := 2,
                 lower := 3, upper := 4 } ∧
      (unset_parameter : Parameter ℚ).set_paramter stod_lenient ["beta".toList] = none ∧
      split [','] " 1, 2".toList = [" 1".toList, " 2".toList] ∧
      ∀ s, ((stod_lenient s : Option ℚ)).isSome = true) ∧
    ((["beta".toList, " 1, 2".toList].length < 2 → (unset_parameter : Parameter ℚ).set_paramter stod_lenient ["beta".toList, " 1, 2".toList] = none) ∧
    ('=' ∈ "beta = 1, 2".toList ↔ 2 ≤ (split ['='] "beta = 1, 2".toList).length) ∧
    (∀ (key val : List Char) (more : List (List Char)), ["beta".toList, " 1, 2".toList] = key :: val :: more →
      1 ≤ (split [','] val).length ∧
      ((split [','] val).length = 2 ∨ (split [','] val).length = 3 →
        (unset_parameter : Parameter ℚ).set_paramter stod_lenient ["beta".toList, " 1, 2".toList] = none) ∧
      (∀ a : List Char, split [','] val = [a] →
        (unset_parameter : Parameter ℚ).set_paramter stod_lenient ["beta".toList, " 1, 2".toList]
          = (stod_lenient (trim a)).map fun v =>
              { (unset_parameter : Parameter ℚ) with name := key, set := true, fixed := true, value := v }) ∧
      (∀ (a b c d : List Char) (ignored : List (List Char)),
        split [','] val = a :: b :: c :: d :: ignored →
        (unset_parameter : Parameter ℚ).set_paramter stod_lenient ["beta".toList, " 1, 2".toList]
          = (stod_lenient (trim a)).bind fun v => (stod_lenient (trim b)).bind fun s =>
              (stod_lenient (trim c)).bind fun l => (stod_lenient (trim d)).map fun u =>
                { name := key, set := true, fixed := false, value := v, step := s,
                  lower := l, upper := u })) ∧
    ((∀ s, ((stod_lenient s : Option ℚ)).isSome = true) →
      (((unset_parameter : Parameter ℚ).set_paramter stod_lenient ["beta".toList, " 1, 2".toList]).isSome = true ↔
        2 ≤ ["beta".toList, " 1, 2".toList].length ∧
        ∃ val, ["beta".toList, " 1, 2".toList][1]? = some val ∧
          ((split [','] val).length = 1 ∨ 4 ≤ (split [','] val).length)))) :=
  ⟨⟨rfl, rfl, rfl, rfl, rfl, fun _ => rfl⟩,
    set_paramter_reads_past_the_end stod_lenient unset_parameter
      ["beta".toList, " 1, 2".toList] "beta = 1, 2".toList⟩

end SetParameterRange

/-! ## The accesses of `sc_likelihood` (C32) -/

section InRange

variable {K : Type} [Field K]

/-- C32: for every cell whose time, length and fp sequences have the same length
T, every parameter vector of at least 13 entries and a parent pointer that is
null or the address of a cell, `sc_likelihood` returns: the parameter indices
0 to 12 are in range, the prior is set from the parent exactly when the cell is
not a root (a root needs no other cell), the columns `xg.col(t)` exist for
t < T, each of the T passes of the loop returns, and the result is the cell after
T `posterior` steps and the total with T `log_likelihood` terms added. -/
theorem sc_likelihood_in_range (M : MathFns K) (params_vec : List K)
    (cells : List (MOMAdata K)) (i : Nat) (c : MOMAdata K) (tl : K)
    (hc : cells[i]? = some c) (htime : c.time.length = c.fp.length)
    (hlength : c.length.length = c.fp.length) (hp : 13 ≤ params_vec.length)
    (hpar : ∀ p, c.parent = some p → p < cells.length) :
    (∀ k, k ≤ 12 → params_vec[k]? = some (param params_vec k)) ∧
    (c.is_root = true →
      sc_likelihood_prior M params_vec cells i = some (cells.set i (prior_root params_vec c))) ∧
    (∀ p, c.parent = some p → ∃ q, cells[p]? = some q ∧
      sc_likelihood_prior M params_vec cells i
        = some (cells.set i
            (prior_daughter M (param params_vec 9) (param params_vec 10) q c))) ∧
    ∃ (cells1 : List (MOMAdata K)) (c0 : MOMAdata K) (xg : Fin 2 → List K),
      sc_likelihood_prior M params_vec cells i = some cells1 ∧ cells1[i]? = some c0 ∧
      c0.time.length = c.time.length ∧
      sc_likelihood_xg c0 = some xg ∧
      (∀ t, t < c.time.length → col xg t = some (innovation c0 t) ∧
        ∀ s : MOMAdata K × K, sc_likelihood_step M params_vec xg s t
          = some (posterior (innovation c0 t) s.1 (param params_vec 7) (param params_vec 8),
              s.2 + log_likelihood M (innovation c0 t) s.1 (param params_vec 7)
                (param params_vec 8))) ∧
      (∀ n, n ≤ c.time.length →
        sc_likelihood_loop M params_vec xg n (c0, tl)
          = some (state_at params_vec c0 n, tl + partial_contribution M params_vec c0 n)) ∧
      sc_likelihood M params_vec cells i tl
        = some (cells1.set i (state_at params_vec c0 c.time.length),
            tl + partial_contribution M params_vec c0 c.time.length) := by
  have hi : i < cells.length := getElem?_lt_length hc
  have hobs : obs_ok c := ⟨hlength, htime⟩
  refine ⟨fun k hk => param_getElem? params_vec k (by omega), ?_, ?_, ?_⟩
  · intro hroot
    exact sc_likelihood_prior_root M params_vec cells i c hc
      (by simpa [MOMAdata.is_root] using hroot) hp
  · intro p hcp
    have hq := List.getElem?_eq_getElem (hpar p hcp)
    exact ⟨_, hq, sc_likelihood_prior_daughter M params_vec cells i p c _ hc hcp hq hp⟩
  · have key : ∀ c0 : MOMAdata K, c0.time = c.time → c0.length = c.length → c0.fp = c.fp →
        sc_likelihood_prior M params_vec cells i = some (cells.set i c0) →
        ∃ (cells1 : List (MOMAdata K)) (c0 : MOMAdata K) (xg : Fin 2 → List K),
          sc_likelihood_prior M params_vec cells i = some cells1 ∧ cells1[i]? = some c0 ∧
          c0.time.length = c.time.length ∧
          sc_likelihood_xg c0 = some xg ∧
          (∀ t, t < c.time.length → col xg t = some (innovation c0 t) ∧
            ∀ s : MOMAdata K × K, sc_likelihood_step M params_vec xg s t
              = some (posterior (innovation c0 t) s.1 (param params_vec 7)
                    (param params_vec 8),
                  s.2 + log_likelihood M (innovation c0 t) s.1 (param params_vec 7)
                    (param params_vec 8))) ∧
          (∀ n, n ≤ c.time.length →
            sc_likelihood_loop M params_vec xg n (c0, tl)
              = some (state_at params_vec c0 n,
                  tl + partial_contribution M params_vec c0 n)) ∧
          sc_likelihood M params_vec cells i tl
            = some (cells1.set i (state_at params_vec c0 c.time.length),
                tl + partial_contribution M params_vec c0 c.time.length) := by
      intro c0 e1 e2 e3 hprior
      have hl0 : c0.length.length = c0.fp.length := by rw [e2, e3]; exact hlength
      have ht0 : c0.time.length = c0.fp.length := by rw [e1, e3]; exact htime
      have hc0 : (cells.set i c0)[i]? = some c0 := by simp [hi]
      have hxg : sc_likelihood_xg c0 = some _ := if_pos hl0
      refine ⟨_, c0, _, hprior, hc0, by rw [e1], hxg, ?_, ?_, ?_⟩
      · intro t ht
        have ht' : t < c0.fp.length := by rw [← ht0, e1]; exact ht
        obtain ⟨xg', h1, h2⟩ := col_xg c0 hl0 t ht'
        rw [hxg] at h1
        cases h1
        exact ⟨h2, fun s => sc_likelihood_step_eq M params_vec c0 hl0 hp _ hxg t ht' s⟩
      · intro n hn
        exact sc_likelihood_loop_eq M params_vec c0 hl0 hp _ hxg tl n
          (by rw [← ht0, e1]; exact hn)
      · have := sc_likelihood_of_prior M params_vec cells _ i c0 hprior hc0 ⟨hl0, ht0⟩ hp tl
        rw [this, final_state, contribution, e1]
    cases hcp : c.parent with
    | none =>
      exact key (prior_root params_vec c) rfl rfl rfl
        (sc_likelihood_prior_root M params_vec cells i c hc hcp hp)
    | some p =>
      obtain ⟨q, hq⟩ : ∃ q, cells[p]? = some q :=
        ⟨_, List.getElem?_eq_getElem (hpar p hcp)⟩
      exact key (prior_daughter M (param params_vec 9) (param params_vec 10) q c)
        rfl rfl rfl (sc_likelihood_prior_daughter M params_vec cells i p c q hc hcp hq hp)

/-- C32 at the daughter at address 1 of `family`, a cell with one observation
whose parent is the cell at address 0. -/
theorem sc_likelihood_in_range_witness :
    ((family : List (MOMAdata ℝ))[1]?.map (fun c => (c.parent, c.time.length))
        = some (some 0, 1)) ∧
    ∃ c : MOMAdata ℝ, (family : List (MOMAdata ℝ))[1]? = some c ∧
    ((∀ k, k ≤ 12 → (unit_params : List ℝ)[k]? = some (param unit_params k)) ∧
    (c.is_root = true →
      sc_likelihood_prior realFns unit_params family 1
        = some ((family : List (MOMAdata ℝ)).set 1 (prior_root unit_params c))) ∧
    (∀ p, c.parent = some p → ∃ q, (family : List (MOMAdata ℝ))[p]? = some q ∧
      sc_likelihood_prior realFns unit_params family 1
        = some ((family : List (MOMAdata ℝ)).set 1
            (prior_daughter realFns (param unit_params 9) (param unit_params 10) q c))) ∧
    ∃ (cells1 : List (MOMAdata ℝ)) (c0 : MOMAdata ℝ) (xg : Fin 2 → List ℝ),
      sc_likelihood_prior realFns unit_params family 1 = some cells1 ∧
      cells1[1]? = some c0 ∧
      c0.time.length = c.time.length ∧
      sc_likelihood_xg c0 = some xg ∧
      (∀ t, t < c.time.length → col xg t = some (innovation c0 t) ∧
        ∀ s : MOMAdata ℝ × ℝ, sc_likelihood_step realFns unit_params xg s t
          = some (posterior (innovation c0 t) s.1 (param unit_params 7) (param unit_params 8),
              s.2 + log_likelihood realFns (innovation c0 t) s.1 (param unit_params 7)
                (param unit_params 8))) ∧
      (∀ n, n ≤ c.time.length →
        sc_likelihood_loop realFns unit_params xg n (c0, 0)
          = some (state_at unit_params c0 n,
              0 + partial_contribution realFns unit_params c0 n)) ∧
      sc_likelihood realFns unit_params family 1 0
        = some (cells1.set 1 (state_at unit_params c0 c.time.length),
            0 + partial_contribution realFns unit_params c0 c.time.length)) :=
  ⟨rfl, _, rfl,
    sc_likelihood_in_range realFns unit_params family 1 _ 0 rfl rfl rfl unit_params_length
      (fun p hp => by
        cases hp
        simp [family])⟩

end InRange

/-! ## The forest that `build_cell_genealogy` builds (C31) -/

section Forest

variable {K : Type} [Field K]

omit [Field K] in
/-- After `build_cell_genealogy` a daughter of `p` names `p` as its parent and
has its parent pointer set to `p`. -/
theorem built_daughter_parent {cells0 : List (MOMAdata K)}
    (hid : (cells0.map MOMAdata.cell_id).Nodup) {p x : Nat} {cp : MOMAdata K}
    (hcp : (linked_cells cells0 cells0.length 0)[p]? = some cp)
    (hd : cp.daughter1 = some x ∨ cp.daughter2 = some x) :
    names_parent cells0 x p = true ∧
      ∃ cx, (linked_cells cells0 cells0.length 0)[x]? = some cx ∧ cx.parent = some p := by
  obtain ⟨c0, -, rfl⟩ := built_cell hcp
  have hn : names_parent cells0 x p = true := by
    rcases hd with hd | hd
    · exact children_getElem? (show (children cells0 p)[0]? = some x from hd)
    · exact children_getElem? (show (children cells0 p)[1]? = some x from hd)
  refine ⟨hn, _, linked_cells_final cells0 x _ (List.getElem?_eq_getElem (names_parent_lt hn).1),
    ?_⟩
  exact parents_upto_getLast? hid hn

omit [Field K] in
theorem Reachable.inv {cells : List (MOMAdata K)} {r x : Nat} (h : Reachable cells r x) :
    x = r ∨ ∃ (i : Nat) (c : MOMAdata K), Reachable cells r i ∧ cells[i]? = some c ∧
      (c.daughter1 = some x ∨ c.daughter2 = some x) := by
  cases h with
  | root => exact Or.inl rfl
  | daughter1 hi hc e => exact Or.inr ⟨_, _, hi, hc, Or.inl e⟩
  | daughter2 hi hc e => exact Or.inr ⟨_, _, hi, hc, Or.inr e⟩

omit [Field K] in
/-- Where every daughter has its parent pointer set to the cell it is a daughter
of, a cell is reached from one root at most. -/
theorem reachable_unique_root {cells : List (MOMAdata K)}
    (hdp : ∀ (p x : Nat) (cp : MOMAdata K), cells[p]? = some cp →
      (cp.daughter1 = some x ∨ cp.daughter2 = some x) →
      ∃ cx, cells[x]? = some cx ∧ cx.parent = some p)
    {r r1 : Nat} {cr cr1 : MOMAdata K} (hr : cells[r]? = some cr) (hroot : cr.parent = none)
    (hr1 : cells[r1]? = some cr1) (hroot1 : cr1.parent = none) {x : Nat}
    (h : Reachable cells r x) : Reachable cells r1 x → r = r1 := by
  have step : ∀ {i x : Nat} {c : MOMAdata K}, cells[i]? = some c →
      (c.daughter1 = some x ∨ c.daughter2 = some x) → (Reachable cells r1 i → r = r1) →
      Reachable cells r1 x → r = r1 := by
    intro i x c hc e ih h1
    obtain ⟨cx, hcx, hpx⟩ := hdp i x c hc e
    rcases Reachable.inv h1 with rfl | ⟨j, cj, hj, hcj, ej⟩
    · rw [hr1] at hcx
      cases hcx
      rw [hroot1] at hpx
      cases hpx
    · obtain ⟨cx1, hcx1, hpx1⟩ := hdp j x cj hcj ej
      rw [hcx] at hcx1
      cases hcx1
      rw [hpx] at hpx1
      cases hpx1
      exact ih hj
  induction h with
  | root =>
    intro h1
    rcases Reachable.inv h1 with e | ⟨j, cj, -, hcj, ej⟩
    · exact e
    · obtain ⟨cx, hcx, hpx⟩ := hdp j r cj hcj ej
      rw [hr] at hcx
      cases hcx
      rw [hroot] at hpx
      cases hpx
  | daughter1 _ hc e ih => exact step hc (Or.inl e) ih
  | daughter2 _ hc e ih => exact step hc (Or.inr e) ih

omit [Field K] in
/-- Without a cell that is its own ancestor, the relation of a cell to the cell
it names as its parent is well-founded. -/
theorem names_parent_wf (cells0 : List (MOMAdata K))
    (hacyc : ∀ k, ¬ Relation.TransGen (NamesParent cells0) k k) :
    WellFounded (fun a b : Fin cells0.length => NamesParent cells0 a.val b.val) := by
  haveI : IsTrans (Fin cells0.length)
      (Relation.TransGen (fun a b : Fin cells0.length => NamesParent cells0 a.val b.val)) :=
    ⟨fun _ _ _ => Relation.TransGen.trans⟩
  haveI : IsIrrefl (Fin cells0.length)
      (Relation.TransGen (fun a b : Fin cells0.length => NamesParent cells0 a.val b.val)) :=
    ⟨fun k hk => hacyc k.val (Relation.TransGen.lift Fin.val (fun _ _ h => h) hk)⟩
  have hwf := Finite.wellFounded_of_trans_of_irrefl
    (Relation.TransGen (fun a b : Fin cells0.length => NamesParent cells0 a.val b.val))
  have hsub : Subrelation (fun a b : Fin cells0.length => NamesParent cells0 a.val b.val)
      (Relation.TransGen (fun a b : Fin cells0.length => NamesParent cells0 a.val b.val)) :=
    fun h => Relation.TransGen.single h
  exact Subrelation.wf hsub hwf

omit [Field K] in
/-- Without a cell that is its own ancestor, the daughter pointers under every
cell follow a finite genealogy. -/
theorem exists_shaped (cells0 : List (MOMAdata K))
    (hacyc : ∀ k, ¬ Relation.TransGen (NamesParent cells0) k k)
    (c : Nat) (hc : c < cells0.length) :
    ∃ g : Genealogy K, g.ptr = some c ∧ g.Shaped (linked_cells cells0 cells0.length 0) := by
  have key : ∀ a : Fin cells0.length, ∃ g : Genealogy K, g.ptr = some a.val ∧
      g.Shaped (linked_cells cells0 cells0.length 0) := by
    intro a
    induction a using (names_parent_wf cells0 hacyc).induction with
    | _ a ih =>
      have ha := linked_cells_final cells0 a.val _ (List.getElem?_eq_getElem a.isLt)
      have sub : ∀ (n : Nat) (x : Option Nat), (children cells0 a.val)[n]? = x →
          ∃ g : Genealogy K, g.ptr = x ∧ g.Shaped (linked_cells cells0 cells0.length 0) := by
        intro n x hx
        cases x with
        | none => exact ⟨.null, rfl, trivial⟩
        | some b =>
          have hb := children_getElem? hx
          exact ih ⟨b, (names_parent_lt hb).1⟩ hb
      obtain ⟨g1, p1, s1⟩ := sub 0 _ rfl
      obtain ⟨g2, p2, s2⟩ := sub 1 _ rfl
      refine ⟨.node a.val cells0[a.val] g1 g2, rfl, ?_, s1, s2⟩
      rw [links_getElem?, ha, p1, p2]
      rfl
  exact key ⟨c, hc⟩

omit [Field K] in
theorem links_set {cells : List (MOMAdata K)} {i : Nat} {c : MOMAdata K} (c1 : MOMAdata K)
    (hc : cells[i]? = some c) (h1 : c1.daughter1 = c.daughter1)
    (h2 : c1.daughter2 = c.daughter2) : links (cells.set i c1) = links cells := by
  apply List.ext_getElem?
  intro j
  rw [links_getElem?, links_getElem?]
  by_cases hj : i = j
  · subst hj
    rw [List.getElem?_set_self (getElem?_lt_length hc), hc]
    simp [h1, h2]
  · rw [List.getElem?_set_ne hj]

omit [Field K] in
theorem readable_set {cells : List (MOMAdata K)} {i : Nat} {c : MOMAdata K}
    (c1 : MOMAdata K) (hr : Readable cells) (hc : cells[i]? = some c) (h1 : c1.time = c.time)
    (h2 : c1.length = c.length) (h3 : c1.fp = c.fp) (h4 : c1.parent = c.parent) :
    Readable (cells.set i c1) := by
  intro j cj hj
  by_cases hij : i = j
  · subst hij
    rw [List.getElem?_set_self (getElem?_lt_length hc)] at hj
    cases hj
    obtain ⟨ho, hp⟩ := hr i c hc
    refine ⟨?_, fun p hp1 => ?_⟩
    · simpa [obs_ok, h1, h2, h3] using ho
    · rw [List.length_set]
      exact hp p (h4 ▸ hp1)
  · rw [List.getElem?_set_ne hij] at hj
    obtain ⟨ho, hp⟩ := hr j cj hj
    exact ⟨ho, fun p hp1 => by rw [List.length_set]; exact hp p hp1⟩

/-- Function `likelihood_recr` returns on cells that can be read and whose
daughter pointers follow a finite genealogy, with fuel for its depth. -/
theorem likelihood_recr_returns (M : MathFns K) (params_vec : List K)
    (hp : 13 ≤ params_vec.length) :
    ∀ (g : Genealogy K) (cells : List (MOMAdata K)) (tl : K) (fuel : Nat),
      g.Shaped cells → Readable cells → g.depth ≤ fuel →
      ∃ r, likelihood_recr M params_vec fuel g.ptr cells tl = some r ∧
        links r.1 = links cells ∧ Readable r.1
  | .null, cells, tl, fuel, _, hr, _ => ⟨(cells, tl), by simp [Genealogy.ptr], rfl, hr⟩
  | .node i c d1 d2, cells, tl, fuel, hs, hr, hf => by
    obtain ⟨k, rfl⟩ : ∃ k, fuel = k + 1 :=
      ⟨fuel - 1, by simp only [Genealogy.depth] at hf; omega⟩
    simp only [Genealogy.depth] at hf
    obtain ⟨h1, h2, h3⟩ := hs
    obtain ⟨c0, e0, ea, eb⟩ := links_eq_some h1
    obtain ⟨hobs, hpar⟩ := hr i c0 e0
    have hi : i < cells.length := getElem?_lt_length e0
    have hsome : c0.parent.isSome = (c0.parent.bind fun p => cells[p]?).isSome := by
      cases hcp : c0.parent with
      | none => rfl
      | some p => simp [List.getElem?_eq_getElem (hpar p hcp)]
    have hsc := sc_likelihood_eq M params_vec cells i c0 _ e0 hobs hp rfl hsome tl
    obtain ⟨f1, f2, f3, f4, f5, f6⟩ :=
      final_state_fields M params_vec (c0.parent.bind fun p => cells[p]?) c0
    have l1 := links_set (final_state params_vec
      (cell_prior M params_vec (c0.parent.bind fun p => cells[p]?) c0)) e0 f5 f6
    have r1 := readable_set (final_state params_vec
      (cell_prior M params_vec (c0.parent.bind fun p => cells[p]?) c0)) hr e0 f1 f2 f3 f4
    have hc1 : (cells.set i (final_state params_vec
        (cell_prior M params_vec (c0.parent.bind fun p => cells[p]?) c0)))[i]?
        = some (final_state params_vec
            (cell_prior M params_vec (c0.parent.bind fun p => cells[p]?) c0)) := by
      simp [hi]
    obtain ⟨s2, hs2, l2, r2⟩ := likelihood_recr_returns M params_vec hp d1 _
      (tl + contribution M params_vec
        (cell_prior M params_vec (c0.parent.bind fun p => cells[p]?) c0)) k
      (Genealogy.shaped_congr l1 d1 h2) r1 (by omega)
    have l2c : links s2.1 = links cells := l2.trans l1
    obtain ⟨c2, e2, -, e2b⟩ := links_eq_some (l2c ▸ h1)
    obtain ⟨s3, hs3, l3, r3⟩ := likelihood_recr_returns M params_vec hp d2 s2.1 s2.2 k
      (Genealogy.shaped_congr l2c d2 h3) r2 (by omega)
    refine ⟨s3, ?_, l3.trans l2c, r3⟩
    rw [Genealogy.ptr, likelihood_recr_succ, hsc]
    simp only [Option.some_bind, hc1, f5, ea, hs2, e2, e2b, hs3]

omit [Field K] in
/-- The cells that `build_cell_genealogy` returns can be read when the
observation sequences of every cell have one length. -/
theorem readable_built (cells0 : List (MOMAdata K)) (hobs : ∀ c ∈ cells0, obs_ok c) :
    Readable (linked_cells cells0 cells0.length 0) := by
  intro i c hc
  obtain ⟨c0, h0, rfl⟩ := built_cell hc
  refine ⟨hobs c0 (List.getElem?_mem h0), fun p hp => ?_⟩
  have hmem := List.mem_of_mem_getLast? (Option.mem_def.2 hp)
  rw [parents_upto, List.mem_filter, List.mem_range] at hmem
  rw [linked_cells_length]
  exact hmem.1

omit [Field K] in
/-- A cell that names itself as its parent is its own daughter1 exactly when no
earlier cell names it as parent. -/
theorem children_head_self (cells0 : List (MOMAdata K)) (k : Nat)
    (hk : names_parent cells0 k k = true) :
    (children cells0 k)[0]? = some k ↔ ∀ j, j < k → names_parent cells0 j k = false := by
  have hlt := (names_parent_lt hk).1
  have hsplit : children cells0 k
      = children_upto cells0 k k ++ k ::
          ((List.range (cells0.length - (k + 1))).map fun x => k + 1 + x).filter
            (fun j => names_parent cells0 j k) := by
    have e : cells0.length = (k + 1) + (cells0.length - (k + 1)) := by omega
    rw [children, children_upto]
    conv_lhs => rw [e, List.range_add, List.filter_append]
    rw [← children_upto, children_upto_succ, hk]
    simp
  rw [hsplit]
  constructor
  · intro h j hj
    by_contra hn
    have hn1 : names_parent cells0 j k = true := by simpa using hn
    have hmem : j ∈ children_upto cells0 k k := by
      rw [children_upto, List.mem_filter, List.mem_range]
      exact ⟨hj, hn1⟩
    obtain ⟨a, t, hat⟩ := List.exists_cons_of_ne_nil (List.ne_nil_of_mem hmem)
    rw [hat] at h
    simp only [List.cons_append, List.getElem?_cons_zero, Option.some.injEq] at h
    have ha : a ∈ children_upto cells0 k k := by rw [hat]; simp
    rw [children_upto, List.mem_filter, List.mem_range] at ha
    omega
  · intro h
    have hnil : children_upto cells0 k k = [] := by
      rw [children_upto, List.filter_eq_nil_iff]
      intro j hj
      rw [List.mem_range] at hj
      simp [h j hj]
    rw [hnil]
    simp

/-- C31 as amended: for every vector of cells with unique cell ids and null
pointers beforehand `build_cell_genealogy` returns, every cell that is daughter1
or daughter2 of `p` has its parent pointer set to `p`, and every cell is reachable
from at most one root.  When no cell is its own ancestor in the parent_id
relation, the daughter pointers under every cell follow a finite genealogy, and
with fuel for its depth `apply_down_tree_recr` (for a function that leaves the
daughter pointers as they are), `get_genealogy_paths_recr` and `likelihood_recr`
(for at least 13 parameters and observation sequences of one length per cell)
return.  A cell whose parent_id is its own cell_id becomes its own parent; it
becomes its own daughter1 exactly when no earlier cell of the vector names it as
its parent. -/
theorem build_cell_genealogy_forest (cells0 : List (MOMAdata K)) (h : unlinked cells0)
    (hid : (cells0.map MOMAdata.cell_id).Nodup) :
    ∃ cells, build_cell_genealogy cells0 = some cells ∧
      cells.length = cells0.length ∧
      (∀ (p x : Nat) (cp : MOMAdata K), cells[p]? = some cp →
        (cp.daughter1 = some x ∨ cp.daughter2 = some x) →
        ∃ cx, cells[x]? = some cx ∧ cx.parent = some p) ∧
      (∀ r r1 x, r ∈ get_roots cells → r1 ∈ get_roots cells → Reachable cells r x →
        Reachable cells r1 x → r = r1) ∧
      ((∀ k, ¬ Relation.TransGen (NamesParent cells0) k k) →
        ∀ c, c < cells.length → ∃ g : Genealogy K, g.ptr = some c ∧ g.Shaped cells ∧
          (∀ (P : Type) (func : Nat → List (MOMAdata K) × P → List (MOMAdata K) × P)
              (params : P) (fuel : Nat),
            (∀ i s, links (func i s).1 = links s.1) → g.depth ≤ fuel →
            apply_down_tree_recr func fuel (some c) (cells, params)
              = some (g.addrs.foldl (fun s i => func i s) (cells, params))) ∧
          (∀ (fuel : Nat) (cur : List Nat) (acc : List (List Nat)), g.depth ≤ fuel →
            get_genealogy_paths_recr cells fuel (some c) (cur, acc)
              = some (cur, acc ++ g.paths.map fun path => cur ++ path)) ∧
          (∀ (M : MathFns K) (params_vec : List K) (tl : K) (fuel : Nat),
            13 ≤ params_vec.length → (∀ c0 ∈ cells0, obs_ok c0) → g.depth ≤ fuel →
            ∃ r, likelihood_recr M params_vec fuel (some c) cells tl = some r)) ∧
      (∀ (k : Nat) (ck : MOMAdata K), cells[k]? = some ck → ck.parent_id = ck.cell_id →
        ck.parent = some k ∧
        (ck.daughter1 = some k ↔ ∀ j, j < k → names_parent cells0 j k = false)) := by
  have hdp : ∀ (p x : Nat) (cp : MOMAdata K),
      (linked_cells cells0 cells0.length 0)[p]? = some cp →
      (cp.daughter1 = some x ∨ cp.daughter2 = some x) →
      ∃ cx, (linked_cells cells0 cells0.length 0)[x]? = some cx ∧ cx.parent = some p :=
    fun p x cp hcp hd => (built_daughter_parent hid hcp hd).2
  have hroots : ∀ r, r ∈ get_roots (linked_cells cells0 cells0.length 0) →
      ∃ cr, (linked_cells cells0 cells0.length 0)[r]? = some cr ∧ cr.parent = none := by
    intro r hr
    have hlt : r < (linked_cells cells0 cells0.length 0).length := by
      rw [get_roots_eq_filter, List.mem_filter, List.mem_range] at hr
      exact hr.1
    have hc := List.getElem?_eq_getElem hlt
    refine ⟨_, hc, ?_⟩
    have := (mem_get_roots _ r _ hc).1 hr
    simpa [MOMAdata.is_root] using this
  refine ⟨_, build_cell_genealogy_eq cells0 h, linked_cells_length cells0 _ _, hdp, ?_, ?_, ?_⟩
  · intro r r1 x hr hr1 hx hx1
    obtain ⟨cr, hcr, hpr⟩ := hroots r hr
    obtain ⟨cr1, hcr1, hpr1⟩ := hroots r1 hr1
    exact reachable_unique_root hdp hcr hpr hcr1 hpr1 hx hx1
  · intro hacyc c hc
    rw [linked_cells_length] at hc
    obtain ⟨g, hptr, hs⟩ := exists_shaped cells0 hacyc c hc
    refine ⟨g, hptr, hs, ?_, ?_, ?_⟩
    · intro P func params fuel hfunc hfuel
      rw [← hptr]
      exact apply_down_tree_recr_eq func hfunc g _ fuel hs hfuel
    · intro fuel cur acc hfuel
      rw [← hptr]
      exact get_genealogy_paths_recr_eq _ g fuel cur acc hs hfuel
    · intro M params_vec tl fuel hp hobs hfuel
      obtain ⟨r, hr, -, -⟩ := likelihood_recr_returns M params_vec hp g _ tl fuel hs
        (readable_built cells0 hobs) hfuel
      rw [hptr] at hr
      exact ⟨r, hr⟩
  · intro k ck hck hself
    obtain ⟨c0, h0, rfl⟩ := built_cell hck
    have hk : names_parent cells0 k k = true := by
      rw [names_parent_eq h0 h0]
      simpa using hself.symm
    exact ⟨parents_upto_getLast? hid hk, children_head_self cells0 k hk⟩

/-- C31 as stated fails in its last part: of the two cells "a" and "b", where
"a" names "b" as its parent and "b" after it names itself, the cell "b" gets "a"
as its daughter1 and itself as its daughter2. -/
theorem own_parent_is_not_always_daughter1 :
    unlinked (late_own_parent : List (MOMAdata ℚ)) ∧
    ((late_own_parent : List (MOMAdata ℚ)).map MOMAdata.cell_id).Nodup ∧
    ∃ (cells : List (MOMAdata ℚ)) (cb : MOMAdata ℚ),
      build_cell_genealogy (late_own_parent : List (MOMAdata ℚ)) = some cells ∧
      cells[1]? = some cb ∧ cb.parent_id = cb.cell_id ∧ cb.parent = some 1 ∧
      cb.daughter1 = some 0 ∧ cb.daughter2 = some 1 ∧ cb.daughter1 ≠ some 1 :=
  ⟨by simp [unlinked, late_own_parent, read_cell], by simp [late_own_parent, read_cell],
    _, _, rfl, rfl, rfl, rfl, rfl, rfl, by decide⟩

omit [Field K] in
theorem six_cells_acyclic :
    ∀ k, ¬ Relation.TransGen (NamesParent (six_cells : List (MOMAdata ℚ))) k k := by
  have hlt : ∀ a b, NamesParent (six_cells : List (MOMAdata ℚ)) a b → b < a := by
    intro a b hab
    have h6 := names_parent_lt hab
    simp only [six_cells, List.length_cons, List.length_nil] at h6
    obtain ⟨ha, hb⟩ := h6
    interval_cases a <;> interval_cases b <;>
      first
        | omega
        | (exfalso
           revert hab
           simp [NamesParent, names_parent, six_cells, read_cell])
  have htrans : ∀ a b, Relation.TransGen (NamesParent (six_cells : List (MOMAdata ℚ))) a b →
      b < a := by
    intro a b hab
    induction hab with
    | single h1 => exact hlt _ _ h1
    | tail _ h1 ih => exact lt_trans (hlt _ _ h1) ih
  intro k hk
  exact lt_irrefl k (htrans k k hk)

/-- C31 as amended, at the six cells of the example, of which none is its own
ancestor, and in its last part at two cells of which the second names itself as
its parent. -/
theorem build_cell_genealogy_forest_witness :
    (unlinked (six_cells : List (MOMAdata ℚ)) ∧
      ((six_cells : List (MOMAdata ℚ)).map MOMAdata.cell_id).Nodup ∧
      (∀ k, ¬ Relation.TransGen (NamesParent (six_cells : List (MOMAdata ℚ))) k k) ∧
      (∀ c0 ∈ (six_cells : List (MOMAdata ℚ)), obs_ok c0) ∧
      unlinked (late_own_parent : List (MOMAdata ℚ)) ∧
      ((late_own_parent : List (MOMAdata ℚ)).map MOMAdata.cell_id).Nodup) ∧
    (∃ cells, build_cell_genealogy (six_cells : List (MOMAdata ℚ)) = some cells ∧
      cells.length = (six_cells : List (MOMAdata ℚ)).length ∧
      (∀ (p x : Nat) (cp : MOMAdata ℚ), cells[p]? = some cp →
        (cp.daughter1 = some x ∨ cp.daughter2 = some x) →
        ∃ cx, cells[x]? = some cx ∧ cx.parent = some p) ∧
      (∀ r r1 x, r ∈ get_roots cells → r1 ∈ get_roots cells → Reachable cells r x →
        Reachable cells r1 x → r = r1) ∧
      ((∀ k, ¬ Relation.TransGen (NamesParent (six_cells : List (MOMAdata ℚ))) k k) →
        ∀ c, c < cells.length → ∃ g : Genealogy ℚ, g.ptr = some c ∧ g.Shaped cells ∧
          (∀ (P : Type) (func : Nat → List (MOMAdata ℚ) × P → List (MOMAdata ℚ) × P)
              (params : P) (fuel : Nat),
            (∀ i s, links (func i s).1 = links s.1) → g.depth ≤ fuel →
            apply_down_tree_recr func fuel (some c) (cells, params)
              = some (g.addrs.foldl (fun s i => func i s) (cells, params))) ∧
          (∀ (fuel : Nat) (cur : List Nat) (acc : List (List Nat)), g.depth ≤ fuel →
            get_genealogy_paths_recr cells fuel (some c) (cur, acc)
              = some (cur, acc ++ g.paths.map fun path => cur ++ path)) ∧
          (∀ (M : MathFns ℚ) (params_vec : List ℚ) (tl : ℚ) (fuel : Nat),
            13 ≤ params_vec.length → (∀ c0 ∈ (six_cells : List (MOMAdata ℚ)), obs_ok c0) → g.depth ≤ fuel →
            ∃ r, likelihood_recr M params_vec fuel (some c) cells tl = some r)) ∧
      (∀ (k : Nat) (ck : MOMAdata ℚ), cells[k]? = some ck → ck.parent_id = ck.cell_id →
        ck.parent = some k ∧
        (ck.daughter1 = some k ↔ ∀ j, j < k → names_parent (six_cells : List (MOMAdata ℚ)) j k = false))) ∧
    ∃ cells, build_cell_genealogy (late_own_parent : List (MOMAdata ℚ)) = some cells ∧
      ∀ (k : Nat) (ck : MOMAdata ℚ), cells[k]? = some ck → ck.parent_id = ck.cell_id →
        ck.parent = some k ∧
        (ck.daughter1 = some k ↔
          ∀ j, j < k → names_parent (late_own_parent : List (MOMAdata ℚ)) j k = false) :=
  ⟨⟨by simp [unlinked, six_cells, read_cell], by simp [six_cells, read_cell],
      six_cells_acyclic, by simp [six_cells, read_cell, obs_ok],
      by simp [unlinked, late_own_parent, read_cell], by simp [late_own_parent, read_cell]⟩,
    build_cell_genealogy_forest six_cells (by simp [unlinked, six_cells, read_cell])
      (by simp [six_cells, read_cell]),
    (build_cell_genealogy_forest late_own_parent
      (by simp [unlinked, late_own_parent, read_cell])
      (by simp [late_own_parent, read_cell])).imp fun _ hc => ⟨hc.1, hc.2.2.2.2.2⟩⟩

end Forest

end GfpGaussian
